import Mathlib

/-! # Picocrypt v1.29: volume format and streaming core

A shallow embedding of `src/src/Picocrypt.go` (functions `work`, `rsEncode`, `rsDecode`,
`pad`, `unpad`, `broken`, `resetUI`, `accessDenied`, `onDrop` for one dropped file and the
split-size check of the Start button).

Conventions of the embedding

* A byte is a natural number; a byte slice is a `List Nat`.  Go slices are
  modelled by their elements up to `len`; a slice expression that leaves `0 .. len`
  is a run-time panic.
* A Go run-time panic is the result `Except.error Fault.panic`.
* The external libraries (Reed-Solomon codec `infectious`, Argon2, SHA-3, HKDF,
  ChaCha20, Serpent, BLAKE2b, HMAC) are parameters: `FEC`, `Crypto`.
* The file system is a finite association list from paths to contents.  In the
  function `workN` operating system failures other than a missing file (permissions,
  full disk), cancellation by the user, the progress display and the zip staging of
  multi-file inputs are not modelled; `workStart` models the first part of `work`
  with the zip staging and with paths on which `os.Create` or `os.Open` fails, and
  `workCreateDenied` models a run of `work` up to a refused `os.Create` of the output file.
* The function `workPass` is one execution of the body of `work`, up to its `return` or
  to the nested call `work()` of the MAC-mismatch retry; `workN` is a pass followed by
  what the pass asks for (`workN_succ`), and `PassOutcome` lists the ways in which a
  decrypt pass ends.
-/

namespace Picocrypt

/-! ## Basic types -/

/-- Ways in which a run of the Go program can fail to return normally. -/
inductive Fault where
  /-- Go run-time panic: index or slice bound out of range, nil dereference, negative `make`. -/
  | panic
  /-- Iteration budget of a modelled loop exhausted. -/
  | fuel
  /-- Input and output path coincide: handle aliasing is outside the model. -/
  | aliased
  /-- Conversion of a non-finite or inexactly represented float64 to `int`. -/
  | unspecified
  deriving DecidableEq, Repr

/-- Computations of the Go program: a value or a `Fault`. -/
abbrev Run := Except Fault

/-- Source constant `KiB = 1 << 10`. -/
def KiB : Nat := 1 <<< 10

/-- Source constant `MiB = 1 << 20`. -/
def MiB : Nat := 1 <<< 20

/-- Source constant `GiB = 1 << 30`. -/
def GiB : Nat := 1 <<< 30

/-- Source constant `TiB = 1 << 40`. -/
def TiB : Nat := 1 <<< 40

/-- Status colours of the source (`WHITE`, `RED`, `GREEN`, `YELLOW`). -/
inductive Color where
  | WHITE
  | RED
  | GREEN
  | YELLOW
  deriving DecidableEq, Repr

/-- Source variable `version = "v1.29"` as bytes. -/
def version : List Nat := [118, 49, 46, 50, 57]

/-- Go `make([]byte, n)`: `n` zero bytes. -/
def zeros (n : Nat) : List Nat := List.replicate n 0

/-- Go `data[:n]` for a slice whose capacity equals its length. -/
def sliceTo (data : List Nat) (n : Nat) : Run (List Nat) :=
  if n ≤ data.length then pure (data.take n) else throw Fault.panic

/-- Go `data[i]`. -/
def index (data : List Nat) (i : Nat) : Run Nat :=
  match data.get? i with
  | some b => pure b
  | none => throw Fault.panic

/-- Go `fin.Read(buf)` with `len(buf) = n` on a regular file whose unread part is `rest`,
the error being ignored: the buffer (zero where the file ended) and the new unread part. -/
def readBuf (n : Nat) (rest : List Nat) : List Nat × List Nat :=
  (rest.take n ++ zeros (n - rest.length), rest.drop n)

/-! ## Reed-Solomon codec (external library `infectious`) and its wrappers -/

/-- Type `infectious.Share`: a share number and its data. -/
structure Share where
  Number : Nat
  Data : List Nat
  deriving DecidableEq, Repr

/-- Type `*infectious.FEC` created by `infectious.NewFEC(k, n)`: `Required() = k`,
`Total() = n`.  `Encode data` is the sequence of shares handed to the output callback (none
when `Encode` returns an error); `Decode shares` is `none` when `Decode` returns an error. -/
structure FEC (k n : Nat) where
  Encode : List Nat → List Share
  Decode : List Share → Option (List Nat)

/-- The share list that `rsDecode` builds from `data`: `tmp[i] = (i, [data[i]])`. -/
def sharesOf (n : Nat) (data : List Nat) : List Share :=
  (List.range n).map (fun i => ⟨i, [data.getD i 0]⟩)

/-- Callback of `rsEncode`: `res[s.Number] = s.Data[0]`. -/
def putShare (res : List Nat) (s : Share) : Run (List Nat) :=
  match s.Data with
  | [] => throw Fault.panic
  | b :: _ => if s.Number < res.length then pure (res.set s.Number b) else throw Fault.panic

/-- Source function `rsEncode`. -/
def rsEncode {k n : Nat} (rs : FEC k n) (data : List Nat) : Run (List Nat) :=
  (rs.Encode data).foldlM putShare (zeros n)

/-- Source function `rsDecode`; the second component is `true` when the returned error is
not nil.  The loop `tmp[i].Data = append(tmp[i].Data, data[i])` panics when `data` is shorter
than `Total()`. -/
def rsDecode {k n : Nat} (rs : FEC k n) (fastDecode : Bool) (data : List Nat) :
    Run (List Nat × Bool) :=
  if n = 136 ∧ fastDecode = true then do
    let d ← sliceTo data 128
    pure (d, false)
  else if data.length < n then throw Fault.panic
  else
    match rs.Decode (sharesOf n data) with
    | some res => pure (res, false)
    | none =>
      if n = 136 then do
        let d ← sliceTo data 128
        pure (d, true)
      else do
        let d ← sliceTo data (n / 3)
        pure (d, true)

/-- Source function `pad` (PKCS#7 to a multiple of 128). -/
def pad (data : List Nat) : List Nat :=
  let padLen := 128 - data.length % 128
  data ++ List.replicate padLen padLen

/-- Source function `unpad`: `data[:128-int(data[127])]`. -/
def unpad (data : List Nat) : Run (List Nat) := do
  let padLen ← index data 127
  if padLen ≤ 128 then sliceTo data (128 - padLen) else throw Fault.panic

/-- The seven codecs of the source: `rs1 .. rs128`. -/
structure Codecs where
  rs1 : FEC 1 3
  rs5 : FEC 5 15
  rs16 : FEC 16 48
  rs24 : FEC 24 72
  rs32 : FEC 32 96
  rs64 : FEC 64 192
  rs128 : FEC 128 136

/-- Number of positions at which two byte strings differ (compared up to the shorter). -/
def hamming : List Nat → List Nat → Nat
  | a :: as, b :: bs => (if a = b then 0 else 1) + hamming as bs
  | _, _ => 0

/-- The block that `rsEncode` assembles from the shares of `Encode`: one byte, the first data
byte, per share. -/
def codeword {k n : Nat} (rs : FEC k n) (d : List Nat) : List Nat :=
  (rs.Encode d).map (fun s => s.Data.headD 0)

/-- Modelled from the spec: the contract of the external codec `infectious.FEC`, whose code is
not part of the repository.  Section 4.1: `encode(code, data[k]) → shard[n]` is systematic and
places each shard byte at its natural index (share number = byte position);
`decode(code, shard[n])` returns the `k` data bytes of what was encoded.  Whatever the
non-empty input, a share handed to the callback has a number below `n` and data. -/
structure FEC.Lawful {k n : Nat} (rs : FEC k n) : Prop where
  encode : ∀ d : List Nat, d.length = k →
    ∃ c : List Nat, c.length = n ∧ c.take k = d ∧ rs.Encode d = sharesOf n c
  decode : ∀ d : List Nat, d.length = k → rs.Decode (rs.Encode d) = some d
  shape : ∀ (d : List Nat) (s : Share), d ≠ [] → s ∈ rs.Encode d → s.Number < n ∧ s.Data ≠ []

/-- Modelled from the spec: error correction of the external codec, section 4.1 and glossary:
`decode` corrects up to `⌊(n−k)/2⌋` byte errors of an encoded block. -/
def FEC.Corrects {k n : Nat} (rs : FEC k n) : Prop :=
  ∀ d c : List Nat, d.length = k → c.length = n →
    hamming (codeword rs d) c ≤ (n - k) / 2 → rs.Decode (sharesOf n c) = some d

/-- All seven codecs satisfy the library contract. -/
structure Codecs.Lawful (cs : Codecs) : Prop where
  rs1 : cs.rs1.Lawful
  rs5 : cs.rs5.Lawful
  rs16 : cs.rs16.Lawful
  rs24 : cs.rs24.Lawful
  rs32 : cs.rs32.Lawful
  rs64 : cs.rs64.Lawful
  rs128 : cs.rs128.Lawful

/-! ## Cryptographic primitives (external libraries) -/

/-- The cryptographic libraries used by `work`, as functions of their inputs.
A stream (`hkdf`, `chacha`, `serpent`) is given by the byte at each position. -/
structure Crypto where
  /-- Call `argon2.IDKey(password, salt, t, 1<<20, t, 32)` with `t = 8` when the flag is set,
  else `t = 4`. -/
  argon2 : List Nat → List Nat → Bool → List Nat
  /-- Hash `sha3.New256` of everything written. -/
  sha3_256 : List Nat → List Nat
  /-- Hash `sha3.New512` of everything written. -/
  sha3_512 : List Nat → List Nat
  /-- Output stream of `hkdf.New(sha3.New256, key, salt, nil)`. -/
  hkdf : List Nat → List Nat → Nat → Nat
  /-- Key stream of `chacha20.NewUnauthenticatedCipher(key, nonce)`. -/
  chacha : List Nat → List Nat → Nat → Nat
  /-- Key stream of `cipher.NewCTR(serpent.NewCipher(key), iv)`. -/
  serpent : List Nat → List Nat → Nat → Nat
  /-- Tag `blake2b.New512(key)` of everything written. -/
  blake2b : List Nat → List Nat → List Nat
  /-- Tag `hmac.New(sha3.New512, key)` of everything written. -/
  hmacSha3 : List Nat → List Nat → List Nat

/-- Output sizes of the primitives, as documented by the libraries. -/
structure Crypto.Lawful (c : Crypto) : Prop where
  argon2 : ∀ p s f, (c.argon2 p s f).length = 32
  sha3_256 : ∀ x, (c.sha3_256 x).length = 32
  sha3_512 : ∀ x, (c.sha3_512 x).length = 64
  blake2b : ∀ k x, (c.blake2b k x).length = 64
  hmacSha3 : ∀ k x, (c.hmacSha3 k x).length = 64

/-- The values that `rand.Read` delivers during one encryption. -/
structure Rand where
  salt : Nat → Nat
  hkdfSalt : Nat → Nat
  serpentSalt : Nat → Nat
  nonce : Nat → Nat

/-- Go `rand.Read(buf)` with `len(buf) = n`. -/
def randRead (r : Nat → Nat) (n : Nat) : List Nat := (List.range n).map r

/-- Everything `work` takes from outside the repository. -/
structure Env where
  cs : Codecs
  c : Crypto
  rnd : Rand

/-- Stream-cipher call `XORKeyStream(dst, src)` at key-stream position `pos`. -/
def xorKeyStream (ks : Nat → Nat) : Nat → List Nat → List Nat
  | _, [] => []
  | pos, b :: bs => (b ^^^ ks pos) :: xorKeyStream ks (pos + 1) bs

/-- Go `hkdf.Read(buf)` with `len(buf) = n` at stream offset `off`. -/
def hkdfRead (stream : Nat → Nat) (off n : Nat) : List Nat :=
  (List.range n).map (fun i => stream (off + i))

/-! ## Decimal text -/

/-- Decimal digits of `n`, most significant first, in front of `acc`. -/
def decimalAux : Nat → Nat → List Nat → List Nat
  | 0, _, acc => acc
  | fuel + 1, n, acc =>
    if n < 10 then (48 + n) :: acc else decimalAux fuel (n / 10) ((48 + n % 10) :: acc)

/-- Go `fmt.Sprintf("%d", n)` for `n ≥ 0`, as bytes. -/
def decimal (n : Nat) : List Nat := decimalAux (n + 1) n []

/-- Go `fmt.Sprintf("%05d", n)` for `n ≥ 0`, as bytes. -/
def fmt05d (n : Nat) : List Nat :=
  List.replicate (5 - (decimal n).length) 48 ++ decimal n

/-- Value of a string of ASCII digits read after `acc`; `none` at a byte that is no digit. -/
def parseDigits : List Nat → Nat → Option Nat
  | [], acc => some acc
  | c :: cs, acc => if 48 ≤ c ∧ c ≤ 57 then parseDigits cs (acc * 10 + (c - 48)) else none

/-- Go `strconv.Atoi` on 64-bit `int`: the value and whether the error is not nil. -/
def atoi (s : List Nat) : Int × Bool :=
  match s with
  | [] => (0, true)
  | c :: rest =>
    let body := if c = 45 ∨ c = 43 then rest else s
    match body with
    | [] => (0, true)
    | _ :: _ =>
      match parseDigits body 0 with
      | none => (0, true)
      | some v =>
        let x : Int := if c = 45 then -(v : Int) else (v : Int)
        if x < -(2 : Int) ^ 63 then (-(2 : Int) ^ 63, true)
        else if (2 : Int) ^ 63 - 1 < x then ((2 : Int) ^ 63 - 1, true)
        else (x, false)

/-- Go `fmt.Sprintf("%s.%d", base, i)`. -/
def chunkName (base : String) (i : Nat) : String :=
  base ++ "." ++ String.mk ((decimal i).map Char.ofNat)

/-! ## File system -/

/-- Files by path. -/
abbrev FS := List (String × List Nat)

/-- Content of the file at `p`, if it exists (`os.Stat`, `os.Open` and reading). -/
def FS.read (fs : FS) (p : String) : Option (List Nat) := fs.lookup p

/-- Go `os.Remove(p)`. -/
def FS.remove (fs : FS) (p : String) : FS := fs.filter (fun e => e.1 ≠ p)

/-- File `p` with content `c` after `os.Create(p)` and the writes up to `Close`. -/
def FS.write (fs : FS) (p : String) (c : List Nat) : FS := (p, c) :: fs.remove p

/-- Go `fout.Seek(off, 0)` followed by `fout.Write(b)` on a file with content `f`. -/
def writeAt (f : List Nat) (off : Nat) (b : List Nat) : List Nat :=
  f.take off ++ zeros (off - f.length) ++ b ++ f.drop (off + b.length)

/-! ## Global variables -/

/-- The global variables of the source that `work` reads or writes.  Strings that are
used for their bytes (`password`, `comments`, `splitSize`) are byte lists. -/
structure Globals where
  mode : String
  inputFile : String
  inputFileOld : String
  outputFile : String
  onlyFiles : List String
  password : List Nat
  keyfile : Bool
  keyfiles : List String
  keyfileOrdered : Bool
  comments : List Nat
  paranoid : Bool
  reedsolo : Bool
  split : Bool
  splitSize : List Nat
  splitSelected : Nat
  recombine : Bool
  delete : Bool
  keep : Bool
  kept : Bool
  fastDecode : Bool
  mainStatus : String
  mainStatusColor : Color

/-- Globals and file system. -/
structure World where
  g : Globals
  fs : FS

/-- Source function `resetUI`, on the modelled globals (`fastDecode` is not reset). -/
def resetUI (g : Globals) : Globals :=
  { mode := "", inputFile := "", inputFileOld := "", outputFile := "", onlyFiles := [],
    password := [], keyfile := false, keyfiles := [], keyfileOrdered := false,
    comments := [], paranoid := false, reedsolo := false, split := false,
    splitSize := [], splitSelected := 1, recombine := false, delete := false,
    keep := false, kept := false, fastDecode := g.fastDecode,
    mainStatus := "Ready.", mainStatusColor := Color.WHITE }

/-- Source function `broken`. -/
def broken (w : World) (message : String) : World :=
  let fs1 := if w.g.recombine then w.fs.remove w.g.inputFile else w.fs
  { g := { w.g with mainStatus := message, mainStatusColor := Color.RED },
    fs := fs1.remove w.g.outputFile }

/-! ## Header -/

/-- Loop `for _, i := range []byte(comments) { fout.Write(rsEncode(rs1, []byte{i})) }`. -/
def encodeComments (rs1 : FEC 1 3) : List Nat → Run (List Nat)
  | [] => pure []
  | b :: bs => do
    let c ← rsEncode rs1 [b]
    let r ← encodeComments rs1 bs
    pure (c ++ r)

/-- A flag byte: 1 when set. -/
def flagByte (b : Bool) : Nat := if b then 1 else 0

/-- The flag block written by encrypt; `total` is the size of the input file. -/
def headerFlags (g : Globals) (total : Nat) : List Nat :=
  [flagByte g.paranoid, flagByte (decide (0 < g.keyfiles.length)), flagByte g.keyfileOrdered,
   flagByte g.reedsolo, flagByte (decide (MiB - 128 ≤ total % MiB))]

/-- The random values of one encryption: Argon2 salt, HKDF salt, Serpent IV, nonce. -/
structure Nonces where
  salt : List Nat
  hkdfSalt : List Nat
  serpentSalt : List Nat
  nonce : List Nat

/-- Values `salt`, `hkdfSalt`, `serpentSalt`, `nonce` after the four `rand.Read` calls. -/
def genNonces (r : Rand) : Nonces :=
  { salt := randRead r.salt 16, hkdfSalt := randRead r.hkdfSalt 32,
    serpentSalt := randRead r.serpentSalt 16, nonce := randRead r.nonce 24 }

/-- The bytes that the encrypt branch of `work` writes to `fout` before the body, in
order: version, comment length, comments, flags, salts and nonces, three placeholders. -/
def writeHeader (env : Env) (g : Globals) (total : Nat) : Run (List Nat) := do
  let v ← rsEncode env.cs.rs5 version
  let cl ← rsEncode env.cs.rs5 (fmt05d g.comments.length)
  let cm ← encodeComments env.cs.rs1 g.comments
  let fl ← rsEncode env.cs.rs5 (headerFlags g total)
  let nn := genNonces env.rnd
  let s ← rsEncode env.cs.rs16 nn.salt
  let hs ← rsEncode env.cs.rs32 nn.hkdfSalt
  let ss ← rsEncode env.cs.rs16 nn.serpentSalt
  let no ← rsEncode env.cs.rs24 nn.nonce
  pure (v ++ cl ++ cm ++ fl ++ s ++ hs ++ ss ++ no ++ zeros 192 ++ zeros 96 ++ zeros 192)

/-- What the decrypt branch of `work` reads from the header. -/
structure Header where
  commentsLength : Int
  flags : List Nat
  salt : List Nat
  hkdfSalt : List Nat
  serpentSalt : List Nat
  nonce : List Nat
  keyHashRef : List Nat
  keyfileHashRef : List Nat
  authTag : List Nat
  /-- The slice `errs`: for each of the ten decoded fields whether its error is not nil. -/
  errs : List Bool

/-- The decrypt branch of `work` up to `authTag, errs[9] = rsDecode(rs64, authTag)`;
`fin` is the content of the input file.  Returns the header and the unread part. -/
def readHeader (env : Env) (fastDecode : Bool) (fin : List Nat) : Run (Header × List Nat) := do
  let (b, fin) := readBuf 15 fin
  let (_, e0) ← rsDecode env.cs.rs5 fastDecode b
  let (b, fin) := readBuf 15 fin
  let (tmp, e1) ← rsDecode env.cs.rs5 fastDecode b
  let commentsLength := (atoi tmp).1
  if commentsLength < 0 then throw Fault.panic
  let (_, fin) := readBuf (commentsLength.toNat * 3) fin
  let (b, fin) := readBuf 15 fin
  let (flags, e2) ← rsDecode env.cs.rs5 fastDecode b
  let (b, fin) := readBuf 48 fin
  let (salt, e3) ← rsDecode env.cs.rs16 fastDecode b
  let (b, fin) := readBuf 96 fin
  let (hkdfSalt, e4) ← rsDecode env.cs.rs32 fastDecode b
  let (b, fin) := readBuf 48 fin
  let (serpentSalt, e5) ← rsDecode env.cs.rs16 fastDecode b
  let (b, fin) := readBuf 72 fin
  let (nonce, e6) ← rsDecode env.cs.rs24 fastDecode b
  let (b, fin) := readBuf 192 fin
  let (keyHashRef, e7) ← rsDecode env.cs.rs64 fastDecode b
  let (b, fin) := readBuf 96 fin
  let (keyfileHashRef, e8) ← rsDecode env.cs.rs32 fastDecode b
  let (b, fin) := readBuf 192 fin
  let (authTag, e9) ← rsDecode env.cs.rs64 fastDecode b
  pure ({ commentsLength := commentsLength, flags := flags, salt := salt, hkdfSalt := hkdfSalt,
          serpentSalt := serpentSalt, nonce := nonce, keyHashRef := keyHashRef,
          keyfileHashRef := keyfileHashRef, authTag := authTag,
          errs := [e0, e1, e2, e3, e4, e5, e6, e7, e8, e9] }, fin)

/-! ## Keys -/

/-- Reading a whole file: `os.Open`, `os.Stat`, `make([]byte, stat.Size())`, `fin.Read`.
A missing file makes `stat.Size()` dereference nil. -/
def readFile (fs : FS) (p : String) : Run (List Nat) :=
  match fs.read p with
  | some c => pure c
  | none => throw Fault.panic

/-- The contents of the keyfiles, in order. -/
def readKeyfiles (fs : FS) : List String → Run (List (List Nat))
  | [] => pure []
  | p :: ps => do
    let d ← readFile fs p
    let r ← readKeyfiles fs ps
    pure (d :: r)

/-- Loop `for i, j := range sum { keyfileKey[i] ^= j }`. -/
def xorInto (keyfileKey sum : List Nat) : Run (List Nat) :=
  if sum.length ≤ keyfileKey.length then
    pure (List.zipWith (fun a b => a ^^^ b) keyfileKey sum ++ keyfileKey.drop sum.length)
  else throw Fault.panic

/-- The unordered branch of the keyfile loop of `work`; `keyfileKey` is `none` while nil. -/
def keyfileKeyUnordered (c : Crypto) (fs : FS) :
    List String → Option (List Nat) → Run (Option (List Nat))
  | [], keyfileKey => pure keyfileKey
  | p :: ps, keyfileKey => do
    let data ← readFile fs p
    let sum := c.sha3_256 data
    match keyfileKey with
    | none => keyfileKeyUnordered c fs ps (some sum)
    | some k => do
      let k1 ← xorInto k sum
      keyfileKeyUnordered c fs ps (some k1)

/-- Block `if len(keyfiles) > 0 || keyfile { ... }` of `work`: `keyfileKey` and `keyfileHash`. -/
def keyfilePhase (c : Crypto) (fs : FS) (g : Globals) : Run (Option (List Nat) × List Nat) :=
  if 0 < g.keyfiles.length ∨ g.keyfile = true then
    if g.keyfileOrdered then do
      let datas ← readKeyfiles fs g.keyfiles
      let keyfileKey := c.sha3_256 datas.flatten
      pure (some keyfileKey, c.sha3_256 keyfileKey)
    else do
      let keyfileKey ← keyfileKeyUnordered c fs g.keyfiles none
      pure (keyfileKey, c.sha3_256 (keyfileKey.getD []))
  else pure (none, zeros 32)

/-- Loop `for i := range key { key[i] = tmp[i] ^ keyfileKey[i] }` with `key = make([]byte, 32)`. -/
def xorKey (tmp : List Nat) (keyfileKey : Option (List Nat)) : Run (List Nat) :=
  let kk := keyfileKey.getD []
  if 32 ≤ tmp.length ∧ 32 ≤ kk.length then
    pure (List.zipWith (fun a b => a ^^^ b) (tmp.take 32) (kk.take 32))
  else throw Fault.panic

/-! ## Body -/

/-- The values fixed during one body pass. -/
structure Params where
  /-- Whether `mode == "encrypt"`. -/
  encrypt : Bool
  paranoid : Bool
  reedsolo : Bool
  padded : Bool
  keep : Bool
  fastDecode : Bool
  /-- Variable `total`. -/
  total : Int
  key : List Nat
  serpentKey : List Nat
  /-- Output stream of the HKDF reader. -/
  hkdf : Nat → Nat

/-- The state that the body loop of `work` changes. -/
structure Stream where
  done : Nat
  counter : Nat
  nonce : List Nat
  chachaPos : Nat
  serpentSalt : List Nat
  serpentPos : Nat
  hkdfOff : Nat
  /-- Everything written to `mac` so far. -/
  macData : List Nat
  /-- Everything written to `fout` so far. -/
  out : List Nat
  kept : Bool

/-- Control flow of a block of `work`: go on with a value, or stop by `broken` with a message. -/
inductive Flow (α : Type) where
  | go (a : α)
  | stop (message : String)

/-- Loop `dst = append(dst, rsEncode(rs128, src[i*128:(i+1)*128])...)` over `count`
consecutive 128-byte sub-chunks. -/
def rsEncodeChunks (rs128 : FEC 128 136) : Nat → List Nat → Run (List Nat)
  | 0, _ => pure []
  | count + 1, src => do
    let c ← rsEncode rs128 (src.take 128)
    let r ← rsEncodeChunks rs128 count (src.drop 128)
    pure (c ++ r)

/-- The block `if reedsolo { ... }` of the encrypt branch. -/
def rsEncodeUnit (rs128 : FEC 128 136) (src : List Nat) : Run (List Nat) :=
  if src.length = MiB then rsEncodeChunks rs128 (MiB / 128) src
  else do
    let chunks := src.length / 128
    let full ← rsEncodeChunks rs128 chunks src
    let last ← rsEncode rs128 (pad (src.drop (chunks * 128)))
    pure (full ++ last)

/-- Loop over `count` consecutive 136-byte sub-chunks that are decoded and not unpadded;
`kept` is the global.  `Flow.stop` when a decode error meets `keep = false`. -/
def rsDecodeChunks (rs128 : FEC 128 136) (fastDecode keep : Bool) :
    Nat → List Nat → Bool → Run (Flow (List Nat × Bool))
  | 0, _, kept => pure (Flow.go ([], kept))
  | count + 1, dst, kept => do
    let (tmp, err) ← rsDecode rs128 fastDecode (dst.take 136)
    if err = true ∧ keep = false then
      pure (Flow.stop "The input file is irrecoverably damaged.")
    else
      match ← rsDecodeChunks rs128 fastDecode keep count (dst.drop 136) (kept || err) with
      | Flow.stop m => pure (Flow.stop m)
      | Flow.go (r, kept1) => pure (Flow.go (tmp ++ r, kept1))

/-- The last sub-chunk of a unit: decode, then `unpad` when `doUnpad`. -/
def rsDecodeLast (rs128 : FEC 128 136) (fastDecode keep doUnpad : Bool)
    (data : List Nat) (kept : Bool) : Run (Flow (List Nat × Bool)) := do
  let (tmp, err) ← rsDecode rs128 fastDecode data
  if err = true ∧ keep = false then
    pure (Flow.stop "The input file is irrecoverably damaged.")
  else if doUnpad then do
    let u ← unpad tmp
    pure (Flow.go (u, kept || err))
  else pure (Flow.go (tmp, kept || err))

/-- The block `if reedsolo { ... }` of the decrypt branch, up to `dst = make(...)`:
the decoded unit `src` and the new value of `kept`. -/
def rsDecodeUnit (rs128 : FEC 128 136) (p : Params) (done : Nat) (dst : List Nat)
    (kept : Bool) : Run (Flow (List Nat × Bool)) :=
  if dst.length = MiB / 128 * 136 then do
    match ← rsDecodeChunks rs128 p.fastDecode p.keep (MiB / 128 - 1) dst kept with
    | Flow.stop m => pure (Flow.stop m)
    | Flow.go (front, kept1) =>
      let doUnpad := decide (p.total ≤ ((done + MiB / 128 * 136 : Nat) : Int)) && p.padded
      match ← rsDecodeLast rs128 p.fastDecode p.keep doUnpad
          ((dst.drop ((MiB / 128 - 1) * 136)).take 136) kept1 with
      | Flow.stop m => pure (Flow.stop m)
      | Flow.go (last, kept2) => pure (Flow.go (front ++ last, kept2))
  else if dst.length < 136 then throw Fault.panic
  else do
    let chunks := dst.length / 136 - 1
    match ← rsDecodeChunks rs128 p.fastDecode p.keep chunks dst kept with
    | Flow.stop m => pure (Flow.stop m)
    | Flow.go (front, kept1) =>
      match ← rsDecodeLast rs128 p.fastDecode p.keep true (dst.drop (chunks * 136)) kept1 with
      | Flow.stop m => pure (Flow.stop m)
      | Flow.go (last, kept2) => pure (Flow.go (front ++ last, kept2))

/-- One iteration of the body loop on the unit `src` just read, up to `fout.Write(dst)`. -/
def processUnit (env : Env) (p : Params) (st : Stream) (src : List Nat) : Run (Flow Stream) :=
  if p.encrypt then do
    let src1 := if p.paranoid then
      xorKeyStream (env.c.serpent p.serpentKey st.serpentSalt) st.serpentPos src else src
    let serpentPos := if p.paranoid then st.serpentPos + src.length else st.serpentPos
    let dst := xorKeyStream (env.c.chacha p.key st.nonce) st.chachaPos src1
    let out ← if p.reedsolo then rsEncodeUnit env.cs.rs128 dst else pure dst
    pure (Flow.go { st with chachaPos := st.chachaPos + src.length, serpentPos := serpentPos,
                            macData := st.macData ++ dst, out := st.out ++ out })
  else do
    let r ← if p.reedsolo then rsDecodeUnit env.cs.rs128 p st.done src st.kept
            else pure (Flow.go (src, st.kept))
    match r with
    | Flow.stop m => pure (Flow.stop m)
    | Flow.go (src1, kept1) =>
      let dst := xorKeyStream (env.c.chacha p.key st.nonce) st.chachaPos src1
      let dst1 := if p.paranoid then
        xorKeyStream (env.c.serpent p.serpentKey st.serpentSalt) st.serpentPos dst else dst
      let serpentPos := if p.paranoid then st.serpentPos + dst.length else st.serpentPos
      pure (Flow.go { st with chachaPos := st.chachaPos + src1.length, serpentPos := serpentPos,
                              macData := st.macData ++ src1, out := st.out ++ dst1,
                              kept := kept1 })

/-- The block `if counter >= 60*GiB { ... }`. -/
def rekey (p : Params) (st : Stream) : Stream :=
  if 60 * GiB ≤ st.counter then
    { st with nonce := hkdfRead p.hkdf st.hkdfOff 24, chachaPos := 0,
              serpentSalt := hkdfRead p.hkdf (st.hkdfOff + 24) 16, serpentPos := 0,
              hkdfOff := st.hkdfOff + 40, counter := 0 }
  else st

/-- Size of the buffer `src` of the body loop. -/
def unitSize (p : Params) : Nat :=
  if p.encrypt = false ∧ p.reedsolo = true then MiB / 128 * 136 else MiB

/-- The body loop `for { ... }` of `work`; `rest` is the unread part of the input file. -/
def bodyLoop (env : Env) (p : Params) : Nat → Stream → List Nat → Run (Flow Stream)
  | 0, _, _ => throw Fault.fuel
  | fuel + 1, st, rest =>
    match rest with
    | [] => pure (Flow.go st)
    | _ :: _ => do
      match ← processUnit env p st (rest.take (unitSize p)) with
      | Flow.stop m => pure (Flow.stop m)
      | Flow.go st1 =>
        let st2 := { st1 with done := st1.done + unitSize p, counter := st1.counter + MiB }
        bodyLoop env p fuel (rekey p st2) (rest.drop (unitSize p))

/-- The tag `mac.Sum(nil)`: HMAC-SHA3 when paranoid, else keyed BLAKE2b. -/
def macSum (c : Crypto) (paranoid : Bool) (subkey data : List Nat) : List Nat :=
  if paranoid then c.hmacSha3 subkey data else c.blake2b subkey data

/-! ## Split and recombine -/

/-- Go `int` arithmetic: the 64-bit two's-complement value of an integer. -/
def wrap64 (x : Int) : Int := (x + (2 : Int) ^ 63) % (2 : Int) ^ 64 - (2 : Int) ^ 63

/-- Go `int(math.Ceil(float64(a) / float64(b)))` for a size `a` and an `int` `b`.
For `a < 2^53` and `b ≠ 0` the float64 quotient has the ceiling of the exact quotient;
outside that range the conversion is left unspecified. -/
def ceilDiv (a : Nat) (b : Int) : Run Int :=
  if b = 0 ∨ 2 ^ 53 ≤ a then throw Fault.unspecified
  else if 0 < b then pure (((a + b.toNat - 1) / b.toNat : Nat) : Int)
  else pure (-(((a / (-b).toNat : Nat)) : Int))

/-- The split-size check of the Start button: the split is refused when
`splitSize == "" || tmp <= 0 || err != nil`. -/
def splitSizeAccepted (splitSize : List Nat) : Bool :=
  !(decide (splitSize = []) || decide ((atoi splitSize).1 ≤ 0) || (atoi splitSize).2)

/-- The chunk size computed by the block `// Calculate chunk size`. -/
def chunkSizeOf (splitSize : List Nat) (splitSelected : Nat) (size : Nat) : Run Int :=
  let chunkSize := (atoi splitSize).1
  if splitSelected = 0 then pure (wrap64 (chunkSize * KiB))
  else if splitSelected = 1 then pure (wrap64 (chunkSize * MiB))
  else if splitSelected = 2 then pure (wrap64 (chunkSize * GiB))
  else if splitSelected = 3 then pure (wrap64 (chunkSize * TiB))
  else ceilDiv size chunkSize

/-- Loop `for done+len(data) > chunkSize { data = make([]byte, ceil(len(data)/2)) }`:
the final buffer length. -/
def shrink : Nat → Nat → Nat → Int → Run Nat
  | 0, _, _, _ => throw Fault.fuel
  | fuel + 1, len, done, chunkSize =>
    if chunkSize < ((done + len : Nat) : Int) then shrink fuel ((len + 1) / 2) done chunkSize
    else pure len

/-- The inner loop `// Copy data into the chunk`: the content of the chunk and the unread
part of the volume. -/
def splitChunk : Nat → Int → Nat → List Nat → List Nat → Run (List Nat × List Nat)
  | 0, _, _, _, _ => throw Fault.fuel
  | fuel + 1, chunkSize, done, rest, acc => do
    let len ← shrink 32 MiB done chunkSize
    match rest with
    | [] => pure (acc, rest)
    | _ :: _ =>
      let data := rest.take len
      let done1 := done + data.length
      if chunkSize ≤ (done1 : Int) then pure (acc ++ data, rest.drop len)
      else splitChunk fuel chunkSize done1 (rest.drop len) (acc ++ data)

/-- The loop `for i := 0; i < chunks; i++` of the split step, from index `i` with `count`
iterations left. -/
def splitLoop (outputFile : String) (chunkSize : Int) : Nat → Nat → List Nat → FS → Run FS
  | 0, _, _, fs => pure fs
  | count + 1, i, rest, fs => do
    let (chunk, rest1) ← splitChunk (rest.length + 1) chunkSize 0 rest []
    splitLoop outputFile chunkSize count (i + 1) rest1 (fs.write (chunkName outputFile i) chunk)

/-- The block `if split { ... }` of `work`. -/
def splitPhase (g : Globals) (fs : FS) : Run FS :=
  if g.split then do
    let content ← readFile fs g.outputFile
    let size := content.length
    let chunkSize ← chunkSizeOf g.splitSize g.splitSelected size
    let chunks ← ceilDiv size chunkSize
    let fs1 ← splitLoop g.outputFile chunkSize chunks.toNat 0 content fs
    pure (fs1.remove g.outputFile)
  else pure fs

/-- Loop `for { stat, err := os.Stat(name.i); if err != nil { break }; i++ }`: the first
missing index from `i` on. -/
def countChunks (fs : FS) (base : String) : Nat → Nat → Run Nat
  | 0, _ => throw Fault.fuel
  | fuel + 1, i =>
    match fs.read (chunkName base i) with
    | none => pure i
    | some _ => countChunks fs base fuel (i + 1)

/-- The inner loop of the recombine step: copy a chunk into `fout` in buffers of 1 MiB. -/
def copyLoop : Nat → List Nat → List Nat → Run (List Nat)
  | 0, _, _ => throw Fault.fuel
  | fuel + 1, rest, out =>
    match rest with
    | [] => pure out
    | _ :: _ => copyLoop fuel (rest.drop MiB) (out ++ rest.take MiB)

/-- Loop `for i := 0; i < totalFiles; i++` of the recombine step, from index `i` with `count`
iterations left; `out` is what was written to `fout` so far. -/
def mergeLoop (fs : FS) (base : String) : Nat → Nat → List Nat → Run (List Nat)
  | 0, _, out => pure out
  | count + 1, i, out => do
    let chunk ← readFile fs (chunkName base i)
    let out1 ← copyLoop (chunk.length + 1) chunk out
    mergeLoop fs base count (i + 1) out1

/-- The block `if recombine { ... }` of `work`. -/
def recombinePhase (w : World) : Run World :=
  if w.g.recombine then do
    let totalFiles ← countChunks w.fs w.g.inputFile (w.fs.length + 1) 0
    let target := w.g.outputFile ++ ".pcv"
    if (List.range totalFiles).any (fun i => chunkName w.g.inputFile i == target) then
      throw Fault.aliased
    let data ← mergeLoop w.fs w.g.inputFile totalFiles 0 []
    pure { g := { w.g with inputFileOld := w.g.inputFile, inputFile := target },
           fs := w.fs.write target data }
  else pure w

/-- Loop `for { ... os.Remove(name.i); i++ }` of the delete step, over `count` chunks. -/
def removeChunks (base : String) : Nat → Nat → FS → FS
  | 0, _, fs => fs
  | count + 1, i, fs => removeChunks base count (i + 1) (fs.remove (chunkName base i))

/-- The end of `work` after the body: split, removal of temporary and input files,
`resetUI` and the final status.  `encrypt` is `mode == "encrypt"`. -/
def finishPhase (w : World) : Run World := do
  let fs1 ← splitPhase w.g w.fs
  let fs2 := if w.g.recombine then fs1.remove w.g.inputFile else fs1
  let fs3 ←
    if w.g.delete then
      if w.g.mode = "decrypt" then
        if w.g.recombine then do
          let count ← countChunks fs2 w.g.inputFileOld (fs2.length + 1) 0
          pure (removeChunks w.g.inputFileOld count 0 fs2)
        else pure (fs2.remove w.g.inputFile)
      else pure (w.g.onlyFiles.foldl (fun fs p => fs.remove p) fs2)
    else pure fs2
  let g1 := { resetUI w.g with kept := w.g.kept }
  let g2 := if g1.kept then
      { g1 with mainStatus := "The input file was modified. Please be careful.",
                mainStatusColor := Color.YELLOW }
    else { g1 with mainStatus := "Completed.", mainStatusColor := Color.GREEN }
  pure { g := g2, fs := fs3 }

/-! ## The function `work` -/

/-- Values of the loop variables before the body loop: `done, counter := 0, 0`, the ciphers at
the start of their key streams, 64 bytes of the HKDF stream consumed by the two subkeys. -/
def initStream (nonce serpentSalt out : List Nat) (kept : Bool) : Stream :=
  { done := 0, counter := 0, nonce := nonce, chachaPos := 0, serpentSalt := serpentSalt,
    serpentPos := 0, hkdfOff := 64, macData := [], out := out, kept := kept }

/-- The key used by the ciphers: the Argon2 key, XORed with the keyfile key when keyfiles
are in use (block `if len(keyfiles) > 0 || keyfile { ... }` after the verifier check). -/
def cipherKey (g : Globals) (key : List Nat) (keyfileKey : Option (List Nat)) :
    Run (List Nat) :=
  if 0 < g.keyfiles.length ∨ g.keyfile = true then xorKey key keyfileKey else pure key

/-- Block `// Seek back to header and write important values` of `work`: `fout.Seek` to
`309 + len(comments)*3`, then three writes; `out` is the content of the output file. -/
def patchHeader (cs : Codecs) (commentsLen : Nat) (keyHash keyfileHash tag out : List Nat) :
    Run (List Nat) := do
  let off := 309 + commentsLen * 3
  let f1 ← rsEncode cs.rs64 keyHash
  let f2 ← rsEncode cs.rs32 keyfileHash
  let f3 ← rsEncode cs.rs64 tag
  pure (writeAt (writeAt (writeAt out off f1) (off + f1.length) f2)
    (off + f1.length + f2.length) f3)

/-- The encrypt branch of `work` from `os.Create(outputFile)` to the end; `content` is the
content of the input file. -/
def encryptWork (env : Env) (w : World) (content : List Nat) : Run World := do
  let g := w.g
  if g.outputFile ∈ g.keyfiles then throw Fault.aliased
  let hdr ← writeHeader env g content.length
  let nn := genNonces env.rnd
  let key0 := env.c.argon2 g.password nn.salt g.paranoid
  let (keyfileKey, keyfileHash) ← keyfilePhase env.c w.fs g
  let keyHash := env.c.sha3_512 key0
  let key ← cipherKey g key0 keyfileKey
  let hk := env.c.hkdf key nn.hkdfSalt
  let subkey := hkdfRead hk 0 32
  let serpentKey := hkdfRead hk 32 32
  let p : Params :=
    { encrypt := true, paranoid := g.paranoid, reedsolo := g.reedsolo, padded := false,
      keep := g.keep, fastDecode := g.fastDecode, total := content.length, key := key,
      serpentKey := serpentKey, hkdf := hk }
  match ← bodyLoop env p (content.length + 1)
      (initStream nn.nonce nn.serpentSalt hdr g.kept) content with
  | Flow.stop m => pure (broken w m)
  | Flow.go st =>
    let file ← patchHeader env.cs g.comments.length keyHash keyfileHash
      (macSum env.c g.paranoid subkey st.macData) st.out
    finishPhase { g := { g with kept := st.kept }, fs := w.fs.write g.outputFile file }

/-- Source function `work`.  The argument counts the nested calls of `work` that are allowed:
a pass in fast-decode mode whose MAC does not match calls `work` again. -/
def workN (env : Env) : Nat → World → Run World
  | 0, _ => throw Fault.fuel
  | fuel + 1, w0 => do
    let w ← recombinePhase
      { w0 with g := { w0.g with mainStatus := "Working...", mainStatusColor := Color.WHITE } }
    let g := w.g
    let content ← readFile w.fs g.inputFile
    if g.inputFile = g.outputFile then throw Fault.aliased
    if g.mode = "encrypt" then encryptWork env w content
    else do
      let (h, rest) ← readHeader env g.fastDecode content
      let total : Int := (content.length : Int) - 789 - h.commentsLength * 3
      let f0 ← index h.flags 0
      let f3 ← index h.flags 3
      let f4 ← index h.flags 4
      let g1 := { g with paranoid := decide (f0 = 1), reedsolo := decide (f3 = 1) }
      let padded := decide (f4 = 1)
      if h.errs.any id = true ∧ g1.keep = false then
        pure { g := { g1 with mainStatus := "The volume header is damaged.",
                              mainStatusColor := Color.RED },
               fs := if g1.recombine then w.fs.remove g1.inputFile else w.fs }
      else do
        let g2 := { g1 with kept := g1.kept || h.errs.any id }
        let key0 := env.c.argon2 g2.password h.salt g2.paranoid
        let (keyfileKey, keyfileHash) ← keyfilePhase env.c w.fs g2
        let keyHash := env.c.sha3_512 key0
        if g2.mode ≠ "decrypt" then throw Fault.unspecified
        let keyCorrect := decide (keyHash = h.keyHashRef)
        let keyfileCorrect := decide (keyfileHash = h.keyfileHashRef)
        let incorrect := if g2.keyfile then !keyCorrect || !keyfileCorrect else !keyCorrect
        if incorrect = true ∧ g2.keep = false then
          let status := if !keyCorrect then "The provided password is incorrect."
            else if g2.keyfileOrdered then "Incorrect keyfiles or order."
            else "Incorrect keyfiles."
          pure { g := { g2 with mainStatus := status, mainStatusColor := Color.RED },
                 fs := if g2.recombine then w.fs.remove g2.inputFile else w.fs }
        else do
          let g3 := { g2 with kept := g2.kept || incorrect }
          let fs1 := w.fs.write g3.outputFile []
          let key ← cipherKey g3 key0 keyfileKey
          let hk := env.c.hkdf key h.hkdfSalt
          let subkey := hkdfRead hk 0 32
          let serpentKey := hkdfRead hk 32 32
          let p : Params :=
            { encrypt := false, paranoid := g3.paranoid, reedsolo := g3.reedsolo,
              padded := padded, keep := g3.keep, fastDecode := g3.fastDecode, total := total,
              key := key, serpentKey := serpentKey, hkdf := hk }
          match ← bodyLoop env p (rest.length + 1)
              (initStream h.nonce h.serpentSalt [] g3.kept) rest with
          | Flow.stop m => pure (broken { g := g3, fs := fs1 } m)
          | Flow.go st =>
            let g4 := { g3 with kept := st.kept }
            let fs2 := w.fs.write g4.outputFile st.out
            if macSum env.c g4.paranoid subkey st.macData ≠ h.authTag then
              if g4.reedsolo = true ∧ g4.fastDecode = true then
                workN env fuel { g := { g4 with fastDecode := false }, fs := fs2 }
              else if g4.keep then
                finishPhase { g := { g4 with kept := true }, fs := fs2 }
              else
                pure (broken { g := g4, fs := fs2 } "The input file is damaged or modified.")
            else finishPhase { g := g4, fs := fs2 }

/-- Source function `work` as started by the Start button. -/
def work (env : Env) (w : World) : Run World := workN env 2 w

/-! ## A concrete environment

Instances of the library parameters that satisfy the contracts `FEC.Lawful` and
`Crypto.Lawful`; they instantiate the general theorems at concrete inputs. -/

/-- The encoded block of the sample codec: the data followed by check bytes that repeat
the data bytes cyclically. -/
def sampleBlock (k n : Nat) (d : List Nat) : List Nat :=
  d ++ (List.range (n - k)).map (fun j => d.getD (j % k) 0)

/-- A systematic sample codec: `Decode` accepts exactly the encoded blocks. -/
def sampleFEC (k n : Nat) : FEC k n where
  Encode := fun d => if d.length = k then sharesOf n (sampleBlock k n d) else []
  Decode := fun shares =>
    let c := shares.map (fun s => s.Data.headD 0)
    if c = sampleBlock k n (c.take k) then some (c.take k) else none

/-- The seven sample codecs. -/
def sampleCodecs : Codecs :=
  { rs1 := sampleFEC 1 3, rs5 := sampleFEC 5 15, rs16 := sampleFEC 16 48,
    rs24 := sampleFEC 24 72, rs32 := sampleFEC 32 96, rs64 := sampleFEC 64 192,
    rs128 := sampleFEC 128 136 }

/-- A sample digest of `n` bytes that depends on the sum of the input bytes. -/
def sampleDigest (n : Nat) (x : List Nat) : List Nat :=
  (List.range n).map (fun i => (x.sum + i) % 256)

/-- Sample primitives with the documented output sizes. -/
def sampleCrypto : Crypto :=
  { argon2 := fun p s f => sampleDigest 32 (p ++ s ++ [flagByte f]),
    sha3_256 := sampleDigest 32,
    sha3_512 := sampleDigest 64,
    hkdf := fun key salt i => (key.sum + salt.sum + 7 * i) % 256,
    chacha := fun key nonce i => (key.sum + nonce.sum + 3 * i) % 256,
    serpent := fun key iv i => (key.sum + iv.sum + 5 * i) % 256,
    blake2b := fun k x => sampleDigest 64 (k ++ x),
    hmacSha3 := fun k x => sampleDigest 64 (1 :: k ++ x) }

/-- Sample random values. -/
def sampleRand : Rand :=
  { salt := fun i => i + 1, hkdfSalt := fun i => 2 * i, serpentSalt := fun i => 3 * i + 1,
    nonce := fun i => 5 * i + 2 }

/-- The sample environment. -/
def sampleEnv : Env := { cs := sampleCodecs, c := sampleCrypto, rnd := sampleRand }

/-- Globals after `resetUI` with `fastDecode` as set by the Start button. -/
def startGlobals : Globals :=
  { mode := "", inputFile := "", inputFileOld := "", outputFile := "", onlyFiles := [],
    password := [], keyfile := false, keyfiles := [], keyfileOrdered := false,
    comments := [], paranoid := false, reedsolo := false, split := false,
    splitSize := [], splitSelected := 1, recombine := false, delete := false,
    keep := false, kept := false, fastDecode := true,
    mainStatus := "Ready.", mainStatusColor := Color.WHITE }

/-- Encoding then decoding with `fastDecode` off gives back the `k` data bytes without error,
and the encoded block has `n` bytes. -/
def RoundTrip {k n : Nat} (rs : FEC k n) : Prop :=
  ∀ d : List Nat, d.length = k →
    ∃ c : List Nat, rsEncode rs d = Except.ok c ∧ c.length = n ∧
      rsDecode rs false c = Except.ok (d, false)

/-! ## Layout of the header, field by field -/

/-- The comment field: one `rs1` block per comment byte. -/
def commentField (rs1 : FEC 1 3) (comments : List Nat) : List Nat :=
  (comments.map (fun b => codeword rs1 [b])).flatten

/-- The eight header fields in front of the placeholders, in the order of writing; `cl` is
the encoded comment-length field. -/
def headerFront (env : Env) (g : Globals) (total : Nat) (cl : List Nat) : List (List Nat) :=
  [codeword env.cs.rs5 version, cl, commentField env.cs.rs1 g.comments,
   codeword env.cs.rs5 (headerFlags g total),
   codeword env.cs.rs16 (genNonces env.rnd).salt,
   codeword env.cs.rs32 (genNonces env.rnd).hkdfSalt,
   codeword env.cs.rs16 (genNonces env.rnd).serpentSalt,
   codeword env.cs.rs24 (genNonces env.rnd).nonce]

/-- The three placeholders written after the nonce. -/
def placeholders : List (List Nat) := [zeros 192, zeros 96, zeros 192]

/-- The three fields written by the finalization: key hash, keyfile hash, MAC tag. -/
def verifierFields (cs : Codecs) (keyHash keyfileHash tag : List Nat) : List (List Nat) :=
  [codeword cs.rs64 keyHash, codeword cs.rs32 keyfileHash, codeword cs.rs64 tag]

/-! ## The body as written by encrypt -/

/-- The encoded blocks of `count` consecutive 128-byte sub-chunks of `src`. -/
def encChunks (rs128 : FEC 128 136) : Nat → List Nat → List Nat
  | 0, _ => []
  | count + 1, src => codeword rs128 (src.take 128) ++ encChunks rs128 count (src.drop 128)

/-- The Reed-Solomon form of one unit of cipher text: all sub-chunks of a full unit; the full
sub-chunks and the padded last one of a shorter unit. -/
def encUnit (rs128 : FEC 128 136) (src : List Nat) : List Nat :=
  if src.length = MiB then encChunks rs128 (MiB / 128) src
  else encChunks rs128 (src.length / 128) src
    ++ codeword rs128 (pad (src.drop (src.length / 128 * 128)))

/-- Size of the body written for a plain text of `len` bytes. -/
def bodyLen (reedsolo : Bool) (len : Nat) : Nat :=
  if reedsolo then
    len / MiB * (MiB / 128 * 136) + (if len % MiB = 0 then 0 else (len % MiB / 128 + 1) * 136)
  else len

/-- The cipher text of the plain unit `src` at the cipher positions of `st`: Serpent-CTR
when paranoid, then ChaCha20. -/
def cipherUnit (env : Env) (p : Params) (st : Stream) (src : List Nat) : List Nat :=
  xorKeyStream (env.c.chacha p.key st.nonce) st.chachaPos
    (if p.paranoid then
      xorKeyStream (env.c.serpent p.serpentKey st.serpentSalt) st.serpentPos src
    else src)

/-- What encrypt writes to the output file for the plain unit `src`. -/
def diskUnit (env : Env) (p : Params) (st : Stream) (src : List Nat) : List Nat :=
  if p.reedsolo then encUnit env.cs.rs128 (cipherUnit env p st src) else cipherUnit env p st src

/-- The loop state after a unit of `n` bytes: cipher positions moved on, `mac` and `out`
extended. -/
def advance (p : Params) (st : Stream) (n : Nat) (mac out : List Nat) : Stream :=
  { st with chachaPos := st.chachaPos + n,
            serpentPos := if p.paranoid then st.serpentPos + n else st.serpentPos,
            macData := st.macData ++ mac, out := st.out ++ out }

/-- The state of the counters after `fout.Write`: `done` and `counter` increased, ciphers
rekeyed when due. -/
def nextUnit (p : Params) (st : Stream) : Stream :=
  rekey p { st with done := st.done + unitSize p, counter := st.counter + MiB }

/-- Encrypt and decrypt loop states that agree on the ciphers, the HKDF reader, the rekey
counter and the MAC input. -/
def Sync (a b : Stream) : Prop :=
  a.counter = b.counter ∧ a.nonce = b.nonce ∧ a.chachaPos = b.chachaPos ∧
    a.serpentSalt = b.serpentSalt ∧ a.serpentPos = b.serpentPos ∧ a.hkdfOff = b.hkdfOff ∧
    a.macData = b.macData

/-- Decrypt parameters that use the keys and flags of the encrypt parameters. -/
def Paired (pe pd : Params) : Prop :=
  pe.encrypt = true ∧ pd.encrypt = false ∧ pd.paranoid = pe.paranoid ∧
    pd.reedsolo = pe.reedsolo ∧ pd.key = pe.key ∧ pd.serpentKey = pe.serpentKey ∧
    pd.hkdf = pe.hkdf

/-! ## One encryption without keyfiles, named piece by piece -/

/-- The Argon2 key of an encryption started with the globals `g`. -/
def encKey (env : Env) (g : Globals) : List Nat :=
  env.c.argon2 g.password (genNonces env.rnd).salt g.paranoid

/-- The HKDF stream of an encryption without keyfiles. -/
def encHkdf (env : Env) (g : Globals) : Nat → Nat :=
  env.c.hkdf (encKey env g) (genNonces env.rnd).hkdfSalt

/-- The parameters of the body loop of an encryption without keyfiles. -/
def encParams (env : Env) (g : Globals) (total : Nat) : Params :=
  { encrypt := true, paranoid := g.paranoid, reedsolo := g.reedsolo, padded := false,
    keep := g.keep, fastDecode := g.fastDecode, total := (total : Int), key := encKey env g,
    serpentKey := hkdfRead (encHkdf env g) 32 32, hkdf := encHkdf env g }

/-- The parameters of the body loop of the decryption (with `keep`, `fastDecode` as given)
of a volume that was encrypted with the globals `g` from a plain text of `total` bytes. -/
def decParams (env : Env) (g : Globals) (total : Nat) (keep fastDecode : Bool) : Params :=
  { encrypt := false, paranoid := g.paranoid, reedsolo := g.reedsolo,
    padded := decide (MiB - 128 ≤ total % MiB), keep := keep, fastDecode := fastDecode,
    total := ((bodyLen g.reedsolo total : Nat) : Int), key := encKey env g,
    serpentKey := hkdfRead (encHkdf env g) 32 32, hkdf := encHkdf env g }

/-- The header of the finished volume of an encryption without keyfiles whose MAC input
was `macData`. -/
def volumeHeader (env : Env) (g : Globals) (total : Nat) (macData : List Nat) : List Nat :=
  (headerFront env g total (codeword env.cs.rs5 (fmt05d g.comments.length))
    ++ verifierFields env.cs (env.c.sha3_512 (encKey env g)) (zeros 32)
        (macSum env.c g.paranoid (hkdfRead (encHkdf env g) 0 32) macData)).flatten

/-- The globals as the Start button finds them for an encryption without keyfiles, split
and delete, after one item was dropped. -/
def EncryptSetup (g : Globals) : Prop :=
  g.mode = "encrypt" ∧ g.recombine = false ∧ g.keyfiles = [] ∧ g.keyfile = false ∧
    g.split = false ∧ g.delete = false ∧ g.kept = false ∧ g.inputFile ≠ g.outputFile

/-- The globals as the Start button finds them for a decryption without keyfiles of a single
volume file. -/
def DecryptSetup (g : Globals) : Prop :=
  g.mode = "decrypt" ∧ g.recombine = false ∧ g.keyfiles = [] ∧ g.keyfile = false ∧
    g.split = false ∧ g.delete = false ∧ g.kept = false ∧ g.inputFile ≠ g.outputFile ∧
    g.fastDecode = true

/-! ## Keyfile key, unordered mode -/

/-- Byte-wise XOR of two byte strings. -/
def xorBytes (a b : List Nat) : List Nat := List.zipWith (fun x y => x ^^^ y) a b

/-- The SHA3-256 digests of the keyfiles, in the order of the list. -/
def keyDigests (c : Crypto) (fs : FS) (keyfiles : List String) : List (List Nat) :=
  keyfiles.map (fun p => c.sha3_256 ((fs.read p).getD []))

/-- The value `h_1 XOR h_2 XOR …` of a list of digests. -/
def xorAll : List (List Nat) → List Nat
  | [] => []
  | d :: ds => ds.foldl xorBytes d

/-! ## A correcting sample codec -/

/-- All seven codecs correct up to `⌊(n−k)/2⌋` byte errors of an encoded block. -/
structure Codecs.Corrects (cs : Codecs) : Prop where
  rs1 : cs.rs1.Corrects
  rs5 : cs.rs5.Corrects
  rs16 : cs.rs16.Corrects
  rs24 : cs.rs24.Corrects
  rs32 : cs.rs32.Corrects
  rs64 : cs.rs64.Corrects
  rs128 : cs.rs128.Corrects

/-- The encoded block of the correcting sample codec: the data followed by `n - k` check
symbols, each of which is the number of the whole data block. -/
def tagBlock (k n : Nat) (d : List Nat) : List Nat :=
  d ++ List.replicate (n - k) (Encodable.encode d)

/-- A systematic sample codec of minimum distance `n - k + 1`: `Decode` returns the data
block named by a check symbol whose encoded block is within `⌊(n−k)/2⌋` positions of the
input. -/
def tagFEC (k n : Nat) : FEC k n where
  Encode := fun d => if d.length = k then sharesOf n (tagBlock k n d) else []
  Decode := fun shares =>
    let c := shares.map (fun s => s.Data.headD 0)
    ((c.drop k).filterMap (fun v => (Encodable.decode v : Option (List Nat)))).find?
      (fun d => decide (d.length = k) && decide (hamming (tagBlock k n d) c ≤ (n - k) / 2))

/-- The seven correcting sample codecs. -/
def tagCodecs : Codecs :=
  { rs1 := tagFEC 1 3, rs5 := tagFEC 5 15, rs16 := tagFEC 16 48, rs24 := tagFEC 24 72,
    rs32 := tagFEC 32 96, rs64 := tagFEC 64 192, rs128 := tagFEC 128 136 }

/-- The sample environment with correcting codecs. -/
def tagEnv : Env := { cs := tagCodecs, c := sampleCrypto, rnd := sampleRand }

/-! ## Changed header fields -/

/-- The eleven header fields of the finished volume of an encryption without keyfiles whose
MAC input was `macData`, in file order. -/
def headerFields (env : Env) (g : Globals) (total : Nat) (macData : List Nat) :
    List (List Nat) :=
  headerFront env g total (codeword env.cs.rs5 (fmt05d g.comments.length))
    ++ verifierFields env.cs (env.c.sha3_512 (encKey env g)) (zeros 32)
        (macSum env.c g.paranoid (hkdfRead (encHkdf env g) 0 32) macData)

/-- For each header field the number of bytes that may be changed: `⌊(n−k)/2⌋` for the ten
fields that `work` decodes, all `3·C` bytes for the comment bytes, which `work` skips. -/
def fieldSlack (C : Nat) : List Nat := [5, 5, 3 * C, 5, 16, 32, 16, 24, 64, 32, 64]

/-- Whether `new` consists of the fields of `orig`, each with its size kept and at most
the given number of bytes changed. -/
def nearFields : List (List Nat) → List (List Nat) → List Nat → Bool
  | o :: os, b :: bs, s :: ss =>
    decide (b.length = o.length) && decide (hamming o b ≤ s) && nearFields os bs ss
  | [], [], _ => true
  | _, _, _ => false

/-! ## Sample inputs -/

/-- The 14 bytes `Hello, world!\n`. -/
def samplePlain : List Nat := [72, 101, 108, 108, 111, 44, 32, 119, 111, 114, 108, 100, 33, 10]

/-- Globals for encrypting `a.txt` into `a.txt.pcv` with the password `pw`. -/
def sampleEncrypt : Globals :=
  { startGlobals with mode := "encrypt", inputFile := "a.txt", outputFile := "a.txt.pcv",
                      password := [112, 119] }

/-- Globals for decrypting `a.txt.pcv` into `a.txt` with the password `pw`. -/
def sampleDecrypt : Globals :=
  { startGlobals with mode := "decrypt", inputFile := "a.txt.pcv", outputFile := "a.txt",
                      password := [112, 119] }

/-! ## Dropping one file on the window (`onDrop`) -/

/-- Go `strings.HasSuffix`. -/
def hasSuffix (s suf : String) : Bool := suf.data.isSuffixOf s.data

/-- Go `strings.Index(s, sub)` on the part of `s` that starts at position `i`: the position of
the first occurrence, `none` for -1. -/
def indexFrom (sub : List Char) : List Char → Nat → Option Nat
  | [], i => if sub = [] then some i else none
  | c :: cs, i => if sub.isPrefixOf (c :: cs) then some i else indexFrom sub cs (i + 1)

/-- Go `strings.Index`. -/
def strIndex (s sub : String) : Option Nat := indexFrom sub.data s.data 0

/-- Go `strings.Contains`. -/
def strContains (s sub : String) : Bool := (strIndex s sub).isSome

/-- Go `s[:n]` for `n` within the string. -/
def strTake (s : String) (n : Nat) : String := String.mk (s.data.take n)

/-- The loop over `nums` in `onDrop`: whether the name ends in a decimal digit. -/
def endsNum (name : String) : Bool :=
  ["0", "1", "2", "3", "4", "5", "6", "7", "8", "9"].any (fun i => hasSuffix name i)

/-- Variable `isSplit` of `onDrop`. -/
def isSplitName (name : String) : Bool := strContains name ".pcv." && endsNum name

/-- Whether a byte is an ASCII decimal digit (`\d`). -/
def isDigit (b : Nat) : Bool := decide (48 ≤ b) && decide (b ≤ 57)

/-- Go `regexp.Match` of the pattern `^v\d\.\d{2}` on a byte slice. -/
def versionMatch (b : List Nat) : Bool :=
  match b with
  | v :: d1 :: dot :: d2 :: d3 :: _ =>
    decide (v = 118) && isDigit d1 && decide (dot = 46) && isDigit d2 && isDigit d3
  | _ => false

/-- The bytes of a string of ASCII characters. -/
def bytesOf (s : String) : List Nat := s.data.map (fun ch => ch.toNat)

/-- Source function `accessDenied`. -/
def accessDenied (g : Globals) (s : String) : Globals :=
  { g with mainStatus := s ++ " access denied by operating system.",
           mainStatusColor := Color.RED }

/-- The loop `for i := 0; i < commentsLength*3; i += 3` of `onDrop` over the buffer `tmp`,
with `count` triples left and `acc` the comments decoded so far. -/
def scanComments (rs1 : FEC 1 3) (fastDecode : Bool) : Nat → List Nat → List Nat → Run (List Nat)
  | 0, _, acc => pure acc
  | count + 1, tmp, acc => do
    let (t, err) ← rsDecode rs1 fastDecode (tmp.take 3)
    if err then pure (bytesOf "Comments are corrupted.")
    else scanComments rs1 fastDecode count (tmp.drop 3) (acc ++ t)

/-- The block `// Read comments from file and check for corruption` of `onDrop`: the new value
of `comments` and the unread part of the file. -/
def scanCommentField (env : Env) (fastDecode : Bool) (fin : List Nat) :
    Run (List Nat × List Nat) := do
  let (b, fin) := readBuf 15 fin
  let (tmp, err) ← rsDecode env.cs.rs5 fastDecode b
  if err then pure (bytesOf "Comments are corrupted.", fin)
  else do
    let commentsLength := (atoi tmp).1
    if commentsLength < 0 then throw Fault.panic
    let (buf, fin) := readBuf (commentsLength.toNat * 3) fin
    let comments ← scanComments env.cs.rs1 fastDecode commentsLength.toNat buf []
    pure (comments, fin)

/-- Source function `onDrop` for one dropped item that is a regular file (`showKeyfile` unset);
`fs.read name = none` stands for a missing file, on which `stat.IsDir()` dereferences nil.
The labels of the window and the size count are not modelled. -/
def onDropFile (env : Env) (name : String) (w : World) : Run World :=
  let g := resetUI w.g
  match w.fs.read name with
  | none => throw Fault.panic
  | some _ =>
    let isSplit := isSplitName name
    if hasSuffix name ".pcv" || isSplit then do
      let g1 := { g with mode := "decrypt" }
      let (name1, g2) ←
        (if isSplit then
          match strIndex name ".pcv" with
          | none => throw Fault.panic
          | some ind =>
            let n1 := strTake name (ind + 4)
            pure (n1, { g1 with inputFile := n1, outputFile := strTake n1 ind,
                                recombine := true })
        else
          pure (name, { g1 with outputFile := strTake name (name.data.length - 4) })
          : Run (String × Globals))
      match w.fs.read (if isSplit then name1 ++ ".0" else name1) with
      | none => pure { w with g := accessDenied (resetUI g2) "Read" }
      | some content => do
        let (b, fin) := readBuf 15 content
        let (tmp, err) ← rsDecode env.cs.rs5 w.g.fastDecode b
        if !versionMatch tmp || err then
          pure { w with g := { resetUI g2 with
                   mainStatus := "This doesn't seem like a Picocrypt volume.",
                   mainStatusColor := Color.RED } }
        else do
          let (comments, fin) ← scanCommentField env w.g.fastDecode fin
          let g3 := { g2 with comments := comments }
          let (b, _) := readBuf 15 fin
          let (flags, err) ← rsDecode env.cs.rs5 w.g.fastDecode b
          if err then
            pure { w with g := { g3 with mainStatus := "The volume header is damaged.",
                                         mainStatusColor := Color.RED } }
          else do
            let f1 ← index flags 1
            let g4 := if f1 = 1 then { g3 with keyfile := true } else g3
            let f2 ← index flags 2
            let g5 := if f2 = 1 then { g4 with keyfileOrdered := true } else g4
            pure { w with g := { g5 with onlyFiles := g5.onlyFiles ++ [name1],
                                         inputFile := name1 } }
    else
      pure { w with g := { g with mode := "encrypt", inputFile := name,
                                  outputFile := name ++ ".pcv",
                                  onlyFiles := g.onlyFiles ++ [name] } }

/-- Name pattern `*.pcv.<digits>` in the specification's words, to be compared with
`isSplitName`: the name ends in a non-empty run of decimal digits that follows `.pcv.`. -/
def matchesSplitPattern (name : String) : Bool :=
  let ds := name.data.reverse.takeWhile (fun ch => "0123456789".data.contains ch)
  !ds.isEmpty && ".pcv.".data.isSuffixOf (name.data.take (name.data.length - ds.length))

/-- The start of a volume: version tag, comment length, comments and flag block, encoded as
encrypt writes them. -/
def headerStart (cs : Codecs) (ver comments flags : List Nat) : List Nat :=
  codeword cs.rs5 ver ++ (codeword cs.rs5 (fmt05d comments.length)
    ++ (commentField cs.rs1 comments ++ codeword cs.rs5 flags))

/-- Globals for encrypting `a.txt` into `a.txt.pcv` with the password `pw` and splitting the
volume into chunks of 512 KiB (`splitSize` is the text `512`, unit 0 is KiB). -/
def sampleSplit : Globals :=
  { sampleEncrypt with split := true, splitSize := [53, 49, 50], splitSelected := 0 }

/-! ## The first part of `work`, with the staging zip and refused paths -/

/-- What the first part of `work` reads besides the modelled globals: the globals `allFiles`,
`onlyFolders` and `compress`, the external library `archive/zip` as the function from the
entries (path and content, in order) to the bytes of the archive, and the paths on which the
operating system refuses `os.Create` and `os.Open`. -/
structure Staging where
  allFiles : List String
  onlyFolders : List String
  compress : Bool
  archive : List (String × List Nat) → List Nat
  noCreate : List String
  noOpen : List String

/-- How the first part of `work` ends: `ended` for a `return`, `goes` when `work` goes on to
write or read the header. -/
inductive Started where
  | ended (w : World)
  | goes (w : World)

/-- Go `strings.TrimSuffix`. -/
def trimSuffix (s suf : String) : String :=
  if hasSuffix s suf then strTake s (s.data.length - suf.data.length) else s

/-- Loop `for i, path := range files` of the zip block: the entries copied into the archive,
or `none` when `os.Open(path)` fails.  A missing file makes `zip.FileInfoHeader` dereference
the nil result of `os.Stat`. -/
def zipEntries (fs : FS) (noOpen : List String) :
    List String → List (String × List Nat) → Run (Option (List (String × List Nat)))
  | [], acc => pure (some acc)
  | path :: rest, acc =>
    match fs.read path with
    | none => throw Fault.panic
    | some c =>
      if path ∈ noOpen then pure none
      else zipEntries fs noOpen rest (acc ++ [(path, c)])

/-- Source function `work` from its start to the creation of the output file in encrypt mode:
the zip block, the recombine block, `os.Stat` and `os.Open` of the input file and, when
encrypting, `os.Create` of the output file.  Failing writes (full disk) and cancellation are
not modelled; recombining with refused paths is left unspecified. -/
def workStart (s : Staging) (w0 : World) : Run Started := do
  let g0 := { w0.g with mainStatus := "Working...", mainStatusColor := Color.WHITE }
  let r ←
    (if decide (1 < s.allFiles.length) || decide (0 < s.onlyFolders.length) || s.compress then do
      let files := if s.allFiles.length = 0 then g0.onlyFiles else s.allFiles
      if s.onlyFolders = [] ∧ g0.onlyFiles = [] then throw Fault.panic
      let g1 := { g0 with inputFile := trimSuffix g0.outputFile ".pcv" }
      if g1.inputFile ∈ s.noCreate then
        pure (Started.ended { g := accessDenied g1 "Write", fs := w0.fs })
      else do
        let fs1 := w0.fs.write g1.inputFile []
        match ← zipEntries fs1 s.noOpen files [] with
        | none =>
          pure (Started.ended { g := accessDenied (resetUI g1) "Read",
                                fs := fs1.remove g1.inputFile })
        | some entries =>
          pure (Started.goes { g := g1, fs := fs1.write g1.inputFile (s.archive entries) })
    else pure (Started.goes { g := g0, fs := w0.fs }) : Run Started)
  match r with
  | Started.ended w => pure (Started.ended w)
  | Started.goes w1 => do
    if w1.g.recombine = true ∧ (s.noCreate ≠ [] ∨ s.noOpen ≠ []) then throw Fault.unspecified
    let w2 ← recombinePhase w1
    let _ ← readFile w2.fs w2.g.inputFile
    if w2.g.inputFile ∈ s.noOpen then
      pure (Started.ended { w2 with g := accessDenied (resetUI w2.g) "Read" })
    else if w2.g.mode = "encrypt" ∧ w2.g.outputFile ∈ s.noCreate then
      pure (Started.ended { w2 with g := accessDenied w2.g "Write" })
    else pure (Started.goes w2)

/-- A sample archive function: the contents of the entries, one after the other. -/
def sampleArchive (entries : List (String × List Nat)) : List Nat :=
  (entries.map (fun e => e.2)).flatten

/-- Two files dropped together in a directory in which `Encrypted.zip.pcv` cannot be created. -/
def sampleStaging : Staging :=
  { allFiles := ["a.txt", "b.txt"], onlyFolders := [], compress := false,
    archive := sampleArchive, noCreate := ["Encrypted.zip.pcv"], noOpen := [] }

/-- Globals after `onDrop` of the two files `a.txt` and `b.txt`, with the password `pw`. -/
def sampleTwoFiles : Globals :=
  { startGlobals with mode := "encrypt", inputFile := "Encrypted.zip",
                      outputFile := "Encrypted.zip.pcv", onlyFiles := ["a.txt", "b.txt"],
                      password := [112, 119] }

/-! ## Dropping keyfiles (`onDrop` with the keyfile window open) -/

/-- The loop `for _, i := range keyfiles` of the keyfile branch of `onDrop`, `tmp` being the
list built so far: a path already in `tmp` is a duplicate and is left out.  A path that is
not a duplicate and does not exist makes `stat.IsDir()` dereference nil; directories and
unreadable files are not in the file-system model. -/
def dedupKeyfiles (fs : FS) : List String → List String → Run (List String)
  | [], tmp => pure tmp
  | i :: rest, tmp =>
    if tmp.any (fun j => i == j) then dedupKeyfiles fs rest tmp
    else
      match fs.read i with
      | none => throw Fault.panic
      | some _ => dedupKeyfiles fs rest (tmp ++ [i])

/-- Source function `onDrop` when the keyfile window is open: the new value of `keyfiles`. -/
def onDropKeyfiles (fs : FS) (keyfiles names : List String) : Run (List String) :=
  dedupKeyfiles fs (keyfiles ++ names) []

/-! ## `work` by passes -/

/-- How one execution of the body of `work` ends: with a `return`, leaving the world `w`, or
with the nested call `work()` of the MAC-mismatch retry on the world `w`. -/
inductive Pass where
  | returns (w : World)
  | again (w : World)

/-- One execution of the body of the source function `work`, as in `workN`, up to its
`return` or to the nested call `work()` that follows `fastDecode = false`. -/
def workPass (env : Env) (w0 : World) : Run Pass := do
  let w ← recombinePhase
    { w0 with g := { w0.g with mainStatus := "Working...", mainStatusColor := Color.WHITE } }
  let g := w.g
  let content ← readFile w.fs g.inputFile
  if g.inputFile = g.outputFile then throw Fault.aliased
  if g.mode = "encrypt" then do
    let w1 ← encryptWork env w content
    pure (Pass.returns w1)
  else do
    let (h, rest) ← readHeader env g.fastDecode content
    let total : Int := (content.length : Int) - 789 - h.commentsLength * 3
    let f0 ← index h.flags 0
    let f3 ← index h.flags 3
    let f4 ← index h.flags 4
    let g1 := { g with paranoid := decide (f0 = 1), reedsolo := decide (f3 = 1) }
    let padded := decide (f4 = 1)
    if h.errs.any id = true ∧ g1.keep = false then
      pure (Pass.returns
        { g := { g1 with mainStatus := "The volume header is damaged.",
                         mainStatusColor := Color.RED },
          fs := if g1.recombine then w.fs.remove g1.inputFile else w.fs })
    else do
      let g2 := { g1 with kept := g1.kept || h.errs.any id }
      let key0 := env.c.argon2 g2.password h.salt g2.paranoid
      let (keyfileKey, keyfileHash) ← keyfilePhase env.c w.fs g2
      let keyHash := env.c.sha3_512 key0
      if g2.mode ≠ "decrypt" then throw Fault.unspecified
      let keyCorrect := decide (keyHash = h.keyHashRef)
      let keyfileCorrect := decide (keyfileHash = h.keyfileHashRef)
      let incorrect := if g2.keyfile then !keyCorrect || !keyfileCorrect else !keyCorrect
      if incorrect = true ∧ g2.keep = false then
        let status := if !keyCorrect then "The provided password is incorrect."
          else if g2.keyfileOrdered then "Incorrect keyfiles or order."
          else "Incorrect keyfiles."
        pure (Pass.returns
          { g := { g2 with mainStatus := status, mainStatusColor := Color.RED },
            fs := if g2.recombine then w.fs.remove g2.inputFile else w.fs })
      else do
        let g3 := { g2 with kept := g2.kept || incorrect }
        let fs1 := w.fs.write g3.outputFile []
        let key ← cipherKey g3 key0 keyfileKey
        let hk := env.c.hkdf key h.hkdfSalt
        let subkey := hkdfRead hk 0 32
        let serpentKey := hkdfRead hk 32 32
        let p : Params :=
          { encrypt := false, paranoid := g3.paranoid, reedsolo := g3.reedsolo,
            padded := padded, keep := g3.keep, fastDecode := g3.fastDecode, total := total,
            key := key, serpentKey := serpentKey, hkdf := hk }
        match ← bodyLoop env p (rest.length + 1)
            (initStream h.nonce h.serpentSalt [] g3.kept) rest with
        | Flow.stop m => pure (Pass.returns (broken { g := g3, fs := fs1 } m))
        | Flow.go st =>
          let g4 := { g3 with kept := st.kept }
          let fs2 := w.fs.write g4.outputFile st.out
          if macSum env.c g4.paranoid subkey st.macData ≠ h.authTag then
            if g4.reedsolo = true ∧ g4.fastDecode = true then
              pure (Pass.again { g := { g4 with fastDecode := false }, fs := fs2 })
            else if g4.keep then do
              let w1 ← finishPhase { g := { g4 with kept := true }, fs := fs2 }
              pure (Pass.returns w1)
            else
              pure (Pass.returns
                (broken { g := g4, fs := fs2 } "The input file is damaged or modified."))
          else do
            let w1 ← finishPhase { g := g4, fs := fs2 }
            pure (Pass.returns w1)

/-- What `work` does after a pass: return, or run `work` again with `fuel` nested calls
allowed. -/
def afterPass (env : Env) (fuel : Nat) : Pass → Run World
  | Pass.returns w => pure w
  | Pass.again w => workN env fuel w

/-! ## The values of a decrypt pass -/

/-- Variable `total` of a decrypt pass: the size of the input less the header. -/
def passTotal (content : List Nat) (hd : Header) : Int :=
  (content.length : Int) - 789 - hd.commentsLength * 3

/-- The globals of a decrypt pass after the header was read and accepted: `paranoid` and
`reedsolo` from the flags, `kept` set when a field failed to decode. -/
def afterHeader (g : Globals) (hd : Header) (f0 f3 : Nat) : Globals :=
  { g with paranoid := decide (f0 = 1), reedsolo := decide (f3 = 1),
           kept := g.kept || hd.errs.any id }

/-- Variable `incorrect` of `work`: the key verifier does not match, or the keyfile verifier
does not match while the global `keyfile` is set. -/
def verifierMismatch (c : Crypto) (g2 : Globals) (hd : Header) (keyfileHash : List Nat) :
    Bool :=
  if g2.keyfile then
    !decide (c.sha3_512 (c.argon2 g2.password hd.salt g2.paranoid) = hd.keyHashRef)
      || !decide (keyfileHash = hd.keyfileHashRef)
  else !decide (c.sha3_512 (c.argon2 g2.password hd.salt g2.paranoid) = hd.keyHashRef)

/-- The globals of a decrypt pass after the verifiers were compared and accepted. -/
def afterVerifier (c : Crypto) (g : Globals) (hd : Header) (f0 f3 : Nat)
    (keyfileHash : List Nat) : Globals :=
  { afterHeader g hd f0 f3 with
    kept := (afterHeader g hd f0 f3).kept
      || verifierMismatch c (afterHeader g hd f0 f3) hd keyfileHash }

/-- The values fixed during the body loop of a decrypt pass. -/
def passParams (c : Crypto) (g : Globals) (hd : Header) (f0 f3 f4 : Nat) (total : Int)
    (key : List Nat) : Params :=
  { encrypt := false, paranoid := decide (f0 = 1), reedsolo := decide (f3 = 1),
    padded := decide (f4 = 1), keep := g.keep, fastDecode := g.fastDecode, total := total,
    key := key, serpentKey := hkdfRead (c.hkdf key hd.hkdfSalt) 32 32,
    hkdf := c.hkdf key hd.hkdfSalt }

/-- The globals of a decrypt pass after the body loop ended in the state `st`. -/
def afterBody (c : Crypto) (g : Globals) (hd : Header) (f0 f3 : Nat) (keyfileHash : List Nat)
    (st : Stream) : Globals :=
  { afterVerifier c g hd f0 f3 keyfileHash with kept := st.kept }

/-- A decrypt pass up to the flags: the world `w1` after the recombine block, the content of
the input file, the header and the unread rest, and the three flags that `work` reads. -/
structure PassRead (env : Env) (w w1 : World) (content rest : List Nat) (hd : Header)
    (f0 f3 f4 : Nat) : Prop where
  recombined : recombinePhase
    { w with g := { w.g with mainStatus := "Working...", mainStatusColor := Color.WHITE } }
      = Except.ok w1
  input : w1.fs.read w1.g.inputFile = some content
  distinct : w1.g.inputFile ≠ w1.g.outputFile
  mode : w1.g.mode = "decrypt"
  header : readHeader env w1.g.fastDecode content = Except.ok (hd, rest)
  flag0 : index hd.flags 0 = Except.ok f0
  flag3 : index hd.flags 3 = Except.ok f3
  flag4 : index hd.flags 4 = Except.ok f4

/-- A decrypt pass up to the end of the body loop: header and verifiers were accepted (no
failure, or `keep` is set), the keyfile step gave `kfk` and `kfh`, the cipher key is `key`
and the body loop ended with `fl`. -/
structure PassBody (env : Env) (w1 : World) (content rest : List Nat) (hd : Header)
    (f0 f3 f4 : Nat) (kfk : Option (List Nat)) (kfh key : List Nat) (fl : Flow Stream) :
    Prop where
  headerAccepted : ¬ (hd.errs.any id = true ∧ w1.g.keep = false)
  keyfiles : keyfilePhase env.c w1.fs (afterHeader w1.g hd f0 f3) = Except.ok (kfk, kfh)
  verifierAccepted :
    ¬ (verifierMismatch env.c (afterHeader w1.g hd f0 f3) hd kfh = true ∧ w1.g.keep = false)
  cipher : cipherKey (afterVerifier env.c w1.g hd f0 f3 kfh)
      (env.c.argon2 w1.g.password hd.salt (decide (f0 = 1))) kfk = Except.ok key
  body : bodyLoop env (passParams env.c w1.g hd f0 f3 f4 (passTotal content hd) key)
      (rest.length + 1)
      (initStream hd.nonce hd.serpentSalt [] (afterVerifier env.c w1.g hd f0 f3 kfh).kept) rest
    = Except.ok fl

/-- The ways in which a decrypt pass of `work` ends, with the values computed on the way. -/
inductive PassOutcome (env : Env) (w : World) : Pass → Prop where
  | headerDamaged (w1 : World) (content rest : List Nat) (hd : Header) (f0 f3 f4 : Nat)
      (hr : PassRead env w w1 content rest hd f0 f3 f4)
      (herr : hd.errs.any id = true) (hkeep : w1.g.keep = false) :
      PassOutcome env w (Pass.returns
        { g := { w1.g with paranoid := decide (f0 = 1), reedsolo := decide (f3 = 1),
                           mainStatus := "The volume header is damaged.",
                           mainStatusColor := Color.RED },
          fs := if w1.g.recombine then w1.fs.remove w1.g.inputFile else w1.fs })
  | wrongKey (w1 : World) (content rest : List Nat) (hd : Header) (f0 f3 f4 : Nat)
      (kfk : Option (List Nat)) (kfh : List Nat)
      (hr : PassRead env w w1 content rest hd f0 f3 f4)
      (hacc : ¬ (hd.errs.any id = true ∧ w1.g.keep = false))
      (hkf : keyfilePhase env.c w1.fs (afterHeader w1.g hd f0 f3) = Except.ok (kfk, kfh))
      (hinc : verifierMismatch env.c (afterHeader w1.g hd f0 f3) hd kfh = true)
      (hkeep : w1.g.keep = false) :
      PassOutcome env w (Pass.returns
        { g := { afterHeader w1.g hd f0 f3 with
                 mainStatus :=
                   if !decide (env.c.sha3_512
                        (env.c.argon2 w1.g.password hd.salt (decide (f0 = 1))) = hd.keyHashRef)
                   then "The provided password is incorrect."
                   else if w1.g.keyfileOrdered then "Incorrect keyfiles or order."
                   else "Incorrect keyfiles.",
                 mainStatusColor := Color.RED },
          fs := if w1.g.recombine then w1.fs.remove w1.g.inputFile else w1.fs })
  | bodyDamaged (w1 : World) (content rest : List Nat) (hd : Header) (f0 f3 f4 : Nat)
      (kfk : Option (List Nat)) (kfh key : List Nat) (m : String)
      (hr : PassRead env w w1 content rest hd f0 f3 f4)
      (hb : PassBody env w1 content rest hd f0 f3 f4 kfk kfh key (Flow.stop m)) :
      PassOutcome env w (Pass.returns
        (broken { g := afterVerifier env.c w1.g hd f0 f3 kfh,
                  fs := w1.fs.write w1.g.outputFile [] } m))
  | retry (w1 : World) (content rest : List Nat) (hd : Header) (f0 f3 f4 : Nat)
      (kfk : Option (List Nat)) (kfh key : List Nat) (st : Stream)
      (hr : PassRead env w w1 content rest hd f0 f3 f4)
      (hb : PassBody env w1 content rest hd f0 f3 f4 kfk kfh key (Flow.go st))
      (hmac : macSum env.c (decide (f0 = 1)) (hkdfRead (env.c.hkdf key hd.hkdfSalt) 0 32)
        st.macData ≠ hd.authTag)
      (hfast : decide (f3 = 1) = true ∧ w1.g.fastDecode = true) :
      PassOutcome env w (Pass.again
        { g := { afterBody env.c w1.g hd f0 f3 kfh st with fastDecode := false },
          fs := w1.fs.write w1.g.outputFile st.out })
  | forced (w1 : World) (content rest : List Nat) (hd : Header) (f0 f3 f4 : Nat)
      (kfk : Option (List Nat)) (kfh key : List Nat) (st : Stream) (w3 : World)
      (hr : PassRead env w w1 content rest hd f0 f3 f4)
      (hb : PassBody env w1 content rest hd f0 f3 f4 kfk kfh key (Flow.go st))
      (hmac : macSum env.c (decide (f0 = 1)) (hkdfRead (env.c.hkdf key hd.hkdfSalt) 0 32)
        st.macData ≠ hd.authTag)
      (hslow : ¬ (decide (f3 = 1) = true ∧ w1.g.fastDecode = true))
      (hkeep : w1.g.keep = true)
      (hfin : finishPhase
        { g := { afterBody env.c w1.g hd f0 f3 kfh st with kept := true },
          fs := w1.fs.write w1.g.outputFile st.out } = Except.ok w3) :
      PassOutcome env w (Pass.returns w3)
  | modified (w1 : World) (content rest : List Nat) (hd : Header) (f0 f3 f4 : Nat)
      (kfk : Option (List Nat)) (kfh key : List Nat) (st : Stream)
      (hr : PassRead env w w1 content rest hd f0 f3 f4)
      (hb : PassBody env w1 content rest hd f0 f3 f4 kfk kfh key (Flow.go st))
      (hmac : macSum env.c (decide (f0 = 1)) (hkdfRead (env.c.hkdf key hd.hkdfSalt) 0 32)
        st.macData ≠ hd.authTag)
      (hslow : ¬ (decide (f3 = 1) = true ∧ w1.g.fastDecode = true))
      (hkeep : w1.g.keep = false) :
      PassOutcome env w (Pass.returns
        (broken { g := afterBody env.c w1.g hd f0 f3 kfh st,
                  fs := w1.fs.write w1.g.outputFile st.out }
          "The input file is damaged or modified."))
  | verified (w1 : World) (content rest : List Nat) (hd : Header) (f0 f3 f4 : Nat)
      (kfk : Option (List Nat)) (kfh key : List Nat) (st : Stream) (w3 : World)
      (hr : PassRead env w w1 content rest hd f0 f3 f4)
      (hb : PassBody env w1 content rest hd f0 f3 f4 kfk kfh key (Flow.go st))
      (hmac : macSum env.c (decide (f0 = 1)) (hkdfRead (env.c.hkdf key hd.hkdfSalt) 0 32)
        st.macData = hd.authTag)
      (hfin : finishPhase
        { g := afterBody env.c w1.g hd f0 f3 kfh st,
          fs := w1.fs.write w1.g.outputFile st.out } = Except.ok w3) :
      PassOutcome env w (Pass.returns w3)

/-- A world for decrypting `a.txt.pcv` with the password `pw`: the file holds the header of
an encryption of 14 bytes with body Reed-Solomon whose tag is the MAC of the one byte `1`,
followed by one sub-chunk of 136 zero bytes, so the MAC of the body differs from the tag. -/
def sampleRetry : World :=
  { g := sampleDecrypt,
    fs := [("a.txt.pcv",
            volumeHeader sampleEnv { sampleEncrypt with reedsolo := true } 14 [1] ++ zeros 136)] }

/-- The first `n` consecutive 136-byte sub-chunks of `d`. -/
def subChunks : Nat → List Nat → List (List Nat)
  | 0, _ => []
  | n + 1, d => d.take 136 :: subChunks n (d.drop 136)

/-- The sub-chunks of a unit `dst` of the body that the decrypt branch hands to `rsDecode`:
the 8192 sub-chunks of 136 bytes of a full unit of 1,114,112 bytes; of a shorter unit the
`len/136 − 1` sub-chunks of 136 bytes and then the rest of the unit as the last one. -/
def unitSubChunks (dst : List Nat) : List (List Nat) :=
  if dst.length = MiB / 128 * 136 then subChunks (MiB / 128) dst
  else subChunks (dst.length / 136 - 1) dst ++ [dst.drop ((dst.length / 136 - 1) * 136)]

/-- The units of `size` bytes that the body loop reads from `rest`, one per iteration, the
last one shorter when `rest` runs out (`fuel` bounds their number). -/
def bodyUnits (size : Nat) : Nat → List Nat → List (List Nat)
  | 0, _ => []
  | fuel + 1, rest =>
    match rest with
    | [] => []
    | _ :: _ => rest.take size :: bodyUnits size fuel (rest.drop size)

/-- Whether `rsDecode` on the sub-chunk returns an error (`err != nil`). -/
def decodeFails (rs128 : FEC 128 136) (fastDecode : Bool) (chunk : List Nat) : Bool :=
  match rsDecode rs128 fastDecode chunk with
  | Except.ok (_, err) => err
  | Except.error _ => false

/-- In the specification's words, for a decrypt pass with the parameters `p` over the body
`rest`: some body sub-chunk decode reported an error, that is, the volume has body
Reed-Solomon and `rsDecode` returns an error on one of the sub-chunks of one of the units of
1,114,112 bytes of the body. -/
def bodyDecodeError (env : Env) (p : Params) (rest : List Nat) : Bool :=
  p.reedsolo &&
    (((bodyUnits (MiB / 128 * 136) (rest.length + 1) rest).map unitSubChunks).flatten).any
      (decodeFails env.cs.rs128 p.fastDecode)

/-- In the specification's words, for the header part of a decrypt pass: no header field
failed to decode, the key verifier matched, and the keyfile verifier matched when the volume
requires keyfiles (the global `keyfile`, which `onDrop` sets from flag 1 of the header). -/
def HeaderClean (c : Crypto) (g : Globals) (hd : Header) (f0 : Nat) (kfh : List Nat) : Prop :=
  hd.errs.any id = false ∧
  c.sha3_512 (c.argon2 g.password hd.salt (decide (f0 = 1))) = hd.keyHashRef ∧
  (g.keyfile = true → kfh = hd.keyfileHashRef)

/-- In the specification's words, for the body part of a decrypt pass with the parameters
`p` over the body `rest`, whose MAC input was `macData`: no sub-chunk decode reported an
error and the final MAC tag matched. -/
def BodyClean (env : Env) (p : Params) (hd : Header) (rest macData : List Nat) : Prop :=
  bodyDecodeError env p rest = false ∧
  macSum env.c p.paranoid (hkdfRead p.hkdf 0 32) macData = hd.authTag

/-- Source function `work` on a system that refuses `os.Create(outputFile)`: as `workN` up to
the creation of the output file (in encrypt mode before the header is written, in decrypt
mode after the header and the verifiers were accepted), then
`fin.Close(); accessDenied("Write"); return`. -/
def workCreateDenied (env : Env) (w0 : World) : Run World := do
  let w ← recombinePhase
    { w0 with g := { w0.g with mainStatus := "Working...", mainStatusColor := Color.WHITE } }
  let g := w.g
  let content ← readFile w.fs g.inputFile
  if g.inputFile = g.outputFile then throw Fault.aliased
  if g.mode = "encrypt" then pure { g := accessDenied g "Write", fs := w.fs }
  else do
    let (h, _) ← readHeader env g.fastDecode content
    let f0 ← index h.flags 0
    let f3 ← index h.flags 3
    let _ ← index h.flags 4
    let g1 := { g with paranoid := decide (f0 = 1), reedsolo := decide (f3 = 1) }
    if h.errs.any id = true ∧ g1.keep = false then
      pure { g := { g1 with mainStatus := "The volume header is damaged.",
                            mainStatusColor := Color.RED },
             fs := if g1.recombine then w.fs.remove g1.inputFile else w.fs }
    else do
      let g2 := { g1 with kept := g1.kept || h.errs.any id }
      let key0 := env.c.argon2 g2.password h.salt g2.paranoid
      let (_, keyfileHash) ← keyfilePhase env.c w.fs g2
      let keyHash := env.c.sha3_512 key0
      if g2.mode ≠ "decrypt" then throw Fault.unspecified
      let keyCorrect := decide (keyHash = h.keyHashRef)
      let keyfileCorrect := decide (keyfileHash = h.keyfileHashRef)
      let incorrect := if g2.keyfile then !keyCorrect || !keyfileCorrect else !keyCorrect
      if incorrect = true ∧ g2.keep = false then
        let status := if !keyCorrect then "The provided password is incorrect."
          else if g2.keyfileOrdered then "Incorrect keyfiles or order."
          else "Incorrect keyfiles."
        pure { g := { g2 with mainStatus := status, mainStatusColor := Color.RED },
               fs := if g2.recombine then w.fs.remove g2.inputFile else w.fs }
      else
        let g3 := { g2 with kept := g2.kept || incorrect }
        pure { g := accessDenied g3 "Write", fs := w.fs }

/-- Two worlds for a decrypt that differ only in the comment bytes of the input volume, and
in the global `comments` that `onDrop` reads from them: the input file holds `pre`, the
comment bytes and `post`, where `pre` is the 30 bytes of the version and comment-length
fields, the comment-length field decodes to `d1` and the comment bytes are three times the
number that `d1` spells; every other file is the same in both, the input file is not one of
the keyfiles, and the volume is a single file that is not split after decryption. -/
structure CommentVariant (env : Env) (wA wB : World) (pre cmA cmB post d1 : List Nat)
    (e1 : Bool) : Prop where
  globals : ∃ k : List Nat, wB.g = { wA.g with comments := k }
  mode : wA.g.mode = "decrypt"
  recombine : wA.g.recombine = false
  split : wA.g.split = false
  keyfiles : wA.g.inputFile ∉ wA.g.keyfiles
  readA : wA.fs.read wA.g.inputFile = some (pre ++ cmA ++ post)
  readB : wB.fs.read wA.g.inputFile = some (pre ++ cmB ++ post)
  other : ∀ p : String, p ≠ wA.g.inputFile → wB.fs.read p = wA.fs.read p
  front : pre.length = 30
  field : rsDecode env.cs.rs5 false (pre.drop 15) = Except.ok (d1, e1)
  lenA : cmA.length = (atoi d1).1.toNat * 3
  lenB : cmB.length = (atoi d1).1.toNat * 3

/-- The same outcome of two runs: status, colour and `kept` agree (all globals but
`comments` do), and so does every file other than the input file `inF`. -/
def SameOutcome (inF : String) (a b : World) : Prop :=
  (∃ k : List Nat, b.g = { a.g with comments := k }) ∧
  ∀ p : String, p ≠ inF → b.fs.read p = a.fs.read p

/-- A world for decrypting `a.txt.pcv` with the password `pw`: the file is the volume of the
encryption of an empty file with the one-byte comment `A`. -/
def sampleCommentA : World :=
  { g := { sampleDecrypt with comments := [65] },
    fs := [("a.txt.pcv", volumeHeader sampleEnv { sampleEncrypt with comments := [65] } 0 []
            ++ [])] }

/-- The world `sampleCommentA` with the comment `B` in place of `A`. -/
def sampleCommentB : World :=
  { g := { sampleDecrypt with comments := [66] },
    fs := [("a.txt.pcv", volumeHeader sampleEnv { sampleEncrypt with comments := [66] } 0 []
            ++ [])] }

/-! # Properties -/

/-! ## Reed-Solomon wrappers -/

theorem bind_ok {α β : Type} (a : α) (f : α → Run β) :
    (Except.ok a >>= f : Run β) = f a := rfl

theorem getElem?_some_of_lt (c : List Nat) (m : Nat) (h : m < c.length) :
    ∃ x, c.get? m = some x := by
  cases hx : c.get? m with
  | none => rw [List.get?_eq_none] at hx; omega
  | some x => exact ⟨x, rfl⟩

theorem take_succ_zeros (c : List Nat) (n m : Nat) (hc : c.length = n) (hm : m < n) :
    (c.take m ++ zeros (n - m)).set m (c.getD m 0) = c.take (m + 1) ++ zeros (n - (m + 1)) := by
  obtain ⟨x, hx⟩ := getElem?_some_of_lt c m (by omega)
  apply List.ext_get?
  intro i
  simp only [List.get?_eq_getElem?] at hx ⊢
  simp only [zeros, List.getElem?_set, List.getElem?_append, List.getElem?_take,
    List.length_take, List.length_append, List.length_replicate, List.getElem?_replicate,
    List.getD_eq_getElem?_getD, hc]
  have h1 : min m n = m := by omega
  have h2 : min (m + 1) n = m + 1 := by omega
  rw [h1, h2]
  by_cases h : m = i
  · subst h
    have h3 : m < m + (n - m) := by omega
    simp [hx, h3]
  · by_cases h3 : i < m
    · have : i < m + 1 := by omega
      simp [h, h3, this]
    · have h4 : ¬ i < m + 1 := by omega
      simp only [h, h3, h4, if_false]
      by_cases h5 : i - m < n - m
      · have : i - (m + 1) < n - (m + 1) := by omega
        simp [h5, this]
      · have : ¬ i - (m + 1) < n - (m + 1) := by omega
        simp [h5, this]

theorem foldlM_putShare_range (n : Nat) (c : List Nat) (hc : c.length = n) :
    ∀ m, m ≤ n →
      ((List.range m).map (fun i => (⟨i, [c.getD i 0]⟩ : Share))).foldlM putShare (zeros n)
        = (Except.ok (c.take m ++ zeros (n - m)) : Run (List Nat)) := by
  intro m
  induction m with
  | zero => intro _; simp [zeros]; rfl
  | succ m ih =>
    intro hm
    rw [List.range_succ, List.map_append, List.foldlM_append, ih (by omega)]
    simp only [bind_ok, List.map_cons, List.map_nil, List.foldlM_cons, List.foldlM_nil]
    have hlen : m < (c.take m ++ zeros (n - m)).length := by
      simp [zeros, hc]; omega
    simp only [putShare, hlen, if_true, bind_ok, take_succ_zeros c n m hc (by omega)]
    rfl

theorem foldlM_putShare_sharesOf (n : Nat) (c : List Nat) (hc : c.length = n) :
    (sharesOf n c).foldlM putShare (zeros n) = (Except.ok c : Run (List Nat)) := by
  have h := foldlM_putShare_range n c hc n (le_refl n)
  simp only [Nat.sub_self, zeros, List.replicate_zero, List.append_nil] at h
  rw [← hc, List.take_length] at h
  rw [sharesOf]
  rw [← hc]
  exact h

theorem map_head_sharesOf (n : Nat) (c : List Nat) (hc : c.length = n) :
    (sharesOf n c).map (fun s => s.Data.headD 0) = c := by
  apply List.ext_get?
  intro i
  simp only [List.get?_eq_getElem?, sharesOf, List.map_map, List.getElem?_map]
  by_cases h : i < n
  · obtain ⟨x, hx⟩ := getElem?_some_of_lt c i (by omega)
    simp only [List.get?_eq_getElem?] at hx
    rw [List.getElem?_range h]
    simp [List.getD_eq_getElem?_getD, hx]
  · have h1 : (List.range n)[i]? = none := by
      rw [List.getElem?_eq_none_iff]; simp; omega
    have h2 : c.get? i = none := by
      rw [List.get?_eq_none]; omega
    simp only [List.get?_eq_getElem?] at h2
    rw [h1, h2]; rfl

/-- Under the library contract `rsEncode` returns the encoded block. -/
theorem rsEncode_lawful {k n : Nat} (rs : FEC k n) (h : rs.Lawful) (d : List Nat)
    (hd : d.length = k) :
    rsEncode rs d = Except.ok (codeword rs d) ∧ (codeword rs d).length = n ∧
      (codeword rs d).take k = d ∧ rs.Decode (sharesOf n (codeword rs d)) = some d := by
  obtain ⟨c, hc, hsys, henc⟩ := h.encode d hd
  have hcw : codeword rs d = c := by
    rw [codeword, henc]; exact map_head_sharesOf n c hc
  refine ⟨?_, ?_, ?_, ?_⟩
  · rw [rsEncode, hcw, henc]; exact foldlM_putShare_sharesOf n c hc
  · rw [hcw]; exact hc
  · rw [hcw]; exact hsys
  · rw [hcw, ← henc]; exact h.decode d hd

/-- Under the library contract `rsDecode` gives back what `rsEncode` encoded. -/
theorem rsDecode_codeword {k n : Nat} (rs : FEC k n) (h : rs.Lawful) (d : List Nat)
    (hd : d.length = k) : rsDecode rs false (codeword rs d) = Except.ok (d, false) := by
  obtain ⟨_, hlen, _, hdec⟩ := rsEncode_lawful rs h d hd
  have h1 : ¬ (codeword rs d).length < n := by omega
  simp [rsDecode, h1, hdec]
  rfl

theorem roundTrip_of_lawful {k n : Nat} (rs : FEC k n) (h : rs.Lawful) : RoundTrip rs := by
  intro d hd
  obtain ⟨henc, hlen, _, _⟩ := rsEncode_lawful rs h d hd
  exact ⟨codeword rs d, henc, hlen, rsDecode_codeword rs h d hd⟩

theorem length_sampleBlock (k n : Nat) (hkn : k ≤ n) (d : List Nat) (hd : d.length = k) :
    (sampleBlock k n d).length = n := by
  simp [sampleBlock, hd]; omega

theorem take_sampleBlock (k n : Nat) (d : List Nat) (hd : d.length = k) :
    (sampleBlock k n d).take k = d := by
  rw [sampleBlock, ← hd, List.take_left]

theorem sampleFEC_lawful (k n : Nat) (hkn : k ≤ n) : (sampleFEC k n).Lawful := by
  refine ⟨?_, ?_, ?_⟩
  · intro d hd
    exact ⟨sampleBlock k n d, length_sampleBlock k n hkn d hd, take_sampleBlock k n d hd,
      by simp [sampleFEC, hd]⟩
  · intro d hd
    have h1 : (sampleFEC k n).Encode d = sharesOf n (sampleBlock k n d) := by
      simp [sampleFEC, hd]
    rw [h1]
    simp only [sampleFEC]
    rw [map_head_sharesOf n _ (length_sampleBlock k n hkn d hd), take_sampleBlock k n d hd]
    simp
  · intro d s _ hs
    by_cases hd : d.length = k
    · have h1 : (sampleFEC k n).Encode d = sharesOf n (sampleBlock k n d) := by
        simp [sampleFEC, hd]
      rw [h1, sharesOf, List.mem_map] at hs
      obtain ⟨i, hi, rfl⟩ := hs
      exact ⟨List.mem_range.mp hi, by simp⟩
    · have h1 : (sampleFEC k n).Encode d = [] := by simp [sampleFEC, hd]
      rw [h1] at hs
      cases hs

theorem sampleCodecs_lawful : sampleCodecs.Lawful :=
  ⟨sampleFEC_lawful 1 3 (by omega), sampleFEC_lawful 5 15 (by omega),
   sampleFEC_lawful 16 48 (by omega), sampleFEC_lawful 24 72 (by omega),
   sampleFEC_lawful 32 96 (by omega), sampleFEC_lawful 64 192 (by omega),
   sampleFEC_lawful 128 136 (by omega)⟩

/-- C2 (Reed-Solomon round trip).  For each of the seven codes (1,3), (5,15), (16,48),
(24,72), (32,96), (64,192), (128,136), whose codec meets the library contract, and every
`k`-byte block `d`: `rsEncode` returns exactly `n` bytes and `rsDecode` with `fastDecode` off
returns `d` from them with no error. -/
theorem rs_round_trip (cs : Codecs) (h : cs.Lawful) :
    RoundTrip cs.rs1 ∧ RoundTrip cs.rs5 ∧ RoundTrip cs.rs16 ∧ RoundTrip cs.rs24 ∧
      RoundTrip cs.rs32 ∧ RoundTrip cs.rs64 ∧ RoundTrip cs.rs128 :=
  ⟨roundTrip_of_lawful _ h.rs1, roundTrip_of_lawful _ h.rs5, roundTrip_of_lawful _ h.rs16,
   roundTrip_of_lawful _ h.rs24, roundTrip_of_lawful _ h.rs32, roundTrip_of_lawful _ h.rs64,
   roundTrip_of_lawful _ h.rs128⟩

/-- C2 at the sample codecs, which meet the contract. -/
theorem rs_round_trip_witness :
    sampleCodecs.Lawful ∧
      (RoundTrip sampleCodecs.rs1 ∧ RoundTrip sampleCodecs.rs5 ∧ RoundTrip sampleCodecs.rs16 ∧
        RoundTrip sampleCodecs.rs24 ∧ RoundTrip sampleCodecs.rs32 ∧ RoundTrip sampleCodecs.rs64 ∧
        RoundTrip sampleCodecs.rs128) :=
  ⟨sampleCodecs_lawful, rs_round_trip sampleCodecs sampleCodecs_lawful⟩

theorem foldlM_putShare_length (n : Nat) (shares : List Share)
    (hs : ∀ s ∈ shares, s.Number < n ∧ s.Data ≠ []) :
    ∀ res : List Nat, res.length = n →
      ∃ out : List Nat, shares.foldlM putShare res = (Except.ok out : Run (List Nat)) ∧
        out.length = n := by
  induction shares with
  | nil => intro res hres; exact ⟨res, rfl, hres⟩
  | cons s rest ih =>
    intro res hres
    obtain ⟨hnum, hdata⟩ := hs s (List.mem_cons_self s rest)
    rw [List.foldlM_cons]
    cases hd : s.Data with
    | nil => exact absurd hd hdata
    | cons b bs =>
      have hlt : s.Number < res.length := by omega
      simp only [putShare, hd, hlt, if_true, bind_ok]
      exact ih (fun t ht => hs t (List.mem_cons_of_mem s ht)) _ (by simp [hres])

/-- Under the library contract `rsEncode` returns `n` bytes for every non-empty input. -/
theorem rsEncode_length {k n : Nat} (rs : FEC k n) (h : rs.Lawful) (d : List Nat)
    (hd : d ≠ []) : ∃ c : List Nat, rsEncode rs d = Except.ok c ∧ c.length = n :=
  foldlM_putShare_length n (rs.Encode d) (fun s hs => h.shape d s hd hs) (zeros n)
    (by simp [zeros])

/-! ## Decimal text -/

theorem parseDigits_decimalAux (fuel : Nat) :
    ∀ (n : Nat) (acc : List Nat), n < fuel →
      parseDigits (decimalAux fuel n acc) 0 = parseDigits acc n := by
  induction fuel with
  | zero => intro n acc h; omega
  | succ fuel ih =>
    intro n acc h
    rw [decimalAux]
    by_cases h10 : n < 10
    · have h1 : 48 ≤ 48 + n ∧ 48 + n ≤ 57 := by omega
      simp only [h10, if_true, parseDigits, h1, and_self]
      congr 1
      omega
    · simp only [h10, if_false]
      rw [ih (n / 10) _ (by omega)]
      have h1 : 48 ≤ 48 + n % 10 ∧ 48 + n % 10 ≤ 57 := by omega
      simp only [parseDigits, h1, and_self, if_true]
      congr 1
      omega

/-- Reading back the decimal text of `n` gives `n`. -/
theorem parseDigits_decimal (n : Nat) : parseDigits (decimal n) 0 = some n := by
  rw [decimal, parseDigits_decimalAux (n + 1) n [] (by omega)]
  rfl

theorem decimal_injective : Function.Injective decimal := by
  intro a b h
  have h1 := parseDigits_decimal a
  rw [h, parseDigits_decimal b] at h1
  exact (Option.some.inj h1).symm

theorem decimalAux_digits (fuel : Nat) :
    ∀ (n : Nat) (acc : List Nat), (∀ x ∈ acc, 48 ≤ x ∧ x ≤ 57) →
      ∀ x ∈ decimalAux fuel n acc, 48 ≤ x ∧ x ≤ 57 := by
  induction fuel with
  | zero => intro n acc h x hx; exact h x hx
  | succ fuel ih =>
    intro n acc h x hx
    rw [decimalAux] at hx
    by_cases h10 : n < 10
    · simp only [h10, if_true, List.mem_cons] at hx
      rcases hx with rfl | hx
      · omega
      · exact h x hx
    · simp only [h10, if_false] at hx
      refine ih (n / 10) _ ?_ x hx
      intro y hy
      rcases List.mem_cons.mp hy with rfl | hy
      · omega
      · exact h y hy

theorem decimal_digits (n : Nat) : ∀ x : Nat, x ∈ decimal n → 48 ≤ x ∧ x ≤ 57 :=
  decimalAux_digits (n + 1) n [] (by intro x hx; cases hx)

theorem decimalAux_length_pos (fuel : Nat) (n : Nat) (acc : List Nat) :
    0 < (decimalAux (fuel + 1) n acc).length := by
  induction fuel generalizing n acc with
  | zero =>
    rw [decimalAux]
    by_cases h10 : n < 10
    · simp [h10]
    · simp [h10, decimalAux]
  | succ fuel ih =>
    rw [decimalAux]
    by_cases h10 : n < 10
    · simp [h10]
    · simp only [h10, if_false]
      exact ih _ _

theorem decimal_ne_nil (n : Nat) : decimal n ≠ [] := by
  intro h
  have := decimalAux_length_pos n n []
  rw [decimal] at h
  rw [h] at this
  simp at this

theorem decimalAux_length_le (fuel : Nat) :
    ∀ (e n : Nat) (acc : List Nat), 1 ≤ e → n < 10 ^ e →
      (decimalAux fuel n acc).length ≤ e + acc.length := by
  induction fuel with
  | zero => intro e n acc _ _; simp [decimalAux]
  | succ fuel ih =>
    intro e n acc he hn
    rw [decimalAux]
    by_cases h10 : n < 10
    · simp only [h10, if_true, List.length_cons]; omega
    · simp only [h10, if_false]
      have he2 : 2 ≤ e := by
        by_contra hlt
        have : e = 1 := by omega
        subst this
        simp at hn
        omega
      have hdiv : n / 10 < 10 ^ (e - 1) := by
        have hpow : 10 ^ e = 10 ^ (e - 1) * 10 := by
          rw [← pow_succ]; congr 1; omega
        rw [hpow] at hn
        exact Nat.div_lt_of_lt_mul (by rw [Nat.mul_comm]; exact hn)
      have := ih (e - 1) (n / 10) ((48 + n % 10) :: acc) (by omega) hdiv
      simp only [List.length_cons] at this
      omega

theorem fmt05d_length (n : Nat) (h : n ≤ 99999) : (fmt05d n).length = 5 := by
  have h1 := decimalAux_length_le (n + 1) 5 n [] (by omega) (by norm_num; omega)
  simp only [List.length_nil, Nat.add_zero] at h1
  have h2 : (decimal n).length ≤ 5 := h1
  simp only [fmt05d, List.length_append, List.length_replicate]
  omega

theorem fmt05d_ne_nil (n : Nat) : fmt05d n ≠ [] := by
  intro h
  have h1 : (fmt05d n).length = 0 := by rw [h]; rfl
  have h2 := decimalAux_length_pos n n []
  simp only [fmt05d, List.length_append, List.length_replicate] at h1
  rw [decimal] at h1
  omega

theorem parseDigits_zeros (m : Nat) (l : List Nat) :
    parseDigits (List.replicate m 48 ++ l) 0 = parseDigits l 0 := by
  induction m with
  | zero => rfl
  | succ m ih =>
    rw [List.replicate_succ, List.cons_append, parseDigits]
    simp [ih]

theorem fmt05d_digits (n : Nat) : ∀ x : Nat, x ∈ fmt05d n → 48 ≤ x ∧ x ≤ 57 := by
  intro x hx
  rw [fmt05d, List.mem_append] at hx
  rcases hx with hx | hx
  · have h1 : x = 48 := (List.mem_replicate.mp hx).2
    omega
  · exact decimal_digits n x hx

/-- Parsing the length field written by encrypt gives back the comment length. -/
theorem atoi_fmt05d (n : Nat) (h : n ≤ 99999) : atoi (fmt05d n) = ((n : Int), false) := by
  have hp : parseDigits (fmt05d n) 0 = some n := by
    rw [fmt05d, parseDigits_zeros, parseDigits_decimal]
  have hd := fmt05d_digits n
  cases hf : fmt05d n with
  | nil => exact absurd hf (fmt05d_ne_nil n)
  | cons c rest =>
    rw [hf] at hp hd
    have hc : 48 ≤ c ∧ c ≤ 57 := hd c (List.mem_cons_self c rest)
    have h45 : ¬ c = 45 := by omega
    have h43 : ¬ c = 43 := by omega
    have h1 : ¬ ((n : Int) < -(2 : Int) ^ 63) := by omega
    have h2 : ¬ ((2 : Int) ^ 63 - 1 < (n : Int)) := by omega
    simp only [atoi, h45, h43, or_self, if_false, hp, h1, h2]

/-! ## Header -/

theorem pure_eq_ok {α : Type} (a : α) : (pure a : Run α) = Except.ok a := rfl

theorem length_randRead (r : Nat → Nat) (n : Nat) : (randRead r n).length = n := by
  simp [randRead]

theorem length_zeros (n : Nat) : (zeros n).length = n := by
  simp [zeros]

theorem encodeComments_ok (rs1 : FEC 1 3) (h : rs1.Lawful) (comments : List Nat) :
    encodeComments rs1 comments = Except.ok (commentField rs1 comments) ∧
      (commentField rs1 comments).length = 3 * comments.length := by
  induction comments with
  | nil => exact ⟨rfl, rfl⟩
  | cons b bs ih =>
    obtain ⟨henc, hlen, _, _⟩ := rsEncode_lawful rs1 h [b] rfl
    refine ⟨?_, ?_⟩
    · rw [encodeComments, henc, bind_ok, ih.1, bind_ok]
      rfl
    · have : commentField rs1 (b :: bs) = codeword rs1 [b] ++ commentField rs1 bs := by
        simp [commentField]
      rw [this, List.length_append, hlen, ih.2, List.length_cons]
      omega

/-- The bytes written by the header phase of encrypt: eight encoded fields and three
placeholders; the length field has 15 bytes whatever the comment length. -/
theorem writeHeader_ok (env : Env) (h : env.cs.Lawful) (g : Globals) (total : Nat) :
    ∃ cl : List Nat, cl.length = 15 ∧
      (g.comments.length ≤ 99999 → cl = codeword env.cs.rs5 (fmt05d g.comments.length)) ∧
      writeHeader env g total
        = Except.ok ((headerFront env g total cl ++ placeholders).flatten) := by
  obtain ⟨cl, hcl, hcllen⟩ := rsEncode_length env.cs.rs5 h.rs5 (fmt05d g.comments.length)
    (fmt05d_ne_nil _)
  refine ⟨cl, hcllen, ?_, ?_⟩
  · intro hC
    have := (rsEncode_lawful env.cs.rs5 h.rs5 _ (fmt05d_length _ hC)).1
    rw [hcl] at this
    exact Except.ok.inj this
  · have hv := (rsEncode_lawful env.cs.rs5 h.rs5 version rfl).1
    have hfl := (rsEncode_lawful env.cs.rs5 h.rs5 (headerFlags g total) rfl).1
    have hs := (rsEncode_lawful env.cs.rs16 h.rs16 (genNonces env.rnd).salt
      (length_randRead _ _)).1
    have hhs := (rsEncode_lawful env.cs.rs32 h.rs32 (genNonces env.rnd).hkdfSalt
      (length_randRead _ _)).1
    have hss := (rsEncode_lawful env.cs.rs16 h.rs16 (genNonces env.rnd).serpentSalt
      (length_randRead _ _)).1
    have hno := (rsEncode_lawful env.cs.rs24 h.rs24 (genNonces env.rnd).nonce
      (length_randRead _ _)).1
    have hcm := (encodeComments_ok env.cs.rs1 h.rs1 g.comments).1
    simp only [writeHeader, hv, hcl, hcm, hfl, hs, hhs, hss, hno, bind_ok, pure_eq_ok,
      headerFront, placeholders, List.cons_append, List.nil_append, List.flatten_cons,
      List.flatten_nil, List.append_nil, List.append_assoc]

/-- The sizes of the eleven header fields as written. -/
theorem header_field_sizes (env : Env) (h : env.cs.Lawful) (g : Globals) (total : Nat)
    (cl : List Nat) (hcl : cl.length = 15) :
    (headerFront env g total cl ++ placeholders).map List.length
      = [15, 15, 3 * g.comments.length, 15, 48, 96, 48, 72, 192, 96, 192] := by
  have hv := (rsEncode_lawful env.cs.rs5 h.rs5 version rfl).2.1
  have hfl := (rsEncode_lawful env.cs.rs5 h.rs5 (headerFlags g total) rfl).2.1
  have hs := (rsEncode_lawful env.cs.rs16 h.rs16 (genNonces env.rnd).salt
    (length_randRead _ _)).2.1
  have hhs := (rsEncode_lawful env.cs.rs32 h.rs32 (genNonces env.rnd).hkdfSalt
    (length_randRead _ _)).2.1
  have hss := (rsEncode_lawful env.cs.rs16 h.rs16 (genNonces env.rnd).serpentSalt
    (length_randRead _ _)).2.1
  have hno := (rsEncode_lawful env.cs.rs24 h.rs24 (genNonces env.rnd).nonce
    (length_randRead _ _)).2.1
  have hcm := (encodeComments_ok env.cs.rs1 h.rs1 g.comments).2
  simp only [headerFront, placeholders, List.cons_append, List.nil_append, List.map_cons,
    List.map_nil, hv, hcl, hcm, hfl, hs, hhs, hss, hno, length_zeros]

theorem length_headerFront (env : Env) (h : env.cs.Lawful) (g : Globals) (total : Nat)
    (cl : List Nat) (hcl : cl.length = 15) :
    (headerFront env g total cl).flatten.length = 309 + 3 * g.comments.length := by
  have hsz := header_field_sizes env h g total cl hcl
  simp only [List.map_append, placeholders, List.map_cons, List.map_nil] at hsz
  have h8 : (headerFront env g total cl).map List.length
      = [15, 15, 3 * g.comments.length, 15, 48, 96, 48, 72] := by
    have hlen : (headerFront env g total cl).length = 8 := rfl
    have := congrArg (List.take 8) hsz
    rw [List.take_left' (by simp [hlen])] at this
    simpa using this
  rw [List.length_flatten, h8]
  simp only [List.sum_cons, List.sum_nil]
  omega

theorem writeAt_mid (A Z B b : List Nat) (off : Nat) (ho : off = A.length)
    (hb : b.length = Z.length) : writeAt (A ++ (Z ++ B)) off b = A ++ (b ++ B) := by
  subst ho
  have h1 : (A ++ (Z ++ B)).take A.length = A := List.take_left _ _
  have h2 : A.length - (A ++ (Z ++ B)).length = 0 := by simp
  have h3 : (A ++ (Z ++ B)).drop (A.length + b.length) = B := by
    rw [← List.drop_drop, List.drop_left, hb, List.drop_left]
  rw [writeAt, h1, h2, h3]
  simp [zeros]

/-- The finalization replaces the three placeholders and nothing else. -/
theorem patchHeader_ok (cs : Codecs) (h : cs.Lawful) (C : Nat) (kh kfh tag : List Nat)
    (hkh : kh.length = 64) (hkfh : kfh.length = 32) (htag : tag.length = 64)
    (front body : List Nat) (hfront : front.length = 309 + 3 * C) :
    patchHeader cs C kh kfh tag (front ++ (placeholders.flatten ++ body))
      = Except.ok (front ++ ((verifierFields cs kh kfh tag).flatten ++ body)) := by
  obtain ⟨e1, l1, _, _⟩ := rsEncode_lawful cs.rs64 h.rs64 kh hkh
  obtain ⟨e2, l2, _, _⟩ := rsEncode_lawful cs.rs32 h.rs32 kfh hkfh
  obtain ⟨e3, l3, _, _⟩ := rsEncode_lawful cs.rs64 h.rs64 tag htag
  simp only [patchHeader, e1, e2, e3, bind_ok, pure_eq_ok, l1, l2, placeholders,
    verifierFields, List.flatten_cons, List.flatten_nil, List.append_nil, List.append_assoc]
  rw [writeAt_mid front (zeros 192) _ _ _ (by omega) (by rw [l1, length_zeros])]
  have a2 := writeAt_mid (front ++ codeword cs.rs64 kh) (zeros 96) (zeros 192 ++ body)
    (codeword cs.rs32 kfh) (309 + C * 3 + 192) (by simp [l1, hfront]; omega)
    (by rw [l2, length_zeros])
  simp only [List.append_assoc] at a2
  rw [a2]
  have a3 := writeAt_mid (front ++ (codeword cs.rs64 kh ++ codeword cs.rs32 kfh)) (zeros 192)
    body (codeword cs.rs64 tag) (309 + C * 3 + 192 + 96) (by simp [l1, l2, hfront]; omega)
    (by rw [l3, length_zeros])
  simp only [List.append_assoc] at a3
  rw [a3]

theorem readBuf_append (n : Nat) (A B : List Nat) (hA : A.length = n) :
    readBuf n (A ++ B) = (A, B) := by
  subst hA
  simp [readBuf, zeros]

/-- Whatever `fastDecode`, `rsDecode` gives back what `rsEncode` encoded (for a code of
total 136 the data size is 128). -/
theorem rsDecode_codeword_any {k n : Nat} (rs : FEC k n) (h : rs.Lawful) (hk : n = 136 → k = 128)
    (fd : Bool) (d : List Nat) (hd : d.length = k) :
    rsDecode rs fd (codeword rs d) = Except.ok (d, false) := by
  obtain ⟨_, hlen, htake, hdec⟩ := rsEncode_lawful rs h d hd
  by_cases hfast : n = 136 ∧ fd = true
  · have hk128 := hk hfast.1
    have hle : 128 ≤ (codeword rs d).length := by omega
    have htake1 : (codeword rs d).take 128 = d :=
      (congrArg (fun m => List.take m (codeword rs d)) hk128.symm).trans htake
    simp only [rsDecode, hfast, and_self, if_true, sliceTo, hle, pure_eq_ok, bind_ok, htake1]
  · have h1 : ¬ (codeword rs d).length < n := by omega
    simp only [rsDecode, hfast, if_false, h1, hdec]
    rfl

/-- The decrypt parser applied to a volume whose header was written by encrypt (comment of
at most 99999 bytes) returns every field as written and leaves the body unread. -/
theorem readHeader_volume (env : Env) (h : env.cs.Lawful) (g : Globals) (total : Nat)
    (hC : g.comments.length ≤ 99999) (kh kfh tag : List Nat)
    (hkh : kh.length = 64) (hkfh : kfh.length = 32) (htag : tag.length = 64)
    (body : List Nat) (fd : Bool) :
    readHeader env fd
        ((headerFront env g total (codeword env.cs.rs5 (fmt05d g.comments.length))
            ++ verifierFields env.cs kh kfh tag).flatten ++ body)
      = Except.ok
          ({ commentsLength := (g.comments.length : Int), flags := headerFlags g total,
             salt := (genNonces env.rnd).salt, hkdfSalt := (genNonces env.rnd).hkdfSalt,
             serpentSalt := (genNonces env.rnd).serpentSalt, nonce := (genNonces env.rnd).nonce,
             keyHashRef := kh, keyfileHashRef := kfh, authTag := tag,
             errs := [false, false, false, false, false, false, false, false, false, false] },
           body) := by
  have n5 : (15 : Nat) = 136 → (5 : Nat) = 128 := by omega
  have n16 : (48 : Nat) = 136 → (16 : Nat) = 128 := by omega
  have n24 : (72 : Nat) = 136 → (24 : Nat) = 128 := by omega
  have n32 : (96 : Nat) = 136 → (32 : Nat) = 128 := by omega
  have n64 : (192 : Nat) = 136 → (64 : Nat) = 128 := by omega
  have lv := (rsEncode_lawful env.cs.rs5 h.rs5 version rfl).2.1
  have lcl := (rsEncode_lawful env.cs.rs5 h.rs5 _ (fmt05d_length _ hC)).2.1
  have lfl := (rsEncode_lawful env.cs.rs5 h.rs5 (headerFlags g total) rfl).2.1
  have ls := (rsEncode_lawful env.cs.rs16 h.rs16 (genNonces env.rnd).salt
    (length_randRead _ _)).2.1
  have lhs := (rsEncode_lawful env.cs.rs32 h.rs32 (genNonces env.rnd).hkdfSalt
    (length_randRead _ _)).2.1
  have lss := (rsEncode_lawful env.cs.rs16 h.rs16 (genNonces env.rnd).serpentSalt
    (length_randRead _ _)).2.1
  have lno := (rsEncode_lawful env.cs.rs24 h.rs24 (genNonces env.rnd).nonce
    (length_randRead _ _)).2.1
  have lcm : (commentField env.cs.rs1 g.comments).length
      = ((g.comments.length : Int)).toNat * 3 := by
    rw [(encodeComments_ok env.cs.rs1 h.rs1 g.comments).2, Int.toNat_ofNat]; omega
  have lkh := (rsEncode_lawful env.cs.rs64 h.rs64 kh hkh).2.1
  have lkfh := (rsEncode_lawful env.cs.rs32 h.rs32 kfh hkfh).2.1
  have ltag := (rsEncode_lawful env.cs.rs64 h.rs64 tag htag).2.1
  have dv := rsDecode_codeword_any env.cs.rs5 h.rs5 n5 fd version rfl
  have dcl := rsDecode_codeword_any env.cs.rs5 h.rs5 n5 fd _ (fmt05d_length _ hC)
  have dfl := rsDecode_codeword_any env.cs.rs5 h.rs5 n5 fd (headerFlags g total) rfl
  have ds := rsDecode_codeword_any env.cs.rs16 h.rs16 n16 fd (genNonces env.rnd).salt
    (length_randRead _ _)
  have dhs := rsDecode_codeword_any env.cs.rs32 h.rs32 n32 fd (genNonces env.rnd).hkdfSalt
    (length_randRead _ _)
  have dss := rsDecode_codeword_any env.cs.rs16 h.rs16 n16 fd (genNonces env.rnd).serpentSalt
    (length_randRead _ _)
  have dno := rsDecode_codeword_any env.cs.rs24 h.rs24 n24 fd (genNonces env.rnd).nonce
    (length_randRead _ _)
  have dkh := rsDecode_codeword_any env.cs.rs64 h.rs64 n64 fd kh hkh
  have dkfh := rsDecode_codeword_any env.cs.rs32 h.rs32 n32 fd kfh hkfh
  have dtag := rsDecode_codeword_any env.cs.rs64 h.rs64 n64 fd tag htag
  have hneg : ¬ ((g.comments.length : Int) < 0) := by omega
  simp only [readHeader, headerFront, verifierFields, List.cons_append, List.nil_append,
    List.flatten_cons, List.flatten_nil, List.append_nil, List.append_assoc,
    readBuf_append 15 _ _ lv, dv, bind_ok, readBuf_append 15 _ _ lcl, dcl, atoi_fmt05d _ hC,
    hneg, if_false, readBuf_append _ _ _ lcm, readBuf_append 15 _ _ lfl, dfl,
    readBuf_append 48 _ _ ls, ds, readBuf_append 96 _ _ lhs, dhs, readBuf_append 48 _ _ lss, dss,
    readBuf_append 72 _ _ lno, dno, readBuf_append 192 _ _ lkh, dkh,
    readBuf_append 96 _ _ lkfh, dkfh, readBuf_append 192 _ _ ltag, dtag, pure_eq_ok]

/-! ## Stream ciphers and padding -/

theorem MiB_val : MiB = 1048576 := rfl

theorem GiB_val : GiB = 1073741824 := rfl

theorem length_xorKeyStream (ks : Nat → Nat) (src : List Nat) :
    ∀ pos, (xorKeyStream ks pos src).length = src.length := by
  induction src with
  | nil => intro pos; rfl
  | cons b bs ih => intro pos; simp [xorKeyStream, ih]

/-- Applying the same key stream at the same position twice gives back the input. -/
theorem xorKeyStream_twice (ks : Nat → Nat) (src : List Nat) :
    ∀ pos, xorKeyStream ks pos (xorKeyStream ks pos src) = src := by
  induction src with
  | nil => intro pos; rfl
  | cons b bs ih =>
    intro pos
    simp only [xorKeyStream, ih]
    rw [Nat.xor_assoc, Nat.xor_self, Nat.xor_zero]

theorem length_pad (x : List Nat) (hx : x.length < 128) : (pad x).length = 128 := by
  simp only [pad, List.length_append, List.length_replicate, Nat.mod_eq_of_lt hx]
  omega

/-- Removing the padding that `pad` added to a block shorter than 128 bytes. -/
theorem unpad_pad (x : List Nat) (hx : x.length < 128) : unpad (pad x) = Except.ok x := by
  have hmod : x.length % 128 = x.length := Nat.mod_eq_of_lt hx
  have hget : (pad x).get? 127 = some (128 - x.length) := by
    simp only [pad, hmod, List.get?_eq_getElem?]
    rw [List.getElem?_append_right (by omega), List.getElem?_replicate]
    have : 127 - x.length < 128 - x.length := by omega
    simp [this]
  have hle : 128 - (128 - x.length) ≤ (pad x).length := by
    rw [length_pad x hx]; omega
  have htake : (pad x).take (128 - (128 - x.length)) = x := by
    have : 128 - (128 - x.length) = x.length := by omega
    rw [this, pad, List.take_left]
  have h128 : 128 - x.length ≤ 128 := by omega
  simp only [unpad, index, hget, bind_ok, pure_eq_ok, h128, if_true, sliceTo, hle, htake]

/-! ## Reed-Solomon framing of the body -/

theorem take_append_len (A B : List Nat) (n : Nat) (h : A.length = n) :
    (A ++ B).take n = A := by
  subst h; exact List.take_left _ _

theorem drop_append_len (A B : List Nat) (n : Nat) (h : A.length = n) :
    (A ++ B).drop n = B := by
  subst h; exact List.drop_left _ _

theorem rsEncodeChunks_ok (rs128 : FEC 128 136) (h : rs128.Lawful) :
    ∀ (count : Nat) (src : List Nat), count * 128 ≤ src.length →
      rsEncodeChunks rs128 count src = Except.ok (encChunks rs128 count src) ∧
        (encChunks rs128 count src).length = count * 136 := by
  intro count
  induction count with
  | zero => intro src _; exact ⟨rfl, rfl⟩
  | succ c ih =>
    intro src hlen
    have htake : (src.take 128).length = 128 := by
      rw [List.length_take]; omega
    obtain ⟨henc, hl, _, _⟩ := rsEncode_lawful rs128 h (src.take 128) htake
    obtain ⟨h1, h2⟩ := ih (src.drop 128) (by rw [List.length_drop]; omega)
    refine ⟨?_, ?_⟩
    · rw [rsEncodeChunks, henc, bind_ok, h1, bind_ok]; rfl
    · rw [encChunks, List.length_append, hl, h2]; omega

theorem encChunks_succ_right (rs128 : FEC 128 136) :
    ∀ (count : Nat) (src : List Nat),
      encChunks rs128 (count + 1) src
        = encChunks rs128 count src ++ codeword rs128 ((src.drop (count * 128)).take 128) := by
  intro count
  induction count with
  | zero => intro src; simp [encChunks]
  | succ c ih =>
    intro src
    rw [encChunks, ih (src.drop 128), encChunks, List.append_assoc, List.drop_drop]
    have : 128 + c * 128 = (c + 1) * 128 := by omega
    rw [this]

theorem rsDecodeChunks_encChunks (rs128 : FEC 128 136) (h : rs128.Lawful) (fd keep : Bool) :
    ∀ (count : Nat) (src tail : List Nat) (kept : Bool), count * 128 ≤ src.length →
      rsDecodeChunks rs128 fd keep count (encChunks rs128 count src ++ tail) kept
        = Except.ok (Flow.go (src.take (count * 128), kept)) := by
  intro count
  induction count with
  | zero => intro src tail kept _; simp [rsDecodeChunks, pure_eq_ok]
  | succ c ih =>
    intro src tail kept hlen
    have htake : (src.take 128).length = 128 := by
      rw [List.length_take]; omega
    obtain ⟨_, hl, _, _⟩ := rsEncode_lawful rs128 h (src.take 128) htake
    have hdec := rsDecode_codeword_any rs128 h (fun _ => rfl) fd (src.take 128) htake
    have e1 : (encChunks rs128 (c + 1) src ++ tail).take 136 = codeword rs128 (src.take 128) := by
      rw [encChunks, List.append_assoc, take_append_len _ _ 136 hl]
    have e2 : (encChunks rs128 (c + 1) src ++ tail).drop 136
        = encChunks rs128 c (src.drop 128) ++ tail := by
      rw [encChunks, List.append_assoc, drop_append_len _ _ 136 hl]
    have hrest := ih (src.drop 128) tail kept (by rw [List.length_drop]; omega)
    have hcat : src.take 128 ++ (src.drop 128).take (c * 128) = src.take ((c + 1) * 128) := by
      have : (c + 1) * 128 = 128 + c * 128 := by omega
      rw [this, List.take_add]
    rw [rsDecodeChunks, e1, hdec, bind_ok]
    simp only [Bool.false_eq_true, false_and, if_false, e2, Bool.or_false, hrest, bind_ok,
      pure_eq_ok, hcat]

theorem rsEncodeUnit_ok (rs128 : FEC 128 136) (h : rs128.Lawful) (src : List Nat) :
    rsEncodeUnit rs128 src = Except.ok (encUnit rs128 src) ∧
      (encUnit rs128 src).length
        = if src.length = MiB then MiB / 128 * 136 else (src.length / 128 + 1) * 136 := by
  by_cases hfull : src.length = MiB
  · obtain ⟨h1, h2⟩ := rsEncodeChunks_ok rs128 h (MiB / 128) src (by rw [hfull, MiB_val])
    simp only [rsEncodeUnit, encUnit, hfull, if_true, h1, h2, and_self]
  · have hq : src.length / 128 * 128 ≤ src.length := Nat.div_mul_le_self _ _
    obtain ⟨h1, h2⟩ := rsEncodeChunks_ok rs128 h (src.length / 128) src hq
    have hdrop : (src.drop (src.length / 128 * 128)).length < 128 := by
      rw [List.length_drop]; omega
    obtain ⟨h3, h4, _, _⟩ := rsEncode_lawful rs128 h _ (length_pad _ hdrop)
    refine ⟨?_, ?_⟩
    · simp only [rsEncodeUnit, encUnit, hfull, if_false, h1, bind_ok, h3, pure_eq_ok]
    · simp only [encUnit, hfull, if_false, List.length_append, h2, h4]
      omega

theorem rsDecodeLast_plain (rs128 : FEC 128 136) (h : rs128.Lawful) (fd keep : Bool)
    (d : List Nat) (hd : d.length = 128) (kept : Bool) :
    rsDecodeLast rs128 fd keep false (codeword rs128 d) kept
      = Except.ok (Flow.go (d, kept)) := by
  have hdec := rsDecode_codeword_any rs128 h (fun _ => rfl) fd d hd
  simp only [rsDecodeLast, hdec, bind_ok, Bool.false_eq_true, false_and, if_false,
    Bool.or_false, pure_eq_ok]

theorem rsDecodeLast_padded (rs128 : FEC 128 136) (h : rs128.Lawful) (fd keep : Bool)
    (x : List Nat) (hx : x.length < 128) (kept : Bool) :
    rsDecodeLast rs128 fd keep true (codeword rs128 (pad x)) kept
      = Except.ok (Flow.go (x, kept)) := by
  have hdec := rsDecode_codeword_any rs128 h (fun _ => rfl) fd (pad x) (length_pad x hx)
  simp only [rsDecodeLast, hdec, bind_ok, Bool.false_eq_true, false_and, if_false, if_true,
    unpad_pad x hx, Bool.or_false, pure_eq_ok]

/-- Decoding the Reed-Solomon form of a unit gives back the unit, when the last sub-chunk
is unpadded exactly if the unit was shorter than 1 MiB. -/
theorem rsDecodeUnit_encUnit (rs128 : FEC 128 136) (h : rs128.Lawful) (p : Params) (done : Nat)
    (src : List Nat) (kept : Bool) (hlen : src.length ≤ MiB)
    (hfull : src.length = MiB →
      (decide (p.total ≤ ((done + MiB / 128 * 136 : Nat) : Int)) && p.padded) = false)
    (hpad : src.length < MiB → MiB - 128 ≤ src.length →
      (decide (p.total ≤ ((done + MiB / 128 * 136 : Nat) : Int)) && p.padded) = true) :
    rsDecodeUnit rs128 p done (encUnit rs128 src) kept = Except.ok (Flow.go (src, kept)) := by
  have hU := (rsEncodeUnit_ok rs128 h src).2
  have hM1 : MiB / 128 - 1 = 8191 := rfl
  have hM2 : MiB / 128 * 136 = 1114112 := rfl
  rw [MiB_val] at hlen
  by_cases hf : src.length = MiB
  · have hunpad := hfull hf
    have hf1 : src.length = 1048576 := hf
    simp only [hf, if_true] at hU
    have hsplit : encUnit rs128 src
        = encChunks rs128 8191 src ++ codeword rs128 ((src.drop (8191 * 128)).take 128) := by
      simp only [encUnit, hf, if_true]
      exact encChunks_succ_right rs128 8191 src
    have hfrontlen := (rsEncodeChunks_ok rs128 h 8191 src (by omega)).2
    have hlast : ((src.drop (8191 * 128)).take 128).length = 128 := by
      rw [List.length_take, List.length_drop]; omega
    have hcw := (rsEncode_lawful rs128 h _ hlast).2.1
    have hfront := rsDecodeChunks_encChunks rs128 h p.fastDecode p.keep 8191 src
      (codeword rs128 ((src.drop (8191 * 128)).take 128)) kept (by omega)
    have hdata : ((encChunks rs128 8191 src
        ++ codeword rs128 ((src.drop (8191 * 128)).take 128)).drop (8191 * 136)).take 136
          = codeword rs128 ((src.drop (8191 * 128)).take 128) := by
      rw [drop_append_len _ _ _ hfrontlen]
      exact List.take_of_length_le (by omega)
    have hcat : src.take (8191 * 128) ++ (src.drop (8191 * 128)).take 128 = src := by
      rw [← List.take_add]
      exact List.take_of_length_le (by omega)
    rw [rsDecodeUnit, if_pos hU]
    simp only [hM1]
    rw [hsplit, hfront, bind_ok]
    simp only []
    rw [hunpad, hdata, rsDecodeLast_plain rs128 h _ _ _ hlast, bind_ok]
    simp only [pure_eq_ok, hcat]
  · have hlt : src.length < 1048576 := by
      rw [MiB_val] at hf; omega
    simp only [hf, if_false] at hU
    have hq : src.length / 128 * 128 ≤ src.length := Nat.div_mul_le_self _ _
    have hdrop : (src.drop (src.length / 128 * 128)).length < 128 := by
      rw [List.length_drop]; omega
    have hfrontlen := (rsEncodeChunks_ok rs128 h (src.length / 128) src hq).2
    have hfront := rsDecodeChunks_encChunks rs128 h p.fastDecode p.keep (src.length / 128) src
      (codeword rs128 (pad (src.drop (src.length / 128 * 128)))) kept hq
    have hsplit : encUnit rs128 src = encChunks rs128 (src.length / 128) src
        ++ codeword rs128 (pad (src.drop (src.length / 128 * 128))) := by
      simp only [encUnit, hf, if_false]
    have hcat : src.take (src.length / 128 * 128) ++ src.drop (src.length / 128 * 128) = src :=
      List.take_append_drop _ _
    have hcw := (rsEncode_lawful rs128 h _ (length_pad _ hdrop)).2.1
    by_cases hp : MiB - 128 ≤ src.length
    · have hunpad := hpad (by rw [MiB_val]; exact hlt) hp
      rw [MiB_val] at hp
      have hq8 : src.length / 128 = 8191 := by omega
      have hUlen : (encUnit rs128 src).length = MiB / 128 * 136 := by
        rw [hU, hq8]; rfl
      rw [hq8] at hfront hfrontlen hsplit hcat
      have hdata : ((encChunks rs128 8191 src
          ++ codeword rs128 (pad (src.drop (8191 * 128)))).drop (8191 * 136)).take 136
            = codeword rs128 (pad (src.drop (8191 * 128))) := by
        rw [drop_append_len _ _ _ hfrontlen]
        exact List.take_of_length_le (by rw [hq8] at hcw; omega)
      rw [hq8] at hdrop
      rw [rsDecodeUnit, if_pos hUlen]
      simp only [hM1]
      rw [hsplit, hfront, bind_ok]
      simp only []
      rw [hunpad, hdata, rsDecodeLast_padded rs128 h _ _ _ hdrop, bind_ok]
      simp only [pure_eq_ok, hcat]
    · rw [MiB_val] at hp
      have hUlen : ¬ (encUnit rs128 src).length = MiB / 128 * 136 := by
        rw [hU, hM2]; omega
      have hU136 : ¬ (encUnit rs128 src).length < 136 := by
        rw [hU]; omega
      have hchunks : (encUnit rs128 src).length / 136 - 1 = src.length / 128 := by
        rw [hU]; omega
      rw [rsDecodeUnit, if_neg hUlen, if_neg hU136]
      simp only [hchunks]
      rw [hsplit, hfront, bind_ok]
      simp only []
      rw [drop_append_len _ _ _ hfrontlen, rsDecodeLast_padded rs128 h _ _ _ hdrop, bind_ok]
      simp only [pure_eq_ok, hcat]

/-! ## The body loop -/

theorem length_cipherUnit (env : Env) (p : Params) (st : Stream) (src : List Nat) :
    (cipherUnit env p st src).length = src.length := by
  rw [cipherUnit, length_xorKeyStream]
  split
  · rw [length_xorKeyStream]
  · rfl

theorem processUnit_encrypt (env : Env) (h : env.cs.rs128.Lawful) (p : Params)
    (he : p.encrypt = true) (st : Stream) (src : List Nat) (hlen : src.length ≤ MiB) :
    processUnit env p st src
      = Except.ok (Flow.go (advance p st src.length (cipherUnit env p st src)
          (diskUnit env p st src))) := by
  have hc : (cipherUnit env p st src).length ≤ MiB := by
    rw [length_cipherUnit]; exact hlen
  have hrs := (rsEncodeUnit_ok env.cs.rs128 h (cipherUnit env p st src)).1
  by_cases hr : p.reedsolo = true
  · simp only [processUnit, he, if_true, hr, diskUnit, advance]
    have : rsEncodeUnit env.cs.rs128
        (xorKeyStream (env.c.chacha p.key st.nonce) st.chachaPos
          (if p.paranoid = true then
            xorKeyStream (env.c.serpent p.serpentKey st.serpentSalt) st.serpentPos src
          else src)) = Except.ok (encUnit env.cs.rs128 (cipherUnit env p st src)) := hrs
    rw [this, bind_ok]
    rfl
  · have hr1 : p.reedsolo = false := by
      cases hp : p.reedsolo with
      | true => exact absurd hp hr
      | false => rfl
    simp only [processUnit, he, if_true, hr1, diskUnit, advance, Bool.false_eq_true, if_false,
      pure_eq_ok, bind_ok]
    rfl

theorem processUnit_decrypt (env : Env) (h : env.cs.rs128.Lawful) (pe pd : Params)
    (hp : Paired pe pd) (stE stD : Stream) (hs : Sync stE stD) (src : List Nat)
    (hlen : src.length ≤ MiB)
    (hfull : pe.reedsolo = true → src.length = MiB →
      (decide (pd.total ≤ ((stD.done + MiB / 128 * 136 : Nat) : Int)) && pd.padded) = false)
    (hpad : pe.reedsolo = true → src.length < MiB → MiB - 128 ≤ src.length →
      (decide (pd.total ≤ ((stD.done + MiB / 128 * 136 : Nat) : Int)) && pd.padded) = true) :
    processUnit env pd stD (diskUnit env pe stE src)
      = Except.ok (Flow.go (advance pd stD src.length (cipherUnit env pe stE src) src)) := by
  obtain ⟨_, hd, hpar, hrs, hkey, hsk, _⟩ := hp
  obtain ⟨_, hn, hcp, hss, hsp, _, _⟩ := hs
  have hc : (cipherUnit env pe stE src).length ≤ MiB := by
    rw [length_cipherUnit]; exact hlen
  have hclen := length_cipherUnit env pe stE src
  have hplain : (if pd.paranoid = true then
        xorKeyStream (env.c.serpent pd.serpentKey stD.serpentSalt) stD.serpentPos
          (xorKeyStream (env.c.chacha pd.key stD.nonce) stD.chachaPos
            (cipherUnit env pe stE src))
      else xorKeyStream (env.c.chacha pd.key stD.nonce) stD.chachaPos
        (cipherUnit env pe stE src)) = src := by
    rw [hpar, hkey, hsk, ← hn, ← hcp, ← hss, ← hsp, cipherUnit, xorKeyStream_twice]
    by_cases hpp : pe.paranoid = true
    · simp only [hpp, if_true, xorKeyStream_twice]
    · simp only [hpp, if_false, Bool.false_eq_true]
  have hdstlen : (xorKeyStream (env.c.chacha pd.key stD.nonce) stD.chachaPos
      (cipherUnit env pe stE src)).length = src.length := by
    rw [length_xorKeyStream, hclen]
  by_cases hr : pe.reedsolo = true
  · have hdec := rsDecodeUnit_encUnit env.cs.rs128 h pd stD.done (cipherUnit env pe stE src)
      stD.kept hc (by rw [hclen]; exact hfull hr) (by rw [hclen]; exact hpad hr)
    have hr2 : pd.reedsolo = true := by rw [hrs]; exact hr
    simp only [processUnit, hd, Bool.false_eq_true, if_false, hr2, if_true, diskUnit, hr, hdec,
      bind_ok, pure_eq_ok, hplain, hdstlen, hclen, advance]
  · have hr1 : pe.reedsolo = false := by
      cases hq : pe.reedsolo with
      | true => exact absurd hq hr
      | false => rfl
    have hr2 : pd.reedsolo = false := by rw [hrs]; exact hr1
    simp only [processUnit, hd, Bool.false_eq_true, if_false, hr2, diskUnit, hr1,
      bind_ok, pure_eq_ok, hplain, hdstlen, hclen, advance]

theorem sync_nextUnit (pe pd : Params) (hp : Paired pe pd) (a b : Stream) (n : Nat)
    (m oa ob : List Nat) (hs : Sync a b) :
    Sync (nextUnit pe (advance pe a n m oa)) (nextUnit pd (advance pd b n m ob)) := by
  obtain ⟨_, _, hpar, _, _, _, hhk⟩ := hp
  obtain ⟨h1, h2, h3, h4, h5, h6, h7⟩ := hs
  simp only [nextUnit, rekey, advance, h1, hhk, h6]
  by_cases hc : 60 * GiB ≤ b.counter + MiB
  · simp only [hc, if_true, Sync, h7, and_self]
  · simp only [hc, if_false, Sync, h2, h3, h4, h5, h6, h7, hpar, and_self]

theorem bodyLoop_nil (env : Env) (p : Params) (fuel : Nat) (st : Stream) :
    bodyLoop env p (fuel + 1) st [] = Except.ok (Flow.go st) := rfl

theorem bodyLoop_step (env : Env) (p : Params) (fuel : Nat) (st st1 : Stream) (rest : List Nat)
    (hne : rest ≠ [])
    (hu : processUnit env p st (rest.take (unitSize p)) = Except.ok (Flow.go st1)) :
    bodyLoop env p (fuel + 1) st rest
      = bodyLoop env p fuel (nextUnit p st1) (rest.drop (unitSize p)) := by
  cases rest with
  | nil => exact absurd rfl hne
  | cons a r =>
    rw [bodyLoop, hu]
    rfl

theorem unitSize_encrypt (p : Params) (he : p.encrypt = true) : unitSize p = MiB := by
  simp [unitSize, he]

theorem unitSize_decrypt (p : Params) (hd : p.encrypt = false) :
    unitSize p = if p.reedsolo then MiB / 128 * 136 else MiB := by
  by_cases hr : p.reedsolo = true
  · simp [unitSize, hd, hr]
  · simp [unitSize, hd, hr]

theorem length_diskUnit (env : Env) (h : env.cs.rs128.Lawful) (p : Params) (st : Stream)
    (src : List Nat) (hlen : src.length ≤ MiB) :
    (diskUnit env p st src).length
      = if p.reedsolo then
          (if src.length = MiB then MiB / 128 * 136 else (src.length / 128 + 1) * 136)
        else src.length := by
  have hc : (cipherUnit env p st src).length ≤ MiB := by
    rw [length_cipherUnit]; exact hlen
  by_cases hr : p.reedsolo = true
  · simp only [diskUnit, hr, if_true, (rsEncodeUnit_ok env.cs.rs128 h _).2,
      length_cipherUnit]
  · simp only [diskUnit, hr, if_false, length_cipherUnit, Bool.false_eq_true]

theorem bodyLen_full (r : Bool) (L : Nat) (hL : MiB ≤ L) :
    bodyLen r L = (if r then MiB / 128 * 136 else MiB) + bodyLen r (L - MiB) := by
  have hM2 : MiB / 128 * 136 = 1114112 := rfl
  rw [MiB_val] at hL
  cases r with
  | false => simp only [bodyLen, Bool.false_eq_true, if_false, MiB_val]; omega
  | true =>
    simp only [bodyLen, if_true, hM2, MiB_val]
    have h1 : L / 1048576 = (L - 1048576) / 1048576 + 1 := by omega
    have h2 : L % 1048576 = (L - 1048576) % 1048576 := by omega
    rw [h1, h2]
    omega

theorem bodyLen_short (r : Bool) (L : Nat) (hL : L < MiB) :
    bodyLen r L = if r then (if L = 0 then 0 else (L / 128 + 1) * 136) else L := by
  rw [MiB_val] at hL
  cases r with
  | false => simp only [bodyLen, Bool.false_eq_true, if_false]
  | true =>
    simp only [bodyLen, if_true, MiB_val]
    have h1 : L / 1048576 = 0 := by omega
    have h2 : L % 1048576 = L := by omega
    rw [h1, h2]
    omega

theorem nextUnit_done (p : Params) (st : Stream) :
    (nextUnit p st).done = st.done + unitSize p := by
  simp only [nextUnit, rekey]; split <;> rfl

theorem nextUnit_out (p : Params) (st : Stream) : (nextUnit p st).out = st.out := by
  simp only [nextUnit, rekey]; split <;> rfl

theorem nextUnit_kept (p : Params) (st : Stream) : (nextUnit p st).kept = st.kept := by
  simp only [nextUnit, rekey]; split <;> rfl

theorem nextUnit_macData (p : Params) (st : Stream) : (nextUnit p st).macData = st.macData := by
  simp only [nextUnit, rekey]; split <;> rfl

theorem bodyLen_zero (r : Bool) : bodyLen r 0 = 0 := by
  cases r <;> simp [bodyLen]

theorem bodyLen_pos (r : Bool) (L : Nat) (hL : 0 < L) : 0 < bodyLen r L := by
  cases r with
  | false => simpa [bodyLen] using hL
  | true =>
    simp only [bodyLen, if_true, MiB_val]
    by_cases hz : L % 1048576 = 0
    · have : 1 ≤ L / 1048576 := by omega
      have h2 : 1048576 / 128 * 136 = 1114112 := rfl
      rw [h2]
      simp only [hz, if_true]
      omega
    · simp only [hz, if_false]
      omega

/-- The body loops of encrypt and decrypt, run on the same plain text with the same keys:
encrypt ends normally, appends a body of the stated size, and decrypt run on that body ends
normally, appends exactly the plain text and has fed the same bytes to the MAC. -/
theorem bodyLoop_round_trip (env : Env) (h : env.cs.rs128.Lawful) (pe pd : Params)
    (hp : Paired pe pd) :
    ∀ (fuelE : Nat) (rest : List Nat) (stE stD : Stream), rest.length < fuelE → Sync stE stD →
      (rest ≠ [] → pd.total = ((stD.done + bodyLen pe.reedsolo rest.length : Nat) : Int)) →
      (rest ≠ [] → pd.padded = decide (MiB - 128 ≤ rest.length % MiB)) →
      ∃ (stE1 : Stream) (body : List Nat),
        bodyLoop env pe fuelE stE rest = Except.ok (Flow.go stE1) ∧
        stE1.out = stE.out ++ body ∧ body.length = bodyLen pe.reedsolo rest.length ∧
        stE1.kept = stE.kept ∧
        ∀ fuelD, body.length < fuelD →
          ∃ stD1 : Stream, bodyLoop env pd fuelD stD body = Except.ok (Flow.go stD1) ∧
            stD1.out = stD.out ++ rest ∧ stD1.macData = stE1.macData ∧
            stD1.kept = stD.kept := by
  intro fuelE
  induction fuelE with
  | zero => intro rest _ _ hlt; omega
  | succ f ih =>
    intro rest stE stD hlt hs htot hpadflag
    by_cases hne : rest = []
    · subst hne
      refine ⟨stE, [], rfl, by simp, by simp [bodyLen_zero], rfl, ?_⟩
      intro fuelD hfd
      cases fuelD with
      | zero => simp at hfd
      | succ g => exact ⟨stD, rfl, by simp, hs.2.2.2.2.2.2.symm, rfl⟩
    · have htot1 := htot hne
      have hpad1 := hpadflag hne
      have hMv : MiB = 1048576 := MiB_val
      have hpos : 0 < rest.length := List.length_pos.mpr hne
      have hM2 : MiB / 128 * 136 = 1114112 := rfl
      have hsrclen : (rest.take MiB).length = min MiB rest.length := List.length_take _ _
      have hsrc_le : (rest.take MiB).length ≤ MiB := by rw [hsrclen]; omega
      have hE := processUnit_encrypt env h pe hp.1 stE (rest.take MiB) hsrc_le
      have hstepE := bodyLoop_step env pe f stE _ rest hne
        (by rw [unitSize_encrypt pe hp.1]; exact hE)
      rw [unitSize_encrypt pe hp.1] at hstepE
      have hUlen := length_diskUnit env h pe stE (rest.take MiB) hsrc_le
      have hsync := sync_nextUnit pe pd hp stE stD (rest.take MiB).length
        (cipherUnit env pe stE (rest.take MiB)) (diskUnit env pe stE (rest.take MiB))
        (rest.take MiB) hs
      have huD := unitSize_decrypt pd hp.2.1
      rw [hp.2.2.2.1] at huD
      have hdroplen : (rest.drop MiB).length = rest.length - MiB := List.length_drop _ _
      obtain ⟨stE1, body1, hloop, hout, hblen, hkept, hdecr⟩ :=
        ih (rest.drop MiB) _ _ (by rw [hdroplen]; omega) hsync
          (by
            intro hne2
            have hgt : MiB < rest.length := by
              have := List.length_pos.mpr hne2
              rw [hdroplen] at this; omega
            rw [nextUnit_done, huD, hdroplen, htot1, bodyLen_full pe.reedsolo rest.length
              (by omega)]
            simp only [advance]
            push_cast
            omega)
          (by
            intro hne2
            have hgt : MiB < rest.length := by
              have := List.length_pos.mpr hne2
              rw [hdroplen] at this; omega
            rw [hpad1, hdroplen]
            have : rest.length % MiB = (rest.length - MiB) % MiB := by
              rw [hMv]; omega
            rw [this])
      refine ⟨stE1, diskUnit env pe stE (rest.take MiB) ++ body1, ?_, ?_, ?_, ?_, ?_⟩
      · rw [hstepE]; exact hloop
      · rw [hout, nextUnit_out]; simp only [advance, List.append_assoc]
      · rw [List.length_append, hblen, hUlen, hsrclen, hdroplen]
        by_cases hge : MiB ≤ rest.length
        · rw [bodyLen_full pe.reedsolo rest.length hge]
          have : min MiB rest.length = MiB := by omega
          simp only [this, if_true]
        · have hl : rest.length < MiB := by omega
          rw [bodyLen_short pe.reedsolo rest.length hl]
          have h1 : min MiB rest.length = rest.length := by omega
          have h2 : rest.length - MiB = 0 := by omega
          have h3 : ¬ rest.length = MiB := by omega
          have h4 : ¬ rest.length = 0 := by omega
          simp only [h1, h2, bodyLen_zero, h3, h4, if_false, Nat.add_zero]
      · rw [hkept, nextUnit_kept]; rfl
      · intro fuelD hfd
        have hUpos : 0 < (diskUnit env pe stE (rest.take MiB)).length := by
          rw [hUlen, hsrclen]
          by_cases hr : pe.reedsolo = true
          · simp only [hr, if_true]
            split <;> omega
          · have hr1 : pe.reedsolo = false := by simpa using hr
            simp only [hr1, Bool.false_eq_true, if_false]
            omega
        cases fuelD with
        | zero => simp at hfd
        | succ g =>
          have hbne : diskUnit env pe stE (rest.take MiB) ++ body1 ≠ [] := by
            intro hnil
            have := congrArg List.length hnil
            rw [List.length_append, List.length_nil] at this
            omega
          have hsplit : (diskUnit env pe stE (rest.take MiB) ++ body1).take (unitSize pd)
                = diskUnit env pe stE (rest.take MiB) ∧
              (diskUnit env pe stE (rest.take MiB) ++ body1).drop (unitSize pd) = body1 := by
            by_cases hge : MiB ≤ rest.length
            · have h1 : min MiB rest.length = MiB := by omega
              have hUeq : (diskUnit env pe stE (rest.take MiB)).length = unitSize pd := by
                rw [hUlen, hsrclen, h1, huD]
                simp only [if_true]
              exact ⟨take_append_len _ _ _ hUeq, drop_append_len _ _ _ hUeq⟩
            · have hl : rest.length < MiB := by omega
              have hb0 : body1 = [] := by
                apply List.eq_nil_of_length_eq_zero
                rw [hblen, hdroplen]
                have : rest.length - MiB = 0 := by omega
                rw [this, bodyLen_zero]
              have hUle : (diskUnit env pe stE (rest.take MiB)).length ≤ unitSize pd := by
                rw [hUlen, hsrclen, huD]
                have h1 : min MiB rest.length = rest.length := by omega
                rw [h1]
                by_cases hr : pe.reedsolo = true
                · simp only [hr, if_true]
                  split <;> omega
                · have hr1 : pe.reedsolo = false := by simpa using hr
                  simp only [hr1, Bool.false_eq_true, if_false]
                  omega
              subst hb0
              rw [List.append_nil]
              exact ⟨List.take_of_length_le hUle, List.drop_eq_nil_of_le hUle⟩
          have hD := processUnit_decrypt env h pe pd hp stE stD hs (rest.take MiB) hsrc_le
            (by
              intro hr hfull
              rw [hsrclen] at hfull
              have hge : MiB ≤ rest.length := by omega
              by_cases heq : rest.length = MiB
              · have : pd.padded = false := by
                  rw [hpad1, heq, Nat.mod_self]
                  simp [MiB_val]
                rw [this, Bool.and_false]
              · have hgt : MiB < rest.length := by omega
                have hbp := bodyLen_pos pe.reedsolo (rest.length - MiB) (by omega)
                have hbf := bodyLen_full pe.reedsolo rest.length hge
                rw [if_pos hr] at hbf
                have : ¬ (pd.total ≤ ((stD.done + MiB / 128 * 136 : Nat) : Int)) := by
                  rw [htot1, hbf]; push_cast; omega
                simp only [this, decide_False, Bool.false_and])
            (by
              intro hr hshort hbig
              rw [hsrclen] at hshort hbig
              have hl : rest.length < MiB := by omega
              have h1 : min MiB rest.length = rest.length := by omega
              rw [h1] at hbig
              have hbs := bodyLen_short pe.reedsolo rest.length hl
              have h4 : ¬ rest.length = 0 := by omega
              rw [if_pos hr, if_neg h4] at hbs
              have hq : rest.length / 128 = 8191 := by omega
              have hle : pd.total ≤ ((stD.done + MiB / 128 * 136 : Nat) : Int) := by
                rw [htot1, hbs, hq, hM2]
              have hpd : pd.padded = true := by
                rw [hpad1, Nat.mod_eq_of_lt hl]
                exact decide_eq_true hbig
              simp only [hle, decide_True, hpd, Bool.and_self])
          have hstepD := bodyLoop_step env pd g stD _ _ hbne (by rw [hsplit.1]; exact hD)
          rw [hsplit.2] at hstepD
          obtain ⟨stD1, hloopD, houtD, hmacD, hkeptD⟩ := hdecr g (by
            rw [List.length_append] at hfd; omega)
          refine ⟨stD1, by rw [hstepD]; exact hloopD, ?_, hmacD, ?_⟩
          · rw [houtD, nextUnit_out]
            simp only [advance, List.append_assoc, List.take_append_drop]
          · rw [hkeptD, nextUnit_kept]; rfl

/-! ## File system -/

theorem read_write_same (fs : FS) (p : String) (c : List Nat) :
    (fs.write p c).read p = some c := by
  simp [FS.write, FS.read, List.lookup]

theorem lookup_cons_ne (q a : String) (b : List Nat) (l : FS) (h : q ≠ a) :
    List.lookup q ((a, b) :: l) = List.lookup q l := by
  have hne : (q == a) = false := by
    rw [beq_eq_false_iff_ne]; exact h
  simp only [List.lookup, hne]

theorem lookup_cons_same (q : String) (b : List Nat) (l : FS) :
    List.lookup q ((q, b) :: l) = some b := by
  simp only [List.lookup, beq_self_eq_true]

theorem read_remove_same (fs : FS) (p : String) : (fs.remove p).read p = none := by
  induction fs with
  | nil => rfl
  | cons e rest ih =>
    obtain ⟨a, b⟩ := e
    simp only [FS.remove, FS.read] at ih ⊢
    by_cases he : a = p
    · rw [List.filter_cons_of_neg (by simp [he])]
      exact ih
    · rw [List.filter_cons_of_pos (by simp [he])]
      rw [lookup_cons_ne p a b _ (fun h => he h.symm)]
      exact ih

theorem read_remove_other (fs : FS) (p q : String) (h : q ≠ p) :
    (fs.remove p).read q = fs.read q := by
  induction fs with
  | nil => rfl
  | cons e rest ih =>
    obtain ⟨a, b⟩ := e
    simp only [FS.remove, FS.read] at ih ⊢
    by_cases he : a = p
    · rw [List.filter_cons_of_neg (by simp [he])]
      subst he
      rw [lookup_cons_ne q a b _ h]
      exact ih
    · rw [List.filter_cons_of_pos (by simp [he])]
      by_cases hq : q = a
      · subst hq
        rw [lookup_cons_same, lookup_cons_same]
      · rw [lookup_cons_ne q a b _ hq, lookup_cons_ne q a b _ hq]
        exact ih

theorem read_write_other (fs : FS) (p q : String) (c : List Nat) (h : q ≠ p) :
    (fs.write p c).read q = fs.read q := by
  have := read_remove_other fs p q h
  simp only [FS.read] at this
  simp only [FS.write, FS.read]
  rw [lookup_cons_ne q p c _ h]
  exact this

/-! ## Encrypt and decrypt through `work` -/

theorem keyfilePhase_none (c : Crypto) (fs : FS) (g : Globals) (hk : g.keyfiles = [])
    (hf : g.keyfile = false) : keyfilePhase c fs g = Except.ok (none, zeros 32) := by
  simp [keyfilePhase, hk, hf, pure_eq_ok]

theorem cipherKey_none (g : Globals) (key : List Nat) (kk : Option (List Nat))
    (hk : g.keyfiles = []) (hf : g.keyfile = false) : cipherKey g key kk = Except.ok key := by
  simp [cipherKey, hk, hf, pure_eq_ok]

theorem length_macSum (c : Crypto) (hc : c.Lawful) (paranoid : Bool) (k d : List Nat) :
    (macSum c paranoid k d).length = 64 := by
  cases paranoid with
  | true => exact hc.hmacSha3 k d
  | false => exact hc.blake2b k d

theorem finishPhase_plain (w : World) (hsplit : w.g.split = false)
    (hrec : w.g.recombine = false) (hdel : w.g.delete = false) (hkept : w.g.kept = false) :
    finishPhase w = Except.ok
      { g := { resetUI w.g with kept := false, mainStatus := "Completed.",
                                mainStatusColor := Color.GREEN },
        fs := w.fs } := by
  simp only [finishPhase, splitPhase, hsplit, hrec, hdel, hkept, Bool.false_eq_true, if_false,
    pure_eq_ok, bind_ok]

theorem paired_params (env : Env) (g : Globals) (total : Nat) (keep fd : Bool) :
    Paired (encParams env g total) (decParams env g total keep fd) :=
  ⟨rfl, rfl, rfl, rfl, rfl, rfl, rfl⟩

theorem sync_initStream (n s o1 o2 : List Nat) (k1 k2 : Bool) :
    Sync (initStream n s o1 k1) (initStream n s o2 k2) :=
  ⟨rfl, rfl, rfl, rfl, rfl, rfl, rfl⟩

/-- The encrypt branch of `work` without keyfiles ends normally; the output file is the
header with its verifier fields followed by a body of the expected size, and the decrypt
loop run on that body gives back the plain text and the same MAC input. -/
theorem encryptWork_ok (env : Env) (hcs : env.cs.Lawful) (hc : env.c.Lawful) (w : World)
    (P : List Nat) (hs : EncryptSetup w.g) (hC : w.g.comments.length ≤ 99999) :
    ∃ (mac body : List Nat),
      body.length = bodyLen w.g.reedsolo P.length ∧
      (∀ (keep fd k0 : Bool) (fuelD : Nat), body.length < fuelD →
        ∃ stD1 : Stream,
          bodyLoop env (decParams env w.g P.length keep fd) fuelD
            (initStream (genNonces env.rnd).nonce (genNonces env.rnd).serpentSalt [] k0) body
              = Except.ok (Flow.go stD1) ∧
          stD1.out = P ∧ stD1.macData = mac ∧ stD1.kept = k0) ∧
      encryptWork env w P = Except.ok
        { g := { resetUI w.g with kept := false, mainStatus := "Completed.",
                                  mainStatusColor := Color.GREEN },
          fs := w.fs.write w.g.outputFile (volumeHeader env w.g P.length mac ++ body) } := by
  obtain ⟨hmode, hrec, hkf, hkfile, hsplit, hdel, hkept, hio⟩ := hs
  obtain ⟨cl, _, hcl, hwh⟩ := writeHeader_ok env hcs w.g P.length
  have hcl1 := hcl hC
  subst hcl1
  have hfrontlen := length_headerFront env hcs w.g P.length _
    ((rsEncode_lawful env.cs.rs5 hcs.rs5 _ (fmt05d_length _ hC)).2.1)
  -- the encrypt loop
  obtain ⟨stE1, body, hloop, hout, hblen, hkeptE, _⟩ :=
    bodyLoop_round_trip env hcs.rs128 (encParams env w.g P.length)
      (decParams env w.g P.length false false) (paired_params env w.g P.length false false)
      (P.length + 1) P
      (initStream (genNonces env.rnd).nonce (genNonces env.rnd).serpentSalt
        ((headerFront env w.g P.length (codeword env.cs.rs5 (fmt05d w.g.comments.length))
          ++ placeholders).flatten) w.g.kept)
      (initStream (genNonces env.rnd).nonce (genNonces env.rnd).serpentSalt [] false)
      (by omega) (sync_initStream _ _ _ _ _ _)
      (by intro _; simp [decParams, initStream, encParams])
      (by intro _; rfl)
  refine ⟨stE1.macData, body, hblen, ?_, ?_⟩
  · intro keep fd k0 fuelD hfd
    obtain ⟨stE2, body2, hloop2, hout2, _, _, hdec⟩ :=
      bodyLoop_round_trip env hcs.rs128 (encParams env w.g P.length)
        (decParams env w.g P.length keep fd) (paired_params env w.g P.length keep fd)
        (P.length + 1) P
        (initStream (genNonces env.rnd).nonce (genNonces env.rnd).serpentSalt
          ((headerFront env w.g P.length (codeword env.cs.rs5 (fmt05d w.g.comments.length))
            ++ placeholders).flatten) w.g.kept)
        (initStream (genNonces env.rnd).nonce (genNonces env.rnd).serpentSalt [] k0)
        (by omega) (sync_initStream _ _ _ _ _ _)
        (by intro _; simp [decParams, initStream, encParams])
        (by intro _; rfl)
    rw [hloop] at hloop2
    have hst : stE1 = stE2 := by
      injection hloop2 with h1
      injection h1
    subst hst
    have hb : body2 = body := by
      rw [hout] at hout2
      exact (List.append_cancel_left hout2).symm
    subst hb
    obtain ⟨stD1, h1, h2, h3, h4⟩ := hdec fuelD hfd
    exact ⟨stD1, h1, by rw [h2]; rfl, h3, h4⟩
  · have hkh := hc.sha3_512 (encKey env w.g)
    have htag := length_macSum env.c hc w.g.paranoid (hkdfRead (encHkdf env w.g) 0 32)
      stE1.macData
    have hpatch := patchHeader_ok env.cs hcs w.g.comments.length
      (env.c.sha3_512 (encKey env w.g)) (zeros 32)
      (macSum env.c w.g.paranoid (hkdfRead (encHkdf env w.g) 0 32) stE1.macData)
      hkh (length_zeros 32) htag
      ((headerFront env w.g P.length
        (codeword env.cs.rs5 (fmt05d w.g.comments.length))).flatten) body hfrontlen
    have hout3 : stE1.out = (headerFront env w.g P.length
        (codeword env.cs.rs5 (fmt05d w.g.comments.length))).flatten
          ++ (placeholders.flatten ++ body) := by
      rw [hout]
      simp only [initStream, List.flatten_append, List.append_assoc]
    have hnotmem : ¬ w.g.outputFile ∈ w.g.keyfiles := by rw [hkf]; exact List.not_mem_nil _
    have hfin := finishPhase_plain
      { g := { w.g with kept := stE1.kept },
        fs := w.fs.write w.g.outputFile (volumeHeader env w.g P.length stE1.macData ++ body) }
      hsplit hrec hdel (by rw [hkeptE]; exact hkept)
    simp only [encryptWork, hnotmem, if_false, hwh, bind_ok,
      keyfilePhase_none env.c w.fs w.g hkf hkfile,
      cipherKey_none w.g _ _ hkf hkfile]
    have hloop3 : bodyLoop env
        { encrypt := true, paranoid := w.g.paranoid, reedsolo := w.g.reedsolo, padded := false,
          keep := w.g.keep, fastDecode := w.g.fastDecode, total := (P.length : Int),
          key := env.c.argon2 w.g.password (genNonces env.rnd).salt w.g.paranoid,
          serpentKey := hkdfRead (env.c.hkdf
            (env.c.argon2 w.g.password (genNonces env.rnd).salt w.g.paranoid)
            (genNonces env.rnd).hkdfSalt) 32 32,
          hkdf := env.c.hkdf
            (env.c.argon2 w.g.password (genNonces env.rnd).salt w.g.paranoid)
            (genNonces env.rnd).hkdfSalt }
        (P.length + 1)
        (initStream (genNonces env.rnd).nonce (genNonces env.rnd).serpentSalt
          ((headerFront env w.g P.length (codeword env.cs.rs5 (fmt05d w.g.comments.length))
            ++ placeholders).flatten) w.g.kept) P = Except.ok (Flow.go stE1) := hloop
    rw [hloop3, bind_ok]
    simp only []
    rw [hout3]
    have hpatch2 : patchHeader env.cs w.g.comments.length
        (env.c.sha3_512 (env.c.argon2 w.g.password (genNonces env.rnd).salt w.g.paranoid))
        (zeros 32)
        (macSum env.c w.g.paranoid (hkdfRead (env.c.hkdf
            (env.c.argon2 w.g.password (genNonces env.rnd).salt w.g.paranoid)
            (genNonces env.rnd).hkdfSalt) 0 32) stE1.macData)
        ((headerFront env w.g P.length
          (codeword env.cs.rs5 (fmt05d w.g.comments.length))).flatten
            ++ (placeholders.flatten ++ body)) = _ := hpatch
    rw [hpatch2, bind_ok]
    have hvol : (headerFront env w.g P.length
          (codeword env.cs.rs5 (fmt05d w.g.comments.length))).flatten
        ++ ((verifierFields env.cs (env.c.sha3_512 (encKey env w.g)) (zeros 32)
            (macSum env.c w.g.paranoid (hkdfRead (encHkdf env w.g) 0 32)
              stE1.macData)).flatten ++ body)
        = volumeHeader env w.g P.length stE1.macData ++ body := by
      simp only [volumeHeader, List.flatten_append, List.append_assoc]
    rw [hvol]
    exact hfin.trans rfl

theorem recombinePhase_off (w : World) (h : w.g.recombine = false) :
    recombinePhase w = Except.ok w := by
  simp [recombinePhase, h, pure_eq_ok]

theorem readFile_some (fs : FS) (p : String) (c : List Nat) (h : fs.read p = some c) :
    readFile fs p = Except.ok c := by
  simp [readFile, h, pure_eq_ok]

/-- With the encrypt setup `work` runs the encrypt branch on the content of the input file. -/
theorem workN_encrypt (env : Env) (w : World) (P : List Nat) (n : Nat)
    (hs : EncryptSetup w.g) (hP : w.fs.read w.g.inputFile = some P) :
    workN env (n + 1) w
      = encryptWork env
          { g := { w.g with mainStatus := "Working...", mainStatusColor := Color.WHITE },
            fs := w.fs } P := by
  obtain ⟨hmode, hrec, _, _, _, _, _, hio⟩ := hs
  rw [workN, recombinePhase_off
    { w with g := { w.g with mainStatus := "Working...", mainStatusColor := Color.WHITE } } hrec,
    bind_ok]
  simp only []
  rw [readFile_some _ _ _ hP, bind_ok]
  simp only [hio, if_false, hmode, if_true]
  rfl

theorem length_volumeHeader (env : Env) (hcs : env.cs.Lawful) (hc : env.c.Lawful) (g : Globals)
    (total : Nat) (mac : List Nat) (hC : g.comments.length ≤ 99999) :
    (volumeHeader env g total mac).length = 789 + 3 * g.comments.length := by
  have hfront := length_headerFront env hcs g total _
    ((rsEncode_lawful env.cs.rs5 hcs.rs5 _ (fmt05d_length _ hC)).2.1)
  have l1 := (rsEncode_lawful env.cs.rs64 hcs.rs64 _ (hc.sha3_512 (encKey env g))).2.1
  have l2 := (rsEncode_lawful env.cs.rs32 hcs.rs32 (zeros 32) (length_zeros 32)).2.1
  have l3 := (rsEncode_lawful env.cs.rs64 hcs.rs64 _
    (length_macSum env.c hc g.paranoid (hkdfRead (encHkdf env g) 0 32) mac)).2.1
  rw [volumeHeader, List.flatten_append, List.length_append, hfront]
  simp only [verifierFields, List.flatten_cons, List.flatten_nil, List.length_append, l1, l2,
    l3, List.length_nil]
  omega

theorem decide_flagByte (b : Bool) : decide (flagByte b = 1) = b := by
  cases b <;> rfl

theorem processUnit_rnd (env : Env) (r2 : Rand) (p : Params) (st : Stream) (src : List Nat) :
    processUnit { env with rnd := r2 } p st src = processUnit env p st src := rfl

theorem bodyLoop_rnd (env : Env) (r2 : Rand) (p : Params) :
    ∀ (fuel : Nat) (st : Stream) (rest : List Nat),
      bodyLoop { env with rnd := r2 } p fuel st rest = bodyLoop env p fuel st rest := by
  intro fuel
  induction fuel with
  | zero => intro st rest; rfl
  | succ f ih =>
    intro st rest
    cases rest with
    | nil => rfl
    | cons a r =>
      rw [bodyLoop, bodyLoop, processUnit_rnd]
      cases processUnit env p st ((a :: r).take (unitSize p)) with
      | error e => rfl
      | ok v =>
        cases v with
        | stop m => rfl
        | go st1 =>
          simp only [bind_ok]
          exact ih _ _

theorem readHeader_rnd (env : Env) (r2 : Rand) (fd : Bool) (fin : List Nat) :
    readHeader { env with rnd := r2 } fd fin = readHeader env fd fin := rfl

theorem decrypt_string_ne : ¬ ("decrypt" = "encrypt") := by decide

/-- Decrypting, with the password of the encryption and without keyfiles, a volume file that
consists of the finished header and a body on which the decrypt loop gives `P` and the MAC
input of the header tag: `work` ends with `P` as output, `Completed.` and `kept` unset. -/
theorem workN_decrypt_volume (env : Env) (hcs : env.cs.Lawful) (hc : env.c.Lawful) (r2 : Rand)
    (ge : Globals) (total : Nat) (mac body P : List Nat)
    (hC : ge.comments.length ≤ 99999)
    (hbl : body.length = bodyLen ge.reedsolo total)
    (w : World) (hs : DecryptSetup w.g) (hpw : w.g.password = ge.password)
    (hvol : w.fs.read w.g.inputFile = some (volumeHeader env ge total mac ++ body))
    (hdec : ∀ fuelD, body.length < fuelD →
      ∃ stD1 : Stream,
        bodyLoop env (decParams env ge total w.g.keep w.g.fastDecode) fuelD
          (initStream (genNonces env.rnd).nonce (genNonces env.rnd).serpentSalt [] false) body
            = Except.ok (Flow.go stD1) ∧
        stD1.out = P ∧ stD1.macData = mac ∧ stD1.kept = false)
    (n : Nat) :
    workN { env with rnd := r2 } (n + 1) w = Except.ok
      { g := { resetUI w.g with kept := false, mainStatus := "Completed.",
                                mainStatusColor := Color.GREEN },
        fs := w.fs.write w.g.outputFile P } := by
  obtain ⟨hmode, hrec, hkfd, hkfile, hsplit, hdel, hkept, hio, hfd⟩ := hs
  have hme : ¬ w.g.mode = "encrypt" := by rw [hmode]; exact decrypt_string_ne
  have hrh := readHeader_volume env hcs ge total hC (env.c.sha3_512 (encKey env ge)) (zeros 32)
    (macSum env.c ge.paranoid (hkdfRead (encHkdf env ge) 0 32) mac)
    (hc.sha3_512 _) (length_zeros 32) (length_macSum env.c hc _ _ _) body w.g.fastDecode
  have hrh2 : readHeader env w.g.fastDecode (volumeHeader env ge total mac ++ body) = _ := hrh
  have hvlen := length_volumeHeader env hcs hc ge total mac hC
  obtain ⟨stD1, hloop, hout, hmac, hkeptD⟩ := hdec (body.length + 1) (by omega)
  rw [workN, recombinePhase_off
    { w with g := { w.g with mainStatus := "Working...", mainStatusColor := Color.WHITE } } hrec,
    bind_ok]
  simp only []
  rw [readFile_some _ _ _ hvol, bind_ok]
  simp only [hio, if_false, hme, readHeader_rnd, hrh2, bind_ok, headerFlags, index,
    List.get?_cons_zero, List.get?_cons_succ, pure_eq_ok, decide_flagByte]
  have hany : [false, false, false, false, false, false, false, false, false, false].any id
      = false := rfl
  have htotal : ((volumeHeader env ge total mac ++ body).length : Int) - 789
      - (ge.comments.length : Int) * 3 = ((bodyLen ge.reedsolo total : Nat) : Int) := by
    rw [List.length_append, hvlen, hbl]; push_cast; omega
  have hmd : ¬ (w.g.mode ≠ "decrypt") := by rw [hmode]; simp
  simp only [decParams, encKey, encHkdf] at hloop
  simp only [hany, Bool.false_eq_true, false_and, if_false, Bool.or_false, hkfile, hpw, hkept,
    keyfilePhase_none, cipherKey_none, hkfd, bind_ok, hmd, htotal, bodyLoop_rnd, encKey, encHkdf,
    decide_True, Bool.not_true, hloop, hmac, ne_eq, not_true_eq_false, hout, hkeptD]
  simp only [finishPhase_plain, hsplit, hrec, hdel]
  rfl

theorem sampleCrypto_lawful : sampleCrypto.Lawful :=
  ⟨fun _ _ _ => by simp [sampleCrypto, sampleDigest],
   fun _ => by simp [sampleCrypto, sampleDigest],
   fun _ => by simp [sampleCrypto, sampleDigest],
   fun _ _ => by simp [sampleCrypto, sampleDigest],
   fun _ _ => by simp [sampleCrypto, sampleDigest]⟩

/-- C1 (encrypt/decrypt identity).  For every plain text `P`, every choice of the paranoid
and reedsolo flags, every password and every comment of at most 99999 bytes (no keyfiles, no
split), with codecs and primitives that meet their library contracts: `work` in encrypt mode
ends normally, and `work` in decrypt mode with the same password on the file it wrote ends
normally, writes exactly `P` as output, leaves `kept` unset and reports `Completed.`. -/
theorem encrypt_decrypt_identity (env : Env) (hcs : env.cs.Lawful) (hc : env.c.Lawful)
    (r2 : Rand) (ge gd : Globals) (fs : FS) (P : List Nat)
    (hse : EncryptSetup ge) (hC : ge.comments.length ≤ 99999)
    (hP : fs.read ge.inputFile = some P)
    (hsd : DecryptSetup gd) (hin : gd.inputFile = ge.outputFile)
    (hpw : gd.password = ge.password) :
    ∃ w1 : World, work env { g := ge, fs := fs } = Except.ok w1 ∧
      ∃ w2 : World, work { env with rnd := r2 } { g := gd, fs := w1.fs } = Except.ok w2 ∧
        w2.fs.read gd.outputFile = some P ∧ w2.g.kept = false ∧
        w2.g.mainStatus = "Completed." := by
  have hse2 : EncryptSetup
      ({ g := { ge with mainStatus := "Working...", mainStatusColor := Color.WHITE },
         fs := fs } : World).g := hse
  obtain ⟨mac, body, hbl, hdec, hwork⟩ := encryptWork_ok env hcs hc
    { g := { ge with mainStatus := "Working...", mainStatusColor := Color.WHITE }, fs := fs }
    P hse2 hC
  have hw1 := workN_encrypt env { g := ge, fs := fs } P 1 hse hP
  refine ⟨_, hw1.trans hwork, ?_⟩
  have hvol : (fs.write ge.outputFile (volumeHeader env ge P.length mac ++ body)).read
      gd.inputFile = some (volumeHeader env ge P.length mac ++ body) := by
    rw [hin]; exact read_write_same _ _ _
  have hd := workN_decrypt_volume env hcs hc r2 ge P.length mac body P hC hbl
    { g := gd, fs := fs.write ge.outputFile (volumeHeader env ge P.length mac ++ body) }
    hsd hpw hvol (fun fuelD hf => hdec gd.keep gd.fastDecode false fuelD hf) 1
  exact ⟨_, hd, read_write_same _ _ _, rfl, rfl⟩

/-- C1 at the sample environment: the 14 bytes `Hello, world!\n`, password `pw`, body
Reed-Solomon and paranoid mode on. -/
theorem encrypt_decrypt_identity_witness :
    ∃ w1 : World,
      work sampleEnv
        { g := { startGlobals with mode := "encrypt", inputFile := "a.txt",
                                   outputFile := "a.txt.pcv", password := [112, 119],
                                   paranoid := true, reedsolo := true },
          fs := [("a.txt", [72, 101, 108, 108, 111, 44, 32, 119, 111, 114, 108, 100, 33, 10])] }
        = Except.ok w1 ∧
      ∃ w2 : World,
        work { sampleEnv with rnd := sampleRand }
          { g := { startGlobals with mode := "decrypt", inputFile := "a.txt.pcv",
                                     outputFile := "a.txt", password := [112, 119] },
            fs := w1.fs } = Except.ok w2 ∧
        w2.fs.read "a.txt"
          = some [72, 101, 108, 108, 111, 44, 32, 119, 111, 114, 108, 100, 33, 10] ∧
        w2.g.kept = false ∧ w2.g.mainStatus = "Completed." :=
  encrypt_decrypt_identity sampleEnv sampleCodecs_lawful sampleCrypto_lawful sampleRand
    { startGlobals with mode := "encrypt", inputFile := "a.txt", outputFile := "a.txt.pcv",
                        password := [112, 119], paranoid := true, reedsolo := true }
    { startGlobals with mode := "decrypt", inputFile := "a.txt.pcv", outputFile := "a.txt",
                        password := [112, 119] }
    [("a.txt", [72, 101, 108, 108, 111, 44, 32, 119, 111, 114, 108, 100, 33, 10])]
    [72, 101, 108, 108, 111, 44, 32, 119, 111, 114, 108, 100, 33, 10]
    ⟨rfl, rfl, rfl, rfl, rfl, rfl, rfl, by decide⟩ (by decide) (by decide)
    ⟨rfl, rfl, rfl, rfl, rfl, rfl, rfl, by decide, rfl⟩ rfl rfl

/-! ## Header size and finalization -/

theorem bind_eq_ok {α β : Type} {x : Run α} {f : α → Run β} {b : β}
    (h : (x >>= f) = Except.ok b) : ∃ a, x = Except.ok a ∧ f a = Except.ok b := by
  cases x with
  | error e => cases h
  | ok a => exact ⟨a, rfl, h⟩

theorem processUnit_out (env : Env) (p : Params) (st st1 : Stream) (src : List Nat)
    (h : processUnit env p st src = Except.ok (Flow.go st1)) :
    ∃ b : List Nat, st1.out = st.out ++ b := by
  unfold processUnit at h
  by_cases he : p.encrypt = true
  · rw [if_pos he] at h
    simp only [] at h
    by_cases hr : p.reedsolo = true
    · rw [if_pos hr] at h
      obtain ⟨out, _, h2⟩ := bind_eq_ok h
      rw [pure_eq_ok] at h2
      injection h2 with h3
      injection h3 with h4
      exact ⟨out, by rw [← h4]⟩
    · rw [if_neg hr] at h
      obtain ⟨out, _, h2⟩ := bind_eq_ok h
      rw [pure_eq_ok] at h2
      injection h2 with h3
      injection h3 with h4
      exact ⟨out, by rw [← h4]⟩
  · rw [if_neg he] at h
    simp only [] at h
    have key : ∀ r : Flow (List Nat × Bool),
        (match r with
          | Flow.stop m => (pure (Flow.stop m) : Run (Flow Stream))
          | Flow.go (src1, kept1) =>
            pure (Flow.go
              { st with chachaPos := st.chachaPos + src1.length,
                        serpentPos := if p.paranoid = true then
                          st.serpentPos + (xorKeyStream (env.c.chacha p.key st.nonce)
                            st.chachaPos src1).length else st.serpentPos,
                        macData := st.macData ++ src1,
                        out := st.out ++ (if p.paranoid = true then
                          xorKeyStream (env.c.serpent p.serpentKey st.serpentSalt) st.serpentPos
                            (xorKeyStream (env.c.chacha p.key st.nonce) st.chachaPos src1)
                          else xorKeyStream (env.c.chacha p.key st.nonce) st.chachaPos src1),
                        kept := kept1 })) = Except.ok (Flow.go st1) →
        ∃ b : List Nat, st1.out = st.out ++ b := by
      intro r hr
      cases r with
      | stop m => cases hr
      | go v =>
        obtain ⟨src1, kept1⟩ := v
        simp only [pure_eq_ok] at hr
        injection hr with h3
        injection h3 with h4
        exact ⟨_, by rw [← h4]⟩
    by_cases hr : p.reedsolo = true
    · rw [if_pos hr] at h
      obtain ⟨r, _, h2⟩ := bind_eq_ok h
      exact key r h2
    · rw [if_neg hr] at h
      obtain ⟨r, _, h2⟩ := bind_eq_ok h
      exact key r h2

/-- The body loop only appends to the output file. -/
theorem bodyLoop_out_append (env : Env) (p : Params) :
    ∀ (fuel : Nat) (st st1 : Stream) (rest : List Nat),
      bodyLoop env p fuel st rest = Except.ok (Flow.go st1) →
      ∃ body : List Nat, st1.out = st.out ++ body := by
  intro fuel
  induction fuel with
  | zero => intro st st1 rest h; cases h
  | succ f ih =>
    intro st st1 rest h
    cases rest with
    | nil =>
      rw [bodyLoop_nil] at h
      injection h with h1
      injection h1 with h2
      exact ⟨[], by rw [← h2, List.append_nil]⟩
    | cons a r =>
      rw [bodyLoop] at h
      cases hu : processUnit env p st ((a :: r).take (unitSize p)) with
      | error e => rw [hu] at h; cases h
      | ok v =>
        rw [hu, bind_ok] at h
        cases v with
        | stop m => cases h
        | go st2 =>
          obtain ⟨b, hb⟩ := processUnit_out env p st st2 _ hu
          obtain ⟨body, hbody⟩ := ih _ st1 _ h
          refine ⟨b ++ body, ?_⟩
          have hbody2 : st1.out = (nextUnit p st2).out ++ body := hbody
          rw [hbody2, nextUnit_out, hb, List.append_assoc]

/-- The volume written by an encryption without keyfiles: header of `789 + 3·C` bytes and a
body of `bodyLen` bytes. -/
theorem encrypt_volume (env : Env) (hcs : env.cs.Lawful) (hc : env.c.Lawful) (g : Globals)
    (fs : FS) (P : List Nat) (hs : EncryptSetup g) (hC : g.comments.length ≤ 99999)
    (hP : fs.read g.inputFile = some P) :
    ∃ (w : World) (V : List Nat), work env { g := g, fs := fs } = Except.ok w ∧
      w.fs.read g.outputFile = some V ∧
      V.length = 789 + 3 * g.comments.length + bodyLen g.reedsolo P.length ∧
      w.g.mainStatus = "Completed." := by
  have hs2 : EncryptSetup
      ({ g := { g with mainStatus := "Working...", mainStatusColor := Color.WHITE },
         fs := fs } : World).g := hs
  obtain ⟨mac, body, hbl, _, hwork⟩ := encryptWork_ok env hcs hc
    { g := { g with mainStatus := "Working...", mainStatusColor := Color.WHITE }, fs := fs }
    P hs2 hC
  have hw1 := workN_encrypt env { g := g, fs := fs } P 1 hs hP
  refine ⟨_, _, hw1.trans hwork, read_write_same _ _ _, ?_, rfl⟩
  have hv := length_volumeHeader env hcs hc g P.length mac hC
  have hv2 : (volumeHeader env
      { g with mainStatus := "Working...", mainStatusColor := Color.WHITE } P.length mac).length
        = 789 + 3 * g.comments.length := hv
  rw [List.length_append, hv2, hbl]

/-- The encrypt branch of `work` without keyfiles, for a comment of any length: it ends
normally and the output file has `789 + 3·C` bytes followed by the body. -/
theorem encryptWork_any (env : Env) (hcs : env.cs.Lawful) (hc : env.c.Lawful) (w : World)
    (P : List Nat) (hs : EncryptSetup w.g) :
    ∃ V : List Nat,
      V.length = 789 + 3 * w.g.comments.length + bodyLen w.g.reedsolo P.length ∧
      encryptWork env w P = Except.ok
        { g := { resetUI w.g with kept := false, mainStatus := "Completed.",
                                  mainStatusColor := Color.GREEN },
          fs := w.fs.write w.g.outputFile V } := by
  obtain ⟨hmode, hrec, hkf, hkfile, hsplit, hdel, hkept, hio⟩ := hs
  obtain ⟨cl, hcllen, _, hwh⟩ := writeHeader_ok env hcs w.g P.length
  have hfrontlen := length_headerFront env hcs w.g P.length cl hcllen
  obtain ⟨stE1, body, hloop, hout, hblen, hkeptE, _⟩ :=
    bodyLoop_round_trip env hcs.rs128 (encParams env w.g P.length)
      (decParams env w.g P.length false false) (paired_params env w.g P.length false false)
      (P.length + 1) P
      (initStream (genNonces env.rnd).nonce (genNonces env.rnd).serpentSalt
        ((headerFront env w.g P.length cl ++ placeholders).flatten) w.g.kept)
      (initStream (genNonces env.rnd).nonce (genNonces env.rnd).serpentSalt [] false)
      (by omega) (sync_initStream _ _ _ _ _ _)
      (by intro _; simp [decParams, initStream, encParams])
      (by intro _; rfl)
  have hkh := hc.sha3_512 (encKey env w.g)
  have htag := length_macSum env.c hc w.g.paranoid (hkdfRead (encHkdf env w.g) 0 32)
    stE1.macData
  have hpatch := patchHeader_ok env.cs hcs w.g.comments.length
    (env.c.sha3_512 (encKey env w.g)) (zeros 32)
    (macSum env.c w.g.paranoid (hkdfRead (encHkdf env w.g) 0 32) stE1.macData)
    hkh (length_zeros 32) htag
    ((headerFront env w.g P.length cl).flatten) body hfrontlen
  have hout3 : stE1.out = (headerFront env w.g P.length cl).flatten
        ++ (placeholders.flatten ++ body) := by
    rw [hout]
    simp only [initStream, List.flatten_append, List.append_assoc]
  have l1 := (rsEncode_lawful env.cs.rs64 hcs.rs64 _ hkh).2.1
  have l2 := (rsEncode_lawful env.cs.rs32 hcs.rs32 (zeros 32) (length_zeros 32)).2.1
  have l3 := (rsEncode_lawful env.cs.rs64 hcs.rs64 _ htag).2.1
  refine ⟨(headerFront env w.g P.length cl).flatten
      ++ ((verifierFields env.cs (env.c.sha3_512 (encKey env w.g)) (zeros 32)
          (macSum env.c w.g.paranoid (hkdfRead (encHkdf env w.g) 0 32)
            stE1.macData)).flatten ++ body), ?_, ?_⟩
  · have hblen2 : body.length = bodyLen w.g.reedsolo P.length := hblen
    rw [List.length_append, hfrontlen, List.length_append, hblen2]
    simp only [verifierFields, List.flatten_cons, List.flatten_nil, List.length_append, l1, l2,
      l3, List.length_nil]
    omega
  · have hnotmem : ¬ w.g.outputFile ∈ w.g.keyfiles := by rw [hkf]; exact List.not_mem_nil _
    have hfin := finishPhase_plain
      { g := { w.g with kept := stE1.kept },
        fs := w.fs.write w.g.outputFile ((headerFront env w.g P.length cl).flatten
          ++ ((verifierFields env.cs (env.c.sha3_512 (encKey env w.g)) (zeros 32)
              (macSum env.c w.g.paranoid (hkdfRead (encHkdf env w.g) 0 32)
                stE1.macData)).flatten ++ body)) }
      hsplit hrec hdel (by rw [hkeptE]; exact hkept)
    simp only [encryptWork, hnotmem, if_false, hwh, bind_ok,
      keyfilePhase_none env.c w.fs w.g hkf hkfile,
      cipherKey_none w.g _ _ hkf hkfile]
    have hloop3 : bodyLoop env
        { encrypt := true, paranoid := w.g.paranoid, reedsolo := w.g.reedsolo, padded := false,
          keep := w.g.keep, fastDecode := w.g.fastDecode, total := (P.length : Int),
          key := env.c.argon2 w.g.password (genNonces env.rnd).salt w.g.paranoid,
          serpentKey := hkdfRead (env.c.hkdf
            (env.c.argon2 w.g.password (genNonces env.rnd).salt w.g.paranoid)
            (genNonces env.rnd).hkdfSalt) 32 32,
          hkdf := env.c.hkdf
            (env.c.argon2 w.g.password (genNonces env.rnd).salt w.g.paranoid)
            (genNonces env.rnd).hkdfSalt }
        (P.length + 1)
        (initStream (genNonces env.rnd).nonce (genNonces env.rnd).serpentSalt
          ((headerFront env w.g P.length cl ++ placeholders).flatten) w.g.kept) P
        = Except.ok (Flow.go stE1) := hloop
    rw [hloop3, bind_ok]
    simp only []
    rw [hout3]
    have hpatch2 : patchHeader env.cs w.g.comments.length
        (env.c.sha3_512 (env.c.argon2 w.g.password (genNonces env.rnd).salt w.g.paranoid))
        (zeros 32)
        (macSum env.c w.g.paranoid (hkdfRead (env.c.hkdf
            (env.c.argon2 w.g.password (genNonces env.rnd).salt w.g.paranoid)
            (genNonces env.rnd).hkdfSalt) 0 32) stE1.macData)
        ((headerFront env w.g P.length cl).flatten
            ++ (placeholders.flatten ++ body)) = _ := hpatch
    rw [hpatch2, bind_ok]
    exact hfin.trans rfl

/-- The volume written by an encryption without keyfiles, for a comment of any length:
header of `789 + 3·C` bytes and a body of `bodyLen` bytes. -/
theorem encrypt_volume_any (env : Env) (hcs : env.cs.Lawful) (hc : env.c.Lawful) (g : Globals)
    (fs : FS) (P : List Nat) (hs : EncryptSetup g) (hP : fs.read g.inputFile = some P) :
    ∃ (w : World) (V : List Nat), work env { g := g, fs := fs } = Except.ok w ∧
      w.fs.read g.outputFile = some V ∧
      V.length = 789 + 3 * g.comments.length + bodyLen g.reedsolo P.length ∧
      w.g.mainStatus = "Completed." := by
  have hs2 : EncryptSetup
      ({ g := { g with mainStatus := "Working...", mainStatusColor := Color.WHITE },
         fs := fs } : World).g := hs
  obtain ⟨V, hlen, hwork⟩ := encryptWork_any env hcs hc
    { g := { g with mainStatus := "Working...", mainStatusColor := Color.WHITE }, fs := fs }
    P hs2
  have hw1 := workN_encrypt env { g := g, fs := fs } P 1 hs hP
  exact ⟨_, V, hw1.trans hwork, read_write_same _ _ _, hlen, rfl⟩

/-- C7, refuted as stated.  With no comment the header that encrypt writes has 789 bytes, not
`309 + 3·0`, and the volume that `work` writes for the 14-byte plain text `Hello, world!\n`
(no comment, no body Reed-Solomon) has `789 + 14 = 803` bytes, not `309 + 14`. -/
theorem header_size_counterexample :
    (∃ hdr : List Nat,
      writeHeader sampleEnv
          { startGlobals with mode := "encrypt", inputFile := "a.txt",
                              outputFile := "a.txt.pcv", password := [112, 119] } 14
        = Except.ok hdr ∧
      hdr.length = 789 ∧ hdr.length ≠ 309 + 3 * 0) ∧
    (∃ (w : World) (V : List Nat),
      work sampleEnv
          { g := { startGlobals with mode := "encrypt", inputFile := "a.txt",
                                     outputFile := "a.txt.pcv", password := [112, 119] },
            fs := [("a.txt",
              [72, 101, 108, 108, 111, 44, 32, 119, 111, 114, 108, 100, 33, 10])] }
        = Except.ok w ∧
      w.fs.read "a.txt.pcv" = some V ∧ V.length = 803 ∧ V.length ≠ 309 + 14) := by
  refine ⟨?_, ?_⟩
  · obtain ⟨cl, hcl, _, hwh⟩ := writeHeader_ok sampleEnv sampleCodecs_lawful
      { startGlobals with mode := "encrypt", inputFile := "a.txt",
                          outputFile := "a.txt.pcv", password := [112, 119] } 14
    have hsz := header_field_sizes sampleEnv sampleCodecs_lawful
      { startGlobals with mode := "encrypt", inputFile := "a.txt",
                          outputFile := "a.txt.pcv", password := [112, 119] } 14 cl hcl
    have hlen : ((headerFront sampleEnv
        { startGlobals with mode := "encrypt", inputFile := "a.txt",
                            outputFile := "a.txt.pcv", password := [112, 119] } 14 cl
          ++ placeholders).flatten).length = 789 := by
      rw [List.length_flatten, hsz]
      rfl
    exact ⟨_, hwh, hlen, by rw [hlen]; decide⟩
  · obtain ⟨w, V, hw, hV, hlen, _⟩ := encrypt_volume sampleEnv sampleCodecs_lawful
      sampleCrypto_lawful
      { startGlobals with mode := "encrypt", inputFile := "a.txt",
                          outputFile := "a.txt.pcv", password := [112, 119] }
      [("a.txt", [72, 101, 108, 108, 111, 44, 32, 119, 111, 114, 108, 100, 33, 10])]
      [72, 101, 108, 108, 111, 44, 32, 119, 111, 114, 108, 100, 33, 10]
      ⟨rfl, rfl, rfl, rfl, rfl, rfl, rfl, by decide⟩ (by decide) (by decide)
    have hlen2 : V.length = 803 := hlen
    exact ⟨w, V, hw, hV, hlen2, by rw [hlen2]; decide⟩

/-- C7 as amended.  For every comment of C bytes, whatever C, the header that encrypt writes
in front of the body has `789 + 3·C` bytes (`309 + 3·C` is the offset of its first
placeholder), and an encryption without keyfiles of a plain text `P` writes a volume of
`789 + 3·C + bodyLen` bytes, so a 14-byte plain text with no comment and no body
Reed-Solomon gives a volume of `789 + 14` bytes. -/
theorem header_size (env : Env) (hcs : env.cs.Lawful) (hc : env.c.Lawful) (g : Globals)
    (fs : FS) (P : List Nat) (hs : EncryptSetup g)
    (hP : fs.read g.inputFile = some P) :
    (∀ total : Nat, ∃ hdr : List Nat, writeHeader env g total = Except.ok hdr ∧
        hdr.length = 789 + 3 * g.comments.length) ∧
    (∃ (w : World) (V : List Nat), work env { g := g, fs := fs } = Except.ok w ∧
        w.fs.read g.outputFile = some V ∧
        V.length = 789 + 3 * g.comments.length + bodyLen g.reedsolo P.length ∧
        (g.comments = [] → g.reedsolo = false → P.length = 14 → V.length = 789 + 14)) := by
  refine ⟨?_, ?_⟩
  · intro total
    obtain ⟨cl, hcl, _, hwh⟩ := writeHeader_ok env hcs g total
    have hsz := header_field_sizes env hcs g total cl hcl
    refine ⟨_, hwh, ?_⟩
    rw [List.length_flatten, hsz]
    simp only [List.sum_cons, List.sum_nil]
    omega
  · obtain ⟨w, V, hw, hV, hlen, _⟩ := encrypt_volume_any env hcs hc g fs P hs hP
    refine ⟨w, V, hw, hV, hlen, ?_⟩
    intro hcm hr hP14
    rw [hlen, hcm, hr, hP14]
    rfl

/-- C7 as amended, at the sample environment: the comment `AB` and the 14-byte plain text
`Hello, world!\n` with body Reed-Solomon give a header of 795 bytes and a volume of
`795 + 136` bytes. -/
theorem header_size_witness :
    (∀ total : Nat, ∃ hdr : List Nat,
      writeHeader sampleEnv
          { startGlobals with mode := "encrypt", inputFile := "a.txt",
                              outputFile := "a.txt.pcv", comments := [65, 66],
                              reedsolo := true } total
        = Except.ok hdr ∧
      hdr.length = 789 + 3 * 2) ∧
    (∃ (w : World) (V : List Nat),
      work sampleEnv
          { g := { startGlobals with mode := "encrypt", inputFile := "a.txt",
                                     outputFile := "a.txt.pcv", comments := [65, 66],
                                     reedsolo := true },
            fs := [("a.txt",
              [72, 101, 108, 108, 111, 44, 32, 119, 111, 114, 108, 100, 33, 10])] }
        = Except.ok w ∧
      w.fs.read "a.txt.pcv" = some V ∧
      V.length = 789 + 3 * 2 + bodyLen true 14 ∧
      (([65, 66] : List Nat) = [] → true = false →
        [72, 101, 108, 108, 111, 44, 32, 119, 111, 114, 108, 100, 33, 10].length = 14 →
        V.length = 789 + 14)) :=
  header_size sampleEnv sampleCodecs_lawful sampleCrypto_lawful
    { startGlobals with mode := "encrypt", inputFile := "a.txt", outputFile := "a.txt.pcv",
                        comments := [65, 66], reedsolo := true }
    [("a.txt", [72, 101, 108, 108, 111, 44, 32, 119, 111, 114, 108, 100, 33, 10])]
    [72, 101, 108, 108, 111, 44, 32, 119, 111, 114, 108, 100, 33, 10]
    ⟨rfl, rfl, rfl, rfl, rfl, rfl, rfl, by decide⟩ (by decide)

/-- C8 (finalization patches only the placeholders).  For every comment of C bytes and codecs
that meet the library contract: the header phase writes a front part of `309 + 3·C` bytes that
ends with the ChaCha20-nonce field, followed by the three zero placeholders of 192, 96 and 192
bytes; the body loop only appends to the file; and the seek to `309 + 3·C` with the three
writes turns `front ++ placeholders ++ body` into `front ++ verifier fields ++ body`: the
192 + 96 + 192 patched bytes are exactly the placeholders, the front part and the body are
unchanged, and so is the file length. -/
theorem finalization_patches_placeholders (env : Env) (hcs : env.cs.Lawful) (g : Globals)
    (total : Nat) (kh kfh tag : List Nat) (hkh : kh.length = 64) (hkfh : kfh.length = 32)
    (htag : tag.length = 64) :
    ∃ pre : List Nat,
      (pre ++ codeword env.cs.rs24 (genNonces env.rnd).nonce).length
        = 309 + 3 * g.comments.length ∧
      writeHeader env g total
        = Except.ok (pre ++ codeword env.cs.rs24 (genNonces env.rnd).nonce
            ++ (zeros 192 ++ zeros 96 ++ zeros 192)) ∧
      (∀ (p : Params) (fuel : Nat) (st st1 : Stream) (rest : List Nat),
        bodyLoop env p fuel st rest = Except.ok (Flow.go st1) →
        ∃ body : List Nat, st1.out = st.out ++ body) ∧
      (∀ body : List Nat,
        patchHeader env.cs g.comments.length kh kfh tag
            (pre ++ codeword env.cs.rs24 (genNonces env.rnd).nonce
              ++ (zeros 192 ++ zeros 96 ++ zeros 192) ++ body)
          = Except.ok (pre ++ codeword env.cs.rs24 (genNonces env.rnd).nonce
              ++ (codeword env.cs.rs64 kh ++ codeword env.cs.rs32 kfh ++ codeword env.cs.rs64 tag)
              ++ body)) ∧
      (codeword env.cs.rs64 kh).length = 192 ∧ (codeword env.cs.rs32 kfh).length = 96 ∧
      (codeword env.cs.rs64 tag).length = 192 := by
  obtain ⟨cl, hcl, _, hwh⟩ := writeHeader_ok env hcs g total
  have hfl := length_headerFront env hcs g total cl hcl
  have hfront : (headerFront env g total cl).flatten
      = (codeword env.cs.rs5 version ++ cl ++ commentField env.cs.rs1 g.comments
          ++ codeword env.cs.rs5 (headerFlags g total)
          ++ codeword env.cs.rs16 (genNonces env.rnd).salt
          ++ codeword env.cs.rs32 (genNonces env.rnd).hkdfSalt
          ++ codeword env.cs.rs16 (genNonces env.rnd).serpentSalt)
        ++ codeword env.cs.rs24 (genNonces env.rnd).nonce := by
    simp only [headerFront, List.flatten_cons, List.flatten_nil, List.append_nil,
      List.append_assoc]
  refine ⟨codeword env.cs.rs5 version ++ cl ++ commentField env.cs.rs1 g.comments
      ++ codeword env.cs.rs5 (headerFlags g total)
      ++ codeword env.cs.rs16 (genNonces env.rnd).salt
      ++ codeword env.cs.rs32 (genNonces env.rnd).hkdfSalt
      ++ codeword env.cs.rs16 (genNonces env.rnd).serpentSalt,
    ?_, ?_, ?_, ?_, (rsEncode_lawful env.cs.rs64 hcs.rs64 kh hkh).2.1,
    (rsEncode_lawful env.cs.rs32 hcs.rs32 kfh hkfh).2.1,
    (rsEncode_lawful env.cs.rs64 hcs.rs64 tag htag).2.1⟩
  · rw [← hfront]; exact hfl
  · rw [hwh, ← hfront]
    simp only [List.flatten_append, placeholders, List.flatten_cons, List.flatten_nil,
      List.append_nil, List.append_assoc]
  · intro p fuel st st1 rest h
    exact bodyLoop_out_append env p fuel st st1 rest h
  · intro body
    have hp := patchHeader_ok env.cs hcs g.comments.length kh kfh tag hkh hkfh htag
      (headerFront env g total cl).flatten body hfl
    rw [← hfront]
    simp only [placeholders, verifierFields, List.flatten_cons, List.flatten_nil,
      List.append_nil, List.append_assoc] at hp ⊢
    exact hp

/-- C8 at the sample environment, with zero digests. -/
theorem finalization_patches_placeholders_witness :
    ∃ pre : List Nat,
      (pre ++ codeword sampleEnv.cs.rs24 (genNonces sampleEnv.rnd).nonce).length
        = 309 + 3 * startGlobals.comments.length ∧
      writeHeader sampleEnv startGlobals 14
        = Except.ok (pre ++ codeword sampleEnv.cs.rs24 (genNonces sampleEnv.rnd).nonce
            ++ (zeros 192 ++ zeros 96 ++ zeros 192)) ∧
      (∀ (p : Params) (fuel : Nat) (st st1 : Stream) (rest : List Nat),
        bodyLoop sampleEnv p fuel st rest = Except.ok (Flow.go st1) →
        ∃ body : List Nat, st1.out = st.out ++ body) ∧
      (∀ body : List Nat,
        patchHeader sampleEnv.cs startGlobals.comments.length (zeros 64) (zeros 32) (zeros 64)
            (pre ++ codeword sampleEnv.cs.rs24 (genNonces sampleEnv.rnd).nonce
              ++ (zeros 192 ++ zeros 96 ++ zeros 192) ++ body)
          = Except.ok (pre ++ codeword sampleEnv.cs.rs24 (genNonces sampleEnv.rnd).nonce
              ++ (codeword sampleEnv.cs.rs64 (zeros 64) ++ codeword sampleEnv.cs.rs32 (zeros 32)
                ++ codeword sampleEnv.cs.rs64 (zeros 64))
              ++ body)) ∧
      (codeword sampleEnv.cs.rs64 (zeros 64)).length = 192 ∧
      (codeword sampleEnv.cs.rs32 (zeros 32)).length = 96 ∧
      (codeword sampleEnv.cs.rs64 (zeros 64)).length = 192 :=
  finalization_patches_placeholders sampleEnv sampleCodecs_lawful startGlobals 14 (zeros 64)
    (zeros 32) (zeros 64) (length_zeros 64) (length_zeros 32) (length_zeros 64)

/-- C9 (header layout is produced and consumed identically).  For every volume written by
encrypt with a comment of C ≤ 99999 bytes and codecs that meet the library contract: encrypt
writes eleven fields of 15, 15, 3·C, 15, 48, 96, 48, 72, 192, 96, 192 bytes, the finalization
replaces the last three in place, and the decrypt parser of `work` applied to the finished
header followed by any body returns every field as it was written (comment length, the five
flag bytes at their indices, salts, nonce, the three verifier values) without a decode error
and leaves exactly the body unread. -/
theorem header_layout_round_trip (env : Env) (hcs : env.cs.Lawful) (g : Globals) (total : Nat)
    (hC : g.comments.length ≤ 99999) (kh kfh tag : List Nat) (hkh : kh.length = 64)
    (hkfh : kfh.length = 32) (htag : tag.length = 64) (body : List Nat) (fd : Bool) :
    (headerFront env g total (codeword env.cs.rs5 (fmt05d g.comments.length))
        ++ placeholders).map List.length
      = [15, 15, 3 * g.comments.length, 15, 48, 96, 48, 72, 192, 96, 192] ∧
    writeHeader env g total
      = Except.ok ((headerFront env g total (codeword env.cs.rs5 (fmt05d g.comments.length))
          ++ placeholders).flatten) ∧
    patchHeader env.cs g.comments.length kh kfh tag
        ((headerFront env g total (codeword env.cs.rs5 (fmt05d g.comments.length))
          ++ placeholders).flatten ++ body)
      = Except.ok ((headerFront env g total (codeword env.cs.rs5 (fmt05d g.comments.length))
          ++ verifierFields env.cs kh kfh tag).flatten ++ body) ∧
    readHeader env fd
        ((headerFront env g total (codeword env.cs.rs5 (fmt05d g.comments.length))
            ++ verifierFields env.cs kh kfh tag).flatten ++ body)
      = Except.ok
          ({ commentsLength := (g.comments.length : Int),
             flags := [flagByte g.paranoid, flagByte (decide (0 < g.keyfiles.length)),
                       flagByte g.keyfileOrdered, flagByte g.reedsolo,
                       flagByte (decide (MiB - 128 ≤ total % MiB))],
             salt := (genNonces env.rnd).salt, hkdfSalt := (genNonces env.rnd).hkdfSalt,
             serpentSalt := (genNonces env.rnd).serpentSalt, nonce := (genNonces env.rnd).nonce,
             keyHashRef := kh, keyfileHashRef := kfh, authTag := tag,
             errs := [false, false, false, false, false, false, false, false, false, false] },
           body) := by
  have hcllen := (rsEncode_lawful env.cs.rs5 hcs.rs5 _ (fmt05d_length _ hC)).2.1
  obtain ⟨cl, _, hcl, hwh⟩ := writeHeader_ok env hcs g total
  have hcl1 := hcl hC
  subst hcl1
  refine ⟨header_field_sizes env hcs g total _ hcllen, hwh, ?_,
    readHeader_volume env hcs g total hC kh kfh tag hkh hkfh htag body fd⟩
  have hp := patchHeader_ok env.cs hcs g.comments.length kh kfh tag hkh hkfh htag
    (headerFront env g total (codeword env.cs.rs5 (fmt05d g.comments.length))).flatten body
    (length_headerFront env hcs g total _ hcllen)
  simp only [List.flatten_append, List.append_assoc] at hp ⊢
  exact hp

/-- C9 at the sample environment: comment `AB`, zero digests, empty body. -/
theorem header_layout_round_trip_witness :
    (headerFront sampleEnv { startGlobals with comments := [65, 66] } 14
        (codeword sampleEnv.cs.rs5 (fmt05d 2)) ++ placeholders).map List.length
      = [15, 15, 3 * 2, 15, 48, 96, 48, 72, 192, 96, 192] ∧
    writeHeader sampleEnv { startGlobals with comments := [65, 66] } 14
      = Except.ok ((headerFront sampleEnv { startGlobals with comments := [65, 66] } 14
          (codeword sampleEnv.cs.rs5 (fmt05d 2)) ++ placeholders).flatten) ∧
    patchHeader sampleEnv.cs 2 (zeros 64) (zeros 32) (zeros 64)
        ((headerFront sampleEnv { startGlobals with comments := [65, 66] } 14
          (codeword sampleEnv.cs.rs5 (fmt05d 2)) ++ placeholders).flatten ++ [])
      = Except.ok ((headerFront sampleEnv { startGlobals with comments := [65, 66] } 14
          (codeword sampleEnv.cs.rs5 (fmt05d 2))
          ++ verifierFields sampleEnv.cs (zeros 64) (zeros 32) (zeros 64)).flatten ++ []) ∧
    readHeader sampleEnv true
        ((headerFront sampleEnv { startGlobals with comments := [65, 66] } 14
            (codeword sampleEnv.cs.rs5 (fmt05d 2))
            ++ verifierFields sampleEnv.cs (zeros 64) (zeros 32) (zeros 64)).flatten ++ [])
      = Except.ok
          ({ commentsLength := ((2 : Nat) : Int),
             flags := [flagByte false, flagByte (decide (0 < 0)),
                       flagByte false, flagByte false,
                       flagByte (decide (MiB - 128 ≤ 14 % MiB))],
             salt := (genNonces sampleEnv.rnd).salt,
             hkdfSalt := (genNonces sampleEnv.rnd).hkdfSalt,
             serpentSalt := (genNonces sampleEnv.rnd).serpentSalt,
             nonce := (genNonces sampleEnv.rnd).nonce,
             keyHashRef := zeros 64, keyfileHashRef := zeros 32, authTag := zeros 64,
             errs := [false, false, false, false, false, false, false, false, false, false] },
           []) :=
  header_layout_round_trip sampleEnv sampleCodecs_lawful { startGlobals with comments := [65, 66] }
    14 (by decide) (zeros 64) (zeros 32) (zeros 64) (length_zeros 64) (length_zeros 32)
    (length_zeros 64) [] true

/-! ## Keyfiles -/

theorem xorBytes_right_comm (z x y : List Nat) :
    xorBytes (xorBytes z x) y = xorBytes (xorBytes z y) x := by
  induction z generalizing x y with
  | nil => simp [xorBytes]
  | cons a z ih =>
    cases x with
    | nil => cases y <;> simp [xorBytes]
    | cons b x =>
      cases y with
      | nil => simp [xorBytes]
      | cons c y =>
        have h := ih x y
        simp only [xorBytes, List.zipWith_cons_cons] at h ⊢
        rw [h]
        congr 1
        rw [Nat.xor_assoc, Nat.xor_comm b c, ← Nat.xor_assoc]

theorem xorBytes_zeros (d : List Nat) : xorBytes (zeros d.length) d = d := by
  induction d with
  | nil => rfl
  | cons a d ih =>
    simp only [xorBytes, zeros, List.length_cons, List.replicate_succ,
      List.zipWith_cons_cons, Nat.zero_xor] at ih ⊢
    rw [ih]

theorem length_xorBytes (a b : List Nat) (h : a.length = b.length) :
    (xorBytes a b).length = a.length := by
  simp [xorBytes, h]

theorem xorInto_same_length (k sum : List Nat) (h : sum.length = k.length) :
    xorInto k sum = Except.ok (xorBytes k sum) := by
  have hle : sum.length ≤ k.length := by omega
  have hdrop : k.drop sum.length = [] := List.drop_eq_nil_of_le (by omega)
  simp only [xorInto, hle, if_true, hdrop, List.append_nil, pure_eq_ok, xorBytes]

theorem keyfileKeyUnordered_some (c : Crypto) (hc : c.Lawful) (fs : FS) :
    ∀ (l : List String) (k : List Nat), k.length = 32 → (∀ p ∈ l, fs.read p ≠ none) →
      keyfileKeyUnordered c fs l (some k)
        = Except.ok (some ((keyDigests c fs l).foldl xorBytes k)) ∧
      ((keyDigests c fs l).foldl xorBytes k).length = 32 := by
  intro l
  induction l with
  | nil => intro k hk _; exact ⟨rfl, hk⟩
  | cons p ps ih =>
    intro k hk hex
    cases hr : fs.read p with
    | none => exact absurd hr (hex p (List.mem_cons_self p ps))
    | some data =>
      have hsum := hc.sha3_256 data
      have hx := xorInto_same_length k (c.sha3_256 data) (by omega)
      have hlen : (xorBytes k (c.sha3_256 data)).length = 32 := by
        rw [length_xorBytes _ _ (by omega)]; exact hk
      obtain ⟨h1, h2⟩ := ih (xorBytes k (c.sha3_256 data)) hlen
        (fun q hq => hex q (List.mem_cons_of_mem p hq))
      have hd : keyDigests c fs (p :: ps) = c.sha3_256 data :: keyDigests c fs ps := by
        simp [keyDigests, hr]
      rw [hd, List.foldl_cons]
      refine ⟨?_, h2⟩
      rw [keyfileKeyUnordered, readFile_some fs p data hr, bind_ok]
      simp only [hx, bind_ok]
      exact h1

theorem keyfileKeyUnordered_none (c : Crypto) (hc : c.Lawful) (fs : FS) (l : List String)
    (hne : l ≠ []) (hex : ∀ p ∈ l, fs.read p ≠ none) :
    keyfileKeyUnordered c fs l none = Except.ok (some (xorAll (keyDigests c fs l))) ∧
      (xorAll (keyDigests c fs l)).length = 32 ∧
      xorAll (keyDigests c fs l) = (keyDigests c fs l).foldl xorBytes (zeros 32) := by
  cases l with
  | nil => exact absurd rfl hne
  | cons p ps =>
    cases hr : fs.read p with
    | none => exact absurd hr (hex p (List.mem_cons_self p ps))
    | some data =>
      have hsum := hc.sha3_256 data
      obtain ⟨h1, h2⟩ := keyfileKeyUnordered_some c hc fs ps (c.sha3_256 data) hsum
        (fun q hq => hex q (List.mem_cons_of_mem p hq))
      have hd : keyDigests c fs (p :: ps) = c.sha3_256 data :: keyDigests c fs ps := by
        simp [keyDigests, hr]
      rw [hd]
      refine ⟨?_, h2, ?_⟩
      · rw [keyfileKeyUnordered, readFile_some fs p data hr, bind_ok]
        exact h1
      · have hz := xorBytes_zeros (c.sha3_256 data)
        rw [hsum] at hz
        rw [List.foldl_cons, hz]
        rfl

/-- C10 (unordered keyfiles accept any permutation).  With SHA3-256 digests of 32 bytes, for
every non-empty list of existing keyfiles: in unordered mode the keyfile key of `work` is the
byte-wise XOR `h_1 XOR h_2 XOR …` of the digests of the files (32 bytes), every permutation of
the list gives the same key, and so the same key and verifier `SHA3-256(K)` in the keyfile
step of `work`. -/
theorem unordered_keyfiles_permutation (c : Crypto) (hc : c.Lawful) (fs : FS)
    (l l1 : List String) (hne : l ≠ []) (hex : ∀ p ∈ l, fs.read p ≠ none)
    (hperm : l.Perm l1) :
    keyfileKeyUnordered c fs l none = Except.ok (some (xorAll (keyDigests c fs l))) ∧
    (xorAll (keyDigests c fs l)).length = 32 ∧
    keyfileKeyUnordered c fs l1 none = Except.ok (some (xorAll (keyDigests c fs l))) ∧
    (∀ g g1 : Globals, g.keyfiles = l → g1.keyfiles = l1 → g.keyfileOrdered = false →
      g1.keyfileOrdered = false →
      keyfilePhase c fs g = Except.ok (some (xorAll (keyDigests c fs l)),
        c.sha3_256 (xorAll (keyDigests c fs l))) ∧
      keyfilePhase c fs g1 = keyfilePhase c fs g) := by
  have hne1 : l1 ≠ [] := by
    intro h
    rw [h] at hperm
    exact hne (List.Perm.eq_nil hperm)
  have hex1 : ∀ p ∈ l1, fs.read p ≠ none := fun p hp => hex p ((hperm.mem_iff).mpr hp)
  obtain ⟨a1, a2, a3⟩ := keyfileKeyUnordered_none c hc fs l hne hex
  obtain ⟨b1, _, b3⟩ := keyfileKeyUnordered_none c hc fs l1 hne1 hex1
  have hpd : (keyDigests c fs l).Perm (keyDigests c fs l1) := hperm.map _
  have hfold := List.Perm.foldl_eq' hpd
    (fun x _ y _ z => xorBytes_right_comm z x y) (zeros 32)
  have hsame : xorAll (keyDigests c fs l1) = xorAll (keyDigests c fs l) := by
    rw [a3, b3, hfold]
  rw [hsame] at b1
  refine ⟨a1, a2, b1, ?_⟩
  intro g g1 hg hg1 ho ho1
  have hpos : 0 < l.length := List.length_pos.mpr hne
  have hpos1 : 0 < l1.length := List.length_pos.mpr hne1
  have e : keyfilePhase c fs g = Except.ok (some (xorAll (keyDigests c fs l)),
      c.sha3_256 (xorAll (keyDigests c fs l))) := by
    simp only [keyfilePhase, hg, hpos, true_or, if_true, ho, Bool.false_eq_true, if_false, a1,
      bind_ok, pure_eq_ok, Option.getD_some]
  have e1 : keyfilePhase c fs g1 = Except.ok (some (xorAll (keyDigests c fs l)),
      c.sha3_256 (xorAll (keyDigests c fs l))) := by
    simp only [keyfilePhase, hg1, hpos1, true_or, if_true, ho1, Bool.false_eq_true, if_false,
      b1, bind_ok, pure_eq_ok, Option.getD_some]
  exact ⟨e, e1.trans e.symm⟩

/-- C10 at the sample primitives: three keyfiles and a rotation of them. -/
theorem unordered_keyfiles_permutation_witness :
    keyfileKeyUnordered sampleCrypto [("k1", [1]), ("k2", [2, 2]), ("k3", [])]
        ["k1", "k2", "k3"] none
      = Except.ok (some (xorAll (keyDigests sampleCrypto
          [("k1", [1]), ("k2", [2, 2]), ("k3", [])] ["k1", "k2", "k3"]))) ∧
    (xorAll (keyDigests sampleCrypto [("k1", [1]), ("k2", [2, 2]), ("k3", [])]
      ["k1", "k2", "k3"])).length = 32 ∧
    keyfileKeyUnordered sampleCrypto [("k1", [1]), ("k2", [2, 2]), ("k3", [])]
        ["k3", "k1", "k2"] none
      = Except.ok (some (xorAll (keyDigests sampleCrypto
          [("k1", [1]), ("k2", [2, 2]), ("k3", [])] ["k1", "k2", "k3"]))) ∧
    (∀ g g1 : Globals, g.keyfiles = ["k1", "k2", "k3"] → g1.keyfiles = ["k3", "k1", "k2"] →
      g.keyfileOrdered = false → g1.keyfileOrdered = false →
      keyfilePhase sampleCrypto [("k1", [1]), ("k2", [2, 2]), ("k3", [])] g
        = Except.ok (some (xorAll (keyDigests sampleCrypto
            [("k1", [1]), ("k2", [2, 2]), ("k3", [])] ["k1", "k2", "k3"])),
          sampleCrypto.sha3_256 (xorAll (keyDigests sampleCrypto
            [("k1", [1]), ("k2", [2, 2]), ("k3", [])] ["k1", "k2", "k3"]))) ∧
      keyfilePhase sampleCrypto [("k1", [1]), ("k2", [2, 2]), ("k3", [])] g1
        = keyfilePhase sampleCrypto [("k1", [1]), ("k2", [2, 2]), ("k3", [])] g) :=
  unordered_keyfiles_permutation sampleCrypto sampleCrypto_lawful
    [("k1", [1]), ("k2", [2, 2]), ("k3", [])] ["k1", "k2", "k3"] ["k3", "k1", "k2"]
    (by decide) (by decide) (by decide)

/-! ## Wrong password -/

/-- The recombine step leaves the globals other than the input file names as they are, and
the files other than the rebuilt volume as they are. -/
theorem recombinePhase_frame (w w1 : World) (h : recombinePhase w = Except.ok w1) :
    w1.g.mode = w.g.mode ∧ w1.g.keep = w.g.keep ∧ w1.g.recombine = w.g.recombine ∧
      w1.g.outputFile = w.g.outputFile ∧ w1.g.password = w.g.password ∧
      w1.g.fastDecode = w.g.fastDecode ∧ w1.g.keyfile = w.g.keyfile ∧
      w1.g.keyfiles = w.g.keyfiles ∧ w1.g.keyfileOrdered = w.g.keyfileOrdered ∧
      (w.g.recombine = false → w1.fs = w.fs) ∧
      (∀ p, p ≠ w1.g.inputFile → w1.fs.read p = w.fs.read p) := by
  unfold recombinePhase at h
  by_cases hr : w.g.recombine = true
  · rw [if_pos hr] at h
    obtain ⟨n, _, h⟩ := bind_eq_ok h
    simp only [] at h
    split at h
    · cases h
    · obtain ⟨_, _, h⟩ := bind_eq_ok h
      obtain ⟨data, _, h⟩ := bind_eq_ok h
      cases h
      refine ⟨rfl, rfl, rfl, rfl, rfl, rfl, rfl, rfl, rfl, ?_, ?_⟩
      · intro hf; rw [hr] at hf; cases hf
      · intro p hp
        exact read_write_other _ _ _ _ hp
  · rw [if_neg hr] at h
    cases h
    exact ⟨rfl, rfl, rfl, rfl, rfl, rfl, rfl, rfl, rfl, fun _ => rfl, fun _ _ => rfl⟩

theorem keyfilePhase_congr (c : Crypto) (fs : FS) (g g1 : Globals)
    (h1 : g1.keyfiles = g.keyfiles) (h2 : g1.keyfile = g.keyfile)
    (h3 : g1.keyfileOrdered = g.keyfileOrdered) :
    keyfilePhase c fs g1 = keyfilePhase c fs g := by
  simp only [keyfilePhase, h1, h2, h3]

/-- C6 (wrong password detection).  Decrypt with force-decrypt (`keep`) off, on an input
whose header the parser of `work` reads without a decode error and with keyfiles (if any)
that can be read: when the SHA3-512 hash of the Argon2 key derived from the password differs
from the key hash stored in the header, `work` returns with the status `The provided password
is incorrect.` in red, and the file at the output path is what it was before the call (the
output file is not created); without recombine the file system is unchanged. -/
theorem wrong_password_detected (env : Env) (w w1 : World) (content rest : List Nat)
    (h : Header) (kf : Option (List Nat) × List Nat) (f0 f3 f4 n : Nat)
    (hmode : w.g.mode = "decrypt") (hkeep : w.g.keep = false)
    (hrp : recombinePhase
      { w with g := { w.g with mainStatus := "Working...", mainStatusColor := Color.WHITE } }
        = Except.ok w1)
    (hin : w1.fs.read w1.g.inputFile = some content)
    (hio : w1.g.inputFile ≠ w.g.outputFile)
    (hrh : readHeader env w.g.fastDecode content = Except.ok (h, rest))
    (hf0 : index h.flags 0 = Except.ok f0) (hf3 : index h.flags 3 = Except.ok f3)
    (hf4 : index h.flags 4 = Except.ok f4)
    (herr : h.errs.any id = false)
    (hkf : keyfilePhase env.c w1.fs w.g = Except.ok kf)
    (hwrong : env.c.sha3_512 (env.c.argon2 w.g.password h.salt (decide (f0 = 1)))
      ≠ h.keyHashRef) :
    ∃ w2 : World, workN env (n + 1) w = Except.ok w2 ∧
      w2.g.mainStatus = "The provided password is incorrect." ∧
      w2.g.mainStatusColor = Color.RED ∧
      w2.fs.read w.g.outputFile = w.fs.read w.g.outputFile ∧
      (w.g.recombine = false → w2.fs = w.fs) := by
  obtain ⟨e1, e2, e3, e4, e5, e6, e7, e8, e9, e10, e11⟩ := recombinePhase_frame _ _ hrp
  simp only [] at e1 e2 e3 e4 e5 e6 e7 e8 e9 e10 e11
  have hme : ¬ w1.g.mode = "encrypt" := by rw [e1, hmode]; exact decrypt_string_ne
  have hmd : ¬ (w1.g.mode ≠ "decrypt") := by rw [e1, hmode]; simp
  have hio1 : ¬ w1.g.inputFile = w1.g.outputFile := by rw [e4]; exact hio
  have hkf1 : ∀ g1 : Globals, g1.keyfiles = w1.g.keyfiles → g1.keyfile = w1.g.keyfile →
      g1.keyfileOrdered = w1.g.keyfileOrdered → keyfilePhase env.c w1.fs g1 = Except.ok kf := by
    intro g1 a b c
    exact (keyfilePhase_congr env.c w1.fs w.g g1 (a.trans e8) (b.trans e7) (c.trans e9)).trans hkf
  rw [workN, hrp, bind_ok]
  simp only []
  rw [readFile_some _ _ _ hin, bind_ok]
  simp only [hio1, if_false, hme, e6, hrh, bind_ok, hf0, hf3, hf4, pure_eq_ok, herr,
    Bool.false_eq_true, false_and, e2, hkeep, hkf1, hmd, e5, hwrong, decide_False,
    Bool.not_false, Bool.true_or, and_self, if_true, Bool.or_true, ite_self]
  refine ⟨_, rfl, rfl, rfl, ?_, ?_⟩
  · simp only [e3]
    by_cases hr : w.g.recombine = true
    · rw [if_pos hr, read_remove_other _ _ _ (Ne.symm hio)]
      exact e11 _ (Ne.symm hio)
    · rw [if_neg hr]
      exact e11 _ (Ne.symm hio)
  · intro hr
    simp only [e3, hr, Bool.false_eq_true, if_false]
    exact e10 hr

/-- C6 at the sample environment: a volume encrypted with the password `pw` (14-byte plain
text, empty body shown), decrypted with the password `x`. -/
theorem wrong_password_detected_witness :
    ∃ w2 : World,
      workN sampleEnv 2
        { g := { startGlobals with mode := "decrypt", inputFile := "a.txt.pcv",
                                   outputFile := "a.txt", password := [120] },
          fs := [("a.txt.pcv",
            volumeHeader sampleEnv { startGlobals with password := [112, 119] } 14 [] ++ [])] }
        = Except.ok w2 ∧
      w2.g.mainStatus = "The provided password is incorrect." ∧
      w2.g.mainStatusColor = Color.RED ∧
      w2.fs.read "a.txt" = none ∧
      (false = false → w2.fs = [("a.txt.pcv",
            volumeHeader sampleEnv { startGlobals with password := [112, 119] } 14 [] ++ [])]) :=
  wrong_password_detected sampleEnv
    { g := { startGlobals with mode := "decrypt", inputFile := "a.txt.pcv",
                               outputFile := "a.txt", password := [120] },
      fs := [("a.txt.pcv",
        volumeHeader sampleEnv { startGlobals with password := [112, 119] } 14 [] ++ [])] }
    { g := { startGlobals with mode := "decrypt", inputFile := "a.txt.pcv",
                               outputFile := "a.txt", password := [120],
                               mainStatus := "Working...", mainStatusColor := Color.WHITE },
      fs := [("a.txt.pcv",
        volumeHeader sampleEnv { startGlobals with password := [112, 119] } 14 [] ++ [])] }
    (volumeHeader sampleEnv { startGlobals with password := [112, 119] } 14 [] ++ []) []
    _ (none, zeros 32) 0 0 0 1 rfl rfl (recombinePhase_off _ rfl) (lookup_cons_same _ _ _)
    (by decide)
    (readHeader_volume sampleEnv sampleCodecs_lawful { startGlobals with password := [112, 119] }
      14 (by decide) _ _ _ (sampleCrypto_lawful.sha3_512 _) (length_zeros 32)
      (length_macSum _ sampleCrypto_lawful _ _ _) [] true)
    rfl rfl rfl rfl (keyfilePhase_none _ _ _ rfl rfl) (by decide)

/-! ## Body Reed-Solomon correction -/

theorem rsDecode_fast (rs128 : FEC 128 136) (data : List Nat) (h : 128 ≤ data.length) :
    rsDecode rs128 true data = Except.ok (data.take 128, false) := by
  simp [rsDecode, sliceTo, h, pure_eq_ok, bind_ok]

/-- In the fast-decode pass every sub-chunk is accepted as it is. -/
theorem rsDecodeChunks_fast (rs128 : FEC 128 136) (keep : Bool) :
    ∀ (m : Nat) (dst : List Nat) (kept : Bool), m * 136 ≤ dst.length →
      ∃ r : List Nat,
        rsDecodeChunks rs128 true keep m dst kept = Except.ok (Flow.go (r, kept)) := by
  intro m
  induction m with
  | zero => intro dst kept _; exact ⟨[], rfl⟩
  | succ m ih =>
    intro dst kept hl
    have h1 : 128 ≤ (dst.take 136).length := by
      rw [List.length_take]; omega
    have h2 : m * 136 ≤ (dst.drop 136).length := by
      rw [List.length_drop]; omega
    obtain ⟨r, hr⟩ := ih (dst.drop 136) kept h2
    refine ⟨(dst.take 136).take 128 ++ r, ?_⟩
    rw [rsDecodeChunks, rsDecode_fast rs128 _ h1, bind_ok]
    simp only [Bool.false_eq_true, false_and, if_false, Bool.or_false, hr, bind_ok]
    rfl

/-- The fast-decode pass on a body of `m + 1` sub-chunks, less than a full unit, whose last
sub-chunk has a byte above 128 at index 127: `unpad` slices with a negative bound. -/
theorem bodyLoop_unpad_panic (env : Env) (p : Params) (hp : p.encrypt = false)
    (hr : p.reedsolo = true) (hfd : p.fastDecode = true) (st : Stream) (body : List Nat)
    (m : Nat) (hlen : body.length = (m + 1) * 136) (hm : m + 1 < 8192) (b : Nat)
    (hb : body.get? (m * 136 + 127) = some b) (hbig : 128 < b) (fuel : Nat) :
    bodyLoop env p (fuel + 1) st body = Except.error Fault.panic := by
  have hMv : MiB / 128 * 136 = 1114112 := rfl
  cases body with
  | nil => simp at hlen
  | cons a rest =>
    have hu : unitSize p = 1114112 := by simp [unitSize, hp, hr, hMv]
    have htake : (a :: rest).take 1114112 = a :: rest := by
      apply List.take_of_length_le; rw [hlen]; omega
    obtain ⟨r, hch⟩ := rsDecodeChunks_fast env.cs.rs128 p.keep m (a :: rest) st.kept
      (by rw [hlen]; omega)
    have hchunks : (a :: rest).length / 136 - 1 = m := by
      rw [hlen]; omega
    have hdl : 128 ≤ ((a :: rest).drop (m * 136)).length := by
      rw [List.length_drop, hlen]; omega
    have hidx : ((List.drop (m * 136) (a :: rest)).take 128).get? 127 = some b := by
      rw [List.get?_eq_getElem?, List.getElem?_take_of_lt (by omega), List.getElem?_drop,
        ← List.get?_eq_getElem?]
      exact hb
    have hne : ¬ (a :: rest).length = 1114112 := by rw [hlen]; omega
    have hge : ¬ (a :: rest).length < 136 := by rw [hlen]; omega
    have hnb : ¬ b ≤ 128 := by omega
    rw [bodyLoop, hu, htake]
    simp only [processUnit, hp, hr, Bool.false_eq_true, if_false, if_true, rsDecodeUnit, hMv,
      hne, hge, hchunks, hfd, hch, bind_ok, rsDecodeLast, rsDecode_fast _ _ hdl, false_and,
      unpad, index, hidx, pure_eq_ok, hnb]
    rfl
/-- Decrypting a Reed-Solomon volume whose body is less than a full unit and whose last
sub-chunk carries a byte above 128 at index 127: the fast-decode pass of `work` ends in the
run-time panic of `unpad`. -/
theorem workN_decrypt_unpad_panic (env : Env) (hcs : env.cs.Lawful) (hc : env.c.Lawful)
    (ge : Globals) (total : Nat) (mac body : List Nat) (hC : ge.comments.length ≤ 99999)
    (hre : ge.reedsolo = true) (w : World) (hs : DecryptSetup w.g)
    (hpw : w.g.password = ge.password)
    (hvol : w.fs.read w.g.inputFile = some (volumeHeader env ge total mac ++ body))
    (m : Nat) (hlen : body.length = (m + 1) * 136) (hm : m + 1 < 8192) (b : Nat)
    (hb : body.get? (m * 136 + 127) = some b) (hbig : 128 < b) (n : Nat) :
    workN env (n + 1) w = Except.error Fault.panic := by
  obtain ⟨hmode, hrec, hkfd, hkfile, hsplit, hdel, hkept, hio, hfd⟩ := hs
  have hme : ¬ w.g.mode = "encrypt" := by rw [hmode]; exact decrypt_string_ne
  have hrh := readHeader_volume env hcs ge total hC (env.c.sha3_512 (encKey env ge)) (zeros 32)
    (macSum env.c ge.paranoid (hkdfRead (encHkdf env ge) 0 32) mac)
    (hc.sha3_512 _) (length_zeros 32) (length_macSum env.c hc _ _ _) body w.g.fastDecode
  have hrh2 : readHeader env w.g.fastDecode (volumeHeader env ge total mac ++ body) = _ := hrh
  have key : ∀ (p : Params) (st : Stream), p.encrypt = false → p.reedsolo = true →
      p.fastDecode = true →
      bodyLoop env p (body.length + 1) st body = Except.error Fault.panic :=
    fun p st h1 h2 h3 => bodyLoop_unpad_panic env p h1 h2 h3 st body m hlen hm b hb hbig _
  rw [workN, recombinePhase_off
    { w with g := { w.g with mainStatus := "Working...", mainStatusColor := Color.WHITE } } hrec,
    bind_ok]
  simp only []
  rw [readFile_some _ _ _ hvol, bind_ok]
  simp only [hio, if_false, hme, hrh2, bind_ok, headerFlags, index,
    List.get?_cons_zero, List.get?_cons_succ, pure_eq_ok, decide_flagByte]
  have hany : [false, false, false, false, false, false, false, false, false, false].any id
      = false := rfl
  have hmd : ¬ (w.g.mode ≠ "decrypt") := by rw [hmode]; simp
  simp only [hany, Bool.false_eq_true, false_and, if_false, Bool.or_false, hkfile, hpw, hkept,
    keyfilePhase_none, cipherKey_none, hkfd, bind_ok, hmd, encKey,
    decide_True, Bool.not_true, ne_eq, not_true_eq_false]
  rw [key _ _ rfl hre hfd]
  rfl

/-- C3 (body Reed-Solomon correction), where the code departs from it.  For every plain text
of 1 to `MiB - 129` bytes encrypted with body Reed-Solomon (no keyfiles, codecs and primitives
that meet their library contracts): `work` writes a header followed by a body of
`P.length / 128 + 1` sub-chunks of 136 bytes, and for every body of the same size that has a
byte above 128 at index 127 of the final sub-chunk (however many other bytes differ, so also
when only this byte or only 4 bytes of the final sub-chunk were changed), the decryption that
the Start button runs (fast-decode pass first) does not give the plain text: it ends in the
run-time panic of `unpad`, before the MAC is compared and before any slow pass. -/
theorem body_correction_unpad_panic (env : Env) (hcs : env.cs.Lawful) (hc : env.c.Lawful)
    (ge gd : Globals) (fs : FS) (P : List Nat)
    (hse : EncryptSetup ge) (hre : ge.reedsolo = true) (hC : ge.comments.length ≤ 99999)
    (hP : fs.read ge.inputFile = some P) (hpos : 0 < P.length) (hlt : P.length < MiB - 128)
    (hsd : DecryptSetup gd) (hpw : gd.password = ge.password) :
    ∃ (w1 : World) (hdr body : List Nat),
      work env { g := ge, fs := fs } = Except.ok w1 ∧
      w1.fs.read ge.outputFile = some (hdr ++ body) ∧
      hdr.length = 789 + 3 * ge.comments.length ∧
      body.length = (P.length / 128 + 1) * 136 ∧
      ∀ (body1 : List Nat) (b : Nat), body1.length = body.length →
        body1.get? (P.length / 128 * 136 + 127) = some b → 128 < b →
        work env { g := gd, fs := w1.fs.write gd.inputFile (hdr ++ body1) }
          = Except.error Fault.panic := by
  have hMv : MiB = 1048576 := MiB_val
  have hse2 : EncryptSetup
      ({ g := { ge with mainStatus := "Working...", mainStatusColor := Color.WHITE },
         fs := fs } : World).g := hse
  obtain ⟨mac, body, hbl, _, hwork⟩ := encryptWork_ok env hcs hc
    { g := { ge with mainStatus := "Working...", mainStatusColor := Color.WHITE }, fs := fs }
    P hse2 hC
  have hw1 := workN_encrypt env { g := ge, fs := fs } P 1 hse hP
  have hbody : body.length = (P.length / 128 + 1) * 136 := by
    rw [hbl]
    have h1 : P.length / MiB = 0 := Nat.div_eq_of_lt (by omega)
    have h2 : P.length % MiB = P.length := Nat.mod_eq_of_lt (by omega)
    have h3 : ¬ P.length = 0 := by omega
    simp only [bodyLen, hre, if_true, h1, h2, h3, if_false, Nat.zero_mul, Nat.zero_add]
  have hv := length_volumeHeader env hcs hc ge P.length mac hC
  refine ⟨_, volumeHeader env ge P.length mac, body, hw1.trans hwork, read_write_same _ _ _,
    hv, hbody, ?_⟩
  intro body1 b hl1 hb hbig
  have hm : P.length / 128 + 1 < 8192 := by
    have : P.length / 128 < 8191 := by
      apply Nat.div_lt_of_lt_mul; omega
    omega
  exact workN_decrypt_unpad_panic env hcs hc ge P.length mac body1 hC hre
    { g := gd, fs := _ } hsd hpw (read_write_same _ _ _) (P.length / 128) (hl1.trans hbody) hm b
    hb hbig 1

/-- C3 at the sample environment: the 14-byte plain text `Hello, world!\n` encrypted with body
Reed-Solomon; the bytes 124 to 127 of the single sub-chunk of the body are set to 255. -/
theorem body_correction_unpad_panic_witness :
    ∃ (w1 : World) (hdr body : List Nat),
      work sampleEnv
        { g := { startGlobals with mode := "encrypt", inputFile := "a.txt",
                                   outputFile := "a.txt.pcv", password := [112, 119],
                                   reedsolo := true },
          fs := [("a.txt", [72, 101, 108, 108, 111, 44, 32, 119, 111, 114, 108, 100, 33, 10])] }
        = Except.ok w1 ∧
      w1.fs.read "a.txt.pcv" = some (hdr ++ body) ∧
      hdr.length = 789 ∧ body.length = 136 ∧
      work sampleEnv
        { g := { startGlobals with mode := "decrypt", inputFile := "a.txt.pcv",
                                   outputFile := "a.txt", password := [112, 119] },
          fs := w1.fs.write "a.txt.pcv"
            (hdr ++ (((body.set 124 255).set 125 255).set 126 255).set 127 255) }
        = Except.error Fault.panic := by
  obtain ⟨w1, hdr, body, h1, h2, h3, h4, h5⟩ :=
    body_correction_unpad_panic sampleEnv sampleCodecs_lawful sampleCrypto_lawful
      { startGlobals with mode := "encrypt", inputFile := "a.txt", outputFile := "a.txt.pcv",
                          password := [112, 119], reedsolo := true }
      { startGlobals with mode := "decrypt", inputFile := "a.txt.pcv", outputFile := "a.txt",
                          password := [112, 119] }
      [("a.txt", [72, 101, 108, 108, 111, 44, 32, 119, 111, 114, 108, 100, 33, 10])]
      [72, 101, 108, 108, 111, 44, 32, 119, 111, 114, 108, 100, 33, 10]
      ⟨rfl, rfl, rfl, rfl, rfl, rfl, rfl, by decide⟩ rfl (by decide) (by decide) (by decide)
      (by decide) ⟨rfl, rfl, rfl, rfl, rfl, rfl, rfl, by decide, rfl⟩ rfl
  have h4a : body.length = 136 := h4
  refine ⟨w1, hdr, body, h1, h2, h3, h4a, ?_⟩
  refine h5 _ 255 (by simp) ?_ (by decide)
  have hidx : 14 / 128 * 136 + 127 = 127 := rfl
  have hlen : [72, 101, 108, 108, 111, 44, 32, 119, 111, 114, 108, 100, 33, 10].length = 14 := rfl
  rw [hlen, hidx, List.get?_eq_getElem?, List.getElem?_set_self]
  simp [h4a]

/-! ## Header Reed-Solomon correction -/

/-- The decrypt parser on eleven blocks of the field sizes followed by `body`: the header is
made of what `rsDecode` returns for each decoded block; the comment block is skipped. -/
theorem readHeader_blocks (env : Env) (fd : Bool) (C : Nat)
    (b0 b1 cm b2 b3 b4 b5 b6 b7 b8 b9 body : List Nat)
    (d0 d1 d2 d3 d4 d5 d6 d7 d8 d9 : List Nat) (e0 e1 e2 e3 e4 e5 e6 e7 e8 e9 : Bool)
    (l0 : b0.length = 15) (l1 : b1.length = 15) (lcm : cm.length = C * 3)
    (l2 : b2.length = 15) (l3 : b3.length = 48) (l4 : b4.length = 96) (l5 : b5.length = 48)
    (l6 : b6.length = 72) (l7 : b7.length = 192) (l8 : b8.length = 96) (l9 : b9.length = 192)
    (h0 : rsDecode env.cs.rs5 fd b0 = Except.ok (d0, e0))
    (h1 : rsDecode env.cs.rs5 fd b1 = Except.ok (d1, e1))
    (hC : (atoi d1).1 = (C : Int))
    (h2 : rsDecode env.cs.rs5 fd b2 = Except.ok (d2, e2))
    (h3 : rsDecode env.cs.rs16 fd b3 = Except.ok (d3, e3))
    (h4 : rsDecode env.cs.rs32 fd b4 = Except.ok (d4, e4))
    (h5 : rsDecode env.cs.rs16 fd b5 = Except.ok (d5, e5))
    (h6 : rsDecode env.cs.rs24 fd b6 = Except.ok (d6, e6))
    (h7 : rsDecode env.cs.rs64 fd b7 = Except.ok (d7, e7))
    (h8 : rsDecode env.cs.rs32 fd b8 = Except.ok (d8, e8))
    (h9 : rsDecode env.cs.rs64 fd b9 = Except.ok (d9, e9)) :
    readHeader env fd ([b0, b1, cm, b2, b3, b4, b5, b6, b7, b8, b9].flatten ++ body)
      = Except.ok
          ({ commentsLength := (C : Int), flags := d2, salt := d3, hkdfSalt := d4,
             serpentSalt := d5, nonce := d6, keyHashRef := d7, keyfileHashRef := d8,
             authTag := d9, errs := [e0, e1, e2, e3, e4, e5, e6, e7, e8, e9] },
           body) := by
  have hneg : ¬ ((C : Int) < 0) := by omega
  have lcm1 : cm.length = ((C : Int)).toNat * 3 := by rw [Int.toNat_ofNat]; exact lcm
  simp only [readHeader, List.flatten_cons, List.flatten_nil, List.append_nil,
    List.append_assoc, readBuf_append 15 _ _ l0, h0, bind_ok, readBuf_append 15 _ _ l1, h1, hC,
    hneg, if_false, readBuf_append _ _ _ lcm1, readBuf_append 15 _ _ l2, h2,
    readBuf_append 48 _ _ l3, h3, readBuf_append 96 _ _ l4, h4, readBuf_append 48 _ _ l5, h5,
    readBuf_append 72 _ _ l6, h6, readBuf_append 192 _ _ l7, h7, readBuf_append 96 _ _ l8, h8,
    readBuf_append 192 _ _ l9, h9, pure_eq_ok]

/-- Decrypting, with the password of the encryption and without keyfiles, an input on which
the parser returns the header values of that encryption without a decode error, followed by
a body on which the decrypt loop gives `P` and the MAC input of the header tag: `work` ends
with `P` as output, `Completed.` and `kept` unset. -/
theorem workN_decrypt_header (env : Env) (ge : Globals) (total : Nat)
    (mac content body P : List Nat)
    (hbl : body.length = bodyLen ge.reedsolo total)
    (w : World) (hs : DecryptSetup w.g) (hpw : w.g.password = ge.password)
    (hvol : w.fs.read w.g.inputFile = some content)
    (hclen : content.length = 789 + 3 * ge.comments.length + body.length)
    (hrh : readHeader env w.g.fastDecode content = Except.ok
      ({ commentsLength := (ge.comments.length : Int), flags := headerFlags ge total,
         salt := (genNonces env.rnd).salt, hkdfSalt := (genNonces env.rnd).hkdfSalt,
         serpentSalt := (genNonces env.rnd).serpentSalt, nonce := (genNonces env.rnd).nonce,
         keyHashRef := env.c.sha3_512 (encKey env ge), keyfileHashRef := zeros 32,
         authTag := macSum env.c ge.paranoid (hkdfRead (encHkdf env ge) 0 32) mac,
         errs := [false, false, false, false, false, false, false, false, false, false] },
       body))
    (hdec : ∀ fuelD, body.length < fuelD →
      ∃ stD1 : Stream,
        bodyLoop env (decParams env ge total w.g.keep w.g.fastDecode) fuelD
          (initStream (genNonces env.rnd).nonce (genNonces env.rnd).serpentSalt [] false) body
            = Except.ok (Flow.go stD1) ∧
        stD1.out = P ∧ stD1.macData = mac ∧ stD1.kept = false)
    (n : Nat) :
    workN env (n + 1) w = Except.ok
      { g := { resetUI w.g with kept := false, mainStatus := "Completed.",
                                mainStatusColor := Color.GREEN },
        fs := w.fs.write w.g.outputFile P } := by
  obtain ⟨hmode, hrec, hkfd, hkfile, hsplit, hdel, hkept, hio, hfd⟩ := hs
  have hme : ¬ w.g.mode = "encrypt" := by rw [hmode]; exact decrypt_string_ne
  obtain ⟨stD1, hloop, hout, hmac, hkeptD⟩ := hdec (body.length + 1) (by omega)
  rw [workN, recombinePhase_off
    { w with g := { w.g with mainStatus := "Working...", mainStatusColor := Color.WHITE } } hrec,
    bind_ok]
  simp only []
  rw [readFile_some _ _ _ hvol, bind_ok]
  simp only [hio, if_false, hme, hrh, bind_ok, headerFlags, index,
    List.get?_cons_zero, List.get?_cons_succ, pure_eq_ok, decide_flagByte]
  have hany : [false, false, false, false, false, false, false, false, false, false].any id
      = false := rfl
  have htotal : (content.length : Int) - 789
      - (ge.comments.length : Int) * 3 = ((bodyLen ge.reedsolo total : Nat) : Int) := by
    rw [hclen, hbl]; push_cast; omega
  have hmd : ¬ (w.g.mode ≠ "decrypt") := by rw [hmode]; simp
  simp only [decParams, encKey, encHkdf] at hloop
  simp only [hany, Bool.false_eq_true, false_and, if_false, Bool.or_false, hkfile, hpw, hkept,
    keyfilePhase_none, cipherKey_none, hkfd, bind_ok, hmd, htotal, encKey, encHkdf,
    decide_True, Bool.not_true, hloop, hmac, ne_eq, not_true_eq_false, hout, hkeptD]
  simp only [finishPhase_plain, hsplit, hrec, hdel]
  rfl

/-- A decode error in the header with force-decrypt off: `work` returns with the status
`The volume header is damaged.`, and the output file is not created. -/
theorem workN_header_damaged (env : Env) (w w1 : World) (content rest : List Nat)
    (h : Header) (f0 f3 f4 n : Nat)
    (hmode : w.g.mode = "decrypt") (hkeep : w.g.keep = false)
    (hrp : recombinePhase
      { w with g := { w.g with mainStatus := "Working...", mainStatusColor := Color.WHITE } }
        = Except.ok w1)
    (hin : w1.fs.read w1.g.inputFile = some content)
    (hio : w1.g.inputFile ≠ w.g.outputFile)
    (hrh : readHeader env w.g.fastDecode content = Except.ok (h, rest))
    (hf0 : index h.flags 0 = Except.ok f0) (hf3 : index h.flags 3 = Except.ok f3)
    (hf4 : index h.flags 4 = Except.ok f4)
    (herr : h.errs.any id = true) :
    ∃ w2 : World, workN env (n + 1) w = Except.ok w2 ∧
      w2.g.mainStatus = "The volume header is damaged." ∧
      w2.g.mainStatusColor = Color.RED ∧
      w2.fs.read w.g.outputFile = w.fs.read w.g.outputFile ∧
      (w.g.recombine = false → w2.fs = w.fs) := by
  obtain ⟨e1, e2, e3, e4, e5, e6, e7, e8, e9, e10, e11⟩ := recombinePhase_frame _ _ hrp
  simp only [] at e1 e2 e3 e4 e5 e6 e7 e8 e9 e10 e11
  have hme : ¬ w1.g.mode = "encrypt" := by rw [e1, hmode]; exact decrypt_string_ne
  have hio1 : ¬ w1.g.inputFile = w1.g.outputFile := by rw [e4]; exact hio
  rw [workN, hrp, bind_ok]
  simp only []
  rw [readFile_some _ _ _ hin, bind_ok]
  simp only [hio1, if_false, hme, e6, hrh, bind_ok, hf0, hf3, hf4, pure_eq_ok, herr,
    e2, hkeep, and_self, if_true]
  refine ⟨_, rfl, rfl, rfl, ?_, ?_⟩
  · simp only [e3]
    by_cases hr : w.g.recombine = true
    · rw [if_pos hr, read_remove_other _ _ _ (Ne.symm hio)]
      exact e11 _ (Ne.symm hio)
    · rw [if_neg hr]
      exact e11 _ (Ne.symm hio)
  · intro hr
    simp only [e3, hr, Bool.false_eq_true, if_false]
    exact e10 hr

/-! ## The correcting sample codec meets the contracts -/

theorem hamming_self (a : List Nat) : hamming a a = 0 := by
  induction a with
  | nil => rfl
  | cons x xs ih => simp [hamming, ih]

theorem hamming_comm : ∀ a b : List Nat, hamming a b = hamming b a := by
  intro a
  induction a with
  | nil => intro b; cases b <;> rfl
  | cons x xs ih =>
    intro b
    cases b with
    | nil => rfl
    | cons y ys =>
      simp only [hamming, ih ys]
      by_cases h : x = y
      · subst h; rfl
      · have h1 : ¬ y = x := fun e => h e.symm
        simp only [h, h1, if_false]

theorem hamming_append : ∀ (a b x y : List Nat), a.length = b.length →
    hamming (a ++ x) (b ++ y) = hamming a b + hamming x y := by
  intro a
  induction a with
  | nil =>
    intro b x y h
    cases b with
    | nil => simp [hamming]
    | cons _ _ => simp at h
  | cons p ps ih =>
    intro b x y h
    cases b with
    | nil => simp at h
    | cons q qs =>
      have e := ih qs x y (by simpa using h)
      simp only [List.cons_append, hamming, List.append_eq] at e ⊢
      rw [e]
      omega

theorem hamming_triangle : ∀ (a b c : List Nat), a.length = b.length → b.length = c.length →
    hamming a c ≤ hamming a b + hamming b c := by
  intro a
  induction a with
  | nil => intro b c _ _; simp [hamming]
  | cons p ps ih =>
    intro b c h1 h2
    cases b with
    | nil => simp at h1
    | cons q qs =>
      cases c with
      | nil => simp at h2
      | cons r rs =>
        have := ih qs rs (by simpa using h1) (by simpa using h2)
        simp only [hamming]
        by_cases e1 : p = q <;> by_cases e2 : q = r <;> by_cases e3 : p = r <;>
          simp only [e1, e2, e3, if_true, if_false] <;> omega

theorem hamming_replicate_not_mem : ∀ (y : List Nat) (u : Nat), u ∉ y →
    hamming (List.replicate y.length u) y = y.length := by
  intro y
  induction y with
  | nil => intro u _; rfl
  | cons q qs ih =>
    intro u hu
    have h1 : ¬ u = q := fun e => hu (by simp [e])
    have h2 : u ∉ qs := fun e => hu (by simp [e])
    simp only [List.length_cons, List.replicate_succ, hamming, h1, if_false, ih u h2]
    omega

theorem hamming_pos_of_ne : ∀ (a b : List Nat), a.length = b.length → a ≠ b →
    0 < hamming a b := by
  intro a
  induction a with
  | nil =>
    intro b h hne
    cases b with
    | nil => exact absurd rfl hne
    | cons _ _ => simp at h
  | cons p ps ih =>
    intro b h hne
    cases b with
    | nil => simp at h
    | cons q qs =>
      simp only [hamming]
      by_cases e : p = q
      · subst e
        have := ih qs (by simpa using h) (fun e2 => hne (by rw [e2]))
        omega
      · simp only [e, if_false]; omega

theorem length_tagBlock (k n : Nat) (hkn : k ≤ n) (d : List Nat) (hd : d.length = k) :
    (tagBlock k n d).length = n := by
  simp [tagBlock, hd]; omega

theorem codeword_tagFEC (k n : Nat) (hkn : k ≤ n) (d : List Nat) (hd : d.length = k) :
    codeword (tagFEC k n) d = tagBlock k n d := by
  have h1 : (tagFEC k n).Encode d = sharesOf n (tagBlock k n d) := by
    simp [tagFEC, hd]
  rw [codeword, h1]
  exact map_head_sharesOf n _ (length_tagBlock k n hkn d hd)

/-- The correcting sample codec corrects up to `⌊(n−k)/2⌋` errors. -/
theorem tagFEC_corrects (k n : Nat) (hkn : k < n) : (tagFEC k n).Corrects := by
  intro d c hd hc hh
  rw [codeword_tagFEC k n (by omega) d hd] at hh
  have hsplit : c = c.take k ++ c.drop k := (List.take_append_drop k c).symm
  have hlt : (c.take k).length = k := by rw [List.length_take]; omega
  have hld : (c.drop k).length = n - k := by rw [List.length_drop]; omega
  have hparts : ∀ d1 : List Nat, d1.length = k →
      hamming (tagBlock k n d1) c
        = hamming d1 (c.take k)
          + hamming (List.replicate (n - k) (Encodable.encode d1)) (c.drop k) := by
    intro d1 hd1
    have e := hamming_append d1 (c.take k) (List.replicate (n - k) (Encodable.encode d1))
      (c.drop k) (by rw [hd1, hlt])
    rw [List.take_append_drop] at e
    exact e
  have hmem : Encodable.encode d ∈ c.drop k := by
    by_contra hnot
    have e := hamming_replicate_not_mem (c.drop k) (Encodable.encode d) hnot
    rw [hld] at e
    have := hparts d hd
    omega
  have hdl : d ∈ (c.drop k).filterMap (fun v => (Encodable.decode v : Option (List Nat))) := by
    rw [List.mem_filterMap]
    exact ⟨_, hmem, Encodable.encodek d⟩
  have hpd : (decide (d.length = k) && decide (hamming (tagBlock k n d) c ≤ (n - k) / 2))
      = true := by
    simp [hd, hh]
  have huniq : ∀ d1 : List Nat,
      (decide (d1.length = k) && decide (hamming (tagBlock k n d1) c ≤ (n - k) / 2)) = true →
      d1 = d := by
    intro d1 hp
    simp only [Bool.and_eq_true, decide_eq_true_eq] at hp
    obtain ⟨hd1, hh1⟩ := hp
    by_contra hne
    have hne2 : Encodable.encode d ≠ Encodable.encode d1 :=
      fun e => hne (Encodable.encode_injective e).symm
    have hnm : Encodable.encode d ∉ List.replicate (n - k) (Encodable.encode d1) := by
      intro hm
      exact hne2 (List.eq_of_mem_replicate hm)
    have e1 := hamming_replicate_not_mem (List.replicate (n - k) (Encodable.encode d1))
      (Encodable.encode d) hnm
    rw [List.length_replicate] at e1
    have e2 := hamming_append d d1 (List.replicate (n - k) (Encodable.encode d))
      (List.replicate (n - k) (Encodable.encode d1)) (by rw [hd, hd1])
    have e3 := hamming_pos_of_ne d d1 (by rw [hd, hd1]) (fun e => hne e.symm)
    have e4 := hamming_triangle (tagBlock k n d) c (tagBlock k n d1)
      (by rw [length_tagBlock k n (by omega) d hd, hc])
      (by rw [length_tagBlock k n (by omega) d1 hd1, hc])
    rw [hamming_comm c (tagBlock k n d1)] at e4
    have e5 : hamming (tagBlock k n d) (tagBlock k n d1)
        = hamming d d1 + (n - k) := by
      rw [tagBlock, tagBlock, e2, e1]
    have e6 : 2 * ((n - k) / 2) ≤ n - k := by omega
    omega
  have hdec : (tagFEC k n).Decode (sharesOf n c)
      = ((c.drop k).filterMap (fun v => (Encodable.decode v : Option (List Nat)))).find?
          (fun d => decide (d.length = k) &&
            decide (hamming (tagBlock k n d) c ≤ (n - k) / 2)) := by
    simp only [tagFEC, map_head_sharesOf n c hc]
  rw [hdec]
  cases hf : ((c.drop k).filterMap (fun v => (Encodable.decode v : Option (List Nat)))).find?
      (fun d => decide (d.length = k) &&
        decide (hamming (tagBlock k n d) c ≤ (n - k) / 2)) with
  | none =>
    rw [List.find?_eq_none] at hf
    exact absurd hpd (hf d hdl)
  | some x =>
    have hx := List.find?_some hf
    rw [huniq x hx]

/-- The correcting sample codec meets the library contract. -/
theorem tagFEC_lawful (k n : Nat) (hkn : k < n) : (tagFEC k n).Lawful := by
  refine ⟨?_, ?_, ?_⟩
  · intro d hd
    refine ⟨tagBlock k n d, length_tagBlock k n (by omega) d hd, ?_, by simp [tagFEC, hd]⟩
    rw [tagBlock, ← hd, List.take_left]
  · intro d hd
    have h1 : (tagFEC k n).Encode d = sharesOf n (tagBlock k n d) := by
      simp [tagFEC, hd]
    rw [h1]
    apply tagFEC_corrects k n hkn d _ hd (length_tagBlock k n (by omega) d hd)
    rw [codeword_tagFEC k n (by omega) d hd, hamming_self]
    exact Nat.zero_le _
  · intro d s _ hs
    by_cases hd : d.length = k
    · have h1 : (tagFEC k n).Encode d = sharesOf n (tagBlock k n d) := by
        simp [tagFEC, hd]
      rw [h1, sharesOf, List.mem_map] at hs
      obtain ⟨i, hi, rfl⟩ := hs
      exact ⟨List.mem_range.mp hi, by simp⟩
    · have h1 : (tagFEC k n).Encode d = [] := by simp [tagFEC, hd]
      rw [h1] at hs
      cases hs

theorem tagCodecs_lawful : tagCodecs.Lawful :=
  ⟨tagFEC_lawful 1 3 (by omega), tagFEC_lawful 5 15 (by omega),
   tagFEC_lawful 16 48 (by omega), tagFEC_lawful 24 72 (by omega),
   tagFEC_lawful 32 96 (by omega), tagFEC_lawful 64 192 (by omega),
   tagFEC_lawful 128 136 (by omega)⟩

theorem tagCodecs_corrects : tagCodecs.Corrects :=
  ⟨tagFEC_corrects 1 3 (by omega), tagFEC_corrects 5 15 (by omega),
   tagFEC_corrects 16 48 (by omega), tagFEC_corrects 24 72 (by omega),
   tagFEC_corrects 32 96 (by omega), tagFEC_corrects 64 192 (by omega),
   tagFEC_corrects 128 136 (by omega)⟩

/-- With a codec that corrects, `rsDecode` of a header field (total not 136) with up to
`⌊(n−k)/2⌋` changed bytes returns the encoded data without error, whatever `fastDecode`. -/
theorem rsDecode_corrected {k n : Nat} (rs : FEC k n) (hcr : rs.Corrects) (hn : n ≠ 136)
    (fd : Bool) (d c : List Nat) (hd : d.length = k) (hc : c.length = n)
    (hh : hamming (codeword rs d) c ≤ (n - k) / 2) :
    rsDecode rs fd c = Except.ok (d, false) := by
  have h1 : ¬ c.length < n := by omega
  simp only [rsDecode, hn, false_and, if_false, h1, hcr d c hd hc hh]
  rfl


/-- Decrypting a volume whose header fields were changed within the correction capacity of
their codes (the comment bytes arbitrarily) goes as on the untouched volume. -/
theorem decrypt_near_fields (env : Env) (hcs : env.cs.Lawful) (hcr : env.cs.Corrects)
    (hc : env.c.Lawful) (ge : Globals) (total : Nat) (mac body P : List Nat)
    (hC : ge.comments.length ≤ 99999)
    (hbl : body.length = bodyLen ge.reedsolo total)
    (new : List (List Nat))
    (hnear : nearFields (headerFields env ge total mac) new (fieldSlack ge.comments.length)
      = true)
    (w : World) (hs : DecryptSetup w.g) (hpw : w.g.password = ge.password)
    (hvol : w.fs.read w.g.inputFile = some (new.flatten ++ body))
    (hdec : ∀ fuelD, body.length < fuelD →
      ∃ stD1 : Stream,
        bodyLoop env (decParams env ge total w.g.keep w.g.fastDecode) fuelD
          (initStream (genNonces env.rnd).nonce (genNonces env.rnd).serpentSalt [] false) body
            = Except.ok (Flow.go stD1) ∧
        stD1.out = P ∧ stD1.macData = mac ∧ stD1.kept = false)
    (n : Nat) :
    workN env (n + 1) w = Except.ok
      { g := { resetUI w.g with kept := false, mainStatus := "Completed.",
                                mainStatusColor := Color.GREEN },
        fs := w.fs.write w.g.outputFile P } := by
  have lv := (rsEncode_lawful env.cs.rs5 hcs.rs5 version rfl).2.1
  have lcl := (rsEncode_lawful env.cs.rs5 hcs.rs5 _ (fmt05d_length _ hC)).2.1
  have lfl := (rsEncode_lawful env.cs.rs5 hcs.rs5 (headerFlags ge total) rfl).2.1
  have ls := (rsEncode_lawful env.cs.rs16 hcs.rs16 (genNonces env.rnd).salt
    (length_randRead _ _)).2.1
  have lhs := (rsEncode_lawful env.cs.rs32 hcs.rs32 (genNonces env.rnd).hkdfSalt
    (length_randRead _ _)).2.1
  have lss := (rsEncode_lawful env.cs.rs16 hcs.rs16 (genNonces env.rnd).serpentSalt
    (length_randRead _ _)).2.1
  have lno := (rsEncode_lawful env.cs.rs24 hcs.rs24 (genNonces env.rnd).nonce
    (length_randRead _ _)).2.1
  have lcm := (encodeComments_ok env.cs.rs1 hcs.rs1 ge.comments).2
  have lkh := (rsEncode_lawful env.cs.rs64 hcs.rs64 _ (hc.sha3_512 (encKey env ge))).2.1
  have lkfh := (rsEncode_lawful env.cs.rs32 hcs.rs32 (zeros 32) (length_zeros 32)).2.1
  have ltag := (rsEncode_lawful env.cs.rs64 hcs.rs64 _
    (length_macSum env.c hc ge.paranoid (hkdfRead (encHkdf env ge) 0 32) mac)).2.1
  rcases new with _ | ⟨b0, _ | ⟨b1, _ | ⟨cm, _ | ⟨b2, _ | ⟨b3, _ | ⟨b4, _ | ⟨b5, _ | ⟨b6,
    _ | ⟨b7, _ | ⟨b8, _ | ⟨b9, _ | ⟨x, xs⟩⟩⟩⟩⟩⟩⟩⟩⟩⟩⟩⟩ <;>
    simp only [headerFields, headerFront, verifierFields, fieldSlack, List.cons_append,
      List.nil_append, nearFields, Bool.and_eq_true, decide_eq_true_eq, Bool.and_true,
      Bool.and_false, Bool.false_eq_true, and_false, false_and] at hnear
  obtain ⟨⟨l0, h0⟩, ⟨l1, h1⟩, ⟨l2c, _⟩, ⟨l2, h2⟩, ⟨l3, h3⟩, ⟨l4, h4⟩, ⟨l5, h5⟩, ⟨l6, h6⟩,
    ⟨l7, h7⟩, ⟨l8, h8⟩, ⟨l9, h9⟩⟩ := hnear
  rw [lv] at l0
  rw [lcl] at l1
  rw [lcm] at l2c
  rw [lfl] at l2
  rw [ls] at l3
  rw [lhs] at l4
  rw [lss] at l5
  rw [lno] at l6
  rw [lkh] at l7
  rw [lkfh] at l8
  rw [ltag] at l9
  have l2c1 : cm.length = ge.comments.length * 3 := by omega
  have hrh := readHeader_blocks env w.g.fastDecode ge.comments.length
    b0 b1 cm b2 b3 b4 b5 b6 b7 b8 b9 body _ _ _ _ _ _ _ _ _ _ _ _ _ _ _ _ _ _ _ _
    l0 l1 l2c1 l2 l3 l4 l5 l6 l7 l8 l9
    (rsDecode_corrected env.cs.rs5 hcr.rs5 (by decide) _ version b0 rfl l0 h0)
    (rsDecode_corrected env.cs.rs5 hcr.rs5 (by decide) _ _ b1 (fmt05d_length _ hC) l1 h1)
    (congrArg Prod.fst (atoi_fmt05d _ hC))
    (rsDecode_corrected env.cs.rs5 hcr.rs5 (by decide) _ (headerFlags ge total) b2 rfl l2 h2)
    (rsDecode_corrected env.cs.rs16 hcr.rs16 (by decide) _ _ b3 (length_randRead _ _) l3 h3)
    (rsDecode_corrected env.cs.rs32 hcr.rs32 (by decide) _ _ b4 (length_randRead _ _) l4 h4)
    (rsDecode_corrected env.cs.rs16 hcr.rs16 (by decide) _ _ b5 (length_randRead _ _) l5 h5)
    (rsDecode_corrected env.cs.rs24 hcr.rs24 (by decide) _ _ b6 (length_randRead _ _) l6 h6)
    (rsDecode_corrected env.cs.rs64 hcr.rs64 (by decide) _ _ b7 (hc.sha3_512 _) l7 h7)
    (rsDecode_corrected env.cs.rs32 hcr.rs32 (by decide) _ _ b8 (length_zeros 32) l8 h8)
    (rsDecode_corrected env.cs.rs64 hcr.rs64 (by decide) _ _ b9
      (length_macSum env.c hc _ _ _) l9 h9)
  have hclen : ([b0, b1, cm, b2, b3, b4, b5, b6, b7, b8, b9].flatten ++ body).length
      = 789 + 3 * ge.comments.length + body.length := by
    simp only [List.flatten_cons, List.flatten_nil, List.length_append, List.length_nil, l0, l1,
      l2c, l2, l3, l4, l5, l6, l7, l8, l9]
    omega
  exact workN_decrypt_header env ge total mac _ body P hbl w hs hpw hvol hclen hrh hdec n


theorem hamming_map_succ (a : List Nat) : hamming a (a.map (fun x => x + 1)) = a.length := by
  induction a with
  | nil => rfl
  | cons x xs ih =>
    simp only [List.map_cons, hamming, ih, List.length_cons]
    have : ¬ x = x + 1 := by omega
    simp only [this, if_false]
    omega

theorem hamming_le_length : ∀ a b : List Nat, hamming a b ≤ a.length := by
  intro a
  induction a with
  | nil => intro b; cases b <;> exact Nat.le_refl 0
  | cons x xs ih =>
    intro b
    cases b with
    | nil => exact Nat.zero_le _
    | cons y ys =>
      have := ih ys
      simp only [hamming, List.length_cons]
      by_cases e : x = y
      · simp only [e, if_true]; omega
      · simp only [e, if_false]; omega

/-- The fields of a volume with only the comment bytes replaced, by bytes of the same
number, are within the bounds of `fieldSlack`. -/
theorem nearFields_comment (env : Env) (hcs : env.cs.Lawful) (g : Globals) (total : Nat)
    (mac cm : List Nat) (hcm : cm.length = 3 * g.comments.length) :
    nearFields (headerFields env g total mac) ((headerFields env g total mac).set 2 cm)
      (fieldSlack g.comments.length) = true := by
  have lcm := (encodeComments_ok env.cs.rs1 hcs.rs1 g.comments).2
  have hle := hamming_le_length (commentField env.cs.rs1 g.comments) cm
  rw [lcm] at hle
  simp only [headerFields, headerFront, verifierFields, fieldSlack, List.cons_append,
    List.nil_append, List.set, nearFields, hamming_self, Bool.and_eq_true, decide_eq_true_eq,
    Nat.zero_le, and_self, true_and, and_true, hcm, lcm, hle]

/-- An encryption without keyfiles followed by the decryption of the volume with header
fields changed within the bounds of `fieldSlack`: the decryption gives the plain text. -/
theorem decrypt_changed_header (env : Env) (hcs : env.cs.Lawful) (hcr : env.cs.Corrects)
    (hc : env.c.Lawful) (ge gd : Globals) (fs : FS) (P : List Nat)
    (hse : EncryptSetup ge) (hC : ge.comments.length ≤ 99999)
    (hP : fs.read ge.inputFile = some P) (hsd : DecryptSetup gd)
    (hpw : gd.password = ge.password) :
    ∃ (w1 : World) (mac body : List Nat),
      work env { g := ge, fs := fs } = Except.ok w1 ∧
      w1.fs.read ge.outputFile = some ((headerFields env ge P.length mac).flatten ++ body) ∧
      ∀ new : List (List Nat),
        nearFields (headerFields env ge P.length mac) new (fieldSlack ge.comments.length)
          = true →
        ∃ w2 : World,
          work env { g := gd, fs := w1.fs.write gd.inputFile (new.flatten ++ body) }
            = Except.ok w2 ∧
          w2.fs.read gd.outputFile = some P ∧ w2.g.kept = false ∧
          w2.g.mainStatus = "Completed." := by
  have hse2 : EncryptSetup
      ({ g := { ge with mainStatus := "Working...", mainStatusColor := Color.WHITE },
         fs := fs } : World).g := hse
  obtain ⟨mac, body, hbl, hdec, hwork⟩ := encryptWork_ok env hcs hc
    { g := { ge with mainStatus := "Working...", mainStatusColor := Color.WHITE }, fs := fs }
    P hse2 hC
  have hw1 := workN_encrypt env { g := ge, fs := fs } P 1 hse hP
  refine ⟨_, mac, body, hw1.trans hwork, read_write_same _ _ _, ?_⟩
  intro new hnear
  have hd := decrypt_near_fields env hcs hcr hc ge P.length mac body P hC hbl new hnear
    { g := gd,
      fs := (fs.write ge.outputFile (volumeHeader env ge P.length mac ++ body)).write
        gd.inputFile (new.flatten ++ body) }
    hsd hpw (read_write_same _ _ _) (fun fuelD hf => hdec gd.keep gd.fastDecode false fuelD hf) 1
  exact ⟨_, hd, read_write_same _ _ _, rfl, rfl⟩

/-- C4, refuted as stated.  At the sample environment with correcting codecs, the volume of
the 14-byte plain text `Hello, world!\n` with the comment `A`: every one of the 3 bytes of
the comment field, whose code (3,1) corrects `⌊(3−1)/2⌋ = 1` byte, is changed, and the
decryption still ends with `Completed.` and the plain text, not with `The volume header is
damaged.`. -/
theorem header_correction_counterexample :
    ∃ (w1 : World) (mac body : List Nat),
      work tagEnv
        { g := { sampleEncrypt with comments := [65] }, fs := [("a.txt", samplePlain)] }
        = Except.ok w1 ∧
      w1.fs.read "a.txt.pcv"
        = some ((headerFields tagEnv { sampleEncrypt with comments := [65] } 14 mac).flatten
            ++ body) ∧
      (commentField tagEnv.cs.rs1 [65]).length = 3 ∧
      (3 - 1) / 2 < hamming (commentField tagEnv.cs.rs1 [65])
        ((commentField tagEnv.cs.rs1 [65]).map (fun x => x + 1)) ∧
      ∃ w2 : World,
        work tagEnv
          { g := sampleDecrypt,
            fs := w1.fs.write "a.txt.pcv"
              (((headerFields tagEnv { sampleEncrypt with comments := [65] } 14 mac).set 2
                ((commentField tagEnv.cs.rs1 [65]).map (fun x => x + 1))).flatten ++ body) }
          = Except.ok w2 ∧
        w2.g.mainStatus = "Completed." ∧
        w2.g.mainStatus ≠ "The volume header is damaged." ∧
        w2.fs.read "a.txt" = some samplePlain := by
  have hlen3 : (commentField tagEnv.cs.rs1 [65]).length = 3 :=
    (encodeComments_ok tagEnv.cs.rs1 tagCodecs_lawful.rs1 [65]).2
  obtain ⟨w1, mac, body, h1, h2, h3⟩ := decrypt_changed_header tagEnv tagCodecs_lawful
    tagCodecs_corrects sampleCrypto_lawful { sampleEncrypt with comments := [65] }
    sampleDecrypt [("a.txt", samplePlain)] samplePlain
    ⟨rfl, rfl, rfl, rfl, rfl, rfl, rfl, by decide⟩ (by decide) (by decide)
    ⟨rfl, rfl, rfl, rfl, rfl, rfl, rfl, by decide, rfl⟩ rfl
  obtain ⟨w2, h4, h5, _, h7⟩ := h3 _ (nearFields_comment tagEnv tagCodecs_lawful
    { sampleEncrypt with comments := [65] } 14 mac
    ((commentField tagEnv.cs.rs1 [65]).map (fun x => x + 1))
    (by rw [List.length_map]; exact hlen3))
  refine ⟨w1, mac, body, h1, h2, hlen3, ?_, w2, h4, h7, ?_, h5⟩
  · rw [hamming_map_succ, hlen3]; decide
  · rw [h7]; decide


theorem hamming_set_le : ∀ (a : List Nat) (i x : Nat), hamming a (a.set i x) ≤ 1 := by
  intro a
  induction a with
  | nil => intro i x; exact Nat.zero_le _
  | cons p ps ih =>
    intro i x
    cases i with
    | zero =>
      simp only [List.set, hamming, hamming_self]
      by_cases e : p = x
      · simp only [e, if_true]; omega
      · simp only [e, if_false]; omega
    | succ j =>
      have := ih j x
      simp only [List.set, hamming, if_true]
      omega

/-- The fields of a volume with only the version field replaced, by a block of the same size
within 5 bytes of it, are within the bounds of `fieldSlack`. -/
theorem nearFields_version (env : Env) (g : Globals) (total : Nat) (mac b0 : List Nat)
    (hl : b0.length = (codeword env.cs.rs5 version).length)
    (hh : hamming (codeword env.cs.rs5 version) b0 ≤ 5) :
    nearFields (headerFields env g total mac) ((headerFields env g total mac).set 0 b0)
      (fieldSlack g.comments.length) = true := by
  have hle := hamming_self (commentField env.cs.rs1 g.comments)
  simp only [headerFields, headerFront, verifierFields, fieldSlack, List.cons_append,
    List.nil_append, List.set, nearFields, hamming_self, Bool.and_eq_true, decide_eq_true_eq,
    Nat.zero_le, and_self, true_and, and_true, hl, hh]

/-- The correcting sample codec reports an error on a block of zeros. -/
theorem tagFEC_decode_zeros (k n : Nat) (hk : 0 < k) :
    (tagFEC k n).Decode (sharesOf n (zeros n)) = none := by
  have hdec : (tagFEC k n).Decode (sharesOf n (zeros n))
      = (((zeros n).drop k).filterMap
          (fun v => (Encodable.decode v : Option (List Nat)))).find?
          (fun d => decide (d.length = k) &&
            decide (hamming (tagBlock k n d) (zeros n) ≤ (n - k) / 2)) := by
    simp only [tagFEC, map_head_sharesOf n (zeros n) (length_zeros n)]
  rw [hdec, List.find?_eq_none]
  intro d hd
  rw [List.mem_filterMap] at hd
  obtain ⟨v, hv, hdv⟩ := hd
  have hv0 : v = 0 := by
    have := List.mem_of_mem_drop hv
    exact List.eq_of_mem_replicate this
  subst hv0
  have hd0 : d = [] := by
    have : (Encodable.decode 0 : Option (List Nat)) = some [] := Encodable.decode_list_zero
    rw [this] at hdv
    exact (Option.some.inj hdv).symm
  subst hd0
  have : ¬ (0 = k) := by omega
  simp [this]

/-- A header field of zeros makes `rsDecode` of the correcting sample codec report an error
and return the first `n / 3` bytes. -/
theorem rsDecode_tagFEC_zeros (k n : Nat) (hk : 0 < k) (hn : n ≠ 136) (fd : Bool) :
    rsDecode (tagFEC k n) fd (zeros n) = Except.ok (zeros (n / 3), true) := by
  have h1 : ¬ (zeros n).length < n := by rw [length_zeros]; omega
  have h2 : n / 3 ≤ (zeros n).length := by rw [length_zeros]; omega
  have h3 : (zeros n).take (n / 3) = zeros (n / 3) := by
    simp only [zeros, List.take_replicate]
    congr 1
    omega
  simp only [rsDecode, hn, false_and, if_false, h1, tagFEC_decode_zeros k n hk, sliceTo, h2,
    if_true, pure_eq_ok, bind_ok, h3]


/-- The decrypt parser on a volume whose version field was replaced by a block on which the
decoder reports an error: the error is recorded, every other field is read as written. -/
theorem readHeader_version_replaced (env : Env) (hcs : env.cs.Lawful) (hc : env.c.Lawful)
    (g : Globals) (total : Nat) (hC : g.comments.length ≤ 99999) (mac body b0 d0 : List Nat)
    (fd : Bool) (hl : b0.length = 15) (hz : rsDecode env.cs.rs5 fd b0 = Except.ok (d0, true)) :
    readHeader env fd (((headerFields env g total mac).set 0 b0).flatten ++ body)
      = Except.ok
          ({ commentsLength := (g.comments.length : Int), flags := headerFlags g total,
             salt := (genNonces env.rnd).salt, hkdfSalt := (genNonces env.rnd).hkdfSalt,
             serpentSalt := (genNonces env.rnd).serpentSalt, nonce := (genNonces env.rnd).nonce,
             keyHashRef := env.c.sha3_512 (encKey env g), keyfileHashRef := zeros 32,
             authTag := macSum env.c g.paranoid (hkdfRead (encHkdf env g) 0 32) mac,
             errs := [true, false, false, false, false, false, false, false, false, false] },
           body) := by
  have n5 : (15 : Nat) = 136 → (5 : Nat) = 128 := by omega
  have n16 : (48 : Nat) = 136 → (16 : Nat) = 128 := by omega
  have n24 : (72 : Nat) = 136 → (24 : Nat) = 128 := by omega
  have n32 : (96 : Nat) = 136 → (32 : Nat) = 128 := by omega
  have n64 : (192 : Nat) = 136 → (64 : Nat) = 128 := by omega
  have lcm : (commentField env.cs.rs1 g.comments).length = g.comments.length * 3 := by
    rw [(encodeComments_ok env.cs.rs1 hcs.rs1 g.comments).2]; omega
  exact readHeader_blocks env fd g.comments.length b0 _ _ _ _ _ _ _ _ _ _ body
    _ _ _ _ _ _ _ _ _ _ _ _ _ _ _ _ _ _ _ _ hl
    (rsEncode_lawful env.cs.rs5 hcs.rs5 _ (fmt05d_length _ hC)).2.1
    lcm
    (rsEncode_lawful env.cs.rs5 hcs.rs5 (headerFlags g total) rfl).2.1
    (rsEncode_lawful env.cs.rs16 hcs.rs16 _ (length_randRead _ _)).2.1
    (rsEncode_lawful env.cs.rs32 hcs.rs32 _ (length_randRead _ _)).2.1
    (rsEncode_lawful env.cs.rs16 hcs.rs16 _ (length_randRead _ _)).2.1
    (rsEncode_lawful env.cs.rs24 hcs.rs24 _ (length_randRead _ _)).2.1
    (rsEncode_lawful env.cs.rs64 hcs.rs64 _ (hc.sha3_512 (encKey env g))).2.1
    (rsEncode_lawful env.cs.rs32 hcs.rs32 (zeros 32) (length_zeros 32)).2.1
    (rsEncode_lawful env.cs.rs64 hcs.rs64 _ (length_macSum env.c hc _ _ _)).2.1
    hz
    (rsDecode_codeword_any env.cs.rs5 hcs.rs5 n5 fd _ (fmt05d_length _ hC))
    (congrArg Prod.fst (atoi_fmt05d _ hC))
    (rsDecode_codeword_any env.cs.rs5 hcs.rs5 n5 fd (headerFlags g total) rfl)
    (rsDecode_codeword_any env.cs.rs16 hcs.rs16 n16 fd _ (length_randRead _ _))
    (rsDecode_codeword_any env.cs.rs32 hcs.rs32 n32 fd _ (length_randRead _ _))
    (rsDecode_codeword_any env.cs.rs16 hcs.rs16 n16 fd _ (length_randRead _ _))
    (rsDecode_codeword_any env.cs.rs24 hcs.rs24 n24 fd _ (length_randRead _ _))
    (rsDecode_codeword_any env.cs.rs64 hcs.rs64 n64 fd _ (hc.sha3_512 _))
    (rsDecode_codeword_any env.cs.rs32 hcs.rs32 n32 fd _ (length_zeros 32))
    (rsDecode_codeword_any env.cs.rs64 hcs.rs64 n64 fd _ (length_macSum env.c hc _ _ _))

/-- C4 as amended.  For every volume written by an encryption without keyfiles (comment of
at most 99999 bytes) with codecs that meet the library contract and correct up to
`⌊(n−k)/2⌋` byte errors: (1) when in each of the ten header fields that `work` decodes at
most `⌊(n−k)/2⌋` bytes are changed (so also when the changes are inside a single field), and
whatever is changed in the comment bytes, which `work` skips without decoding, the decryption
still succeeds: it writes the plain text, leaves `kept` unset and reports `Completed.`;
(2) whenever the decoder reports an error for one of the ten decoded fields of its input and
force-decrypt is off, `work` returns with the red status `The volume header is damaged.` and
leaves the file system as it was. -/
theorem header_correction (env : Env) (hcs : env.cs.Lawful) (hcr : env.cs.Corrects)
    (hc : env.c.Lawful) (ge gd : Globals) (fs : FS) (P : List Nat)
    (hse : EncryptSetup ge) (hC : ge.comments.length ≤ 99999)
    (hP : fs.read ge.inputFile = some P) (hsd : DecryptSetup gd)
    (hpw : gd.password = ge.password) :
    (∃ (w1 : World) (mac body : List Nat),
      work env { g := ge, fs := fs } = Except.ok w1 ∧
      w1.fs.read ge.outputFile = some ((headerFields env ge P.length mac).flatten ++ body) ∧
      ∀ new : List (List Nat),
        nearFields (headerFields env ge P.length mac) new (fieldSlack ge.comments.length)
          = true →
        ∃ w2 : World,
          work env { g := gd, fs := w1.fs.write gd.inputFile (new.flatten ++ body) }
            = Except.ok w2 ∧
          w2.fs.read gd.outputFile = some P ∧ w2.g.kept = false ∧
          w2.g.mainStatus = "Completed.") ∧
    (∀ (fs2 : FS) (content rest : List Nat) (h : Header) (f0 f3 f4 : Nat),
      gd.keep = false → fs2.read gd.inputFile = some content →
      readHeader env true content = Except.ok (h, rest) →
      index h.flags 0 = Except.ok f0 → index h.flags 3 = Except.ok f3 →
      index h.flags 4 = Except.ok f4 → h.errs.any id = true →
      ∃ w2 : World, work env { g := gd, fs := fs2 } = Except.ok w2 ∧
        w2.g.mainStatus = "The volume header is damaged." ∧
        w2.g.mainStatusColor = Color.RED ∧ w2.fs = fs2) := by
  refine ⟨decrypt_changed_header env hcs hcr hc ge gd fs P hse hC hP hsd hpw, ?_⟩
  intro fs2 content rest h f0 f3 f4 hkeep hin hrh hf0 hf3 hf4 herr
  obtain ⟨hmode, hrec, _, _, _, _, _, hio, hfd⟩ := hsd
  have hrh2 : readHeader env ({ g := gd, fs := fs2 } : World).g.fastDecode content
      = Except.ok (h, rest) := by
    rw [← hrh]; exact congrArg (fun b => readHeader env b content) hfd
  obtain ⟨w2, h1, h2, h3, _, h5⟩ := workN_header_damaged env { g := gd, fs := fs2 }
    { g := { gd with mainStatus := "Working...", mainStatusColor := Color.WHITE }, fs := fs2 }
    content rest h f0 f3 f4 1 hmode hkeep (recombinePhase_off _ hrec) hin hio hrh2 hf0 hf3 hf4
    herr
  exact ⟨w2, h1, h2, h3, h5 hrec⟩

/-- C4 as amended, at the sample environment with correcting codecs, for the volume of the
14-byte plain text `Hello, world!\n`: with byte 0 of the version field changed the decryption
gives the plain text; with the version field replaced by zeros the decoder reports an error
and the decryption reports the header as damaged. -/
theorem header_correction_witness :
    ∃ (w1 : World) (mac body : List Nat),
      work tagEnv { g := sampleEncrypt, fs := [("a.txt", samplePlain)] } = Except.ok w1 ∧
      w1.fs.read "a.txt.pcv"
        = some ((headerFields tagEnv sampleEncrypt 14 mac).flatten ++ body) ∧
      (∃ w2 : World,
        work tagEnv
          { g := sampleDecrypt,
            fs := w1.fs.write "a.txt.pcv"
              (((headerFields tagEnv sampleEncrypt 14 mac).set 0
                ((codeword tagEnv.cs.rs5 version).set 0 0)).flatten ++ body) }
          = Except.ok w2 ∧
        w2.fs.read "a.txt" = some samplePlain ∧ w2.g.kept = false ∧
        w2.g.mainStatus = "Completed.") ∧
      (∃ w3 : World,
        work tagEnv
          { g := sampleDecrypt,
            fs := w1.fs.write "a.txt.pcv"
              (((headerFields tagEnv sampleEncrypt 14 mac).set 0 (zeros 15)).flatten
                ++ body) }
          = Except.ok w3 ∧
        w3.g.mainStatus = "The volume header is damaged." ∧
        w3.g.mainStatusColor = Color.RED ∧
        w3.fs = w1.fs.write "a.txt.pcv"
          (((headerFields tagEnv sampleEncrypt 14 mac).set 0 (zeros 15)).flatten ++ body)) := by
  obtain ⟨⟨w1, mac, body, h1, h2, h3⟩, hdam⟩ :=
    header_correction tagEnv tagCodecs_lawful tagCodecs_corrects sampleCrypto_lawful
      sampleEncrypt sampleDecrypt [("a.txt", samplePlain)] samplePlain
      ⟨rfl, rfl, rfl, rfl, rfl, rfl, rfl, by decide⟩ (by decide) (by decide)
      ⟨rfl, rfl, rfl, rfl, rfl, rfl, rfl, by decide, rfl⟩ rfl
  refine ⟨w1, mac, body, h1, h2, ?_, ?_⟩
  · exact h3 _ (nearFields_version tagEnv sampleEncrypt 14 mac _ (List.length_set _ _ _)
      (le_trans (hamming_set_le _ 0 0) (by decide)))
  · exact hdam _ _ body _ 0 0 0 rfl (read_write_same _ _ _)
      (readHeader_version_replaced tagEnv tagCodecs_lawful sampleCrypto_lawful sampleEncrypt 14
        (by decide) mac body (zeros 15) (zeros 5) true rfl
        (rsDecode_tagFEC_zeros 5 15 (by decide) (by decide) true))
      rfl rfl rfl rfl

/-! ## Split and recombine -/

theorem atoi_overflow_size : atoi [56, 51, 56, 56, 54, 48, 56] = ((8388608 : Int), false) := by
  decide

theorem chunkName_ne (base : String) (i : Nat) : chunkName base i ≠ base := by
  intro h
  have hl := congrArg String.length h
  simp only [chunkName, String.length_append] at hl
  have : ".".length = 1 := rfl
  omega

theorem countChunks_none (fs : FS) (base : String) (fuel : Nat)
    (h : fs.read (chunkName base 0) = none) : countChunks fs base (fuel + 1) 0 = Except.ok 0 := by
  simp only [countChunks, h]
  rfl

theorem chunkSizeOf_overflow (size : Nat) :
    chunkSizeOf [56, 51, 56, 56, 54, 48, 56] 3 size = Except.ok (-(2 : Int) ^ 63) := by
  have h0 : ¬ (3 = 0) := by decide
  have h1 : ¬ (3 = 1) := by decide
  have h2 : ¬ (3 = 2) := by decide
  have hw : wrap64 (8388608 * (TiB : Int)) = -(2 : Int) ^ 63 := by decide
  simp only [chunkSizeOf, atoi_overflow_size, h0, h1, h2, if_false, if_true, hw]
  rfl

theorem ceilDiv_overflow (size : Nat) (h : size < 2 ^ 53) :
    ceilDiv size (-(2 : Int) ^ 63) = Except.ok 0 := by
  have h1 : ¬ ((-(2 : Int) ^ 63) = 0 ∨ 2 ^ 53 ≤ size) := by
    intro hh
    rcases hh with hh | hh
    · exact absurd hh (by decide)
    · omega
  have h2 : ¬ (0 < (-(2 : Int) ^ 63)) := by decide
  have h3 : (-(-(2 : Int) ^ 63)).toNat = 2 ^ 63 := by decide
  have h4 : size / 2 ^ 63 = 0 := Nat.div_eq_of_lt (by omega)
  simp only [ceilDiv, h1, h2, if_false, h3, h4]
  rfl

/-- C5, where the code departs from it.  The split size `8388608` with the unit `TiB` passes
the check of the Start button, and `chunkSize *= TiB` wraps to `-2^63`: the number of chunks
is `int(math.Ceil(size / -2^63)) = 0` for every volume (below `2^53` bytes), so the split step
writes no chunk and then removes the volume; in a directory without earlier chunk files the
recombine step finds no chunk and concatenates nothing. -/
theorem split_overflow_loses_volume (g : Globals) (fs : FS) (V : List Nat)
    (hsplit : g.split = true) (hsize : g.splitSize = [56, 51, 56, 56, 54, 48, 56])
    (hunit : g.splitSelected = 3) (hV : fs.read g.outputFile = some V)
    (hlen : V.length < 2 ^ 53) (hfresh : fs.read (chunkName g.outputFile 0) = none) :
    splitSizeAccepted g.splitSize = true ∧
    chunkSizeOf g.splitSize g.splitSelected V.length = Except.ok (-(2 : Int) ^ 63) ∧
    splitPhase g fs = Except.ok (fs.remove g.outputFile) ∧
    (fs.remove g.outputFile).read g.outputFile = none ∧
    countChunks (fs.remove g.outputFile) g.outputFile ((fs.remove g.outputFile).length + 1) 0
      = Except.ok 0 ∧
    mergeLoop (fs.remove g.outputFile) g.outputFile 0 0 [] = Except.ok [] := by
  have hfresh1 : (fs.remove g.outputFile).read (chunkName g.outputFile 0) = none := by
    rw [read_remove_other _ _ _ (chunkName_ne g.outputFile 0)]
    exact hfresh
  refine ⟨?_, ?_, ?_, read_remove_same _ _, countChunks_none _ _ _ hfresh1, rfl⟩
  · rw [hsize]; decide
  · rw [hsize, hunit]; exact chunkSizeOf_overflow _
  · simp only [splitPhase, hsplit, if_true, readFile_some _ _ _ hV, bind_ok, hsize, hunit,
      chunkSizeOf_overflow, ceilDiv_overflow _ hlen]
    rfl

/-- C5 at a concrete input: a volume of three bytes split with the size `8388608` TiB. -/
theorem split_overflow_loses_volume_witness :
    splitSizeAccepted [56, 51, 56, 56, 54, 48, 56] = true ∧
    chunkSizeOf [56, 51, 56, 56, 54, 48, 56] 3 3 = Except.ok (-(2 : Int) ^ 63) ∧
    splitPhase
        { sampleEncrypt with split := true, splitSize := [56, 51, 56, 56, 54, 48, 56],
                             splitSelected := 3 }
        [("a.txt.pcv", [1, 2, 3])]
      = Except.ok (FS.remove [("a.txt.pcv", [1, 2, 3])] "a.txt.pcv") ∧
    (FS.remove [("a.txt.pcv", [1, 2, 3])] "a.txt.pcv").read "a.txt.pcv" = none ∧
    countChunks (FS.remove [("a.txt.pcv", [1, 2, 3])] "a.txt.pcv") "a.txt.pcv"
        ((FS.remove [("a.txt.pcv", [1, 2, 3])] "a.txt.pcv").length + 1) 0
      = Except.ok 0 ∧
    mergeLoop (FS.remove [("a.txt.pcv", [1, 2, 3])] "a.txt.pcv") "a.txt.pcv" 0 0 []
      = Except.ok [] :=
  split_overflow_loses_volume
    { sampleEncrypt with split := true, splitSize := [56, 51, 56, 56, 54, 48, 56],
                         splitSelected := 3 }
    [("a.txt.pcv", [1, 2, 3])] [1, 2, 3] rfl rfl rfl (by decide) (by decide) (by decide)

/-! ## Fast decode, body size, padding -/

theorem rsDecode_header_code {k n : Nat} (rs : FEC k n) (hn : n ≠ 136) (d : List Nat) :
    rsDecode rs true d = rsDecode rs false d := by
  simp only [rsDecode, hn, false_and, if_false]

/-- C11 (fast-decode shortcut is body-only).  With `fastDecode` set, `rsDecode` on the
(128,136) code returns the first 128 bytes of every 136-byte input with no error, whatever
the codec and whatever the 8 parity bytes; for each of the six header codes `rsDecode`
gives the same result on every input whether `fastDecode` is set or not. -/
theorem fast_decode_body_only (cs : Codecs) (data : List Nat) (hlen : data.length = 136) :
    rsDecode cs.rs128 true data = Except.ok (data.take 128, false) ∧
    (∀ front parity : List Nat, front.length = 128 → parity.length = 8 →
      rsDecode cs.rs128 true (front ++ parity) = Except.ok (front, false)) ∧
    (∀ d : List Nat, rsDecode cs.rs1 true d = rsDecode cs.rs1 false d) ∧
    (∀ d : List Nat, rsDecode cs.rs5 true d = rsDecode cs.rs5 false d) ∧
    (∀ d : List Nat, rsDecode cs.rs16 true d = rsDecode cs.rs16 false d) ∧
    (∀ d : List Nat, rsDecode cs.rs24 true d = rsDecode cs.rs24 false d) ∧
    (∀ d : List Nat, rsDecode cs.rs32 true d = rsDecode cs.rs32 false d) ∧
    (∀ d : List Nat, rsDecode cs.rs64 true d = rsDecode cs.rs64 false d) := by
  refine ⟨rsDecode_fast cs.rs128 data (by omega), ?_,
    rsDecode_header_code cs.rs1 (by decide), rsDecode_header_code cs.rs5 (by decide),
    rsDecode_header_code cs.rs16 (by decide), rsDecode_header_code cs.rs24 (by decide),
    rsDecode_header_code cs.rs32 (by decide), rsDecode_header_code cs.rs64 (by decide)⟩
  intro front parity hf hp
  have h := rsDecode_fast cs.rs128 (front ++ parity) (by rw [List.length_append]; omega)
  rw [h, ← hf, List.take_left]

/-- C11 at the sample codecs, on a block of 136 zeros. -/
theorem fast_decode_body_only_witness :
    rsDecode sampleCodecs.rs128 true (zeros 136) = Except.ok ((zeros 136).take 128, false) ∧
    (∀ front parity : List Nat, front.length = 128 → parity.length = 8 →
      rsDecode sampleCodecs.rs128 true (front ++ parity) = Except.ok (front, false)) ∧
    (∀ d : List Nat, rsDecode sampleCodecs.rs1 true d = rsDecode sampleCodecs.rs1 false d) ∧
    (∀ d : List Nat, rsDecode sampleCodecs.rs5 true d = rsDecode sampleCodecs.rs5 false d) ∧
    (∀ d : List Nat, rsDecode sampleCodecs.rs16 true d = rsDecode sampleCodecs.rs16 false d) ∧
    (∀ d : List Nat, rsDecode sampleCodecs.rs24 true d = rsDecode sampleCodecs.rs24 false d) ∧
    (∀ d : List Nat, rsDecode sampleCodecs.rs32 true d = rsDecode sampleCodecs.rs32 false d) ∧
    (∀ d : List Nat, rsDecode sampleCodecs.rs64 true d = rsDecode sampleCodecs.rs64 false d) :=
  fast_decode_body_only sampleCodecs (zeros 136) (length_zeros 136)

/-- C19 (PKCS#7 padding round trip).  For every byte string `d` shorter than 128 bytes, the
empty string included: `pad d` has exactly 128 bytes, its first `len(d)` bytes are `d`, its
last `128 − len(d)` bytes all equal `128 − len(d)`, and `unpad (pad d)` returns `d`. -/
theorem pad_unpad_round_trip (d : List Nat) (h : d.length < 128) :
    (pad d).length = 128 ∧ (pad d).take d.length = d ∧
      (pad d).drop d.length = List.replicate (128 - d.length) (128 - d.length) ∧
      unpad (pad d) = Except.ok d := by
  have hmod : d.length % 128 = d.length := Nat.mod_eq_of_lt h
  refine ⟨length_pad d h, ?_, ?_, unpad_pad d h⟩
  · rw [pad, List.take_left]
  · simp only [pad, hmod, List.drop_left]

/-- C19 at the empty string: 128 bytes of value 128, removed again by `unpad`. -/
theorem pad_unpad_round_trip_witness :
    (pad []).length = 128 ∧ (pad []).take ([] : List Nat).length = [] ∧
      (pad []).drop ([] : List Nat).length
        = List.replicate (128 - ([] : List Nat).length) (128 - ([] : List Nat).length) ∧
      unpad (pad []) = Except.ok [] :=
  pad_unpad_round_trip [] (by decide)


/-- C12 (RS body size).  For every plain text of `L` bytes encrypted with body Reed-Solomon
(no keyfiles, comment of at most 99999 bytes, codecs and primitives that meet their
contracts): a full unit of `2^20` bytes is written as the 8192 encoded sub-chunks of 136
bytes, 1,114,112 bytes in all; the volume is the header followed by a body of
`⌊L/2^20⌋·1,114,112` bytes plus, when `r = L mod 2^20` is not zero, `(⌊r/128⌋+1)·136` bytes;
for `L = 3·2^20` the body has exactly `3·1,114,112` bytes. -/
theorem rs_body_size (env : Env) (hcs : env.cs.Lawful) (hc : env.c.Lawful) (g : Globals)
    (fs : FS) (P : List Nat) (hs : EncryptSetup g) (hre : g.reedsolo = true)
    (hC : g.comments.length ≤ 99999) (hP : fs.read g.inputFile = some P) :
    (∀ src : List Nat, src.length = 2 ^ 20 →
      rsEncodeUnit env.cs.rs128 src = Except.ok (encChunks env.cs.rs128 8192 src) ∧
      (encChunks env.cs.rs128 8192 src).length = 8192 * 136 ∧
      (encChunks env.cs.rs128 8192 src).length = 1114112) ∧
    ∃ (w : World) (hdr body : List Nat),
      work env { g := g, fs := fs } = Except.ok w ∧
      w.fs.read g.outputFile = some (hdr ++ body) ∧
      hdr.length = 789 + 3 * g.comments.length ∧
      body.length = P.length / 2 ^ 20 * 1114112
        + (if P.length % 2 ^ 20 = 0 then 0 else (P.length % 2 ^ 20 / 128 + 1) * 136) ∧
      (P.length = 3 * 2 ^ 20 → body.length = 3 * 1114112) := by
  have hMv : MiB = 2 ^ 20 := rfl
  refine ⟨?_, ?_⟩
  · intro src hsrc
    have hfull : src.length = MiB := hsrc
    obtain ⟨h1, h2⟩ := rsEncodeChunks_ok env.cs.rs128 hcs.rs128 8192 src (by rw [hsrc]; decide)
    have h3 : rsEncodeUnit env.cs.rs128 src = rsEncodeChunks env.cs.rs128 8192 src := by
      simp only [rsEncodeUnit, hfull, if_true]
      rfl
    exact ⟨h3.trans h1, h2, h2⟩
  · have hs2 : EncryptSetup
        ({ g := { g with mainStatus := "Working...", mainStatusColor := Color.WHITE },
           fs := fs } : World).g := hs
    obtain ⟨mac, body, hbl, _, hwork⟩ := encryptWork_ok env hcs hc
      { g := { g with mainStatus := "Working...", mainStatusColor := Color.WHITE }, fs := fs }
      P hs2 hC
    have hw1 := workN_encrypt env { g := g, fs := fs } P 1 hs hP
    have hv := length_volumeHeader env hcs hc g P.length mac hC
    have hbody : body.length = P.length / 2 ^ 20 * 1114112
        + (if P.length % 2 ^ 20 = 0 then 0 else (P.length % 2 ^ 20 / 128 + 1) * 136) := by
      rw [hbl]
      simp only [bodyLen, hre, if_true, hMv]
      rfl
    refine ⟨_, volumeHeader env g P.length mac, body, hw1.trans hwork, read_write_same _ _ _,
      hv, hbody, ?_⟩
    intro hL
    rw [hbody, hL]
    decide

/-- C12 at the sample environment, for a plain text of `3·2^20` zero bytes. -/
theorem rs_body_size_witness :
    (∀ src : List Nat, src.length = 2 ^ 20 →
      rsEncodeUnit sampleEnv.cs.rs128 src
        = Except.ok (encChunks sampleEnv.cs.rs128 8192 src) ∧
      (encChunks sampleEnv.cs.rs128 8192 src).length = 8192 * 136 ∧
      (encChunks sampleEnv.cs.rs128 8192 src).length = 1114112) ∧
    ∃ (w : World) (hdr body : List Nat),
      work sampleEnv
        { g := { sampleEncrypt with reedsolo := true }, fs := [("a.txt", zeros (3 * 2 ^ 20))] }
        = Except.ok w ∧
      w.fs.read "a.txt.pcv" = some (hdr ++ body) ∧
      hdr.length = 789 ∧ body.length = 3 * 1114112 := by
  obtain ⟨h1, w, hdr, body, h2, h3, h4, _, h6⟩ :=
    rs_body_size sampleEnv sampleCodecs_lawful sampleCrypto_lawful
      { sampleEncrypt with reedsolo := true } [("a.txt", zeros (3 * 2 ^ 20))]
      (zeros (3 * 2 ^ 20)) ⟨rfl, rfl, rfl, rfl, rfl, rfl, rfl, by decide⟩ rfl (by decide)
      (lookup_cons_same _ _ _)
  exact ⟨h1, w, hdr, body, h2, h3, h4, h6 (length_zeros _)⟩

/-! ## Subkey schedule and rekey -/

/-- One unit leaves the counters, the nonce, the Serpent IV and the HKDF reader as they
are, and appends to the MAC input. -/
theorem processUnit_frame (env : Env) (p : Params) (st st1 : Stream) (src : List Nat)
    (h : processUnit env p st src = Except.ok (Flow.go st1)) :
    st1.done = st.done ∧ st1.counter = st.counter ∧ st1.nonce = st.nonce ∧
      st1.serpentSalt = st.serpentSalt ∧ st1.hkdfOff = st.hkdfOff ∧
      ∃ m : List Nat, st1.macData = st.macData ++ m := by
  unfold processUnit at h
  by_cases he : p.encrypt = true
  · rw [if_pos he] at h
    simp only [] at h
    by_cases hr : p.reedsolo = true
    · rw [if_pos hr] at h
      obtain ⟨out, _, h2⟩ := bind_eq_ok h
      rw [pure_eq_ok] at h2
      injection h2 with h3
      injection h3 with h4
      subst h4
      exact ⟨rfl, rfl, rfl, rfl, rfl, _, rfl⟩
    · rw [if_neg hr] at h
      obtain ⟨out, _, h2⟩ := bind_eq_ok h
      rw [pure_eq_ok] at h2
      injection h2 with h3
      injection h3 with h4
      subst h4
      exact ⟨rfl, rfl, rfl, rfl, rfl, _, rfl⟩
  · rw [if_neg he] at h
    simp only [] at h
    have key : ∀ r : Flow (List Nat × Bool),
        (match r with
          | Flow.stop m => (pure (Flow.stop m) : Run (Flow Stream))
          | Flow.go (src1, kept1) =>
            pure (Flow.go
              { st with chachaPos := st.chachaPos + src1.length,
                        serpentPos := if p.paranoid = true then
                          st.serpentPos + (xorKeyStream (env.c.chacha p.key st.nonce)
                            st.chachaPos src1).length else st.serpentPos,
                        macData := st.macData ++ src1,
                        out := st.out ++ (if p.paranoid = true then
                          xorKeyStream (env.c.serpent p.serpentKey st.serpentSalt) st.serpentPos
                            (xorKeyStream (env.c.chacha p.key st.nonce) st.chachaPos src1)
                          else xorKeyStream (env.c.chacha p.key st.nonce) st.chachaPos src1),
                        kept := kept1 })) = Except.ok (Flow.go st1) →
        st1.done = st.done ∧ st1.counter = st.counter ∧ st1.nonce = st.nonce ∧
          st1.serpentSalt = st.serpentSalt ∧ st1.hkdfOff = st.hkdfOff ∧
          ∃ m : List Nat, st1.macData = st.macData ++ m := by
      intro r hr
      cases r with
      | stop m => cases hr
      | go v =>
        obtain ⟨src1, kept1⟩ := v
        simp only [pure_eq_ok] at hr
        injection hr with h3
        injection h3 with h4
        subst h4
        exact ⟨rfl, rfl, rfl, rfl, rfl, _, rfl⟩
    by_cases hr : p.reedsolo = true
    · rw [if_pos hr] at h
      obtain ⟨r, _, h2⟩ := bind_eq_ok h
      exact key r h2
    · rw [if_neg hr] at h
      obtain ⟨r, _, h2⟩ := bind_eq_ok h
      exact key r h2

theorem unitSize_cases (p : Params) : unitSize p = 1048576 ∨ unitSize p = 1114112 := by
  unfold unitSize
  by_cases h : p.encrypt = false ∧ p.reedsolo = true
  · right; rw [if_pos h]; rfl
  · left; rw [if_neg h]; rfl

/-- The counters after the body loop: with `c` units since the last rekey and `j` rekeys at
the start, after the `n` units of `rest` there were `(c + n) / 61440` further rekeys; each
rekey read 24 bytes (nonce) and then 16 bytes (Serpent IV) from the HKDF stream, right
after the previous reads. -/
theorem bodyLoop_counters (env : Env) (p : Params) :
    ∀ (fuel : Nat) (st st1 : Stream) (rest : List Nat) (c j : Nat),
      bodyLoop env p fuel st rest = Except.ok (Flow.go st1) →
      st.counter = c * MiB → c < 61440 → st.hkdfOff = 64 + 40 * j →
      st1.counter = ((c + (rest.length + unitSize p - 1) / unitSize p) % 61440) * MiB ∧
      st1.hkdfOff = 64 + 40 * (j + (c + (rest.length + unitSize p - 1) / unitSize p) / 61440) ∧
      (if (c + (rest.length + unitSize p - 1) / unitSize p) / 61440 = 0 then
        st1.nonce = st.nonce ∧ st1.serpentSalt = st.serpentSalt
       else
        st1.nonce = hkdfRead p.hkdf
          (64 + 40 * (j + (c + (rest.length + unitSize p - 1) / unitSize p) / 61440 - 1)) 24 ∧
        st1.serpentSalt = hkdfRead p.hkdf
          (64 + 40 * (j + (c + (rest.length + unitSize p - 1) / unitSize p) / 61440 - 1) + 24)
          16) ∧
      ∃ m : List Nat, st1.macData = st.macData ++ m := by
  intro fuel
  induction fuel with
  | zero => intro st st1 rest c j h; cases h
  | succ f ih =>
    intro st st1 rest c j h hc hc2 hj
    have hMv : MiB = 1048576 := MiB_val
    have hGv : GiB = 1073741824 := GiB_val
    cases rest with
    | nil =>
      rw [bodyLoop_nil] at h
      injection h with h1
      injection h1 with h2
      subst h2
      have hn : ([] : List Nat).length + unitSize p - 1 = unitSize p - 1 := by simp
      have hz : (unitSize p - 1) / unitSize p = 0 := by
        rcases unitSize_cases p with hu | hu <;> rw [hu]
      rw [hn, hz]
      have h1 : (c + 0) % 61440 = c := by simp; omega
      have h2 : (c + 0) / 61440 = 0 := by simp; omega
      rw [h1, h2]
      simp only [if_true, and_self, Nat.add_zero, true_and]
      exact ⟨hc, hj, [], by simp⟩
    | cons a r =>
      rw [bodyLoop] at h
      cases hu : processUnit env p st ((a :: r).take (unitSize p)) with
      | error e => rw [hu] at h; cases h
      | ok v =>
        rw [hu, bind_ok] at h
        cases v with
        | stop m => cases h
        | go st2 =>
          obtain ⟨_, f2, f3, f4, f5, m1, f6⟩ := processUnit_frame env p st st2 _ hu
          have hh : bodyLoop env p f (nextUnit p st2) ((a :: r).drop (unitSize p))
              = Except.ok (Flow.go st1) := h
          have hcount : ((a :: r).length + unitSize p - 1) / unitSize p
              = 1 + (((a :: r).drop (unitSize p)).length + unitSize p - 1) / unitSize p := by
            rw [List.length_drop]
            have hpos : 1 ≤ (a :: r).length := by simp
            rcases unitSize_cases p with hu1 | hu1 <;> rw [hu1] <;> omega
          rw [hcount]
          have hcnt2 : st2.counter = c * MiB := f2.trans hc
          have hoff2 : st2.hkdfOff = 64 + 40 * j := f5.trans hj
          by_cases hrk : 60 * GiB ≤ c * MiB + MiB
          · -- a rekey after this unit
            have hc61 : c + 1 = 61440 := by rw [hMv, hGv] at hrk; omega
            have e1 : (nextUnit p st2).counter = 0 * MiB := by
              simp only [nextUnit, rekey, hcnt2, hrk, if_true, Nat.zero_mul]
            have e2 : (nextUnit p st2).hkdfOff = 64 + 40 * (j + 1) := by
              simp only [nextUnit, rekey, hcnt2, hrk, if_true, hoff2]; omega
            have e3 : (nextUnit p st2).nonce = hkdfRead p.hkdf (64 + 40 * j) 24 := by
              simp only [nextUnit, rekey, hcnt2, hrk, if_true, hoff2]
            have e4 : (nextUnit p st2).serpentSalt = hkdfRead p.hkdf (64 + 40 * j + 24) 16 := by
              simp only [nextUnit, rekey, hcnt2, hrk, if_true, hoff2]
            obtain ⟨g1, g2, g3, m2, g4⟩ := ih _ st1 _ 0 (j + 1) hh e1 (by omega) e2
            generalize (((a :: r).drop (unitSize p)).length + unitSize p - 1) / unitSize p = N
              at g1 g2 g3 ⊢
            have d0 : c + (1 + N) = 61440 + N := by omega
            have d1 : (61440 + N) % 61440 = (0 + N) % 61440 := by omega
            have d2 : (61440 + N) / 61440 = 1 + (0 + N) / 61440 := by omega
            rw [d0, d1, d2]
            have hne : ¬ (1 + (0 + N) / 61440 = 0) := by omega
            rw [if_neg hne]
            refine ⟨g1, by rw [g2]; omega, ?_, m1 ++ m2, ?_⟩
            · by_cases hz : (0 + N) / 61440 = 0
              · rw [if_pos hz] at g3
                rw [hz, g3.1, g3.2, e3, e4]
                exact ⟨rfl, rfl⟩
              · rw [if_neg hz] at g3
                have hidx : j + (1 + (0 + N) / 61440) - 1 = j + 1 + (0 + N) / 61440 - 1 := by
                  omega
                rw [g3.1, g3.2, hidx]
                exact ⟨rfl, rfl⟩
            · rw [g4, nextUnit_macData, f6, List.append_assoc]
          · -- no rekey after this unit
            have hc61 : c + 1 < 61440 := by rw [hMv, hGv] at hrk; omega
            have e1 : (nextUnit p st2).counter = (c + 1) * MiB := by
              simp only [nextUnit, rekey, hcnt2, hrk, if_false, Nat.add_mul, Nat.one_mul]
            have e2 : (nextUnit p st2).hkdfOff = 64 + 40 * j := by
              simp only [nextUnit, rekey, hcnt2, hrk, if_false, hoff2]
            have e3 : (nextUnit p st2).nonce = st.nonce := by
              simp only [nextUnit, rekey, hcnt2, hrk, if_false, f3]
            have e4 : (nextUnit p st2).serpentSalt = st.serpentSalt := by
              simp only [nextUnit, rekey, hcnt2, hrk, if_false, f4]
            obtain ⟨g1, g2, g3, m2, g4⟩ := ih _ st1 _ (c + 1) j hh e1 hc61 e2
            generalize (((a :: r).drop (unitSize p)).length + unitSize p - 1) / unitSize p = N
              at g1 g2 g3 ⊢
            have hT : c + (1 + N) = c + 1 + N := by omega
            rw [hT]
            refine ⟨g1, g2, ?_, m1 ++ m2, ?_⟩
            · rw [e3, e4] at g3
              exact g3
            · rw [g4, nextUnit_macData, f6, List.append_assoc]


/-- The encrypt branch of `work` without keyfiles, once the header is written: the body loop
run with the Argon2 key, the Serpent key read from bytes 32..64 of the HKDF stream and the
HKDF reader at offset 64, then the finalization with the MAC keyed by bytes 0..32. -/
theorem encryptWork_loop (env : Env) (w : World) (P hdr : List Nat)
    (hkf : w.g.keyfiles = []) (hkfile : w.g.keyfile = false)
    (hwh : writeHeader env w.g P.length = Except.ok hdr) :
    encryptWork env w P
      = (bodyLoop env (encParams env w.g P.length) (P.length + 1)
          (initStream (genNonces env.rnd).nonce (genNonces env.rnd).serpentSalt hdr w.g.kept) P
        >>= fun r =>
          match r with
          | Flow.stop m => pure (broken w m)
          | Flow.go st =>
            patchHeader env.cs w.g.comments.length (env.c.sha3_512 (encKey env w.g)) (zeros 32)
              (macSum env.c w.g.paranoid (hkdfRead (encHkdf env w.g) 0 32) st.macData) st.out
            >>= fun file =>
              finishPhase { g := { w.g with kept := st.kept },
                            fs := w.fs.write w.g.outputFile file }) := by
  have hnotmem : ¬ w.g.outputFile ∈ w.g.keyfiles := by rw [hkf]; exact List.not_mem_nil _
  simp only [encryptWork, hnotmem, if_false, hwh, bind_ok,
    keyfilePhase_none env.c w.fs w.g hkf hkfile, cipherKey_none w.g _ _ hkf hkfile]
  rfl

/-- The decrypt loop reads as many units from the body as the encrypt loop read from the
plain text. -/
theorem unit_count_body (re : Bool) (L : Nat) :
    (bodyLen re L + (if re then 1114112 else 1048576) - 1) / (if re then 1114112 else 1048576)
      = (L + 1048576 - 1) / 1048576 := by
  have hMv : MiB = 1048576 := MiB_val
  cases re with
  | false => simp only [bodyLen, Bool.false_eq_true, if_false]
  | true =>
    have hM2 : MiB / 128 * 136 = 1114112 := rfl
    simp only [bodyLen, if_true, hM2, hMv]
    by_cases hz : L % 1048576 = 0
    · simp only [hz, if_true]; omega
    · simp only [hz, if_false]; omega

/-- C20 (subkey schedule and rekey alignment).  (1) The encrypt branch of `work` runs the
body loop with the Serpent key read from bytes 32..64 of the HKDF stream and the reader at
offset 64, and keys the MAC with bytes 0..32.  (2) From a loop state with the counter at 0 and
the reader at offset 64, after the `n` units of the input there were exactly `n / 61440`
rekeys, one after every 61,440th unit (`60 GiB / 1 MiB`): the reader is at `64 + 40·(n /
61440)`, the counter at `(n mod 61440)` MiB, and after the `j`-th rekey the nonce is the 24
bytes at offset `64 + 40·(j−1)` and the Serpent IV the 16 bytes that follow; the MAC input
is only appended to.  (3) A rekey changes neither the MAC input nor the output; the keys are
parameters of the loop.  (4) The decrypt loop on the body that the encrypt loop wrote reads
as many units as the encrypt loop, with or without body Reed-Solomon, and ends with the same
counter, reader offset, nonce, Serpent IV and MAC input. -/
theorem subkey_schedule_rekey (env : Env) (h128 : env.cs.rs128.Lawful) :
    (∀ (w : World) (P hdr : List Nat), w.g.keyfiles = [] → w.g.keyfile = false →
      writeHeader env w.g P.length = Except.ok hdr →
      (encParams env w.g P.length).serpentKey = hkdfRead (encHkdf env w.g) 32 32 ∧
      (initStream (genNonces env.rnd).nonce (genNonces env.rnd).serpentSalt hdr
        w.g.kept).hkdfOff = 64 ∧
      encryptWork env w P
        = (bodyLoop env (encParams env w.g P.length) (P.length + 1)
            (initStream (genNonces env.rnd).nonce (genNonces env.rnd).serpentSalt hdr
              w.g.kept) P
          >>= fun r =>
            match r with
            | Flow.stop m => pure (broken w m)
            | Flow.go st =>
              patchHeader env.cs w.g.comments.length (env.c.sha3_512 (encKey env w.g))
                (zeros 32)
                (macSum env.c w.g.paranoid (hkdfRead (encHkdf env w.g) 0 32) st.macData) st.out
              >>= fun file =>
                finishPhase { g := { w.g with kept := st.kept },
                              fs := w.fs.write w.g.outputFile file })) ∧
    (∀ (p : Params) (fuel : Nat) (st st1 : Stream) (rest : List Nat),
      st.counter = 0 → st.hkdfOff = 64 →
      bodyLoop env p fuel st rest = Except.ok (Flow.go st1) →
      st1.counter = (((rest.length + unitSize p - 1) / unitSize p) % 61440) * MiB ∧
      st1.hkdfOff = 64 + 40 * (((rest.length + unitSize p - 1) / unitSize p) / 61440) ∧
      (if ((rest.length + unitSize p - 1) / unitSize p) / 61440 = 0 then
        st1.nonce = st.nonce ∧ st1.serpentSalt = st.serpentSalt
       else
        st1.nonce = hkdfRead p.hkdf
          (64 + 40 * (((rest.length + unitSize p - 1) / unitSize p) / 61440 - 1)) 24 ∧
        st1.serpentSalt = hkdfRead p.hkdf
          (64 + 40 * (((rest.length + unitSize p - 1) / unitSize p) / 61440 - 1) + 24) 16) ∧
      ∃ m : List Nat, st1.macData = st.macData ++ m) ∧
    (∀ (p : Params) (st : Stream),
      (rekey p st).macData = st.macData ∧ (rekey p st).out = st.out ∧
      (rekey p st).kept = st.kept) ∧
    (∀ (pe pd : Params) (P nonce salt hdr : List Nat), Paired pe pd →
      pd.total = ((bodyLen pe.reedsolo P.length : Nat) : Int) →
      pd.padded = decide (MiB - 128 ≤ P.length % MiB) →
      ∃ (stE1 stD1 : Stream) (body : List Nat),
        bodyLoop env pe (P.length + 1) (initStream nonce salt hdr false) P
          = Except.ok (Flow.go stE1) ∧
        stE1.out = hdr ++ body ∧
        bodyLoop env pd (body.length + 1) (initStream nonce salt [] false) body
          = Except.ok (Flow.go stD1) ∧
        (body.length + unitSize pd - 1) / unitSize pd = (P.length + MiB - 1) / MiB ∧
        stE1.hkdfOff = 64 + 40 * (((P.length + MiB - 1) / MiB) / 61440) ∧
        stD1.counter = stE1.counter ∧ stD1.hkdfOff = stE1.hkdfOff ∧
        stD1.nonce = stE1.nonce ∧ stD1.serpentSalt = stE1.serpentSalt ∧
        stD1.macData = stE1.macData) := by
  refine ⟨?_, ?_, ?_, ?_⟩
  · intro w P hdr hkf hkfile hwh
    exact ⟨rfl, rfl, encryptWork_loop env w P hdr hkf hkfile hwh⟩
  · intro p fuel st st1 rest hc hj hloop
    have hc0 : st.counter = 0 * MiB := by rw [hc, Nat.zero_mul]
    have hj0 : st.hkdfOff = 64 + 40 * 0 := hj
    have := bodyLoop_counters env p fuel st st1 rest 0 0 hloop hc0 (by decide) hj0
    simpa only [Nat.zero_add] using this
  · intro p st
    unfold rekey
    by_cases h : 60 * GiB ≤ st.counter
    · rw [if_pos h]; exact ⟨rfl, rfl, rfl⟩
    · rw [if_neg h]; exact ⟨rfl, rfl, rfl⟩
  · intro pe pd P nonce salt hdr hp htot hpad
    have hMv : MiB = 1048576 := MiB_val
    obtain ⟨stE1, body, hE, hout, hbl, _, hD⟩ := bodyLoop_round_trip env h128 pe pd hp
      (P.length + 1) P (initStream nonce salt hdr false) (initStream nonce salt [] false)
      (by omega) (sync_initStream _ _ _ _ _ _)
      (by intro _; rw [htot]; simp [initStream])
      (fun _ => hpad)
    obtain ⟨stD1, hD1, _, hmac, _⟩ := hD (body.length + 1) (by omega)
    have huE : unitSize pe = MiB := unitSize_encrypt pe hp.1
    have huD : unitSize pd = if pe.reedsolo then 1114112 else 1048576 := by
      rw [unitSize_decrypt pd hp.2.1, hp.2.2.2.1]
      cases pe.reedsolo <;> rfl
    have hcount : (body.length + unitSize pd - 1) / unitSize pd = (P.length + MiB - 1) / MiB := by
      rw [huD, hbl, hMv]
      exact unit_count_body pe.reedsolo P.length
    obtain ⟨a1, a2, a3, _⟩ := bodyLoop_counters env pe _ _ stE1 P 0 0 hE
      (by simp [initStream]) (by decide) rfl
    obtain ⟨b1, b2, b3, _⟩ := bodyLoop_counters env pd _ _ stD1 body 0 0 hD1
      (by simp [initStream]) (by decide) rfl
    rw [hcount, hp.2.2.2.2.2.2] at b3
    rw [hcount] at b1 b2
    rw [huE] at a1 a2 a3
    simp only [Nat.zero_add] at a1 a2 a3 b1 b2 b3
    refine ⟨stE1, stD1, body, hE, hout, hD1, hcount, a2, by rw [a1, b1], by rw [a2, b2], ?_, ?_,
      hmac⟩
    · by_cases hz : (P.length + MiB - 1) / MiB / 61440 = 0
      · rw [if_pos hz] at a3 b3
        rw [a3.1, b3.1]
        rfl
      · rw [if_neg hz] at a3 b3
        rw [a3.1, b3.1]
    · by_cases hz : (P.length + MiB - 1) / MiB / 61440 = 0
      · rw [if_pos hz] at a3 b3
        rw [a3.2, b3.2]
        rfl
      · rw [if_neg hz] at a3 b3
        rw [a3.2, b3.2]

set_option linter.constructorNameAsVariable false in
/-- C20 at the sample environment, for a plain text of `61440·2^20 + 1` zero bytes with
body Reed-Solomon: 61,441 units, one rekey after unit 61,440; encrypt and decrypt end with the
HKDF reader at offset 104, the nonce read from offset 64 and the Serpent IV from offset 88. -/
theorem subkey_schedule_rekey_witness :
    ∃ (stE1 stD1 : Stream) (body : List Nat),
      bodyLoop sampleEnv
          (encParams sampleEnv { sampleEncrypt with reedsolo := true } (61440 * 2 ^ 20 + 1))
          ((zeros (61440 * 2 ^ 20 + 1)).length + 1) (initStream [1] [2] [] false)
          (zeros (61440 * 2 ^ 20 + 1))
        = Except.ok (Flow.go stE1) ∧
      stE1.out = [] ++ body ∧
      bodyLoop sampleEnv
          (decParams sampleEnv { sampleEncrypt with reedsolo := true } (61440 * 2 ^ 20 + 1)
            false true)
          (body.length + 1) (initStream [1] [2] [] false) body
        = Except.ok (Flow.go stD1) ∧
      stE1.hkdfOff = 104 ∧ stD1.hkdfOff = 104 ∧
      stE1.nonce
        = hkdfRead (encHkdf sampleEnv { sampleEncrypt with reedsolo := true }) 64 24 ∧
      stE1.serpentSalt
        = hkdfRead (encHkdf sampleEnv { sampleEncrypt with reedsolo := true }) 88 16 ∧
      stD1.nonce = stE1.nonce ∧ stD1.serpentSalt = stE1.serpentSalt ∧
      stD1.macData = stE1.macData := by
  obtain ⟨_, hB, _, hC⟩ := subkey_schedule_rekey sampleEnv sampleCodecs_lawful.rs128
  have hlen := length_zeros (61440 * 2 ^ 20 + 1)
  obtain ⟨stE1, stD1, body, hE, hout, hD, _, hoff, _, hoffD, hn, hs, hmac⟩ :=
    hC (encParams sampleEnv { sampleEncrypt with reedsolo := true } (61440 * 2 ^ 20 + 1))
      (decParams sampleEnv { sampleEncrypt with reedsolo := true } (61440 * 2 ^ 20 + 1)
        false true)
      (zeros (61440 * 2 ^ 20 + 1)) [1] [2] []
      (paired_params sampleEnv _ _ false true)
      (by rw [hlen]; rfl) (by rw [hlen]; rfl)
  obtain ⟨_, _, b3, _⟩ := hB _ _ _ stE1 _ rfl rfl hE
  have hu : unitSize
      (encParams sampleEnv { sampleEncrypt with reedsolo := true } (61440 * 2 ^ 20 + 1))
        = 1048576 := rfl
  have hMv : MiB = 1048576 := MiB_val
  have hn1 : (61440 * 2 ^ 20 + 1 + 1048576 - 1) / 1048576 / 61440 = 1 := by decide
  rw [hlen, hMv, hn1] at hoff
  rw [hlen, hu, hn1] at b3
  have hne : ¬ (1 = 0) := by decide
  rw [if_neg hne] at b3
  exact ⟨stE1, stD1, body, hE, hout, hD, hoff, hoffD.trans hoff, b3.1, b3.2, hn, hs, hmac⟩

/-! ## Body framing -/

/-- The encrypt loop feeds the MAC one cipher byte per plain byte. -/
theorem bodyLoop_encrypt_macData (env : Env) (h : env.cs.rs128.Lawful) (p : Params)
    (he : p.encrypt = true) :
    ∀ (fuel : Nat) (st st1 : Stream) (rest : List Nat),
      bodyLoop env p fuel st rest = Except.ok (Flow.go st1) →
      ∃ C : List Nat, st1.macData = st.macData ++ C ∧ C.length = rest.length := by
  intro fuel
  induction fuel with
  | zero => intro st st1 rest hl; cases hl
  | succ f ih =>
    intro st st1 rest hl
    by_cases hne : rest = []
    · subst hne
      rw [bodyLoop_nil] at hl
      injection hl with h1
      injection h1 with h2
      subst h2
      exact ⟨[], by simp, rfl⟩
    · have hsrc_le : (rest.take MiB).length ≤ MiB := by
        rw [List.length_take]; omega
      have hE := processUnit_encrypt env h p he st (rest.take MiB) hsrc_le
      have hstep := bodyLoop_step env p f st _ rest hne
        (by rw [unitSize_encrypt p he]; exact hE)
      rw [unitSize_encrypt p he] at hstep
      rw [hstep] at hl
      obtain ⟨C, hC, hlen⟩ := ih _ st1 _ hl
      refine ⟨cipherUnit env p st (rest.take MiB) ++ C, ?_, ?_⟩
      · rw [hC, nextUnit_macData]
        simp only [advance, List.append_assoc]
      · rw [List.length_append, hlen, length_cipherUnit, List.length_take, List.length_drop]
        omega

/-- C18 (RS body framing round trip).  With a (128,136) codec that returns what was encoded:
(1) the flag byte `tail_padded` written by encrypt is 1 exactly when the plain text length
mod `2^20` is at least `2^20 − 128`;  (2) the decrypt-side framing of one unit returns the
cipher unit that encrypt framed, when a unit of 1,114,112 bytes on disk is unpadded at its
last sub-chunk exactly if it came from a cipher unit shorter than `2^20` bytes, which is so
when the unit is the final one and `tail_padded` is set (a shorter unit on disk is always
unpadded);  (3) for every plain text of `L ≥ 1` bytes, with `total` the body size and `padded`
the flag as `work` sets them: the encrypt loop frames a cipher stream of `L` bytes into a body
of the size of C12, and the decrypt loop on that body ends normally, has decoded and unpadded
exactly those `L` cipher bytes (its MAC input) and writes the plain text. -/
theorem body_framing_round_trip (env : Env) (h128 : env.cs.rs128.Lawful) :
    (∀ (g : Globals) (total : Nat),
      (headerFlags g total).get? 4
        = some (if 2 ^ 20 - 128 ≤ total % 2 ^ 20 then 1 else 0)) ∧
    (∀ (p : Params) (done : Nat) (src : List Nat) (kept : Bool), src.length ≤ 2 ^ 20 →
      (src.length = 2 ^ 20 →
        (decide (p.total ≤ ((done + 1114112 : Nat) : Int)) && p.padded) = false) →
      (src.length < 2 ^ 20 → 2 ^ 20 - 128 ≤ src.length →
        (decide (p.total ≤ ((done + 1114112 : Nat) : Int)) && p.padded) = true) →
      (encUnit env.cs.rs128 src).length
        = (if src.length = 2 ^ 20 then 1114112 else (src.length / 128 + 1) * 136) ∧
      rsDecodeUnit env.cs.rs128 p done (encUnit env.cs.rs128 src) kept
        = Except.ok (Flow.go (src, kept))) ∧
    (∀ (pe pd : Params) (P nonce salt hdr : List Nat), Paired pe pd → pe.reedsolo = true →
      1 ≤ P.length →
      pd.total = ((bodyLen true P.length : Nat) : Int) →
      pd.padded = decide (2 ^ 20 - 128 ≤ P.length % 2 ^ 20) →
      ∃ (stE1 stD1 : Stream) (body C : List Nat),
        bodyLoop env pe (P.length + 1) (initStream nonce salt hdr false) P
          = Except.ok (Flow.go stE1) ∧
        stE1.out = hdr ++ body ∧ stE1.macData = C ∧ C.length = P.length ∧
        body.length = bodyLen true P.length ∧
        bodyLoop env pd (body.length + 1) (initStream nonce salt [] false) body
          = Except.ok (Flow.go stD1) ∧
        stD1.macData = C ∧ stD1.out = P ∧ stD1.kept = false) := by
  have hMv : MiB = 2 ^ 20 := rfl
  have hM2 : MiB / 128 * 136 = 1114112 := rfl
  refine ⟨?_, ?_, ?_⟩
  · intro g total
    simp only [headerFlags, List.get?_cons_succ, List.get?_cons_zero, flagByte, hMv,
      decide_eq_true_eq]
  · intro p done src kept hlen hfull hpad
    refine ⟨?_, rsDecodeUnit_encUnit env.cs.rs128 h128 p done src kept hlen hfull hpad⟩
    exact (rsEncodeUnit_ok env.cs.rs128 h128 src).2
  · intro pe pd P nonce salt hdr hp hre hL htot hpad
    obtain ⟨stE1, body, hE, hout, hbl, _, hD⟩ := bodyLoop_round_trip env h128 pe pd hp
      (P.length + 1) P (initStream nonce salt hdr false) (initStream nonce salt [] false)
      (by omega) (sync_initStream _ _ _ _ _ _)
      (by intro _; rw [htot, hre]; simp [initStream])
      (fun _ => hpad)
    obtain ⟨stD1, hD1, hDout, hmac, hkept⟩ := hD (body.length + 1) (by omega)
    obtain ⟨C, hC, hClen⟩ := bodyLoop_encrypt_macData env h128 pe hp.1 _ _ stE1 P hE
    rw [hre] at hbl
    refine ⟨stE1, stD1, body, C, hE, hout, ?_, hClen, hbl, hD1, ?_, ?_, hkept⟩
    · rw [hC]; rfl
    · rw [hmac, hC]; rfl
    · rw [hDout]; rfl

set_option linter.constructorNameAsVariable false in
/-- C18 at the sample environment, for a plain text of `2^20 − 1` zero bytes: the flag
`tail_padded` is 1, the body is one unit of 1,114,112 bytes, and the decrypt loop returns
the `2^20 − 1` cipher bytes and the plain text. -/
theorem body_framing_round_trip_witness :
    (headerFlags sampleEncrypt (2 ^ 20 - 1)).get? 4 = some 1 ∧
    ∃ (stE1 stD1 : Stream) (body C : List Nat),
      bodyLoop sampleEnv
          (encParams sampleEnv { sampleEncrypt with reedsolo := true } (2 ^ 20 - 1))
          ((zeros (2 ^ 20 - 1)).length + 1) (initStream [1] [2] [] false) (zeros (2 ^ 20 - 1))
        = Except.ok (Flow.go stE1) ∧
      stE1.out = [] ++ body ∧ stE1.macData = C ∧ C.length = 2 ^ 20 - 1 ∧
      body.length = 1114112 ∧
      bodyLoop sampleEnv
          (decParams sampleEnv { sampleEncrypt with reedsolo := true } (2 ^ 20 - 1) false true)
          (body.length + 1) (initStream [1] [2] [] false) body
        = Except.ok (Flow.go stD1) ∧
      stD1.macData = C ∧ stD1.out = zeros (2 ^ 20 - 1) ∧ stD1.kept = false := by
  obtain ⟨h1, _, h3⟩ := body_framing_round_trip sampleEnv sampleCodecs_lawful.rs128
  have hlen := length_zeros (2 ^ 20 - 1)
  obtain ⟨stE1, stD1, body, C, a1, a2, a3, a4, a5, a6, a7, a8, a9⟩ :=
    h3 (encParams sampleEnv { sampleEncrypt with reedsolo := true } (2 ^ 20 - 1))
      (decParams sampleEnv { sampleEncrypt with reedsolo := true } (2 ^ 20 - 1) false true)
      (zeros (2 ^ 20 - 1)) [1] [2] [] (paired_params sampleEnv _ _ false true) rfl
      (by rw [hlen]; decide) (by rw [hlen]; rfl) (by rw [hlen]; rfl)
  rw [hlen] at a4 a5
  have hb : bodyLen true (2 ^ 20 - 1) = 1114112 := by decide
  exact ⟨(h1 sampleEncrypt (2 ^ 20 - 1)).trans (by decide), stE1, stD1, body, C, a1, a2, a3, a4,
    a5.trans hb, a6, a7, a8, a9⟩

/-! ## Comment length -/

theorem parseDigits_bound : ∀ (l : List Nat) (acc v : Nat), parseDigits l acc = some v →
    v < (acc + 1) * 10 ^ l.length := by
  intro l
  induction l with
  | nil =>
    intro acc v h
    simp only [parseDigits, Option.some.injEq] at h
    simp only [List.length_nil, pow_zero, Nat.mul_one]
    omega
  | cons c cs ih =>
    intro acc v h
    rw [parseDigits] at h
    by_cases hc : 48 ≤ c ∧ c ≤ 57
    · rw [if_pos hc] at h
      have h1 := ih _ v h
      have h2 : acc * 10 + (c - 48) + 1 ≤ (acc + 1) * 10 := by omega
      have h3 : (acc * 10 + (c - 48) + 1) * 10 ^ cs.length ≤ (acc + 1) * 10 * 10 ^ cs.length :=
        Nat.mul_le_mul_right _ h2
      have h4 : (acc + 1) * 10 ^ (c :: cs).length = (acc + 1) * 10 * 10 ^ cs.length := by
        rw [List.length_cons, pow_succ, Nat.mul_assoc, Nat.mul_comm 10]
      rw [h4]
      omega
    · rw [if_neg hc] at h
      cases h

/-- Go `strconv.Atoi` on a 5-byte string: the value lies between -9999 and 99999. -/
theorem atoi_bounds (d : List Nat) (hd : d.length = 5) :
    -9999 ≤ (atoi d).1 ∧ (atoi d).1 ≤ 99999 := by
  cases d with
  | nil => simp at hd
  | cons c rest =>
    have hr : rest.length = 4 := by simpa using hd
    by_cases hs : c = 45 ∨ c = 43
    · cases rest with
      | nil => simp at hr
      | cons r0 rs =>
        have hbody : (if c = 45 ∨ c = 43 then r0 :: rs else c :: r0 :: rs) = r0 :: rs :=
          if_pos hs
        cases hp : parseDigits (r0 :: rs) 0 with
        | none =>
          simp only [atoi, hbody, hp]
          omega
        | some v =>
          have hb := parseDigits_bound _ 0 v hp
          rw [hr] at hb
          have hv : v < 10000 := by simpa using hb
          by_cases h45 : c = 45
          · have h1 : ¬ (-(v : Int) < -(2 : Int) ^ 63) := by omega
            have h2 : ¬ ((2 : Int) ^ 63 - 1 < -(v : Int)) := by omega
            simp only [atoi, hbody, hp]
            simp only [h45, if_true, h1, h2, if_false]
            omega
          · have h1 : ¬ ((v : Int) < -(2 : Int) ^ 63) := by omega
            have h2 : ¬ ((2 : Int) ^ 63 - 1 < (v : Int)) := by omega
            simp only [atoi, hbody, hp]
            simp only [h45, if_false, h1, h2]
            omega
    · have hbody : (if c = 45 ∨ c = 43 then rest else c :: rest) = c :: rest := if_neg hs
      cases hp : parseDigits (c :: rest) 0 with
      | none =>
        simp only [atoi, hbody, hp]
        omega
      | some v =>
        have hb := parseDigits_bound _ 0 v hp
        rw [hd] at hb
        have hv : v < 100000 := by simpa using hb
        have h45 : ¬ c = 45 := fun h => hs (Or.inl h)
        have h1 : ¬ ((v : Int) < -(2 : Int) ^ 63) := by omega
        have h2 : ¬ ((2 : Int) ^ 63 - 1 < (v : Int)) := by omega
        simp only [atoi, hbody, hp]
        simp only [h45, if_false, h1, h2]
        omega

/-- The header that encrypt writes, given what `rsEncode` returns for the comment-length
text. -/
theorem writeHeader_cl (env : Env) (h : env.cs.Lawful) (g : Globals) (total : Nat)
    (cl : List Nat) (hcl : rsEncode env.cs.rs5 (fmt05d g.comments.length) = Except.ok cl) :
    writeHeader env g total
      = Except.ok ((headerFront env g total cl ++ placeholders).flatten) := by
  have hv := (rsEncode_lawful env.cs.rs5 h.rs5 version rfl).1
  have hfl := (rsEncode_lawful env.cs.rs5 h.rs5 (headerFlags g total) rfl).1
  have hs := (rsEncode_lawful env.cs.rs16 h.rs16 (genNonces env.rnd).salt
    (length_randRead _ _)).1
  have hhs := (rsEncode_lawful env.cs.rs32 h.rs32 (genNonces env.rnd).hkdfSalt
    (length_randRead _ _)).1
  have hss := (rsEncode_lawful env.cs.rs16 h.rs16 (genNonces env.rnd).serpentSalt
    (length_randRead _ _)).1
  have hno := (rsEncode_lawful env.cs.rs24 h.rs24 (genNonces env.rnd).nonce
    (length_randRead _ _)).1
  have hcm := (encodeComments_ok env.cs.rs1 h.rs1 g.comments).1
  simp only [writeHeader, hv, hcl, hcm, hfl, hs, hhs, hss, hno, bind_ok, pure_eq_ok,
    headerFront, placeholders, List.cons_append, List.nil_append, List.flatten_cons,
    List.flatten_nil, List.append_nil, List.append_assoc]

/-- The second and third field of a header: bytes 15..30 and the `3·C` bytes after them. -/
theorem header_fields_at (env : Env) (h : env.cs.Lawful) (g : Globals) (total : Nat)
    (cl : List Nat) (hcl : cl.length = 15) :
    (((headerFront env g total cl ++ placeholders).flatten).drop 15).take 15 = cl ∧
    (((headerFront env g total cl ++ placeholders).flatten).drop 30).take
        (3 * g.comments.length) = commentField env.cs.rs1 g.comments := by
  have lv := (rsEncode_lawful env.cs.rs5 h.rs5 version rfl).2.1
  have lcm := (encodeComments_ok env.cs.rs1 h.rs1 g.comments).2
  have h30 : (codeword env.cs.rs5 version ++ cl).length = 30 := by
    rw [List.length_append, lv, hcl]
  simp only [headerFront, placeholders, List.cons_append, List.nil_append, List.flatten_cons,
    List.flatten_nil, List.append_nil]
  refine ⟨?_, ?_⟩
  · rw [drop_append_len _ _ 15 lv, take_append_len _ _ 15 hcl]
  · rw [← List.append_assoc, drop_append_len _ _ 30 h30, take_append_len _ _ _ lcm]

/-- C14, refuted as stated.  A comment of 100000 bytes: `%05d` gives the 6 bytes `100000`,
which is not a block of 5 bytes, the sample codec (like the library, which returns an error
for an input whose length is not a multiple of 5) hands no share to `rsEncode`, the field
that encrypt writes at bytes 15..30 is 15 zero bytes, whose 5 plain bytes are not decimal
digits, and no 5-byte value parses to 100000. -/
theorem comment_length_field_counterexample :
    (List.replicate 100000 65).length = 100000 ∧
    fmt05d 100000 = [49, 48, 48, 48, 48, 48] ∧
    (∃ hdr : List Nat,
      writeHeader sampleEnv { sampleEncrypt with comments := List.replicate 100000 65 } 14
        = Except.ok hdr ∧
      (hdr.drop 15).take 15 = zeros 15 ∧
      ¬ (∀ x ∈ ((hdr.drop 15).take 15).take 5, 48 ≤ x ∧ x ≤ 57) ∧
      (atoi (((hdr.drop 15).take 15).take 5)).1 ≠ 100000) ∧
    (∀ d : List Nat, d.length = 5 → (atoi d).1 ≠ 100000) := by
  have hlen : (List.replicate 100000 65).length = 100000 := List.length_replicate _ _
  have hfmt : fmt05d 100000 = [49, 48, 48, 48, 48, 48] := by decide
  have hcl : rsEncode sampleEnv.cs.rs5
      (fmt05d ({ sampleEncrypt with comments := List.replicate 100000 65 } : Globals).comments.length)
        = Except.ok (zeros 15) := by
    have e : ({ sampleEncrypt with comments := List.replicate 100000 65 } : Globals).comments.length
        = 100000 := hlen
    rw [e, hfmt]
    rfl
  have hw := writeHeader_cl sampleEnv sampleCodecs_lawful
    { sampleEncrypt with comments := List.replicate 100000 65 } 14 (zeros 15) hcl
  have hat := (header_fields_at sampleEnv sampleCodecs_lawful
    { sampleEncrypt with comments := List.replicate 100000 65 } 14 (zeros 15)
    (length_zeros 15)).1
  refine ⟨hlen, hfmt, ⟨_, hw, hat, ?_, ?_⟩, ?_⟩
  · rw [hat]
    intro hall
    have := hall 0 (by decide)
    omega
  · rw [hat]
    decide
  · intro d hd
    have := (atoi_bounds d hd).2
    omega

/-- C14 as amended.  For every comment of at most 99999 bytes (codecs that meet the library
contract): encrypt writes, at bytes 15..30 of the header, the comment-length field, whose 5
plain bytes are the text `%05d` of the comment's byte length: 5 decimal digits, zero-padded,
of that value; the next `3·C` bytes are one encoded triple per comment byte, in order, each
starting with the comment byte; and parsing the 5 digits, as decrypt does after decoding the
field, gives back the comment's byte length without error. -/
theorem comment_length_field (env : Env) (hcs : env.cs.Lawful) (g : Globals) (total : Nat)
    (hC : g.comments.length ≤ 99999) :
    ∃ hdr : List Nat, writeHeader env g total = Except.ok hdr ∧
      (hdr.drop 15).take 15 = codeword env.cs.rs5 (fmt05d g.comments.length) ∧
      (codeword env.cs.rs5 (fmt05d g.comments.length)).take 5 = fmt05d g.comments.length ∧
      (fmt05d g.comments.length).length = 5 ∧
      (∀ x ∈ fmt05d g.comments.length, 48 ≤ x ∧ x ≤ 57) ∧
      fmt05d g.comments.length
        = List.replicate (5 - (decimal g.comments.length).length) 48
            ++ decimal g.comments.length ∧
      parseDigits (fmt05d g.comments.length) 0 = some g.comments.length ∧
      (hdr.drop 30).take (3 * g.comments.length)
        = (g.comments.map (fun b => codeword env.cs.rs1 [b])).flatten ∧
      (∀ b : Nat, (codeword env.cs.rs1 [b]).length = 3 ∧ (codeword env.cs.rs1 [b]).take 1 = [b]) ∧
      (∀ fd : Bool, rsDecode env.cs.rs5 fd ((hdr.drop 15).take 15)
        = Except.ok (fmt05d g.comments.length, false)) ∧
      atoi (fmt05d g.comments.length) = ((g.comments.length : Int), false) := by
  have hl5 := fmt05d_length g.comments.length hC
  obtain ⟨henc, hlen, htake, _⟩ := rsEncode_lawful env.cs.rs5 hcs.rs5 _ hl5
  have hw := writeHeader_cl env hcs g total _ henc
  obtain ⟨hat1, hat2⟩ := header_fields_at env hcs g total _ hlen
  have n5 : (15 : Nat) = 136 → (5 : Nat) = 128 := by omega
  refine ⟨_, hw, hat1, htake, hl5, fmt05d_digits _, rfl, ?_, hat2, ?_, ?_, atoi_fmt05d _ hC⟩
  · rw [fmt05d, parseDigits_zeros, parseDigits_decimal]
  · intro b
    obtain ⟨_, h2, h3, _⟩ := rsEncode_lawful env.cs.rs1 hcs.rs1 [b] rfl
    exact ⟨h2, h3⟩
  · intro fd
    rw [hat1]
    exact rsDecode_codeword_any env.cs.rs5 hcs.rs5 n5 fd _ hl5

/-- C14 as amended, at the sample environment with the comment `AB`. -/
theorem comment_length_field_witness :
    ∃ hdr : List Nat,
      writeHeader sampleEnv { sampleEncrypt with comments := [65, 66] } 14 = Except.ok hdr ∧
      (hdr.drop 15).take 15 = codeword sampleEnv.cs.rs5 (fmt05d 2) ∧
      (codeword sampleEnv.cs.rs5 (fmt05d 2)).take 5 = fmt05d 2 ∧
      (fmt05d 2).length = 5 ∧
      (∀ x ∈ fmt05d 2, 48 ≤ x ∧ x ≤ 57) ∧
      fmt05d 2 = List.replicate (5 - (decimal 2).length) 48 ++ decimal 2 ∧
      parseDigits (fmt05d 2) 0 = some 2 ∧
      (hdr.drop 30).take (3 * 2)
        = (([65, 66] : List Nat).map (fun b => codeword sampleEnv.cs.rs1 [b])).flatten ∧
      (∀ b : Nat, (codeword sampleEnv.cs.rs1 [b]).length = 3 ∧
        (codeword sampleEnv.cs.rs1 [b]).take 1 = [b]) ∧
      (∀ fd : Bool, rsDecode sampleEnv.cs.rs5 fd ((hdr.drop 15).take 15)
        = Except.ok (fmt05d 2, false)) ∧
      atoi (fmt05d 2) = (((2 : Nat) : Int), false) :=
  comment_length_field sampleEnv sampleCodecs_lawful { sampleEncrypt with comments := [65, 66] }
    14 (by decide)

/-! ## Dropping one file -/

/-- A name that ends in `.pcv` does not end in a digit. -/
theorem endsNum_of_pcv (name : String) (h : hasSuffix name ".pcv" = true) :
    endsNum name = false := by
  simp only [hasSuffix, List.isSuffixOf] at h
  simp only [endsNum, hasSuffix, List.isSuffixOf, List.any_cons, List.any_nil, Bool.or_false]
  cases hr : name.data.reverse with
  | nil => rw [hr] at h; exact absurd h (by decide)
  | cons c cs =>
    rw [hr] at h
    have hc : c = 'v' := by
      have h1 : (".pcv".data.reverse) = 'v' :: ['c', 'p', '.'] := rfl
      rw [h1, List.isPrefixOf] at h
      simp only [Bool.and_eq_true, beq_iff_eq] at h
      exact h.1.symm
    subst hc
    rfl

theorem isSplitName_of_pcv (name : String) (h : hasSuffix name ".pcv" = true) :
    isSplitName name = false := by
  rw [isSplitName, endsNum_of_pcv name h, Bool.and_false]

/-! ## Comment length read from a volume -/

/-- A comment-length field that parses to a negative number makes the parser of `work`
allocate a buffer of negative size. -/
theorem readHeader_negative (env : Env) (fd : Bool) (b0 b1 tail d0 d1 : List Nat)
    (e0 e1 : Bool) (l0 : b0.length = 15) (l1 : b1.length = 15)
    (h0 : rsDecode env.cs.rs5 fd b0 = Except.ok (d0, e0))
    (h1 : rsDecode env.cs.rs5 fd b1 = Except.ok (d1, e1))
    (hneg : (atoi d1).1 < 0) :
    readHeader env fd (b0 ++ b1 ++ tail) = Except.error Fault.panic := by
  simp only [readHeader, List.append_assoc, readBuf_append 15 _ _ l0, h0, bind_ok,
    readBuf_append 15 _ _ l1, h1, hneg, if_true]
  rfl

/-- The same field in the header scan of `onDrop`, when it decodes without error. -/
theorem scanCommentField_negative (env : Env) (fd : Bool) (b1 tail d1 : List Nat)
    (l1 : b1.length = 15) (h1 : rsDecode env.cs.rs5 fd b1 = Except.ok (d1, false))
    (hneg : (atoi d1).1 < 0) :
    scanCommentField env fd (b1 ++ tail) = Except.error Fault.panic := by
  simp only [scanCommentField, readBuf_append 15 _ _ l1, h1, bind_ok, Bool.false_eq_true,
    if_false, hneg, if_true]
  rfl

/-- C13, where the code departs from it.  `strconv.Atoi` accepts a sign, so the 5-byte value
`-0001` of the comment-length field parses to -1 (every 5-byte value parses to a number
between -9999 and 99999, not between 0 and 99999).  For a file that starts with the encoded
version tag followed by the encoded bytes `-0001`: the field decodes without error, the
parser of `work` and the header scan of `onDrop` evaluate `make([]byte, -3)`, a run-time
panic, and so `onDrop` on that file (name ending in `.pcv`) and `work` in decrypt mode end in
the panic. -/
theorem negative_comment_length_panics (env : Env) (hcs : env.cs.Lawful) (tail : List Nat)
    (name : String) (w : World) (hsuf : hasSuffix name ".pcv" = true)
    (hfile : w.fs.read name
      = some (codeword env.cs.rs5 version ++ codeword env.cs.rs5 [45, 48, 48, 48, 49] ++ tail)) :
    atoi [45, 48, 48, 48, 49] = (-1, false) ∧
    (∀ d : List Nat, d.length = 5 → -9999 ≤ (atoi d).1 ∧ (atoi d).1 ≤ 99999) ∧
    (∀ fd : Bool, rsDecode env.cs.rs5 fd (codeword env.cs.rs5 [45, 48, 48, 48, 49])
      = Except.ok ([45, 48, 48, 48, 49], false)) ∧
    (∀ fd : Bool,
      readHeader env fd
          (codeword env.cs.rs5 version ++ codeword env.cs.rs5 [45, 48, 48, 48, 49] ++ tail)
        = Except.error Fault.panic) ∧
    onDropFile env name w = Except.error Fault.panic ∧
    (∀ (n : Nat) (w2 : World), w2.g.mode = "decrypt" → w2.g.recombine = false →
      w2.g.inputFile = name → w2.g.outputFile ≠ name →
      w2.fs.read name
        = some (codeword env.cs.rs5 version ++ codeword env.cs.rs5 [45, 48, 48, 48, 49]
            ++ tail) →
      workN env (n + 1) w2 = Except.error Fault.panic) := by
  have n5 : (15 : Nat) = 136 → (5 : Nat) = 128 := by omega
  have hat : atoi [45, 48, 48, 48, 49] = (-1, false) := by decide
  have hneg : (atoi [45, 48, 48, 48, 49]).1 < 0 := by rw [hat]; decide
  have lv := (rsEncode_lawful env.cs.rs5 hcs.rs5 version rfl).2.1
  have lc := (rsEncode_lawful env.cs.rs5 hcs.rs5 [45, 48, 48, 48, 49] rfl).2.1
  have dv := fun fd => rsDecode_codeword_any env.cs.rs5 hcs.rs5 n5 fd version rfl
  have dc := fun fd => rsDecode_codeword_any env.cs.rs5 hcs.rs5 n5 fd [45, 48, 48, 48, 49] rfl
  have hrh := fun fd => readHeader_negative env fd _ _ tail _ _ _ _ lv lc (dv fd) (dc fd) hneg
  refine ⟨hat, atoi_bounds, dc, hrh, ?_, ?_⟩
  · have hns := isSplitName_of_pcv name hsuf
    have hvm : versionMatch version = true := by decide
    have hsc := scanCommentField_negative env w.g.fastDecode _ tail _ lc (dc _) hneg
    simp only [onDropFile, hfile, hns, hsuf, Bool.or_false, if_true, Bool.false_eq_true,
      if_false, bind_ok, pure_eq_ok, List.append_assoc, readBuf_append 15 _ _ lv, dv, hvm,
      Bool.not_true, Bool.or_self, hsc]
    rfl
  · intro n w2 hmode hrec hin hout hread
    have hme : ¬ w2.g.mode = "encrypt" := by rw [hmode]; exact decrypt_string_ne
    have hio : ¬ w2.g.inputFile = w2.g.outputFile := by
      rw [hin]; exact fun e => hout e.symm
    have hread2 := hread
    rw [← hin] at hread2
    rw [workN, recombinePhase_off
      { w2 with g := { w2.g with mainStatus := "Working...", mainStatusColor := Color.WHITE } }
      hrec, bind_ok]
    simp only []
    rw [readFile_some _ _ _ hread2, bind_ok]
    simp only [hio, if_false, hme, hrh, bind_ok]
    rfl

/-- Instance of `negative_comment_length_panics`: the 30-byte file `a.txt.pcv` that holds the
encoded version tag and the encoded length `-0001`. -/
theorem negative_comment_length_panics_witness :
    hasSuffix "a.txt.pcv" ".pcv" = true ∧
    onDropFile sampleEnv "a.txt.pcv"
        { g := startGlobals,
          fs := [("a.txt.pcv", codeword sampleEnv.cs.rs5 version
                    ++ codeword sampleEnv.cs.rs5 [45, 48, 48, 48, 49] ++ [])] }
      = Except.error Fault.panic ∧
    workN sampleEnv 2
        { g := sampleDecrypt,
          fs := [("a.txt.pcv", codeword sampleEnv.cs.rs5 version
                    ++ codeword sampleEnv.cs.rs5 [45, 48, 48, 48, 49] ++ [])] }
      = Except.error Fault.panic :=
  have h := negative_comment_length_panics sampleEnv sampleCodecs_lawful [] "a.txt.pcv"
    { g := startGlobals,
      fs := [("a.txt.pcv", codeword sampleEnv.cs.rs5 version
                ++ codeword sampleEnv.cs.rs5 [45, 48, 48, 48, 49] ++ [])] }
    (by decide) rfl
  ⟨by decide, h.2.2.2.2.1,
    h.2.2.2.2.2 1
      { g := sampleDecrypt,
        fs := [("a.txt.pcv", codeword sampleEnv.cs.rs5 version
                  ++ codeword sampleEnv.cs.rs5 [45, 48, 48, 48, 49] ++ [])] }
      rfl rfl rfl (by decide) rfl⟩

/-- The comment loop of `onDrop` on the encoded comments gives the comments back. -/
theorem scanComments_encoded (rs1 : FEC 1 3) (h : rs1.Lawful) (fd : Bool) (C acc : List Nat) :
    scanComments rs1 fd C.length (commentField rs1 C) acc = Except.ok (acc ++ C) := by
  induction C generalizing acc with
  | nil => simp [scanComments, pure_eq_ok]
  | cons b bs ih =>
    have n1 : (3 : Nat) = 136 → (1 : Nat) = 128 := by omega
    have l := (rsEncode_lawful rs1 h [b] rfl).2.1
    have hcf : commentField rs1 (b :: bs) = codeword rs1 [b] ++ commentField rs1 bs := by
      simp [commentField]
    rw [List.length_cons, scanComments, hcf, take_append_len _ _ 3 l,
      rsDecode_codeword_any rs1 h n1 fd [b] rfl, bind_ok]
    simp only [Bool.false_eq_true, if_false]
    rw [drop_append_len _ _ 3 l, ih, List.append_assoc]
    rfl

/-- The comment block of `onDrop` on a comment of at most 99999 bytes as encrypt wrote it. -/
theorem scanCommentField_encoded (env : Env) (h : env.cs.Lawful) (fd : Bool)
    (C rest : List Nat) (hC : C.length ≤ 99999) :
    scanCommentField env fd
        (codeword env.cs.rs5 (fmt05d C.length) ++ (commentField env.cs.rs1 C ++ rest))
      = Except.ok (C, rest) := by
  have n5 : (15 : Nat) = 136 → (5 : Nat) = 128 := by omega
  have l := (rsEncode_lawful env.cs.rs5 h.rs5 _ (fmt05d_length _ hC)).2.1
  have lc := (encodeComments_ok env.cs.rs1 h.rs1 C).2
  have hneg : ¬ ((C.length : Int) < 0) := by omega
  have hlen : (commentField env.cs.rs1 C).length = C.length * 3 := by
    rw [lc, Nat.mul_comm]
  simp only [scanCommentField, readBuf_append 15 _ _ l,
    rsDecode_codeword_any env.cs.rs5 h.rs5 n5 fd _ (fmt05d_length _ hC), bind_ok,
    Bool.false_eq_true, if_false, atoi_fmt05d _ hC, hneg, Int.toNat_ofNat,
    readBuf_append _ _ _ hlen, scanComments_encoded env.cs.rs1 h.rs1 fd C [], List.nil_append]
  rfl

theorem indexFrom_isSome_of_append (a b : List Char) (l : List Char) (i : Nat)
    (h : (indexFrom (a ++ b) l i).isSome = true) : (indexFrom a l i).isSome = true := by
  induction l generalizing i with
  | nil =>
    by_cases hab : a ++ b = []
    · have ha : a = [] := (List.append_eq_nil.mp hab).1
      simp [indexFrom, ha]
    · simp [indexFrom, hab] at h
  | cons c cs ih =>
    by_cases hp : a.isPrefixOf (c :: cs) = true
    · simp [indexFrom, hp]
    · have hp2 : ¬ (a ++ b).isPrefixOf (c :: cs) = true := by
        intro hq
        apply hp
        rw [List.isPrefixOf_iff_prefix] at hq ⊢
        exact (List.prefix_append a b).trans hq
      simp only [indexFrom, hp2, if_false] at h
      simp only [indexFrom, hp, if_false]
      exact ih (i + 1) h

theorem indexFrom_isSome_of_infix (sub pre suf : List Char) (i : Nat) :
    (indexFrom sub (pre ++ (sub ++ suf)) i).isSome = true := by
  induction pre generalizing i with
  | nil =>
    cases hl : sub ++ suf with
    | nil =>
      have hs : sub = [] := (List.append_eq_nil.mp hl).1
      simp [indexFrom, hs]
    | cons c cs =>
      have hp : sub.isPrefixOf (c :: cs) = true := by
        rw [← hl, List.isPrefixOf_iff_prefix]
        exact List.prefix_append sub suf
      simp [indexFrom, hp]
  | cons c cs ih =>
    by_cases hp : sub.isPrefixOf (c :: (cs ++ (sub ++ suf))) = true
    · simp [indexFrom, hp]
    · rw [List.cons_append, indexFrom, if_neg hp]
      exact ih (i + 1)

theorem takeWhile_head {α : Type} (p : α → Bool) (d : α) (r : List α)
    (h : List.takeWhile p (d :: r) ≠ []) : p d = true := by
  cases hp : p d with
  | true => rfl
  | false => exact absurd (by simp [List.takeWhile_cons, hp]) h

/-- A name that `onDrop` takes for a chunk of a split volume contains `.pcv`. -/
theorem strIndex_of_split (name : String) (h : isSplitName name = true) :
    ∃ ind, strIndex name ".pcv" = some ind := by
  simp only [isSplitName, Bool.and_eq_true, strContains, strIndex] at h
  have h2 := indexFrom_isSome_of_append ".pcv".data ['.'] name.data 0 h.1
  exact Option.isSome_iff_exists.mp h2

/-- Every name of the pattern `*.pcv.<digits>` is taken for a chunk of a split volume. -/
theorem isSplitName_of_pattern (name : String) (h : matchesSplitPattern name = true) :
    isSplitName name = true := by
  simp only [matchesSplitPattern, Bool.and_eq_true, Bool.not_eq_true', List.isEmpty_eq_false]
    at h
  obtain ⟨hne, hsuf⟩ := h
  rw [isSplitName, Bool.and_eq_true]
  refine ⟨?_, ?_⟩
  · rw [List.isSuffixOf_iff_suffix] at hsuf
    obtain ⟨pre, hpre⟩ := hsuf
    have hname : name.data = pre ++ (".pcv.".data
        ++ name.data.drop (name.data.length
          - (name.data.reverse.takeWhile (fun ch => "0123456789".data.contains ch)).length)) := by
      rw [← List.append_assoc, hpre, List.take_append_drop]
    rw [strContains, strIndex, hname]
    exact indexFrom_isSome_of_infix _ _ _ 0
  · cases hr : name.data.reverse with
    | nil => rw [hr] at hne; exact absurd rfl hne
    | cons d r =>
      rw [hr] at hne
      have hd := takeWhile_head _ d r hne
      simp only [endsNum, hasSuffix, List.isSuffixOf, hr, List.any_cons, List.any_nil,
        Bool.or_false]
      have hcases : d = '0' ∨ d = '1' ∨ d = '2' ∨ d = '3' ∨ d = '4' ∨ d = '5' ∨ d = '6'
          ∨ d = '7' ∨ d = '8' ∨ d = '9' := by
        simpa using hd
      rcases hcases with h | h | h | h | h | h | h | h | h | h <;> subst h <;> simp

/-- A dropped file whose name neither ends in `.pcv` nor is taken for a chunk is set up for
encryption. -/
theorem onDropFile_encrypt (env : Env) (name : String) (w : World) (content : List Nat)
    (hfile : w.fs.read name = some content) (h1 : hasSuffix name ".pcv" = false)
    (h2 : isSplitName name = false) :
    onDropFile env name w
      = Except.ok { w with g := { resetUI w.g with mode := "encrypt", inputFile := name,
                                                   outputFile := name ++ ".pcv",
                                                   onlyFiles := [name] } } := by
  simp only [onDropFile, hfile, h1, h2, Bool.or_false, Bool.false_eq_true, if_false]
  rfl

/-- A dropped file whose name ends in `.pcv` and that starts like a volume is set up for
decryption. -/
theorem onDropFile_volume (env : Env) (hcs : env.cs.Lawful) (name : String) (w : World)
    (ver C rest : List Nat) (f0 f1 f2 f3 f4 : Nat) (hsuf : hasSuffix name ".pcv" = true)
    (hver : versionMatch ver = true) (hvl : ver.length = 5) (hC : C.length ≤ 99999)
    (hfile : w.fs.read name
      = some (headerStart env.cs ver C [f0, f1, f2, f3, f4] ++ rest)) :
    onDropFile env name w
      = Except.ok { w with g := { resetUI w.g with
          mode := "decrypt", inputFile := name,
          outputFile := strTake name (name.data.length - 4), comments := C,
          keyfile := decide (f1 = 1), keyfileOrdered := decide (f2 = 1),
          onlyFiles := [name] } } := by
  have n5 : (15 : Nat) = 136 → (5 : Nat) = 128 := by omega
  have lv := (rsEncode_lawful env.cs.rs5 hcs.rs5 ver hvl).2.1
  have lf := (rsEncode_lawful env.cs.rs5 hcs.rs5 [f0, f1, f2, f3, f4] rfl).2.1
  have dv := rsDecode_codeword_any env.cs.rs5 hcs.rs5 n5 w.g.fastDecode ver hvl
  have df := rsDecode_codeword_any env.cs.rs5 hcs.rs5 n5 w.g.fastDecode [f0, f1, f2, f3, f4] rfl
  have hns := isSplitName_of_pcv name hsuf
  simp only [onDropFile, hfile, hns, hsuf, Bool.or_false, if_true, Bool.false_eq_true,
    if_false, bind_ok, pure_eq_ok, headerStart, List.append_assoc, readBuf_append 15 _ _ lv,
    dv, hver, Bool.not_true, Bool.or_self,
    scanCommentField_encoded env hcs w.g.fastDecode C _ hC, readBuf_append 15 _ _ lf, df, index,
    List.get?]
  by_cases h1 : f1 = 1 <;> by_cases h2 : f2 = 1 <;> simp [h1, h2, resetUI]

/-- A dropped file whose name is taken for a chunk of a split volume, with chunk `.0`
starting like a volume, is set up for recombining and decryption. -/
theorem onDropFile_split (env : Env) (hcs : env.cs.Lawful) (name : String) (w : World)
    (content ver C rest : List Nat) (f0 f1 f2 f3 f4 ind : Nat)
    (hsplit : isSplitName name = true) (hind : strIndex name ".pcv" = some ind)
    (hver : versionMatch ver = true) (hvl : ver.length = 5) (hC : C.length ≤ 99999)
    (hfile : w.fs.read name = some content)
    (hchunk : w.fs.read (strTake name (ind + 4) ++ ".0")
      = some (headerStart env.cs ver C [f0, f1, f2, f3, f4] ++ rest)) :
    onDropFile env name w
      = Except.ok { w with g := { resetUI w.g with
          mode := "decrypt", inputFile := strTake name (ind + 4),
          outputFile := strTake (strTake name (ind + 4)) ind, recombine := true,
          comments := C, keyfile := decide (f1 = 1), keyfileOrdered := decide (f2 = 1),
          onlyFiles := [strTake name (ind + 4)] } } := by
  have n5 : (15 : Nat) = 136 → (5 : Nat) = 128 := by omega
  have lv := (rsEncode_lawful env.cs.rs5 hcs.rs5 ver hvl).2.1
  have lf := (rsEncode_lawful env.cs.rs5 hcs.rs5 [f0, f1, f2, f3, f4] rfl).2.1
  have dv := rsDecode_codeword_any env.cs.rs5 hcs.rs5 n5 w.g.fastDecode ver hvl
  have df := rsDecode_codeword_any env.cs.rs5 hcs.rs5 n5 w.g.fastDecode [f0, f1, f2, f3, f4] rfl
  simp only [onDropFile, hfile, hsplit, hind, hchunk, Bool.or_true, if_true, Bool.false_eq_true,
    if_false, bind_ok, pure_eq_ok, headerStart, List.append_assoc, readBuf_append 15 _ _ lv,
    dv, hver, Bool.not_true, Bool.or_self,
    scanCommentField_encoded env hcs w.g.fastDecode C _ hC, readBuf_append 15 _ _ lf, df, index,
    List.get?]
  by_cases h1 : f1 = 1 <;> by_cases h2 : f2 = 1 <;> simp [h1, h2, resetUI]

/-- A dropped file whose name is taken for a chunk of a split volume, with no chunk `.0`
next to it, is not set up at all. -/
theorem onDropFile_split_missing (env : Env) (name : String) (w : World)
    (content : List Nat) (ind : Nat)
    (hsplit : isSplitName name = true) (hind : strIndex name ".pcv" = some ind)
    (hfile : w.fs.read name = some content)
    (hchunk : w.fs.read (strTake name (ind + 4) ++ ".0") = none) :
    onDropFile env name w = Except.ok { w with g := accessDenied (resetUI w.g) "Read" } := by
  simp only [onDropFile, hfile, hsplit, hind, hchunk, Bool.or_true, if_true, bind_ok,
    pure_eq_ok]
  rfl

/-- A dropped file whose name ends in `.pcv` and whose first block does not decode to a
version tag is not set up: the window is reset. -/
theorem onDropFile_not_volume (env : Env) (name : String) (w : World) (content tmp : List Nat)
    (err : Bool) (hsuf : hasSuffix name ".pcv" = true)
    (hfile : w.fs.read name = some content)
    (hdec : rsDecode env.cs.rs5 w.g.fastDecode (readBuf 15 content).1 = Except.ok (tmp, err))
    (hbad : (!versionMatch tmp || err) = true) :
    onDropFile env name w
      = Except.ok { w with g := { resetUI w.g with
          mainStatus := "This doesn't seem like a Picocrypt volume.",
          mainStatusColor := Color.RED } } := by
  have hns := isSplitName_of_pcv name hsuf
  simp only [onDropFile, hfile, hns, hsuf, Bool.or_false, if_true, Bool.false_eq_true,
    if_false, bind_ok, pure_eq_ok, hdec, hbad]
  rfl

/-- The header that encrypt writes starts with the version tag, the comment length, the
comments and the flag block. -/
theorem volumeHeader_start (env : Env) (g : Globals) (total : Nat) (mac : List Nat) :
    ∃ rest : List Nat, volumeHeader env g total mac
      = headerStart env.cs version g.comments (headerFlags g total) ++ rest := by
  refine ⟨([codeword env.cs.rs16 (genNonces env.rnd).salt,
      codeword env.cs.rs32 (genNonces env.rnd).hkdfSalt,
      codeword env.cs.rs16 (genNonces env.rnd).serpentSalt,
      codeword env.cs.rs24 (genNonces env.rnd).nonce]
    ++ verifierFields env.cs (env.c.sha3_512 (encKey env g)) (zeros 32)
        (macSum env.c g.paranoid (hkdfRead (encHkdf env g) 0 32) mac)).flatten, ?_⟩
  simp only [volumeHeader, headerFront, headerStart, List.cons_append, List.nil_append,
    List.flatten_cons, List.append_assoc]

/-- C15, refuted as stated.  The name `notes.pcv.v2` does not end in `.pcv` and is not of the
pattern `*.pcv.<digits>`, yet it contains `.pcv.` and ends in a digit, so `onDrop` takes it
for a chunk of the split volume `notes.pcv`: with no `notes.pcv.0` on disk the window is reset
with the read-denied message, and the file is not set up for encryption to
`notes.pcv.v2.pcv`. -/
theorem mode_selection_counterexample :
    hasSuffix "notes.pcv.v2" ".pcv" = false ∧
    matchesSplitPattern "notes.pcv.v2" = false ∧
    isSplitName "notes.pcv.v2" = true ∧
    onDropFile sampleEnv "notes.pcv.v2"
        { g := startGlobals, fs := [("notes.pcv.v2", samplePlain)] }
      = Except.ok { g := accessDenied (resetUI startGlobals) "Read",
                    fs := [("notes.pcv.v2", samplePlain)] } ∧
    (accessDenied (resetUI startGlobals) "Read").mode ≠ "encrypt" ∧
    (accessDenied (resetUI startGlobals) "Read").outputFile ≠ "notes.pcv.v2.pcv" ∧
    (accessDenied (resetUI startGlobals) "Read").mainStatus
      = "Read access denied by operating system." := by
  refine ⟨by decide, by decide, by decide, rfl, by decide, by decide, by decide⟩

/-- C15 as amended.  For one dropped file that exists (codecs that meet the library
contract): (1) a name that neither ends in `.pcv` nor both contains `.pcv.` and ends in a
digit is set up for encryption with output name `<name>.pcv`; (2) a name that ends in `.pcv`
is set up for decryption, with the name less its last 4 bytes as output, when the file starts
like a volume (version tag, comment of at most 99999 bytes, flag block, as in every header
that encrypt writes), and the window is reset when the first block does not decode to a
version tag; (3) every name of the pattern `*.pcv.<digits>` contains `.pcv.` and ends in a
digit; (4) a name that contains `.pcv.` and ends in a digit is set up for recombining and
decryption of the name cut after its first `.pcv` when chunk `.0` of that name starts like a
volume, and is not set up at all when that chunk is missing. -/
theorem mode_selection (env : Env) (hcs : env.cs.Lawful) (name : String) (w : World)
    (content : List Nat) (hfile : w.fs.read name = some content) :
    (hasSuffix name ".pcv" = false → isSplitName name = false →
      onDropFile env name w
        = Except.ok { w with g := { resetUI w.g with mode := "encrypt", inputFile := name,
                                                     outputFile := name ++ ".pcv",
                                                     onlyFiles := [name] } }) ∧
    (hasSuffix name ".pcv" = true →
      (∀ (ver C rest : List Nat) (f0 f1 f2 f3 f4 : Nat), versionMatch ver = true →
        ver.length = 5 → C.length ≤ 99999 →
        content = headerStart env.cs ver C [f0, f1, f2, f3, f4] ++ rest →
        onDropFile env name w
          = Except.ok { w with g := { resetUI w.g with
              mode := "decrypt", inputFile := name,
              outputFile := strTake name (name.data.length - 4), comments := C,
              keyfile := decide (f1 = 1), keyfileOrdered := decide (f2 = 1),
              onlyFiles := [name] } }) ∧
      (∀ (tmp : List Nat) (err : Bool),
        rsDecode env.cs.rs5 w.g.fastDecode (readBuf 15 content).1 = Except.ok (tmp, err) →
        (!versionMatch tmp || err) = true →
        onDropFile env name w
          = Except.ok { w with g := { resetUI w.g with
              mainStatus := "This doesn't seem like a Picocrypt volume.",
              mainStatusColor := Color.RED } })) ∧
    (versionMatch version = true ∧
      ∀ (g : Globals) (total : Nat) (mac : List Nat), ∃ rest : List Nat,
        volumeHeader env g total mac
          = headerStart env.cs version g.comments (headerFlags g total) ++ rest) ∧
    (matchesSplitPattern name = true → isSplitName name = true) ∧
    (isSplitName name = true →
      ∃ ind : Nat, strIndex name ".pcv" = some ind ∧
        (∀ (ver C rest : List Nat) (f0 f1 f2 f3 f4 : Nat), versionMatch ver = true →
          ver.length = 5 → C.length ≤ 99999 →
          w.fs.read (strTake name (ind + 4) ++ ".0")
            = some (headerStart env.cs ver C [f0, f1, f2, f3, f4] ++ rest) →
          onDropFile env name w
            = Except.ok { w with g := { resetUI w.g with
                mode := "decrypt", inputFile := strTake name (ind + 4),
                outputFile := strTake (strTake name (ind + 4)) ind, recombine := true,
                comments := C, keyfile := decide (f1 = 1), keyfileOrdered := decide (f2 = 1),
                onlyFiles := [strTake name (ind + 4)] } }) ∧
        (w.fs.read (strTake name (ind + 4) ++ ".0") = none →
          onDropFile env name w
            = Except.ok { w with g := accessDenied (resetUI w.g) "Read" })) := by
  refine ⟨onDropFile_encrypt env name w content hfile, fun hsuf => ⟨?_, ?_⟩,
    ⟨by decide, volumeHeader_start env⟩, isSplitName_of_pattern name, fun hsplit => ?_⟩
  · intro ver C rest f0 f1 f2 f3 f4 hver hvl hC hcontent
    rw [hcontent] at hfile
    exact onDropFile_volume env hcs name w ver C rest f0 f1 f2 f3 f4 hsuf hver hvl hC hfile
  · intro tmp err hdec hbad
    exact onDropFile_not_volume env name w content tmp err hsuf hfile hdec hbad
  · obtain ⟨ind, hind⟩ := strIndex_of_split name hsplit
    refine ⟨ind, hind, ?_, ?_⟩
    · intro ver C rest f0 f1 f2 f3 f4 hver hvl hC hchunk
      exact onDropFile_split env hcs name w content ver C rest f0 f1 f2 f3 f4 ind hsplit hind
        hver hvl hC hfile hchunk
    · exact onDropFile_split_missing env name w content ind hsplit hind hfile

/-- C15 as amended, at three dropped files: `a.txt` is set up for encryption to `a.txt.pcv`,
the volume `a.txt.pcv` with the comment `AB` for decryption to `a.txt`, and the chunk
`a.txt.pcv.1` for recombining `a.txt.pcv` and decryption to `a.txt`. -/
theorem mode_selection_witness :
    onDropFile sampleEnv "a.txt" { g := startGlobals, fs := [("a.txt", samplePlain)] }
      = Except.ok { g := { startGlobals with mode := "encrypt", inputFile := "a.txt",
                                             outputFile := "a.txt.pcv",
                                             onlyFiles := ["a.txt"] },
                    fs := [("a.txt", samplePlain)] } ∧
    onDropFile sampleEnv "a.txt.pcv"
        { g := startGlobals,
          fs := [("a.txt.pcv",
                  headerStart sampleEnv.cs version [65, 66] [0, 0, 0, 0, 0] ++ [])] }
      = Except.ok { g := { startGlobals with mode := "decrypt", inputFile := "a.txt.pcv",
                                             outputFile := "a.txt", comments := [65, 66],
                                             onlyFiles := ["a.txt.pcv"] },
                    fs := [("a.txt.pcv",
                            headerStart sampleEnv.cs version [65, 66] [0, 0, 0, 0, 0] ++ [])] } ∧
    matchesSplitPattern "a.txt.pcv.1" = true ∧
    onDropFile sampleEnv "a.txt.pcv.1"
        { g := startGlobals,
          fs := [("a.txt.pcv.0",
                  headerStart sampleEnv.cs version [65, 66] [0, 0, 0, 0, 0] ++ []),
                 ("a.txt.pcv.1", [])] }
      = Except.ok { g := { startGlobals with mode := "decrypt", inputFile := "a.txt.pcv",
                                             outputFile := "a.txt", recombine := true,
                                             comments := [65, 66],
                                             onlyFiles := ["a.txt.pcv"] },
                    fs := [("a.txt.pcv.0",
                            headerStart sampleEnv.cs version [65, 66] [0, 0, 0, 0, 0] ++ []),
                           ("a.txt.pcv.1", [])] } := by
  refine ⟨?_, ?_, by decide, ?_⟩
  · exact (mode_selection sampleEnv sampleCodecs_lawful "a.txt"
      { g := startGlobals, fs := [("a.txt", samplePlain)] } samplePlain rfl).1
      (by decide) (by decide)
  · exact ((mode_selection sampleEnv sampleCodecs_lawful "a.txt.pcv"
      { g := startGlobals,
        fs := [("a.txt.pcv", headerStart sampleEnv.cs version [65, 66] [0, 0, 0, 0, 0] ++ [])] }
      (headerStart sampleEnv.cs version [65, 66] [0, 0, 0, 0, 0] ++ []) rfl).2.1
      (by decide)).1 version [65, 66] [] 0 0 0 0 0 (by decide) rfl (by decide) rfl
  · obtain ⟨ind, hind, h1, _⟩ := (mode_selection sampleEnv sampleCodecs_lawful "a.txt.pcv.1"
      { g := startGlobals,
        fs := [("a.txt.pcv.0",
                headerStart sampleEnv.cs version [65, 66] [0, 0, 0, 0, 0] ++ []),
               ("a.txt.pcv.1", [])] } [] rfl).2.2.2.2 (by decide)
    have e : strIndex "a.txt.pcv.1" ".pcv" = some 5 := by decide
    rw [e] at hind
    have hi : ind = 5 := (Option.some.inj hind).symm
    subst hi
    exact h1 version [65, 66] [] 0 0 0 0 0 (by decide) rfl (by decide) rfl

/-! ## Splitting a volume -/

/-- The buffer-halving loop ends for a chunk that is not full yet, with a buffer that fits
into the chunk. -/
theorem shrink_pow (c done : Nat) (h : done < c) : ∀ (j fuel : Nat), j < fuel →
    ∃ len, shrink fuel (2 ^ j) done (c : Int) = Except.ok len ∧ 0 < len ∧ done + len ≤ c := by
  intro j
  induction j with
  | zero =>
    intro fuel hf
    obtain ⟨f, rfl⟩ : ∃ f, fuel = f + 1 := ⟨fuel - 1, by omega⟩
    have hc : ¬ ((c : Int) < ((done + 2 ^ 0 : Nat) : Int)) := by
      have : (2 : Nat) ^ 0 = 1 := rfl
      omega
    exact ⟨1, by simp only [shrink, hc, if_false]; rfl, by omega, by omega⟩
  | succ j ih =>
    intro fuel hf
    obtain ⟨f, rfl⟩ : ∃ f, fuel = f + 1 := ⟨fuel - 1, by omega⟩
    by_cases hc : (c : Int) < ((done + 2 ^ (j + 1) : Nat) : Int)
    · have hhalf : (2 ^ (j + 1) + 1) / 2 = 2 ^ j := by
        have : 2 ^ (j + 1) = 2 * 2 ^ j := by rw [Nat.pow_succ, Nat.mul_comm]
        omega
      obtain ⟨len, h1, h2, h3⟩ := ih f (by omega)
      exact ⟨len, by simp only [shrink, hc, if_true, hhalf, h1], h2, h3⟩
    · have hpos : 0 < 2 ^ (j + 1) := Nat.two_pow_pos (j + 1)
      exact ⟨2 ^ (j + 1), by simp only [shrink, hc, if_false]; rfl, hpos, by omega⟩

/-- One chunk of the split step receives the next `c - done` bytes of the volume (all that is
left when the volume ends before). -/
theorem splitChunk_spec (c : Nat) : ∀ (fuel done : Nat) (rest acc : List Nat), done < c →
    rest.length < fuel →
    splitChunk fuel (c : Int) done rest acc
      = Except.ok (acc ++ rest.take (c - done), rest.drop (c - done)) := by
  intro fuel
  induction fuel with
  | zero => intro done rest acc _ hf; omega
  | succ fuel ih =>
    intro done rest acc hd hf
    obtain ⟨len, hs, hpos, hfit⟩ := shrink_pow c done hd 20 32 (by omega)
    have hs2 : shrink 32 MiB done (c : Int) = Except.ok len := hs
    cases rest with
    | nil => simp [splitChunk, hs2, bind_ok, pure_eq_ok]
    | cons x xs =>
      simp only [splitChunk, hs2, bind_ok]
      by_cases hge : (c : Int) ≤ ((done + (List.take len (x :: xs)).length : Nat) : Int)
      · have hl : (List.take len (x :: xs)).length = min len (x :: xs).length :=
          List.length_take _ _
        have hlen : c - done = len := by omega
        simp only [hge, if_true, pure_eq_ok, hlen]
      · have hl : (List.take len (x :: xs)).length = min len (x :: xs).length :=
          List.length_take _ _
        have hdl : (List.drop len (x :: xs)).length = (x :: xs).length - len :=
          List.length_drop _ _
        have hxs : 0 < (x :: xs).length := by simp
        simp only [hge, if_false]
        rw [ih _ _ _ (by omega) (by omega), List.append_assoc]
        by_cases hle : len ≤ (x :: xs).length
        · have e1 : c - (done + (List.take len (x :: xs)).length) = c - done - len := by omega
          have e2 : c - done = len + (c - done - len) := by omega
          rw [e1]
          nth_rewrite 3 [e2]
          nth_rewrite 4 [e2]
          rw [List.take_add, List.drop_drop]
        · have e1 : List.take len (x :: xs) = x :: xs := List.take_of_length_le (by omega)
          have e2 : List.drop len (x :: xs) = [] := List.drop_of_length_le (by omega)
          have e3 : List.take (c - done) (x :: xs) = x :: xs :=
            List.take_of_length_le (by omega)
          have e4 : List.drop (c - done) (x :: xs) = [] := List.drop_of_length_le (by omega)
          rw [e1, e2, e3, e4]
          simp

theorem toNat_ofNat_digit (n : Nat) (h : 48 ≤ n ∧ n ≤ 57) : (Char.ofNat n).toNat = n := by
  obtain ⟨h1, h2⟩ := h
  interval_cases n <;> rfl

theorem map_toNat_ofNat (l : List Nat) (h : ∀ x ∈ l, 48 ≤ x ∧ x ≤ 57) :
    (l.map Char.ofNat).map Char.toNat = l := by
  induction l with
  | nil => rfl
  | cons a t ih =>
    rw [List.map_cons, List.map_cons, toNat_ofNat_digit a (h a (List.mem_cons_self a t)),
      ih (fun x hx => h x (List.mem_cons_of_mem a hx))]

/-- Chunks of different index have different names. -/
theorem chunkName_inj (base : String) (i j : Nat) (h : chunkName base i = chunkName base j) :
    i = j := by
  have h1 := congrArg String.data h
  simp only [chunkName, String.data_append] at h1
  have h2 := congrArg (List.map Char.toNat) (List.append_cancel_left h1)
  rw [map_toNat_ofNat _ (decimal_digits i), map_toNat_ofNat _ (decimal_digits j)] at h2
  exact decimal_injective h2

/-- The chunk loop of the split step for a positive chunk size `c`: chunk `i + j` receives
the bytes `j·c .. (j+1)·c` of what was unread, and no other file changes. -/
theorem splitLoop_spec (out : String) (c : Nat) (hc : 0 < c) :
    ∀ (count i : Nat) (rest : List Nat) (fs : FS),
      ∃ fs1 : FS, splitLoop out (c : Int) count i rest fs = Except.ok fs1 ∧
        (∀ j, j < count →
          fs1.read (chunkName out (i + j)) = some ((rest.drop (j * c)).take c)) ∧
        (∀ p : String, (∀ j, j < count → p ≠ chunkName out (i + j)) →
          fs1.read p = fs.read p) := by
  intro count
  induction count with
  | zero =>
    intro i rest fs
    exact ⟨fs, rfl, fun j hj => absurd hj (Nat.not_lt_zero j), fun _ _ => rfl⟩
  | succ count ih =>
    intro i rest fs
    have hch := splitChunk_spec c (rest.length + 1) 0 rest [] hc (Nat.lt_succ_self _)
    obtain ⟨fs1, h1, h2, h3⟩ := ih (i + 1) (rest.drop c)
      (fs.write (chunkName out i) (rest.take c))
    refine ⟨fs1, ?_, ?_, ?_⟩
    · rw [splitLoop, hch, bind_ok]
      exact h1
    · intro j hj
      cases j with
      | zero =>
        have hne : ∀ j, j < count → chunkName out i ≠ chunkName out (i + 1 + j) := by
          intro j _ e
          have := chunkName_inj out _ _ e
          omega
        rw [Nat.add_zero, h3 _ hne, read_write_same, Nat.zero_mul, List.drop_zero]
      | succ j =>
        have e1 : i + (j + 1) = i + 1 + j := by omega
        have e2 : (j + 1) * c = c + j * c := by rw [Nat.add_mul, Nat.one_mul, Nat.add_comm]
        rw [e1, h2 j (by omega), e2, List.drop_drop]
    · intro p hp
      have hp1 : ∀ j, j < count → p ≠ chunkName out (i + 1 + j) := by
        intro j hj
        have := hp (j + 1) (by omega)
        have e1 : i + (j + 1) = i + 1 + j := by omega
        rw [e1] at this
        exact this
      have hp0 : p ≠ chunkName out i := by
        have := hp 0 (by omega)
        rw [Nat.add_zero] at this
        exact this
      rw [h3 p hp1, read_write_other _ _ _ _ hp0]

/-- The split step for a positive chunk size `c` and a volume below `2^53` bytes: the volume
is cut into `⌈size / c⌉` chunks of `c` bytes (the last one shorter), the volume itself is
removed, and no other file changes. -/
theorem splitPhase_spec (g : Globals) (fs : FS) (V : List Nat) (c : Nat) (hc : 0 < c)
    (hsplit : g.split = true) (hV : fs.read g.outputFile = some V)
    (hsize : chunkSizeOf g.splitSize g.splitSelected V.length = Except.ok (c : Int))
    (hlen : V.length < 2 ^ 53) :
    ∃ fs1 : FS, splitPhase g fs = Except.ok fs1 ∧
      (∀ j, j < (V.length + c - 1) / c →
        fs1.read (chunkName g.outputFile j) = some ((V.drop (j * c)).take c)) ∧
      fs1.read g.outputFile = none ∧
      (∀ p : String, p ≠ g.outputFile →
        (∀ j, j < (V.length + c - 1) / c → p ≠ chunkName g.outputFile j) →
        fs1.read p = fs.read p) := by
  obtain ⟨fs1, h1, h2, h3⟩ := splitLoop_spec g.outputFile c hc ((V.length + c - 1) / c) 0 V fs
  have hcd : ceilDiv V.length (c : Int) = Except.ok (((V.length + c - 1) / c : Nat) : Int) := by
    have hb : ¬ ((c : Int) = 0 ∨ 2 ^ 53 ≤ V.length) := by omega
    have hp : 0 < (c : Int) := by omega
    simp only [ceilDiv, hb, if_false, hp, if_true, Int.toNat_ofNat]
    rfl
  refine ⟨fs1.remove g.outputFile, ?_, ?_, read_remove_same _ _, ?_⟩
  · simp only [splitPhase, hsplit, if_true, readFile_some _ _ _ hV, bind_ok, hsize, hcd,
      Int.toNat_ofNat, h1]
    rfl
  · intro j hj
    have := h2 j hj
    rw [Nat.zero_add] at this
    rw [read_remove_other _ _ _ (chunkName_ne g.outputFile j), this]
  · intro p hp hpj
    rw [read_remove_other _ _ _ hp]
    apply h3
    intro j hj
    rw [Nat.zero_add]
    exact hpj j hj

/-- An encryption without keyfiles writes the finished volume and goes on to the end of
`work` (split, removals, final status). -/
theorem encryptWork_finish (env : Env) (hcs : env.cs.Lawful) (hc : env.c.Lawful) (w : World)
    (P : List Nat) (hkf : w.g.keyfiles = []) (hkfile : w.g.keyfile = false)
    (hkept : w.g.kept = false) (hC : w.g.comments.length ≤ 99999) :
    ∃ (mac body : List Nat),
      body.length = bodyLen w.g.reedsolo P.length ∧
      encryptWork env w P
        = finishPhase
            { g := { w.g with kept := false },
              fs := w.fs.write w.g.outputFile (volumeHeader env w.g P.length mac ++ body) } := by
  obtain ⟨cl, _, hcl, hwh⟩ := writeHeader_ok env hcs w.g P.length
  have hcl1 := hcl hC
  subst hcl1
  have hfrontlen := length_headerFront env hcs w.g P.length _
    ((rsEncode_lawful env.cs.rs5 hcs.rs5 _ (fmt05d_length _ hC)).2.1)
  obtain ⟨stE1, body, hloop, hout, hblen, hkeptE, _⟩ :=
    bodyLoop_round_trip env hcs.rs128 (encParams env w.g P.length)
      (decParams env w.g P.length false false) (paired_params env w.g P.length false false)
      (P.length + 1) P
      (initStream (genNonces env.rnd).nonce (genNonces env.rnd).serpentSalt
        ((headerFront env w.g P.length (codeword env.cs.rs5 (fmt05d w.g.comments.length))
          ++ placeholders).flatten) w.g.kept)
      (initStream (genNonces env.rnd).nonce (genNonces env.rnd).serpentSalt [] false)
      (by omega) (sync_initStream _ _ _ _ _ _)
      (by intro _; simp [decParams, initStream, encParams])
      (by intro _; rfl)
  refine ⟨stE1.macData, body, hblen, ?_⟩
  have hkh := hc.sha3_512 (encKey env w.g)
  have htag := length_macSum env.c hc w.g.paranoid (hkdfRead (encHkdf env w.g) 0 32)
    stE1.macData
  have hpatch := patchHeader_ok env.cs hcs w.g.comments.length
    (env.c.sha3_512 (encKey env w.g)) (zeros 32)
    (macSum env.c w.g.paranoid (hkdfRead (encHkdf env w.g) 0 32) stE1.macData)
    hkh (length_zeros 32) htag
    ((headerFront env w.g P.length
      (codeword env.cs.rs5 (fmt05d w.g.comments.length))).flatten) body hfrontlen
  have hout3 : stE1.out = (headerFront env w.g P.length
      (codeword env.cs.rs5 (fmt05d w.g.comments.length))).flatten
        ++ (placeholders.flatten ++ body) := by
    rw [hout]
    simp only [initStream, List.flatten_append, List.append_assoc]
  have hk2 : stE1.kept = false := by
    rw [hkeptE]
    exact hkept
  rw [encryptWork_loop env w P _ hkf hkfile hwh, hloop, bind_ok]
  simp only []
  rw [hout3, hpatch, bind_ok, hk2]
  simp only [volumeHeader, List.flatten_append, List.append_assoc]

/-- In encrypt mode without recombining `work` runs the encrypt branch on the content of the
input file. -/
theorem workN_encrypt_mode (env : Env) (w : World) (P : List Nat) (n : Nat)
    (hmode : w.g.mode = "encrypt") (hrec : w.g.recombine = false)
    (hio : w.g.inputFile ≠ w.g.outputFile) (hP : w.fs.read w.g.inputFile = some P) :
    workN env (n + 1) w
      = encryptWork env
          { g := { w.g with mainStatus := "Working...", mainStatusColor := Color.WHITE },
            fs := w.fs } P := by
  rw [workN, recombinePhase_off
    { w with g := { w.g with mainStatus := "Working...", mainStatusColor := Color.WHITE } } hrec,
    bind_ok]
  simp only []
  rw [readFile_some _ _ _ hP, bind_ok]
  simp only [hio, if_false, hmode, if_true]
  rfl

/-- The end of `work` with the split option alone. -/
theorem finishPhase_split (w : World) (fs1 : FS) (hrec : w.g.recombine = false)
    (hdel : w.g.delete = false) (hkept : w.g.kept = false)
    (hsp : splitPhase w.g w.fs = Except.ok fs1) :
    finishPhase w = Except.ok
      { g := { resetUI w.g with kept := false, mainStatus := "Completed.",
                                mainStatusColor := Color.GREEN },
        fs := fs1 } := by
  simp only [finishPhase, hsp, bind_ok, hrec, hdel, hkept, Bool.false_eq_true, if_false,
    pure_eq_ok, resetUI]

/-- The encrypt branch with the split option, for a chunk size `c > 0` that the size fields
give and a volume below `2^53` bytes. -/
theorem encryptWork_split (env : Env) (hcs : env.cs.Lawful) (hc : env.c.Lawful) (w : World)
    (P : List Nat) (c : Nat) (hc0 : 0 < c)
    (hrec : w.g.recombine = false) (hkf : w.g.keyfiles = []) (hkfile : w.g.keyfile = false)
    (hsplit : w.g.split = true) (hdel : w.g.delete = false) (hkept : w.g.kept = false)
    (hC : w.g.comments.length ≤ 99999)
    (hsize : chunkSizeOf w.g.splitSize w.g.splitSelected
      (789 + 3 * w.g.comments.length + bodyLen w.g.reedsolo P.length) = Except.ok (c : Int))
    (hlen : 789 + 3 * w.g.comments.length + bodyLen w.g.reedsolo P.length < 2 ^ 53) :
    ∃ (fs1 : FS) (V : List Nat),
      encryptWork env w P
        = Except.ok { g := { resetUI w.g with kept := false, mainStatus := "Completed.",
                                              mainStatusColor := Color.GREEN },
                      fs := fs1 } ∧
      V.length = 789 + 3 * w.g.comments.length + bodyLen w.g.reedsolo P.length ∧
      (∀ j, j < (V.length + c - 1) / c →
        fs1.read (chunkName w.g.outputFile j) = some ((V.drop (j * c)).take c)) ∧
      fs1.read w.g.outputFile = none ∧
      (∀ p : String, p ≠ w.g.outputFile →
        (∀ j, j < (V.length + c - 1) / c → p ≠ chunkName w.g.outputFile j) →
        fs1.read p = w.fs.read p) := by
  obtain ⟨mac, body, hbl, hwork⟩ := encryptWork_finish env hcs hc w P hkf hkfile hkept hC
  have hvh := length_volumeHeader env hcs hc w.g P.length mac hC
  have hVl : (volumeHeader env w.g P.length mac ++ body).length
      = 789 + 3 * w.g.comments.length + bodyLen w.g.reedsolo P.length := by
    rw [List.length_append, hvh, hbl]
  obtain ⟨fs1, h1, h2, h3, h4⟩ := splitPhase_spec { w.g with kept := false }
    (w.fs.write w.g.outputFile (volumeHeader env w.g P.length mac ++ body))
    (volumeHeader env w.g P.length mac ++ body) c hc0 hsplit (read_write_same _ _ _)
    (by rw [hVl]; exact hsize) (by rw [hVl]; exact hlen)
  refine ⟨fs1, volumeHeader env w.g P.length mac ++ body, ?_, hVl, h2, h3, ?_⟩
  · rw [hwork]
    exact finishPhase_split
      { g := { w.g with kept := false },
        fs := w.fs.write w.g.outputFile (volumeHeader env w.g P.length mac ++ body) }
      fs1 hrec hdel rfl h1
  · intro p hp hpj
    rw [h4 p hp hpj, read_write_other _ _ _ _ hp]

/-- Encryption with the split option through `work`, for a chunk size `c > 0` that the size
fields give and a volume below `2^53` bytes: the volume of `789 + 3·C + body` bytes is cut
into chunks of `c` bytes named `.0`, `.1`, ... (the last one shorter), the volume is removed,
and no other file changes. -/
theorem encrypt_split (env : Env) (hcs : env.cs.Lawful) (hc : env.c.Lawful) (g : Globals)
    (fs : FS) (P : List Nat) (c : Nat) (hc0 : 0 < c) (hmode : g.mode = "encrypt")
    (hrec : g.recombine = false) (hkf : g.keyfiles = []) (hkfile : g.keyfile = false)
    (hsplit : g.split = true) (hdel : g.delete = false) (hkept : g.kept = false)
    (hio : g.inputFile ≠ g.outputFile) (hC : g.comments.length ≤ 99999)
    (hP : fs.read g.inputFile = some P)
    (hsize : chunkSizeOf g.splitSize g.splitSelected
      (789 + 3 * g.comments.length + bodyLen g.reedsolo P.length) = Except.ok (c : Int))
    (hlen : 789 + 3 * g.comments.length + bodyLen g.reedsolo P.length < 2 ^ 53) :
    ∃ (w : World) (V : List Nat), work env { g := g, fs := fs } = Except.ok w ∧
      V.length = 789 + 3 * g.comments.length + bodyLen g.reedsolo P.length ∧
      w.g.mainStatus = "Completed." ∧
      (∀ j, j < (V.length + c - 1) / c →
        w.fs.read (chunkName g.outputFile j) = some ((V.drop (j * c)).take c)) ∧
      w.fs.read g.outputFile = none ∧
      (∀ p : String, p ≠ g.outputFile →
        (∀ j, j < (V.length + c - 1) / c → p ≠ chunkName g.outputFile j) →
        w.fs.read p = fs.read p) := by
  obtain ⟨fs1, V, h1, h2, h3, h4, h5⟩ := encryptWork_split env hcs hc
    { g := { g with mainStatus := "Working...", mainStatusColor := Color.WHITE }, fs := fs }
    P c hc0 hrec hkf hkfile hsplit hdel hkept hC hsize hlen
  refine ⟨{ g := { resetUI g with kept := false, mainStatus := "Completed.",
                                  mainStatusColor := Color.GREEN },
            fs := fs1 }, V, ?_, h2, ?_, h3, h4, h5⟩
  · rw [work, workN_encrypt_mode env { g := g, fs := fs } P 1 hmode hrec hio hP]
    exact h1
  · rfl

/-- The split size `512` with the unit KiB is a chunk size of 524288 bytes. -/
theorem chunkSizeOf_512KiB (size : Nat) :
    chunkSizeOf [53, 49, 50] 0 size = Except.ok ((524288 : Nat) : Int) := by
  have ha : atoi [53, 49, 50] = (512, false) := by decide
  have hw : wrap64 (512 * (KiB : Int)) = ((524288 : Nat) : Int) := by decide
  simp only [chunkSizeOf, ha, if_true, hw]
  rfl

/-- Scenario S5 on the model of `work`: the volume of a 2 MiB file has 2097941 bytes and is
cut into the five chunks `.0` to `.4`. -/
theorem split_two_mib (env : Env) (hcs : env.cs.Lawful) (hc : env.c.Lawful) (g : Globals)
    (fs : FS) (P : List Nat) (hmode : g.mode = "encrypt") (hrec : g.recombine = false)
    (hkf : g.keyfiles = []) (hkfile : g.keyfile = false) (hsplit : g.split = true)
    (hdel : g.delete = false) (hkept : g.kept = false) (hio : g.inputFile ≠ g.outputFile)
    (hcom : g.comments = []) (hrs : g.reedsolo = false) (hss : g.splitSize = [53, 49, 50])
    (hsel : g.splitSelected = 0) (hP : fs.read g.inputFile = some P)
    (hlenP : P.length = 2 * MiB) :
    ∃ (w : World) (V : List Nat), work env { g := g, fs := fs } = Except.ok w ∧
      V.length = 2097941 ∧ w.g.mainStatus = "Completed." ∧
      (∀ j, j < 5 →
        w.fs.read (chunkName g.outputFile j) = some ((V.drop (j * 524288)).take 524288)) ∧
      (∀ j, j < 4 → ((V.drop (j * 524288)).take 524288).length = 524288) ∧
      ((V.drop (4 * 524288)).take 524288).length = 789 ∧
      w.fs.read g.outputFile = none ∧
      (∀ p : String, p ≠ g.outputFile → (∀ j, j < 5 → p ≠ chunkName g.outputFile j) →
        w.fs.read p = fs.read p) := by
  have hb : 789 + 3 * g.comments.length + bodyLen g.reedsolo P.length = 2097941 := by
    rw [hcom, hrs, hlenP]
    rfl
  obtain ⟨w, V, h1, h2, h3, h4, h5, h6⟩ := encrypt_split env hcs hc g fs P 524288 (by decide)
    hmode hrec hkf hkfile hsplit hdel hkept hio (by rw [hcom]; decide) hP
    (by rw [hss, hsel]; exact chunkSizeOf_512KiB _) (by rw [hb]; decide)
  rw [hb] at h2
  have hn : (V.length + 524288 - 1) / 524288 = 5 := by rw [h2]
  rw [hn] at h4 h6
  refine ⟨w, V, h1, h2, h3, h4, ?_, ?_, h5, h6⟩
  · intro j hj
    rw [List.length_take, List.length_drop, h2]
    omega
  · rw [List.length_take, List.length_drop, h2]
    rfl

set_option linter.constructorNameAsVariable false in
/-- C16, refuted as stated.  Encrypting the file `a.txt` of 2 MiB (no comment, no body
Reed-Solomon) with the split size 512 KiB leaves a fifth chunk `a.txt.pcv.4` of 789 bytes:
the volume is the 789-byte header longer than the file, so it does not fit into the four
chunks `.0` to `.3`. -/
theorem split_scenario_counterexample :
    (zeros (2 * 2 ^ 20)).length = 2 * MiB ∧
    ∃ (w : World) (chunk : List Nat),
      work sampleEnv { g := sampleSplit, fs := [("a.txt", zeros (2 * 2 ^ 20))] } = Except.ok w ∧
      w.fs.read "a.txt.pcv.4" = some chunk ∧ chunk.length = 789 := by
  have hl : (zeros (2 * 2 ^ 20)).length = 2 * MiB := by rw [length_zeros]; rfl
  obtain ⟨w, V, h1, _, _, h4, _, h6, _, _⟩ := split_two_mib sampleEnv sampleCodecs_lawful
    sampleCrypto_lawful sampleSplit [("a.txt", zeros (2 * 2 ^ 20))] (zeros (2 * 2 ^ 20))
    rfl rfl rfl rfl rfl rfl rfl (by decide) rfl rfl rfl rfl rfl hl
  exact ⟨hl, w, _, h1, h4 4 (by decide), h6⟩

/-- C16 as amended.  Scenario S5: encrypting a 2 MiB file (no comment, no body Reed-Solomon,
no keyfiles) and splitting the volume with size 512 KiB produces exactly 5 chunks, named
`.0` to `.4`: the volume has 2097152 + 789 = 2097941 bytes, chunk `.j` holds the bytes
`j·524288 .. (j+1)·524288` of it, so the chunks `.0` to `.3` have 524288 bytes and chunk `.4`
has the last 789 bytes; the unsplit volume is removed and no other file is written. -/
theorem split_scenario (env : Env) (hcs : env.cs.Lawful) (hc : env.c.Lawful) (g : Globals)
    (fs : FS) (P : List Nat) (hmode : g.mode = "encrypt") (hrec : g.recombine = false)
    (hkf : g.keyfiles = []) (hkfile : g.keyfile = false) (hsplit : g.split = true)
    (hdel : g.delete = false) (hkept : g.kept = false) (hio : g.inputFile ≠ g.outputFile)
    (hcom : g.comments = []) (hrs : g.reedsolo = false) (hss : g.splitSize = [53, 49, 50])
    (hsel : g.splitSelected = 0) (hP : fs.read g.inputFile = some P)
    (hlenP : P.length = 2 * MiB) :
    ∃ (w : World) (V : List Nat), work env { g := g, fs := fs } = Except.ok w ∧
      V.length = 2097941 ∧ w.g.mainStatus = "Completed." ∧
      (∀ j, j < 5 →
        w.fs.read (chunkName g.outputFile j) = some ((V.drop (j * 524288)).take 524288)) ∧
      (∀ j, j < 4 → ((V.drop (j * 524288)).take 524288).length = 524288) ∧
      ((V.drop (4 * 524288)).take 524288).length = 789 ∧
      w.fs.read g.outputFile = none ∧
      (∀ p : String, p ≠ g.outputFile → (∀ j, j < 5 → p ≠ chunkName g.outputFile j) →
        w.fs.read p = fs.read p) :=
  split_two_mib env hcs hc g fs P hmode hrec hkf hkfile hsplit hdel hkept hio hcom hrs hss hsel
    hP hlenP

set_option linter.constructorNameAsVariable false in
/-- C16 as amended, at the sample environment for the file `a.txt` of 2 MiB zero bytes. -/
theorem split_scenario_witness :
    ∃ (w : World) (V : List Nat),
      work sampleEnv { g := sampleSplit, fs := [("a.txt", zeros (2 * 2 ^ 20))] } = Except.ok w ∧
      V.length = 2097941 ∧ w.g.mainStatus = "Completed." ∧
      (∀ j, j < 5 →
        w.fs.read (chunkName sampleSplit.outputFile j)
          = some ((V.drop (j * 524288)).take 524288)) ∧
      (∀ j, j < 4 → ((V.drop (j * 524288)).take 524288).length = 524288) ∧
      ((V.drop (4 * 524288)).take 524288).length = 789 ∧
      w.fs.read sampleSplit.outputFile = none ∧
      (∀ p : String, p ≠ sampleSplit.outputFile →
        (∀ j, j < 5 → p ≠ chunkName sampleSplit.outputFile j) →
        w.fs.read p = FS.read [("a.txt", zeros (2 * 2 ^ 20))] p) :=
  split_scenario sampleEnv sampleCodecs_lawful sampleCrypto_lawful sampleSplit
    [("a.txt", zeros (2 * 2 ^ 20))] (zeros (2 * 2 ^ 20))
    rfl rfl rfl rfl rfl rfl rfl (by decide) rfl rfl rfl rfl rfl
    (by rw [length_zeros]; rfl)

/-! ## Cleanup when the output file cannot be created -/

/-- C17, where the code departs from it.  Encryption through a staging zip (several files, a
folder or the compress option), with the zip itself creatable and readable: when every file
was copied into the zip and `os.Create` of the output file fails, `work` returns with
`Write access denied by operating system.` and the staging zip, with the archive of the
entries, is still on disk; on the sibling error path of the same block, a file that cannot
be opened, the zip is removed before the return. -/
theorem write_denied_leaves_zip (s : Staging) (w : World)
    (hzip : (decide (1 < s.allFiles.length) || decide (0 < s.onlyFolders.length) || s.compress)
      = true)
    (hfiles : ¬ (s.onlyFolders = [] ∧ w.g.onlyFiles = []))
    (hmode : w.g.mode = "encrypt") (hrec : w.g.recombine = false)
    (hzc : trimSuffix w.g.outputFile ".pcv" ∉ s.noCreate)
    (hzo : trimSuffix w.g.outputFile ".pcv" ∉ s.noOpen) :
    (∀ entries : List (String × List Nat),
      zipEntries (w.fs.write (trimSuffix w.g.outputFile ".pcv") []) s.noOpen
          (if s.allFiles.length = 0 then w.g.onlyFiles else s.allFiles) []
        = Except.ok (some entries) →
      w.g.outputFile ∈ s.noCreate →
      ∃ w1 : World, workStart s w = Except.ok (Started.ended w1) ∧
        w1.g.mainStatus = "Write access denied by operating system." ∧
        w1.fs.read (trimSuffix w.g.outputFile ".pcv") = some (s.archive entries)) ∧
    (zipEntries (w.fs.write (trimSuffix w.g.outputFile ".pcv") []) s.noOpen
          (if s.allFiles.length = 0 then w.g.onlyFiles else s.allFiles) []
        = Except.ok none →
      ∃ w2 : World, workStart s w = Except.ok (Started.ended w2) ∧
        w2.g.mainStatus = "Read access denied by operating system." ∧
        w2.fs.read (trimSuffix w.g.outputFile ".pcv") = none) := by
  refine ⟨?_, ?_⟩
  · intro entries hent hout
    refine ⟨{ g := accessDenied
                { w.g with mainStatus := "Working...", mainStatusColor := Color.WHITE,
                           inputFile := trimSuffix w.g.outputFile ".pcv" } "Write",
              fs := (w.fs.write (trimSuffix w.g.outputFile ".pcv") []).write
                (trimSuffix w.g.outputFile ".pcv") (s.archive entries) }, ?_, rfl,
      read_write_same _ _ _⟩
    have hrf := readFile_some _ _ _ (read_write_same
      (w.fs.write (trimSuffix w.g.outputFile ".pcv") [])
      (trimSuffix w.g.outputFile ".pcv") (s.archive entries))
    simp only [workStart, hzip, if_true, hfiles, if_false, hzc, hent, bind_ok, pure_eq_ok,
      hrec, Bool.false_eq_true, false_and, recombinePhase_off, hrf, hzo, hmode, hout, and_self,
      accessDenied]
  · intro hent
    refine ⟨{ g := accessDenied (resetUI
                { w.g with mainStatus := "Working...", mainStatusColor := Color.WHITE,
                           inputFile := trimSuffix w.g.outputFile ".pcv" }) "Read",
              fs := (w.fs.write (trimSuffix w.g.outputFile ".pcv") []).remove
                (trimSuffix w.g.outputFile ".pcv") }, ?_, rfl, read_remove_same _ _⟩
    simp only [workStart, hzip, if_true, hfiles, if_false, hzc, hent, bind_ok, pure_eq_ok]

/-- Instance of `write_denied_leaves_zip`: `a.txt` and `b.txt` dropped together where
`Encrypted.zip.pcv` cannot be created leave `Encrypted.zip` on disk; with `b.txt` unreadable
instead, `Encrypted.zip` is removed. -/
theorem write_denied_leaves_zip_witness :
    (∃ w1 : World,
      workStart sampleStaging
          { g := sampleTwoFiles, fs := [("a.txt", samplePlain), ("b.txt", [1, 2, 3])] }
        = Except.ok (Started.ended w1) ∧
      w1.g.mainStatus = "Write access denied by operating system." ∧
      w1.fs.read "Encrypted.zip" = some (samplePlain ++ [1, 2, 3])) ∧
    (∃ w2 : World,
      workStart { sampleStaging with noCreate := [], noOpen := ["b.txt"] }
          { g := sampleTwoFiles, fs := [("a.txt", samplePlain), ("b.txt", [1, 2, 3])] }
        = Except.ok (Started.ended w2) ∧
      w2.g.mainStatus = "Read access denied by operating system." ∧
      w2.fs.read "Encrypted.zip" = none) :=
  ⟨(write_denied_leaves_zip sampleStaging
      { g := sampleTwoFiles, fs := [("a.txt", samplePlain), ("b.txt", [1, 2, 3])] }
      rfl (by decide) rfl rfl (by decide) (by decide)).1
      [("a.txt", samplePlain), ("b.txt", [1, 2, 3])] rfl (by decide),
   (write_denied_leaves_zip { sampleStaging with noCreate := [], noOpen := ["b.txt"] }
      { g := sampleTwoFiles, fs := [("a.txt", samplePlain), ("b.txt", [1, 2, 3])] }
      rfl (by decide) rfl rfl (by decide) (by decide)).2 rfl⟩

/-! ## Keyfiles with identical content -/

theorem xorBytes_cancel (k s : List Nat) (h : k.length = s.length) :
    xorBytes (xorBytes k s) s = k := by
  induction k generalizing s with
  | nil => simp [xorBytes]
  | cons a k ih =>
    cases s with
    | nil => simp at h
    | cons b s =>
      have h1 := ih s (by simpa using h)
      simp only [xorBytes, List.zipWith_cons_cons] at h1 ⊢
      rw [h1, Nat.xor_assoc, Nat.xor_self, Nat.xor_zero]

theorem xorBytes_self (s : List Nat) : xorBytes s s = zeros s.length := by
  induction s with
  | nil => rfl
  | cons a s ih =>
    simp only [xorBytes, List.zipWith_cons_cons, Nat.xor_self, zeros, List.length_cons,
      List.replicate_succ] at ih ⊢
    rw [ih]

theorem zipWith_xor_comm (key z : List Nat) :
    List.zipWith (fun a b => a ^^^ b) key z = xorBytes z key := by
  induction key generalizing z with
  | nil => cases z <;> rfl
  | cons a t ih =>
    cases z with
    | nil => rfl
    | cons b z =>
      have e := ih z
      simp only [xorBytes, List.zipWith_cons_cons] at e ⊢
      rw [e, Nat.xor_comm]

theorem xorKey_zeros (key : List Nat) (h : key.length = 32) :
    xorKey key (some (zeros 32)) = Except.ok key := by
  have h1 : 32 ≤ key.length ∧ 32 ≤ (zeros 32).length := by
    rw [length_zeros]
    omega
  have h2 : (zeros 32).take 32 = zeros key.length := by rw [h]; rfl
  have h3 : key.take 32 = key := List.take_of_length_le (by omega)
  have h4 : xorBytes (zeros key.length) key = key := xorBytes_zeros key
  simp only [xorKey, Option.getD_some, h1, and_self, if_true, pure_eq_ok, h2, h3,
    zipWith_xor_comm, h4]

/-- C25 (identical-content keyfiles cancel in unordered mode).  With SHA3-256 digests of 32
bytes, for every non-empty list `L` of existing keyfiles and two files `p`, `q` with the same
content `a`: the unordered keyfile key of `L` followed by `p`, `q` is the key of `L`; the key
of the list `p`, `q` alone is 32 zero bytes, with which the keyfile step of `work` leaves
every 32-byte key, so the Argon2 key, unchanged; and the keyfile branch of `onDrop` keeps
both `p` and `q` when the paths differ, while it drops a repeated path. -/
theorem identical_keyfiles_cancel (c : Crypto) (hc : c.Lawful) (fs : FS) (L : List String)
    (p q : String) (a : List Nat) (hne : L ≠ []) (hex : ∀ x ∈ L, fs.read x ≠ none)
    (hp : fs.read p = some a) (hq : fs.read q = some a) :
    keyfileKeyUnordered c fs (L ++ [p, q]) none = keyfileKeyUnordered c fs L none ∧
    keyfileKeyUnordered c fs L none = Except.ok (some (xorAll (keyDigests c fs L))) ∧
    keyfileKeyUnordered c fs [p, q] none = Except.ok (some (zeros 32)) ∧
    (∀ g : Globals, g.keyfiles = [p, q] → g.keyfileOrdered = false →
      keyfilePhase c fs g = Except.ok (some (zeros 32), c.sha3_256 (zeros 32))) ∧
    (∀ (g : Globals) (pw salt : List Nat) (par : Bool), g.keyfiles = [p, q] →
      cipherKey g (c.argon2 pw salt par) (some (zeros 32))
        = Except.ok (c.argon2 pw salt par)) ∧
    (p ≠ q → onDropKeyfiles fs [] [p, q] = Except.ok [p, q]) ∧
    onDropKeyfiles fs [] [p, p] = Except.ok [p] := by
  have hs := hc.sha3_256 a
  have hex2 : ∀ x ∈ L ++ [p, q], fs.read x ≠ none := by
    intro x hx
    rcases List.mem_append.mp hx with h | h
    · exact hex x h
    · simp only [List.mem_cons, List.mem_singleton, List.not_mem_nil, or_false] at h
      rcases h with h | h
      · rw [h, hp]; exact Option.some_ne_none a
      · rw [h, hq]; exact Option.some_ne_none a
  have hne2 : L ++ [p, q] ≠ [] := by simp
  obtain ⟨h1, h2, h3⟩ := keyfileKeyUnordered_none c hc fs L hne hex
  obtain ⟨k1, _, k3⟩ := keyfileKeyUnordered_none c hc fs (L ++ [p, q]) hne2 hex2
  have hd : keyDigests c fs (L ++ [p, q])
      = keyDigests c fs L ++ [c.sha3_256 a, c.sha3_256 a] := by
    simp [keyDigests, hp, hq]
  have hpq : keyfileKeyUnordered c fs [p, q] none = Except.ok (some (zeros 32)) := by
    simp only [keyfileKeyUnordered, readFile_some fs p a hp, readFile_some fs q a hq, bind_ok,
      xorInto_same_length _ _ rfl, xorBytes_self, hs, pure_eq_ok]
  refine ⟨?_, h1, hpq, ?_, ?_, ?_, ?_⟩
  · rw [k1, h1, k3, hd, List.foldl_append, ← h3]
    simp only [List.foldl_cons, List.foldl_nil]
    rw [xorBytes_cancel _ _ (h2.trans hs.symm)]
  · intro g hg hord
    have hpos : 0 < g.keyfiles.length ∨ g.keyfile = true := by
      rw [hg]
      exact Or.inl (Nat.succ_pos 1)
    simp only [keyfilePhase, hpos, if_true, hord, Bool.false_eq_true, if_false]
    rw [hg, hpq]
    rfl
  · intro g pw salt par hg
    have hpos : 0 < g.keyfiles.length ∨ g.keyfile = true := by
      rw [hg]
      exact Or.inl (Nat.succ_pos 1)
    simp only [cipherKey, hpos, if_true]
    exact xorKey_zeros _ (hc.argon2 pw salt par)
  · intro hpq2
    have hqp : (q == p) = false := by
      rw [beq_eq_false_iff_ne]
      exact fun e => hpq2 e.symm
    simp [onDropKeyfiles, dedupKeyfiles, hp, hq, hqp, pure_eq_ok]
  · simp [onDropKeyfiles, dedupKeyfiles, hp, pure_eq_ok]

/-- C25 at the sample primitives: the keyfile `k1` followed by `k2` and `k3`, which both hold
the bytes 2, 3. -/
theorem identical_keyfiles_cancel_witness :
    keyfileKeyUnordered sampleCrypto
        [("k1", [1]), ("k2", [2, 3]), ("k3", [2, 3])] (["k1"] ++ ["k2", "k3"]) none
      = keyfileKeyUnordered sampleCrypto
          [("k1", [1]), ("k2", [2, 3]), ("k3", [2, 3])] ["k1"] none ∧
    keyfileKeyUnordered sampleCrypto [("k1", [1]), ("k2", [2, 3]), ("k3", [2, 3])]
        ["k2", "k3"] none
      = Except.ok (some (zeros 32)) ∧
    onDropKeyfiles [("k1", [1]), ("k2", [2, 3]), ("k3", [2, 3])] [] ["k2", "k3"]
      = Except.ok ["k2", "k3"] :=
  have h := identical_keyfiles_cancel sampleCrypto sampleCrypto_lawful
    [("k1", [1]), ("k2", [2, 3]), ("k3", [2, 3])] ["k1"] "k2" "k3" [2, 3] (by decide)
    (by decide) rfl rfl
  ⟨h.1, h.2.2.1, h.2.2.2.2.2.1 (by decide)⟩

/-! ## `unpad` on blocks that were not verified -/

theorem unpad_big (data : List Nat) (b : Nat) (hb : data.get? 127 = some b) (hbig : 128 < b) :
    unpad data = Except.error Fault.panic := by
  have hnot : ¬ b ≤ 128 := by omega
  simp only [unpad, index, hb, pure_eq_ok, bind_ok, hnot, if_false]
  rfl

theorem unpad_small (data : List Nat) (b : Nat) (hb : data.get? 127 = some b)
    (hsmall : b ≤ 128) (hlen : 128 ≤ data.length) :
    unpad data = Except.ok (data.take (128 - b)) := by
  have hle : 128 - b ≤ data.length := by omega
  simp only [unpad, index, hb, pure_eq_ok, bind_ok, hsmall, if_true, sliceTo, hle]

/-- C23, where the code departs from it.  For every 136-byte sub-chunk whose byte 127 is
above 128: in fast-decode mode `rsDecode` returns its first 128 bytes unverified and without
error, after a failed decode it returns the same prefix with the error, and on that prefix
`unpad` evaluates `data[:128-int(data[127])]` with a negative bound, a run-time panic; so the
step that decodes and unpads the last sub-chunk panics in fast-decode mode, and with `keep`
set after a failed decode, and a fast-decode body pass over a tail unit that ends in such a
sub-chunk panics.  `unpad` returns the prefix of length `128 − data[127]` exactly when byte
127 is at most 128. -/
theorem unpad_unverified_block_panics (rs128 : FEC 128 136) (block : List Nat) (b : Nat)
    (hlen : block.length = 136) (hb : block.get? 127 = some b) (hbig : 128 < b) :
    rsDecode rs128 true block = Except.ok (block.take 128, false) ∧
    (rs128.Decode (sharesOf 136 block) = none →
      rsDecode rs128 false block = Except.ok (block.take 128, true)) ∧
    (block.take 128).length = 128 ∧
    unpad (block.take 128) = Except.error Fault.panic ∧
    (∀ keep kept : Bool,
      rsDecodeLast rs128 true keep true block kept = Except.error Fault.panic) ∧
    (rs128.Decode (sharesOf 136 block) = none → ∀ kept : Bool,
      rsDecodeLast rs128 false true true block kept = Except.error Fault.panic) ∧
    (∀ (env : Env) (p : Params) (st : Stream) (front : List Nat) (m fuel : Nat),
      p.encrypt = false → p.reedsolo = true → p.fastDecode = true →
      front.length = m * 136 → m + 1 < 8192 →
      bodyLoop env p (fuel + 1) st (front ++ block) = Except.error Fault.panic) ∧
    (∀ (data : List Nat) (c : Nat), data.get? 127 = some c → c ≤ 128 → 128 ≤ data.length →
      unpad data = Except.ok (data.take (128 - c))) := by
  have h128 : 128 ≤ block.length := by omega
  have hfast := rsDecode_fast rs128 block h128
  have hb2 : (block.take 128).get? 127 = some b := by
    rw [List.get?_eq_getElem?] at hb ⊢
    rw [List.getElem?_take]
    simpa using hb
  have hup := unpad_big (block.take 128) b hb2 hbig
  have hslow : rs128.Decode (sharesOf 136 block) = none →
      rsDecode rs128 false block = Except.ok (block.take 128, true) := by
    intro hnone
    have h1 : ¬ ((136 : Nat) = 136 ∧ false = true) := by simp
    have h2 : ¬ block.length < 136 := by omega
    simp only [rsDecode, h1, if_false, h2, hnone, if_true, sliceTo, h128, pure_eq_ok, bind_ok,
      true_and, Bool.false_eq_true]
  refine ⟨hfast, hslow, by rw [List.length_take]; omega, hup, ?_, ?_, ?_, unpad_small⟩
  · intro keep kept
    simp only [rsDecodeLast, hfast, bind_ok, Bool.false_eq_true, false_and, if_false, if_true,
      hup]
    rfl
  · intro hnone kept
    simp only [rsDecodeLast, hslow hnone, bind_ok, Bool.true_eq_false, and_false, if_false,
      if_true, hup]
    rfl
  · intro env p st front m fuel hp hr hfd hfl hm
    apply bodyLoop_unpad_panic env p hp hr hfd st (front ++ block) m _ hm b _ hbig fuel
    · rw [List.length_append, hfl, hlen]
      omega
    · rw [List.get?_eq_getElem?] at hb ⊢
      rw [List.getElem?_append_right (by omega)]
      rw [hfl]
      simpa using hb

/-- Instance of `unpad_unverified_block_panics`: the sub-chunk of 127 zero bytes, the byte
200 and 8 zero bytes, at the sample codec. -/
theorem unpad_unverified_block_panics_witness :
    rsDecode sampleCodecs.rs128 true (zeros 127 ++ [200] ++ zeros 8)
      = Except.ok ((zeros 127 ++ [200] ++ zeros 8).take 128, false) ∧
    unpad ((zeros 127 ++ [200] ++ zeros 8).take 128) = Except.error Fault.panic ∧
    (∀ keep kept : Bool,
      rsDecodeLast sampleCodecs.rs128 true keep true (zeros 127 ++ [200] ++ zeros 8) kept
        = Except.error Fault.panic) :=
  have h := unpad_unverified_block_panics sampleCodecs.rs128 (zeros 127 ++ [200] ++ zeros 8)
    200 (by simp [zeros]) (by simp [zeros, List.getElem?_append]) (by decide)
  ⟨h.1, h.2.2.2.1, h.2.2.2.2.1⟩

/-! ## `work` by passes -/

theorem bind_error {α β : Type} (e : Fault) (f : α → Run β) :
    (Except.error e >>= f : Run β) = Except.error e := rfl

/-- The function `work` is one pass followed by `afterPass`. -/
theorem workN_succ (env : Env) (n : Nat) (w : World) :
    workN env (n + 1) w = workPass env w >>= afterPass env n := by
  rw [workN, workPass]
  simp only [bind_assoc]
  refine bind_congr (fun w1 => ?_)
  refine bind_congr (fun content => ?_)
  by_cases hio : w1.g.inputFile = w1.g.outputFile
  · simp only [hio, if_true]
    rfl
  simp only [hio, if_false]
  by_cases hmode : w1.g.mode = "encrypt"
  · simp only [hmode, if_true, bind_assoc, pure_bind, afterPass, bind_pure]
  · simp only [hmode, if_false, bind_assoc, pure_bind]
    refine bind_congr (fun hr => ?_)
    refine bind_congr (fun f0 => ?_)
    refine bind_congr (fun f3 => ?_)
    refine bind_congr (fun f4 => ?_)
    by_cases c1 : hr.1.errs.any id = true ∧ w1.g.keep = false
    · simp only [c1, and_self, if_true, pure_bind, afterPass]
    · simp only [c1, if_false, bind_assoc]
      refine bind_congr (fun kf => ?_)
      by_cases c2 : w1.g.mode ≠ "decrypt"
      · rw [if_pos c2, if_pos c2]
        rfl
      · simp only [c2, if_false, pure_bind]
        by_cases c3 : (if w1.g.keyfile = true then
              (!decide (env.c.sha3_512 (env.c.argon2 w1.g.password hr.1.salt (decide (f0 = 1)))
                  = hr.1.keyHashRef) || !decide (kf.2 = hr.1.keyfileHashRef))
            else !decide (env.c.sha3_512 (env.c.argon2 w1.g.password hr.1.salt (decide (f0 = 1)))
                  = hr.1.keyHashRef)) = true ∧ w1.g.keep = false
        · rw [if_pos c3, if_pos c3]
          rfl
        · rw [if_neg c3, if_neg c3]
          simp only [bind_assoc]
          refine bind_congr (fun key => ?_)
          refine bind_congr (fun r => ?_)
          cases r with
          | stop m => rfl
          | go st =>
            simp only []
            by_cases c4 : macSum env.c (decide (f0 = 1)) (hkdfRead (env.c.hkdf key hr.1.hkdfSalt) 0 32)
                st.macData ≠ hr.1.authTag
            · rw [if_pos c4, if_pos c4]
              by_cases c5 : decide (f3 = 1) = true ∧ w1.g.fastDecode = true
              · rw [if_pos c5, if_pos c5]
                rfl
              · rw [if_neg c5, if_neg c5]
                by_cases c6 : w1.g.keep = true
                · rw [if_pos c6, if_pos c6]
                  simp only [bind_assoc, pure_bind, afterPass, bind_pure]
                · rw [if_neg c6, if_neg c6]
                  rfl
            · rw [if_neg c4, if_neg c4]
              simp only [bind_assoc, pure_bind, afterPass, bind_pure]

theorem readFile_ok_inv (fs : FS) (p : String) (c : List Nat)
    (h : readFile fs p = Except.ok c) : fs.read p = some c := by
  unfold readFile at h
  cases hr : fs.read p with
  | none => rw [hr] at h; cases h
  | some d =>
    rw [hr] at h
    injection h with h1
    rw [h1]

theorem ok_pure_inj {α : Type} {a b : α} (h : (pure a : Run α) = Except.ok b) : a = b := by
  injection h

/-- Every decrypt pass that ends normally ends in one of the ways of `PassOutcome`. -/
theorem workPass_inv (env : Env) (w : World) (r : Pass) (hmode : w.g.mode = "decrypt")
    (hrun : workPass env w = Except.ok r) : PassOutcome env w r := by
  unfold workPass at hrun
  simp only [] at hrun
  obtain ⟨w1, hrp, hrun⟩ := bind_eq_ok hrun
  obtain ⟨content, hrf, hrun⟩ := bind_eq_ok hrun
  have hin := readFile_ok_inv _ _ _ hrf
  have hm1 : w1.g.mode = "decrypt" := (recombinePhase_frame _ _ hrp).1.trans hmode
  have hne : ¬ w1.g.mode = "encrypt" := by rw [hm1]; exact decrypt_string_ne
  by_cases hio : w1.g.inputFile = w1.g.outputFile
  · simp only [hio, if_true] at hrun
    cases hrun
  simp only [hio, if_false, hne, pure_bind] at hrun
  obtain ⟨hr, hrh, hrun⟩ := bind_eq_ok hrun
  obtain ⟨hd, rest⟩ := hr
  obtain ⟨f0, hf0, hrun⟩ := bind_eq_ok hrun
  obtain ⟨f3, hf3, hrun⟩ := bind_eq_ok hrun
  obtain ⟨f4, hf4, hrun⟩ := bind_eq_ok hrun
  have hread : PassRead env w w1 content rest hd f0 f3 f4 :=
    ⟨hrp, hin, hio, hm1, hrh, hf0, hf3, hf4⟩
  by_cases c1 : hd.errs.any id = true ∧ w1.g.keep = false
  · rw [if_pos c1] at hrun
    rw [← ok_pure_inj hrun]
    exact PassOutcome.headerDamaged w1 content rest hd f0 f3 f4 hread c1.1 c1.2
  rw [if_neg c1] at hrun
  obtain ⟨kf, hkf, hrun⟩ := bind_eq_ok hrun
  obtain ⟨kfk, kfh⟩ := kf
  have c2 : ¬ w1.g.mode ≠ "decrypt" := fun h => h hm1
  simp only [c2, if_false, pure_bind] at hrun
  by_cases c3 : verifierMismatch env.c (afterHeader w1.g hd f0 f3) hd kfh = true
      ∧ w1.g.keep = false
  · have c3b := c3
    simp only [verifierMismatch, afterHeader] at c3b
    rw [if_pos c3b] at hrun
    rw [← ok_pure_inj hrun]
    exact PassOutcome.wrongKey w1 content rest hd f0 f3 f4 kfk kfh hread c1 hkf c3.1 c3.2
  have c3b := c3
  simp only [verifierMismatch, afterHeader] at c3b
  rw [if_neg c3b] at hrun
  obtain ⟨key, hkey, hrun⟩ := bind_eq_ok hrun
  obtain ⟨fl, hbody, hrun⟩ := bind_eq_ok hrun
  have hb : PassBody env w1 content rest hd f0 f3 f4 kfk kfh key fl :=
    ⟨c1, hkf, c3, hkey, hbody⟩
  cases fl with
  | stop m =>
    simp only [] at hrun
    rw [← ok_pure_inj hrun]
    exact PassOutcome.bodyDamaged w1 content rest hd f0 f3 f4 kfk kfh key m hread hb
  | go st =>
    simp only [] at hrun
    by_cases c4 : macSum env.c (decide (f0 = 1)) (hkdfRead (env.c.hkdf key hd.hkdfSalt) 0 32)
        st.macData ≠ hd.authTag
    · rw [if_pos c4] at hrun
      by_cases c5 : decide (f3 = 1) = true ∧ w1.g.fastDecode = true
      · rw [if_pos c5] at hrun
        rw [← ok_pure_inj hrun]
        exact PassOutcome.retry w1 content rest hd f0 f3 f4 kfk kfh key st hread hb c4 c5
      · rw [if_neg c5] at hrun
        by_cases c6 : w1.g.keep = true
        · rw [if_pos c6] at hrun
          obtain ⟨w3, hfin, hrun⟩ := bind_eq_ok hrun
          rw [← ok_pure_inj hrun]
          exact PassOutcome.forced w1 content rest hd f0 f3 f4 kfk kfh key st w3 hread hb c4 c5
            c6 hfin
        · rw [if_neg c6] at hrun
          rw [← ok_pure_inj hrun]
          have c6b : w1.g.keep = false := by
            cases hk : w1.g.keep with
            | true => exact absurd hk c6
            | false => rfl
          exact PassOutcome.modified w1 content rest hd f0 f3 f4 kfk kfh key st hread hb c4 c5
            c6b
    · rw [if_neg c4] at hrun
      obtain ⟨w3, hfin, hrun⟩ := bind_eq_ok hrun
      rw [← ok_pure_inj hrun]
      exact PassOutcome.verified w1 content rest hd f0 f3 f4 kfk kfh key st w3 hread hb
        (not_not.mp c4) hfin

/-- A pass that meets the premises of a way of `PassOutcome` ends in that way. -/
theorem workPass_of_outcome (env : Env) (w : World) (r : Pass) (h : PassOutcome env w r) :
    workPass env w = Except.ok r := by
  have hd_ne : ∀ w1 : World, w1.g.mode = "decrypt" → ¬ w1.g.mode = "encrypt" := by
    intro w1 hm
    rw [hm]
    exact decrypt_string_ne
  have start : ∀ (w1 : World) (content rest : List Nat) (hd : Header) (f0 f3 f4 : Nat),
      PassRead env w w1 content rest hd f0 f3 f4 →
      workPass env w =
        (if hd.errs.any id = true ∧ w1.g.keep = false then
          pure (Pass.returns
            { g := { w1.g with paranoid := decide (f0 = 1), reedsolo := decide (f3 = 1),
                               mainStatus := "The volume header is damaged.",
                               mainStatusColor := Color.RED },
              fs := if w1.g.recombine then w1.fs.remove w1.g.inputFile else w1.fs })
        else do
          let kf ← keyfilePhase env.c w1.fs (afterHeader w1.g hd f0 f3)
          if verifierMismatch env.c (afterHeader w1.g hd f0 f3) hd kf.2 = true
              ∧ w1.g.keep = false then
            pure (Pass.returns
              { g := { afterHeader w1.g hd f0 f3 with
                       mainStatus :=
                         if !decide (env.c.sha3_512
                              (env.c.argon2 w1.g.password hd.salt (decide (f0 = 1)))
                                = hd.keyHashRef)
                         then "The provided password is incorrect."
                         else if w1.g.keyfileOrdered then "Incorrect keyfiles or order."
                         else "Incorrect keyfiles.",
                       mainStatusColor := Color.RED },
                fs := if w1.g.recombine then w1.fs.remove w1.g.inputFile else w1.fs })
          else do
            let key ← cipherKey (afterVerifier env.c w1.g hd f0 f3 kf.2)
              (env.c.argon2 w1.g.password hd.salt (decide (f0 = 1))) kf.1
            let fl ← bodyLoop env
              (passParams env.c w1.g hd f0 f3 f4 (passTotal content hd) key) (rest.length + 1)
              (initStream hd.nonce hd.serpentSalt []
                (afterVerifier env.c w1.g hd f0 f3 kf.2).kept) rest
            match fl with
            | Flow.stop m =>
              pure (Pass.returns
                (broken { g := afterVerifier env.c w1.g hd f0 f3 kf.2,
                          fs := w1.fs.write w1.g.outputFile [] } m))
            | Flow.go st =>
              if macSum env.c (decide (f0 = 1)) (hkdfRead (env.c.hkdf key hd.hkdfSalt) 0 32)
                  st.macData ≠ hd.authTag then
                if decide (f3 = 1) = true ∧ w1.g.fastDecode = true then
                  pure (Pass.again
                    { g := { afterBody env.c w1.g hd f0 f3 kf.2 st with fastDecode := false },
                      fs := w1.fs.write w1.g.outputFile st.out })
                else if w1.g.keep then do
                  let w3 ← finishPhase
                    { g := { afterBody env.c w1.g hd f0 f3 kf.2 st with kept := true },
                      fs := w1.fs.write w1.g.outputFile st.out }
                  pure (Pass.returns w3)
                else
                  pure (Pass.returns
                    (broken { g := afterBody env.c w1.g hd f0 f3 kf.2 st,
                              fs := w1.fs.write w1.g.outputFile st.out }
                      "The input file is damaged or modified."))
              else do
                let w3 ← finishPhase
                  { g := afterBody env.c w1.g hd f0 f3 kf.2 st,
                    fs := w1.fs.write w1.g.outputFile st.out }
                pure (Pass.returns w3) : Run Pass) := by
    intro w1 content rest hd f0 f3 f4 hr
    obtain ⟨hrp, hin, hio, hm, hrh, hf0, hf3, hf4⟩ := hr
    have c2 : ¬ w1.g.mode ≠ "decrypt" := fun h => h hm
    unfold workPass
    simp only [hrp, bind_ok, readFile_some _ _ _ hin, hio, if_false, hd_ne w1 hm, pure_bind, hrh,
      hf0, hf3, hf4, c2]
    rfl
  cases h with
  | headerDamaged w1 content rest hd f0 f3 f4 hr herr hkeep =>
    rw [start _ _ _ _ _ _ _ hr, if_pos ⟨herr, hkeep⟩]
    rfl
  | wrongKey w1 content rest hd f0 f3 f4 kfk kfh hr hacc hkf hinc hkeep =>
    rw [start _ _ _ _ _ _ _ hr, if_neg hacc, hkf, bind_ok]
    simp only []
    rw [if_pos ⟨hinc, hkeep⟩]
    rfl
  | bodyDamaged w1 content rest hd f0 f3 f4 kfk kfh key m hr hb =>
    obtain ⟨hacc, hkf, hver, hkey, hbody⟩ := hb
    rw [start _ _ _ _ _ _ _ hr, if_neg hacc, hkf, bind_ok]
    simp only []
    rw [if_neg hver, hkey, bind_ok, hbody, bind_ok]
    rfl
  | retry w1 content rest hd f0 f3 f4 kfk kfh key st hr hb hmac hfast =>
    obtain ⟨hacc, hkf, hver, hkey, hbody⟩ := hb
    rw [start _ _ _ _ _ _ _ hr, if_neg hacc, hkf, bind_ok]
    simp only []
    rw [if_neg hver, hkey, bind_ok, hbody, bind_ok]
    simp only []
    rw [if_pos hmac, if_pos hfast]
    rfl
  | forced w1 content rest hd f0 f3 f4 kfk kfh key st w3 hr hb hmac hslow hkeep hfin =>
    obtain ⟨hacc, hkf, hver, hkey, hbody⟩ := hb
    rw [start _ _ _ _ _ _ _ hr, if_neg hacc, hkf, bind_ok]
    simp only []
    rw [if_neg hver, hkey, bind_ok, hbody, bind_ok]
    simp only []
    rw [if_pos hmac, if_neg hslow, if_pos hkeep, hfin]
    rfl
  | modified w1 content rest hd f0 f3 f4 kfk kfh key st hr hb hmac hslow hkeep =>
    obtain ⟨hacc, hkf, hver, hkey, hbody⟩ := hb
    have hk : ¬ w1.g.keep = true := by rw [hkeep]; decide
    rw [start _ _ _ _ _ _ _ hr, if_neg hacc, hkf, bind_ok]
    simp only []
    rw [if_neg hver, hkey, bind_ok, hbody, bind_ok]
    simp only []
    rw [if_pos hmac, if_neg hslow, if_neg hk]
    rfl
  | verified w1 content rest hd f0 f3 f4 kfk kfh key st w3 hr hb hmac hfin =>
    obtain ⟨hacc, hkf, hver, hkey, hbody⟩ := hb
    rw [start _ _ _ _ _ _ _ hr, if_neg hacc, hkf, bind_ok]
    simp only []
    rw [if_neg hver, hkey, bind_ok, hbody, bind_ok]
    simp only []
    rw [if_neg (not_not.mpr hmac), hfin]
    rfl

/-! ## The flag `kept` in the body loop -/

theorem rsDecode_fast_err (rs128 : FEC 128 136) (data tmp : List Nat) (err : Bool)
    (h : rsDecode rs128 true data = Except.ok (tmp, err)) : err = false := by
  have h1 : (136 : Nat) = 136 ∧ true = true := ⟨rfl, rfl⟩
  unfold rsDecode at h
  rw [if_pos h1] at h
  obtain ⟨d, _, h⟩ := bind_eq_ok h
  have := ok_pure_inj h
  exact (congrArg Prod.snd this).symm

/-- The sub-chunk loop of a decrypt unit: the data do not depend on `kept`, and `kept`
comes out as `kept || e`, where `e` tells whether a decode returned an error; there is no
error in fast-decode mode, and none is passed over when `keep` is off. -/
theorem rsDecodeChunks_kept (rs128 : FEC 128 136) (fd keep : Bool) :
    ∀ (count : Nat) (dst : List Nat) (kept : Bool) (r : List Nat) (k1 : Bool),
      rsDecodeChunks rs128 fd keep count dst kept = Except.ok (Flow.go (r, k1)) →
      ∃ e : Bool, (fd = true → e = false) ∧ (keep = false → e = false) ∧
        ∀ k : Bool, rsDecodeChunks rs128 fd keep count dst k
          = Except.ok (Flow.go (r, k || e)) := by
  intro count
  induction count with
  | zero =>
    intro dst kept r k1 h
    have h1 := ok_pure_inj h
    injection h1 with h2
    injection h2 with h3 h4
    refine ⟨false, fun _ => rfl, fun _ => rfl, ?_⟩
    intro k
    rw [Bool.or_false, ← h3]
    rfl
  | succ count ih =>
    intro dst kept r k1 h
    unfold rsDecodeChunks at h
    obtain ⟨⟨tmp, err⟩, hdec, h⟩ := bind_eq_ok h
    simp only [] at h
    by_cases c : err = true ∧ keep = false
    · rw [if_pos c] at h
      have := ok_pure_inj h
      cases this
    · rw [if_neg c] at h
      obtain ⟨fl, hrec, h⟩ := bind_eq_ok h
      cases fl with
      | stop m =>
        have := ok_pure_inj h
        cases this
      | go x =>
        obtain ⟨r1, k2⟩ := x
        have h1 := ok_pure_inj h
        injection h1 with h2
        injection h2 with h3 h4
        obtain ⟨e, he1, he2, he3⟩ := ih _ _ _ _ hrec
        refine ⟨err || e, ?_, ?_, ?_⟩
        · intro hfd
          subst hfd
          rw [rsDecode_fast_err rs128 _ _ _ hdec, he1 rfl]
          rfl
        · intro hk
          rw [he2 hk, Bool.or_false]
          cases herr : err with
          | false => rfl
          | true => exact absurd ⟨herr, hk⟩ c
        · intro k
          unfold rsDecodeChunks
          rw [hdec, bind_ok]
          simp only []
          rw [if_neg c, he3 (k || err), bind_ok, Bool.or_assoc, ← h3]
          rfl

theorem rsDecodeChunks_stop (rs128 : FEC 128 136) (fd keep : Bool) :
    ∀ (count : Nat) (dst : List Nat) (kept : Bool) (m : String),
      rsDecodeChunks rs128 fd keep count dst kept = Except.ok (Flow.stop m) →
      m = "The input file is irrecoverably damaged." ∧ keep = false := by
  intro count
  induction count with
  | zero =>
    intro dst kept m h
    have := ok_pure_inj h
    cases this
  | succ count ih =>
    intro dst kept m h
    unfold rsDecodeChunks at h
    obtain ⟨⟨tmp, err⟩, hdec, h⟩ := bind_eq_ok h
    simp only [] at h
    by_cases c : err = true ∧ keep = false
    · rw [if_pos c] at h
      have h1 := ok_pure_inj h
      injection h1 with h2
      exact ⟨h2.symm, c.2⟩
    · rw [if_neg c] at h
      obtain ⟨fl, hrec, h⟩ := bind_eq_ok h
      cases fl with
      | stop m1 =>
        have h1 := ok_pure_inj h
        injection h1 with h2
        rw [← h2]
        exact ih _ _ _ hrec
      | go x =>
        have := ok_pure_inj h
        cases this

/-- The last sub-chunk of a unit: `kept` comes out as `kept || err` for the error `err` of
its decode. -/
theorem rsDecodeLast_kept (rs128 : FEC 128 136) (fd keep doUnpad : Bool) (data : List Nat)
    (kept : Bool) (r : List Nat) (k1 : Bool)
    (h : rsDecodeLast rs128 fd keep doUnpad data kept = Except.ok (Flow.go (r, k1))) :
    ∃ (tmp : List Nat) (e : Bool), rsDecode rs128 fd data = Except.ok (tmp, e) ∧
      (fd = true → e = false) ∧ (keep = false → e = false) ∧
      ∀ k : Bool, rsDecodeLast rs128 fd keep doUnpad data k
        = Except.ok (Flow.go (r, k || e)) := by
  unfold rsDecodeLast at h
  obtain ⟨⟨tmp, err⟩, hdec, h⟩ := bind_eq_ok h
  simp only [] at h
  by_cases c : err = true ∧ keep = false
  · rw [if_pos c] at h
    have := ok_pure_inj h
    cases this
  · rw [if_neg c] at h
    refine ⟨tmp, err, hdec, ?_, ?_, ?_⟩
    · intro hfd
      subst hfd
      exact rsDecode_fast_err rs128 _ _ _ hdec
    · intro hk
      cases herr : err with
      | false => rfl
      | true => exact absurd ⟨herr, hk⟩ c
    · intro k
      unfold rsDecodeLast
      rw [hdec, bind_ok]
      simp only []
      rw [if_neg c]
      cases hu : doUnpad with
      | true =>
        rw [hu] at h
        simp only [if_true] at h ⊢
        obtain ⟨u, hunp, h⟩ := bind_eq_ok h
        have h1 := ok_pure_inj h
        injection h1 with h2
        injection h2 with h3 h4
        rw [hunp, bind_ok, ← h3]
        rfl
      | false =>
        rw [hu] at h
        simp only [Bool.false_eq_true, if_false] at h ⊢
        have h1 := ok_pure_inj h
        injection h1 with h2
        injection h2 with h3 h4
        rw [← h3]
        rfl

theorem rsDecodeLast_stop (rs128 : FEC 128 136) (fd keep doUnpad : Bool) (data : List Nat)
    (kept : Bool) (m : String)
    (h : rsDecodeLast rs128 fd keep doUnpad data kept = Except.ok (Flow.stop m)) :
    m = "The input file is irrecoverably damaged." ∧ keep = false := by
  unfold rsDecodeLast at h
  obtain ⟨⟨tmp, err⟩, hdec, h⟩ := bind_eq_ok h
  simp only [] at h
  by_cases c : err = true ∧ keep = false
  · rw [if_pos c] at h
    have h1 := ok_pure_inj h
    injection h1 with h2
    exact ⟨h2.symm, c.2⟩
  · rw [if_neg c] at h
    cases hu : doUnpad with
    | true =>
      rw [hu] at h
      simp only [if_true] at h
      obtain ⟨u, _, h⟩ := bind_eq_ok h
      have := ok_pure_inj h
      cases this
    | false =>
      rw [hu] at h
      simp only [Bool.false_eq_true, if_false] at h
      have := ok_pure_inj h
      cases this

theorem rsDecodeUnit_kept (rs128 : FEC 128 136) (p : Params) (done : Nat) (dst : List Nat)
    (kept : Bool) (r : List Nat) (k1 : Bool)
    (h : rsDecodeUnit rs128 p done dst kept = Except.ok (Flow.go (r, k1))) :
    ∃ e : Bool, (p.fastDecode = true → e = false) ∧ (p.keep = false → e = false) ∧
      ∀ k : Bool, rsDecodeUnit rs128 p done dst k = Except.ok (Flow.go (r, k || e)) := by
  have two : ∀ (count : Nat) (front : List Nat) (doUnpad : Bool) (data : List Nat),
      (rsDecodeChunks rs128 p.fastDecode p.keep count front kept >>= fun x =>
        match x with
        | Flow.stop m => pure (Flow.stop m)
        | Flow.go (fr, kept1) =>
          rsDecodeLast rs128 p.fastDecode p.keep doUnpad data kept1 >>= fun y =>
            match y with
            | Flow.stop m => pure (Flow.stop m)
            | Flow.go (last, kept2) => pure (Flow.go (fr ++ last, kept2)) :
          Run (Flow (List Nat × Bool))) = Except.ok (Flow.go (r, k1)) →
      ∃ e : Bool, (p.fastDecode = true → e = false) ∧ (p.keep = false → e = false) ∧
        ∀ k : Bool,
          (rsDecodeChunks rs128 p.fastDecode p.keep count front k >>= fun x =>
            match x with
            | Flow.stop m => pure (Flow.stop m)
            | Flow.go (fr, kept1) =>
              rsDecodeLast rs128 p.fastDecode p.keep doUnpad data kept1 >>= fun y =>
                match y with
                | Flow.stop m => pure (Flow.stop m)
                | Flow.go (last, kept2) => pure (Flow.go (fr ++ last, kept2)) :
            Run (Flow (List Nat × Bool))) = Except.ok (Flow.go (r, k || e)) := by
    intro count front doUnpad data h
    obtain ⟨x, hx, h⟩ := bind_eq_ok h
    cases x with
    | stop m =>
      have := ok_pure_inj h
      cases this
    | go x =>
      obtain ⟨fr, kept1⟩ := x
      simp only [] at h
      obtain ⟨y, hy, h⟩ := bind_eq_ok h
      cases y with
      | stop m =>
        have := ok_pure_inj h
        cases this
      | go y =>
        obtain ⟨last, kept2⟩ := y
        have h1 := ok_pure_inj h
        injection h1 with h2
        injection h2 with h3 h4
        obtain ⟨e1, a1, a2, a3⟩ := rsDecodeChunks_kept rs128 _ _ _ _ _ _ _ hx
        obtain ⟨_, e2, _, b1, b2, b3⟩ := rsDecodeLast_kept rs128 _ _ _ _ _ _ _ hy
        refine ⟨e1 || e2, ?_, ?_, ?_⟩
        · intro hf
          rw [a1 hf, b1 hf]
          rfl
        · intro hk
          rw [a2 hk, b2 hk]
          rfl
        · intro k
          rw [a3 k, bind_ok]
          simp only []
          rw [b3 (k || e1), bind_ok, Bool.or_assoc, ← h3]
          rfl
  unfold rsDecodeUnit at h
  by_cases hfull : dst.length = MiB / 128 * 136
  · rw [if_pos hfull] at h
    obtain ⟨e, h1, h2, h3⟩ := two _ _ _ _ h
    refine ⟨e, h1, h2, ?_⟩
    intro k
    unfold rsDecodeUnit
    rw [if_pos hfull]
    exact h3 k
  · rw [if_neg hfull] at h
    by_cases hshort : dst.length < 136
    · rw [if_pos hshort] at h
      cases h
    · rw [if_neg hshort] at h
      obtain ⟨e, h1, h2, h3⟩ := two _ _ _ _ h
      refine ⟨e, h1, h2, ?_⟩
      intro k
      unfold rsDecodeUnit
      rw [if_neg hfull, if_neg hshort]
      exact h3 k

theorem rsDecodeUnit_stop (rs128 : FEC 128 136) (p : Params) (done : Nat) (dst : List Nat)
    (kept : Bool) (m : String)
    (h : rsDecodeUnit rs128 p done dst kept = Except.ok (Flow.stop m)) :
    m = "The input file is irrecoverably damaged." ∧ p.keep = false := by
  have two : ∀ (count : Nat) (front : List Nat) (doUnpad : Bool) (data : List Nat),
      (rsDecodeChunks rs128 p.fastDecode p.keep count front kept >>= fun x =>
        match x with
        | Flow.stop m => pure (Flow.stop m)
        | Flow.go (fr, kept1) =>
          rsDecodeLast rs128 p.fastDecode p.keep doUnpad data kept1 >>= fun y =>
            match y with
            | Flow.stop m => pure (Flow.stop m)
            | Flow.go (last, kept2) => pure (Flow.go (fr ++ last, kept2)) :
          Run (Flow (List Nat × Bool))) = Except.ok (Flow.stop m) →
      m = "The input file is irrecoverably damaged." ∧ p.keep = false := by
    intro count front doUnpad data h
    obtain ⟨x, hx, h⟩ := bind_eq_ok h
    cases x with
    | stop m1 =>
      have h1 := ok_pure_inj h
      injection h1 with h2
      rw [← h2]
      exact rsDecodeChunks_stop rs128 _ _ _ _ _ _ hx
    | go x =>
      obtain ⟨fr, kept1⟩ := x
      simp only [] at h
      obtain ⟨y, hy, h⟩ := bind_eq_ok h
      cases y with
      | stop m1 =>
        have h1 := ok_pure_inj h
        injection h1 with h2
        rw [← h2]
        exact rsDecodeLast_stop rs128 _ _ _ _ _ _ hy
      | go y =>
        have := ok_pure_inj h
        cases this
  unfold rsDecodeUnit at h
  by_cases hfull : dst.length = MiB / 128 * 136
  · rw [if_pos hfull] at h
    exact two _ _ _ _ h
  · rw [if_neg hfull] at h
    by_cases hshort : dst.length < 136
    · rw [if_pos hshort] at h
      cases h
    · rw [if_neg hshort] at h
      exact two _ _ _ _ h

theorem processUnit_kept (env : Env) (p : Params) (st st1 : Stream) (src : List Nat)
    (h : processUnit env p st src = Except.ok (Flow.go st1)) :
    ∃ e : Bool, (p.fastDecode = true → e = false) ∧ (p.keep = false → e = false) ∧
      ∀ k : Bool, processUnit env p { st with kept := k } src
        = Except.ok (Flow.go { st1 with kept := k || e }) := by
  unfold processUnit at h
  by_cases henc : p.encrypt = true
  · rw [if_pos henc] at h
    simp only [] at h
    refine ⟨false, fun _ => rfl, fun _ => rfl, ?_⟩
    intro k
    unfold processUnit
    rw [if_pos henc]
    simp only []
    by_cases hrs : p.reedsolo = true
    · rw [if_pos hrs] at h ⊢
      obtain ⟨out, hout, h⟩ := bind_eq_ok h
      have h1 := ok_pure_inj h
      injection h1 with h2
      rw [hout, bind_ok, Bool.or_false, ← h2]
      rfl
    · rw [if_neg hrs] at h ⊢
      obtain ⟨out, hout, h⟩ := bind_eq_ok h
      have h1 := ok_pure_inj h
      injection h1 with h2
      rw [hout, bind_ok, Bool.or_false, ← h2]
      rfl
  · rw [if_neg henc] at h
    simp only [] at h
    by_cases hrs : p.reedsolo = true
    · rw [if_pos hrs] at h
      obtain ⟨r, hr, h⟩ := bind_eq_ok h
      cases r with
      | stop m =>
        have := ok_pure_inj h
        cases this
      | go x =>
        obtain ⟨src1, kept1⟩ := x
        have h1 := ok_pure_inj h
        injection h1 with h2
        obtain ⟨e, a1, a2, a3⟩ := rsDecodeUnit_kept env.cs.rs128 p _ _ _ _ _ hr
        refine ⟨e, a1, a2, ?_⟩
        intro k
        unfold processUnit
        rw [if_neg henc]
        simp only []
        rw [if_pos hrs, a3 k, bind_ok, ← h2]
        rfl
    · rw [if_neg hrs] at h
      obtain ⟨r, hr, h⟩ := bind_eq_ok h
      have h3 := ok_pure_inj hr
      subst h3
      have h1 := ok_pure_inj h
      injection h1 with h2
      refine ⟨false, fun _ => rfl, fun _ => rfl, ?_⟩
      intro k
      unfold processUnit
      rw [if_neg henc]
      simp only []
      rw [if_neg hrs, Bool.or_false, ← h2]
      rfl

theorem processUnit_stop (env : Env) (p : Params) (st : Stream) (src : List Nat) (m : String)
    (h : processUnit env p st src = Except.ok (Flow.stop m)) :
    m = "The input file is irrecoverably damaged." ∧ p.keep = false := by
  unfold processUnit at h
  by_cases henc : p.encrypt = true
  · rw [if_pos henc] at h
    simp only [] at h
    by_cases hrs : p.reedsolo = true
    · rw [if_pos hrs] at h
      obtain ⟨out, _, h⟩ := bind_eq_ok h
      have := ok_pure_inj h
      cases this
    · rw [if_neg hrs] at h
      obtain ⟨out, _, h⟩ := bind_eq_ok h
      have := ok_pure_inj h
      cases this
  · rw [if_neg henc] at h
    simp only [] at h
    by_cases hrs : p.reedsolo = true
    · rw [if_pos hrs] at h
      obtain ⟨r, hr, h⟩ := bind_eq_ok h
      cases r with
      | stop m1 =>
        have h1 := ok_pure_inj h
        injection h1 with h2
        rw [← h2]
        exact rsDecodeUnit_stop env.cs.rs128 p _ _ _ _ hr
      | go x =>
        have := ok_pure_inj h
        cases this
    · rw [if_neg hrs] at h
      obtain ⟨r, hr, h⟩ := bind_eq_ok h
      have h3 := ok_pure_inj hr
      subst h3
      have := ok_pure_inj h
      cases this

theorem rekey_kept (p : Params) (st : Stream) (k : Bool) :
    rekey p { st with kept := k } = { rekey p st with kept := k } := by
  unfold rekey
  by_cases h : 60 * GiB ≤ st.counter
  · simp only [h, if_true]
  · simp only [h, if_false]

/-- The body loop: the data do not depend on `kept`, and `kept` comes out as `kept || e`,
where `e` tells whether a sub-chunk decode returned an error; there is no error in
fast-decode mode, and none is passed over when `keep` is off. -/
theorem bodyLoop_kept (env : Env) (p : Params) :
    ∀ (fuel : Nat) (st : Stream) (rest : List Nat) (st1 : Stream),
      bodyLoop env p fuel st rest = Except.ok (Flow.go st1) →
      ∃ e : Bool, (p.fastDecode = true → e = false) ∧ (p.keep = false → e = false) ∧
        ∀ k : Bool, bodyLoop env p fuel { st with kept := k } rest
          = Except.ok (Flow.go { st1 with kept := k || e }) := by
  intro fuel
  induction fuel with
  | zero => intro st rest st1 h; cases h
  | succ fuel ih =>
    intro st rest st1 h
    cases rest with
    | nil =>
      have h1 := ok_pure_inj h
      injection h1 with h2
      refine ⟨false, fun _ => rfl, fun _ => rfl, ?_⟩
      intro k
      rw [Bool.or_false, ← h2]
      rfl
    | cons a t =>
      unfold bodyLoop at h
      simp only [] at h
      obtain ⟨r, hr, h⟩ := bind_eq_ok h
      cases r with
      | stop m =>
        have := ok_pure_inj h
        cases this
      | go stA =>
        simp only [] at h
        obtain ⟨e1, a1, a2, a3⟩ := processUnit_kept env p _ _ _ hr
        obtain ⟨e2, b1, b2, b3⟩ := ih _ _ _ h
        refine ⟨e1 || e2, ?_, ?_, ?_⟩
        · intro hf
          rw [a1 hf, b1 hf]
          rfl
        · intro hk
          rw [a2 hk, b2 hk]
          rfl
        · intro k
          unfold bodyLoop
          simp only []
          rw [a3 k, bind_ok]
          simp only []
          have e := b3 (k || e1)
          rw [← rekey_kept] at e
          rw [← Bool.or_assoc]
          exact e

theorem bodyLoop_stop (env : Env) (p : Params) :
    ∀ (fuel : Nat) (st : Stream) (rest : List Nat) (m : String),
      bodyLoop env p fuel st rest = Except.ok (Flow.stop m) →
      m = "The input file is irrecoverably damaged." ∧ p.keep = false := by
  intro fuel
  induction fuel with
  | zero => intro st rest m h; cases h
  | succ fuel ih =>
    intro st rest m h
    cases rest with
    | nil =>
      have := ok_pure_inj h
      cases this
    | cons a t =>
      unfold bodyLoop at h
      simp only [] at h
      obtain ⟨r, hr, h⟩ := bind_eq_ok h
      cases r with
      | stop m1 =>
        have h1 := ok_pure_inj h
        injection h1 with h2
        rw [← h2]
        exact processUnit_stop env p _ _ _ hr
      | go stA =>
        simp only [] at h
        exact ih _ _ _ h

/-! ## The retry after a MAC mismatch -/

theorem recombinePhase_kept (w w1 : World) (h : recombinePhase w = Except.ok w1) :
    w1.g.kept = w.g.kept ∧ w1.g.split = w.g.split ∧ w1.g.delete = w.g.delete := by
  unfold recombinePhase at h
  by_cases hr : w.g.recombine = true
  · rw [if_pos hr] at h
    obtain ⟨n, _, h⟩ := bind_eq_ok h
    simp only [] at h
    split at h
    · cases h
    · obtain ⟨_, _, h⟩ := bind_eq_ok h
      obtain ⟨data, _, h⟩ := bind_eq_ok h
      cases h
      exact ⟨rfl, rfl, rfl⟩
  · rw [if_neg hr] at h
    cases h
    exact ⟨rfl, rfl, rfl⟩

/-- What the end of `work` leaves in the globals: `kept` as it was, the status from it. -/
theorem finishPhase_status (w w3 : World) (h : finishPhase w = Except.ok w3) :
    w3.g.kept = w.g.kept ∧
    (w.g.kept = true →
      w3.g.mainStatus = "The input file was modified. Please be careful." ∧
      w3.g.mainStatusColor = Color.YELLOW) ∧
    (w.g.kept = false →
      w3.g.mainStatus = "Completed." ∧ w3.g.mainStatusColor = Color.GREEN) := by
  have fin : ∀ (x : Run FS),
      (x >>= fun y => (pure
        { g := if ({ resetUI w.g with kept := w.g.kept } : Globals).kept = true then
              { ({ resetUI w.g with kept := w.g.kept } : Globals) with
                mainStatus := "The input file was modified. Please be careful.",
                mainStatusColor := Color.YELLOW }
            else { ({ resetUI w.g with kept := w.g.kept } : Globals) with
                   mainStatus := "Completed.", mainStatusColor := Color.GREEN },
          fs := y } : Run World)) = Except.ok w3 →
      w3.g = (if w.g.kept = true then
              { ({ resetUI w.g with kept := w.g.kept } : Globals) with
                mainStatus := "The input file was modified. Please be careful.",
                mainStatusColor := Color.YELLOW }
            else { ({ resetUI w.g with kept := w.g.kept } : Globals) with
                   mainStatus := "Completed.", mainStatusColor := Color.GREEN }) := by
    intro x hx
    obtain ⟨y, _, hy⟩ := bind_eq_ok hx
    rw [← ok_pure_inj hy]
  have hg : w3.g = (if w.g.kept = true then
              { ({ resetUI w.g with kept := w.g.kept } : Globals) with
                mainStatus := "The input file was modified. Please be careful.",
                mainStatusColor := Color.YELLOW }
            else { ({ resetUI w.g with kept := w.g.kept } : Globals) with
                   mainStatus := "Completed.", mainStatusColor := Color.GREEN }) := by
    unfold finishPhase at h
    obtain ⟨fs1, _, h⟩ := bind_eq_ok h
    simp only [] at h
    by_cases hdel : w.g.delete = true
    · rw [if_pos hdel] at h
      by_cases hm : w.g.mode = "decrypt"
      · rw [if_pos hm] at h
        by_cases hrec : w.g.recombine = true
        · simp only [hrec, if_true, bind_assoc] at h
          obtain ⟨cnt, _, h⟩ := bind_eq_ok h
          exact fin _ h
        · simp only [hrec, if_false] at h
          exact fin _ h
      · rw [if_neg hm] at h
        exact fin _ h
    · rw [if_neg hdel] at h
      exact fin _ h
  rw [hg]
  cases hk : w.g.kept with
  | true =>
    refine ⟨rfl, ?_, ?_⟩
    · intro _
      exact ⟨rfl, rfl⟩
    · intro hf
      cases hf
  | false =>
    refine ⟨rfl, ?_, ?_⟩
    · intro hf
      cases hf
    · intro _
      exact ⟨rfl, rfl⟩

/-- A pass that starts with `fastDecode` off does not call `work` again. -/
theorem workPass_slow (env : Env) (w : World) (hmode : w.g.mode = "decrypt")
    (hfd : w.g.fastDecode = false) (w2 : World) :
    workPass env w ≠ Except.ok (Pass.again w2) := by
  intro h
  have ho := workPass_inv env w _ hmode h
  cases ho with
  | retry w1 content rest hd f0 f3 f4 kfk kfh key st hr hb hmac hfast =>
    have hf := (recombinePhase_frame _ _ hr.recombined).2.2.2.2.2.1
    rw [hfast.2] at hf
    rw [hfd] at hf
    cases hf

/-- The world on which `work` is called again: `fastDecode` is off, the rest of what a pass
reads from the globals is as before. -/
theorem workPass_again (env : Env) (w w2 : World) (hmode : w.g.mode = "decrypt")
    (h : workPass env w = Except.ok (Pass.again w2)) :
    w.g.fastDecode = true ∧ w2.g.fastDecode = false ∧ w2.g.reedsolo = true ∧
    w2.g.mode = "decrypt" ∧ w2.g.keep = w.g.keep ∧
    ∃ (w1 : World) (content rest : List Nat) (hd : Header) (f0 f3 f4 : Nat)
      (kfk : Option (List Nat)) (kfh key : List Nat) (st : Stream),
      PassRead env w w1 content rest hd f0 f3 f4 ∧
      PassBody env w1 content rest hd f0 f3 f4 kfk kfh key (Flow.go st) ∧
      macSum env.c (decide (f0 = 1)) (hkdfRead (env.c.hkdf key hd.hkdfSalt) 0 32) st.macData
        ≠ hd.authTag ∧
      f3 = 1 ∧
      w2 = { g := { afterBody env.c w1.g hd f0 f3 kfh st with fastDecode := false },
             fs := w1.fs.write w1.g.outputFile st.out } := by
  have ho := workPass_inv env w _ hmode h
  cases ho with
  | retry w1 content rest hd f0 f3 f4 kfk kfh key st hr hb hmac hfast =>
    obtain ⟨_, hkeep, _, _, _, hf, _⟩ := recombinePhase_frame _ _ hr.recombined
    refine ⟨by rw [← hfast.2, hf], rfl, hfast.1, hr.mode, hkeep, w1, content, rest, hd, f0, f3,
      f4, kfk, kfh, key, st, hr, hb, hmac, of_decide_eq_true hfast.1, rfl⟩

theorem afterPass_returns (env : Env) (n : Nat) (w : World) :
    afterPass env n (Pass.returns w) = Except.ok w := rfl

theorem afterPass_again (env : Env) (n : Nat) (w : World) :
    afterPass env n (Pass.again w) = workN env n w := rfl

/-- The function `work` needs no more than two passes. -/
theorem workN_two_passes (env : Env) (w : World) (hmode : w.g.mode = "decrypt") (n : Nat) :
    workN env (n + 2) w = workN env 2 w := by
  rw [workN_succ env (n + 1) w, workN_succ env 1 w]
  cases hp : workPass env w with
  | error e => rw [bind_error, bind_error]
  | ok r =>
    cases r with
    | returns w1 => rw [bind_ok, bind_ok, afterPass_returns, afterPass_returns]
    | again w2 =>
      obtain ⟨_, hfd, _, hm2, _⟩ := workPass_again env w w2 hmode hp
      rw [bind_ok, bind_ok, afterPass_again, afterPass_again, workN_succ env n w2,
        workN_succ env 0 w2]
      cases hp2 : workPass env w2 with
      | error e => rw [bind_error, bind_error]
      | ok r2 =>
        cases r2 with
        | returns w3 => rw [bind_ok, bind_ok, afterPass_returns, afterPass_returns]
        | again w3 => exact absurd hp2 (workPass_slow env w2 hm2 hfd w3)

theorem broken_output (w : World) (m : String) :
    (broken w m).g.mainStatus = m ∧ (broken w m).g.mainStatusColor = Color.RED ∧
    (broken w m).g.outputFile = w.g.outputFile ∧ (broken w m).g.kept = w.g.kept ∧
    (broken w m).fs.read w.g.outputFile = none :=
  ⟨rfl, rfl, rfl, rfl, read_remove_same _ _⟩

/-- C21 (the MAC-mismatch retry happens at most once).  For a decrypt: `work` is one pass
followed by what the pass asks for (`workN_succ`); a pass calls `work` again only when it
started with `fastDecode` set, the volume has body Reed-Solomon (flag 3 is 1) and the MAC of
the pass differs from the tag of the header, and exactly then; the nested call runs on the
world with `fastDecode` off, the same `keep` and the output of the fast pass in place, and it
does not call `work` again, as no pass that starts with `fastDecode` off does; so two passes
always suffice.  A pass whose MAC differs and that does not call `work` again reports
`The input file is damaged or modified.` with the output removed when `keep` is off, and
finishes with `kept` set when `keep` is on; the status `damaged or modified` is reported in
no other case. -/
theorem retry_at_most_once (env : Env) (w : World) (hmode : w.g.mode = "decrypt") :
    (∀ n : Nat, workN env (n + 1) w = workPass env w >>= afterPass env n) ∧
    (∀ w2 : World, workPass env w = Except.ok (Pass.again w2) →
      w.g.fastDecode = true ∧ w2.g.fastDecode = false ∧ w2.g.reedsolo = true ∧
      w2.g.mode = "decrypt" ∧ w2.g.keep = w.g.keep ∧
      (∃ (w1 : World) (content rest : List Nat) (hd : Header) (f0 f3 f4 : Nat)
        (kfk : Option (List Nat)) (kfh key : List Nat) (st : Stream),
        PassRead env w w1 content rest hd f0 f3 f4 ∧
        PassBody env w1 content rest hd f0 f3 f4 kfk kfh key (Flow.go st) ∧
        macSum env.c (decide (f0 = 1)) (hkdfRead (env.c.hkdf key hd.hkdfSalt) 0 32)
          st.macData ≠ hd.authTag ∧
        f3 = 1 ∧
        w2 = { g := { afterBody env.c w1.g hd f0 f3 kfh st with fastDecode := false },
               fs := w1.fs.write w1.g.outputFile st.out }) ∧
      (∀ w3 : World, workPass env w2 ≠ Except.ok (Pass.again w3)) ∧
      (∀ n : Nat, workN env (n + 2) w = workPass env w2 >>= afterPass env 0)) ∧
    (w.g.fastDecode = false → ∀ w2 : World, workPass env w ≠ Except.ok (Pass.again w2)) ∧
    (∀ n : Nat, workN env (n + 2) w = work env w) ∧
    (∀ (w1 : World) (content rest : List Nat) (hd : Header) (f0 f3 f4 : Nat)
      (kfk : Option (List Nat)) (kfh key : List Nat) (st : Stream),
      PassRead env w w1 content rest hd f0 f3 f4 →
      PassBody env w1 content rest hd f0 f3 f4 kfk kfh key (Flow.go st) →
      macSum env.c (decide (f0 = 1)) (hkdfRead (env.c.hkdf key hd.hkdfSalt) 0 32)
        st.macData ≠ hd.authTag →
      (decide (f3 = 1) = true ∧ w1.g.fastDecode = true →
        workPass env w = Except.ok (Pass.again
          { g := { afterBody env.c w1.g hd f0 f3 kfh st with fastDecode := false },
            fs := w1.fs.write w1.g.outputFile st.out })) ∧
      (¬ (decide (f3 = 1) = true ∧ w1.g.fastDecode = true) → w1.g.keep = false →
        ∃ w3 : World, workPass env w = Except.ok (Pass.returns w3) ∧
          w3.g.mainStatus = "The input file is damaged or modified." ∧
          w3.g.mainStatusColor = Color.RED ∧ w3.fs.read w1.g.outputFile = none) ∧
      (¬ (decide (f3 = 1) = true ∧ w1.g.fastDecode = true) → w1.g.keep = true →
        ∀ w3 : World,
          finishPhase { g := { afterBody env.c w1.g hd f0 f3 kfh st with kept := true },
                        fs := w1.fs.write w1.g.outputFile st.out } = Except.ok w3 →
          workPass env w = Except.ok (Pass.returns w3) ∧ w3.g.kept = true ∧
          w3.g.mainStatus = "The input file was modified. Please be careful.")) ∧
    (∀ w3 : World, workPass env w = Except.ok (Pass.returns w3) →
      w3.g.mainStatus = "The input file is damaged or modified." →
      w.g.keep = false ∧ w3.g.mainStatusColor = Color.RED ∧
      w3.fs.read w3.g.outputFile = none ∧
      ∃ (w1 : World) (content rest : List Nat) (hd : Header) (f0 f3 f4 : Nat)
        (kfk : Option (List Nat)) (kfh key : List Nat) (st : Stream),
        PassRead env w w1 content rest hd f0 f3 f4 ∧
        PassBody env w1 content rest hd f0 f3 f4 kfk kfh key (Flow.go st) ∧
        macSum env.c (decide (f0 = 1)) (hkdfRead (env.c.hkdf key hd.hkdfSalt) 0 32)
          st.macData ≠ hd.authTag ∧
        ¬ (decide (f3 = 1) = true ∧ w1.g.fastDecode = true)) := by
  refine ⟨fun n => workN_succ env n w, ?_, fun hfd => workPass_slow env w hmode hfd,
    fun n => workN_two_passes env w hmode n, ?_, ?_⟩
  · intro w2 h
    obtain ⟨a1, a2, a3, a4, a5, a6⟩ := workPass_again env w w2 hmode h
    refine ⟨a1, a2, a3, a4, a5, a6, workPass_slow env w2 a4 a2, ?_⟩
    intro n
    rw [workN_succ env (n + 1) w, h, bind_ok, afterPass_again, workN_succ env n w2]
    cases hp2 : workPass env w2 with
    | error e => rw [bind_error, bind_error]
    | ok r2 =>
      cases r2 with
      | returns w3 => rw [bind_ok, bind_ok, afterPass_returns, afterPass_returns]
      | again w3 => exact absurd hp2 (workPass_slow env w2 a4 a2 w3)
  · intro w1 content rest hd f0 f3 f4 kfk kfh key st hr hb hmac
    refine ⟨?_, ?_, ?_⟩
    · intro hfast
      exact workPass_of_outcome env w _
        (PassOutcome.retry w1 content rest hd f0 f3 f4 kfk kfh key st hr hb hmac hfast)
    · intro hslow hkeep
      refine ⟨_, workPass_of_outcome env w _
        (PassOutcome.modified w1 content rest hd f0 f3 f4 kfk kfh key st hr hb hmac hslow
          hkeep), rfl, rfl, ?_⟩
      exact (broken_output _ _).2.2.2.2
    · intro hslow hkeep w3 hfin
      obtain ⟨b1, b2, _⟩ := finishPhase_status _ _ hfin
      exact ⟨workPass_of_outcome env w _
        (PassOutcome.forced w1 content rest hd f0 f3 f4 kfk kfh key st w3 hr hb hmac hslow
          hkeep hfin), b1, (b2 rfl).1⟩
  · intro w3 h hst
    have ho := workPass_inv env w _ hmode h
    cases ho with
    | headerDamaged w1 content rest hd f0 f3 f4 hr herr hkeep =>
      simp only [] at hst
      exact absurd hst (by decide)
    | wrongKey w1 content rest hd f0 f3 f4 kfk kfh hr hacc hkf hinc hkeep =>
      simp only [] at hst
      split at hst
      · exact absurd hst (by decide)
      · split at hst
        · exact absurd hst (by decide)
        · exact absurd hst (by decide)
    | bodyDamaged w1 content rest hd f0 f3 f4 kfk kfh key m hr hb =>
      have hm := (bodyLoop_stop env _ _ _ _ _ hb.body).1
      rw [(broken_output _ _).1, hm] at hst
      exact absurd hst (by decide)
    | forced w1 content rest hd f0 f3 f4 kfk kfh key st w4 hr hb hmac hslow hkeep hfin =>
      obtain ⟨_, b2, _⟩ := finishPhase_status _ _ hfin
      rw [(b2 rfl).1] at hst
      exact absurd hst (by decide)
    | modified w1 content rest hd f0 f3 f4 kfk kfh key st hr hb hmac hslow hkeep =>
      obtain ⟨_, hk, _⟩ := recombinePhase_frame _ _ hr.recombined
      exact ⟨by rw [← hk]; exact hkeep, rfl, (broken_output _ _).2.2.2.2, w1, content, rest,
        hd, f0, f3, f4, kfk, kfh, key, st, hr, hb, hmac, hslow⟩
    | verified w1 content rest hd f0 f3 f4 kfk kfh key st w4 hr hb hmac hfin =>
      obtain ⟨_, b2, b3⟩ := finishPhase_status _ _ hfin
      cases hk : st.kept with
      | true =>
        rw [(b2 hk).1] at hst
        exact absurd hst (by decide)
      | false =>
        rw [(b3 hk).1] at hst
        exact absurd hst (by decide)

set_option maxRecDepth 100000 in
/-- C21 at the sample environment: the fast pass over `sampleRetry`, whose tag differs from
the MAC of its body, ends with the nested call of `work` on a world with `fastDecode` off;
the pass over that world does not call `work` again, and any number of allowed nested calls
from two on gives the result of `work`. -/
theorem retry_at_most_once_witness :
    sampleRetry.g.mode = "decrypt" ∧
    ∃ w2 : World, workPass sampleEnv sampleRetry = Except.ok (Pass.again w2) ∧
      sampleRetry.g.fastDecode = true ∧ w2.g.fastDecode = false ∧ w2.g.reedsolo = true ∧
      (∀ w3 : World, workPass sampleEnv w2 ≠ Except.ok (Pass.again w3)) ∧
      (∀ n : Nat, workN sampleEnv (n + 2) sampleRetry
        = workPass sampleEnv w2 >>= afterPass sampleEnv 0) ∧
      (∀ n : Nat, workN sampleEnv (n + 2) sampleRetry = work sampleEnv sampleRetry) := by
  have h : ∃ w2 : World, workPass sampleEnv sampleRetry = Except.ok (Pass.again w2) :=
    ⟨_, rfl⟩
  obtain ⟨w2, h⟩ := h
  have t := (retry_at_most_once sampleEnv sampleRetry rfl).2.1 w2 h
  exact ⟨rfl, w2, h, t.1, t.2.1, t.2.2.1, t.2.2.2.2.2.2.1, t.2.2.2.2.2.2.2,
    (retry_at_most_once sampleEnv sampleRetry rfl).2.2.2.1⟩

/-! ## The outcome of a completed decrypt -/

theorem readHeader_fast (env : Env) (content : List Nat) :
    readHeader env true content = readHeader env false content := by
  simp only [readHeader, rsDecode_header_code env.cs.rs5 (by decide),
    rsDecode_header_code env.cs.rs16 (by decide), rsDecode_header_code env.cs.rs24 (by decide),
    rsDecode_header_code env.cs.rs32 (by decide), rsDecode_header_code env.cs.rs64 (by decide)]

theorem readFile_write_other (fs : FS) (p q : String) (c : List Nat) (h : q ≠ p) :
    readFile (fs.write p c) q = readFile fs q := by
  simp only [readFile, read_write_other fs p q c h]

theorem readKeyfiles_write (fs : FS) (out : String) (c : List Nat) :
    ∀ ks : List String, out ∉ ks → readKeyfiles (fs.write out c) ks = readKeyfiles fs ks := by
  intro ks
  induction ks with
  | nil => intro _; rfl
  | cons k ks ih =>
    intro h
    have hk : k ≠ out := fun e => h (by rw [e]; exact List.mem_cons_self _ _)
    have hks : out ∉ ks := fun e => h (List.mem_cons_of_mem _ e)
    simp only [readKeyfiles, readFile_write_other fs out k c hk, ih hks]

theorem keyfileKeyUnordered_write (cr : Crypto) (fs : FS) (out : String) (c : List Nat) :
    ∀ (ks : List String) (acc : Option (List Nat)), out ∉ ks →
      keyfileKeyUnordered cr (fs.write out c) ks acc = keyfileKeyUnordered cr fs ks acc := by
  intro ks
  induction ks with
  | nil => intro _ _; rfl
  | cons k ks ih =>
    intro acc h
    have hk : k ≠ out := fun e => h (by rw [e]; exact List.mem_cons_self _ _)
    have hks : out ∉ ks := fun e => h (List.mem_cons_of_mem _ e)
    cases acc with
    | none => simp only [keyfileKeyUnordered, readFile_write_other fs out k c hk, ih _ hks]
    | some a => simp only [keyfileKeyUnordered, readFile_write_other fs out k c hk, ih _ hks]

theorem keyfilePhase_write (cr : Crypto) (fs : FS) (g : Globals) (out : String) (c : List Nat)
    (h : out ∉ g.keyfiles) :
    keyfilePhase cr (fs.write out c) g = keyfilePhase cr fs g := by
  simp only [keyfilePhase, readKeyfiles_write fs out c g.keyfiles h,
    keyfileKeyUnordered_write cr fs out c g.keyfiles none h]

/-! ## The flag `kept` and the errors of `rsDecode` in the body loop -/

theorem decodeFails_of_ok (rs128 : FEC 128 136) (fd : Bool) (data tmp : List Nat) (err : Bool)
    (h : rsDecode rs128 fd data = Except.ok (tmp, err)) : decodeFails rs128 fd data = err := by
  unfold decodeFails
  rw [h]

theorem decodeFails_fast (rs128 : FEC 128 136) (data : List Nat) :
    decodeFails rs128 true data = false := by
  cases h : rsDecode rs128 true data with
  | error e => unfold decodeFails; rw [h]
  | ok x =>
    obtain ⟨tmp, err⟩ := x
    rw [decodeFails_of_ok rs128 true data tmp err h]
    exact rsDecode_fast_err rs128 data tmp err h

theorem subChunks_succ_right :
    ∀ (n : Nat) (d : List Nat),
      subChunks (n + 1) d = subChunks n d ++ [(d.drop (n * 136)).take 136] := by
  intro n
  induction n with
  | zero => intro d; simp [subChunks]
  | succ n ih =>
    intro d
    have h1 : subChunks (n + 1 + 1) d = d.take 136 :: subChunks (n + 1) (d.drop 136) := rfl
    have h2 : subChunks (n + 1) d = d.take 136 :: subChunks n (d.drop 136) := rfl
    rw [h1, ih (d.drop 136), h2, List.drop_drop]
    have h3 : 136 + n * 136 = (n + 1) * 136 := by omega
    have h4 : n * 136 + 136 = (n + 1) * 136 := by omega
    simp only [List.cons_append, h3, h4]

/-- The sub-chunk loop of a decrypt unit sets `kept` exactly when one of its calls of
`rsDecode` returned an error. -/
theorem rsDecodeChunks_errs (rs128 : FEC 128 136) (fd keep : Bool) :
    ∀ (count : Nat) (dst : List Nat) (kept : Bool) (r : List Nat) (k1 : Bool),
      rsDecodeChunks rs128 fd keep count dst kept = Except.ok (Flow.go (r, k1)) →
      k1 = (kept || (subChunks count dst).any (decodeFails rs128 fd)) := by
  intro count
  induction count with
  | zero =>
    intro dst kept r k1 h
    have h1 := ok_pure_inj h
    injection h1 with h2
    injection h2 with h3 h4
    rw [← h4]
    simp [subChunks]
  | succ count ih =>
    intro dst kept r k1 h
    unfold rsDecodeChunks at h
    obtain ⟨⟨tmp, err⟩, hdec, h⟩ := bind_eq_ok h
    simp only [] at h
    by_cases c : err = true ∧ keep = false
    · rw [if_pos c] at h
      have := ok_pure_inj h
      cases this
    · rw [if_neg c] at h
      obtain ⟨fl, hrec, h⟩ := bind_eq_ok h
      cases fl with
      | stop m =>
        have := ok_pure_inj h
        cases this
      | go x =>
        obtain ⟨r1, k2⟩ := x
        have h1 := ok_pure_inj h
        injection h1 with h2
        injection h2 with h3 h4
        have hi := ih _ _ _ _ hrec
        rw [← h4, hi]
        simp only [subChunks, List.any_cons, decodeFails_of_ok rs128 fd _ tmp err hdec,
          Bool.or_assoc]

/-- The last sub-chunk of a unit sets `kept` exactly when its `rsDecode` returned an
error. -/
theorem rsDecodeLast_errs (rs128 : FEC 128 136) (fd keep doUnpad : Bool) (data : List Nat)
    (kept : Bool) (r : List Nat) (k1 : Bool)
    (h : rsDecodeLast rs128 fd keep doUnpad data kept = Except.ok (Flow.go (r, k1))) :
    k1 = (kept || decodeFails rs128 fd data) := by
  obtain ⟨tmp, e, hdec, _, _, hk⟩ := rsDecodeLast_kept rs128 fd keep doUnpad data kept r k1 h
  have h2 := hk kept
  rw [h] at h2
  injection h2 with h3
  injection h3 with h4
  injection h4 with h5 h6
  rw [h6, decodeFails_of_ok rs128 fd data tmp e hdec]

theorem rsDecodeUnit_errs (rs128 : FEC 128 136) (p : Params) (done : Nat) (dst : List Nat)
    (kept : Bool) (r : List Nat) (k1 : Bool)
    (h : rsDecodeUnit rs128 p done dst kept = Except.ok (Flow.go (r, k1))) :
    k1 = (kept || (unitSubChunks dst).any (decodeFails rs128 p.fastDecode)) := by
  have two : ∀ (count : Nat) (front : List Nat) (doUnpad : Bool) (data : List Nat),
      (rsDecodeChunks rs128 p.fastDecode p.keep count front kept >>= fun x =>
        match x with
        | Flow.stop m => pure (Flow.stop m)
        | Flow.go (fr, kept1) =>
          rsDecodeLast rs128 p.fastDecode p.keep doUnpad data kept1 >>= fun y =>
            match y with
            | Flow.stop m => pure (Flow.stop m)
            | Flow.go (last, kept2) => pure (Flow.go (fr ++ last, kept2)) :
          Run (Flow (List Nat × Bool))) = Except.ok (Flow.go (r, k1)) →
      k1 = (kept || (subChunks count front ++ [data]).any (decodeFails rs128 p.fastDecode)) := by
    intro count front doUnpad data h
    obtain ⟨x, hx, h⟩ := bind_eq_ok h
    cases x with
    | stop m =>
      have := ok_pure_inj h
      cases this
    | go x =>
      obtain ⟨fr, kept1⟩ := x
      simp only [] at h
      obtain ⟨y, hy, h⟩ := bind_eq_ok h
      cases y with
      | stop m =>
        have := ok_pure_inj h
        cases this
      | go y =>
        obtain ⟨last, kept2⟩ := y
        have h1 := ok_pure_inj h
        injection h1 with h2
        injection h2 with h3 h4
        have a := rsDecodeChunks_errs rs128 _ _ _ _ _ _ _ hx
        have b := rsDecodeLast_errs rs128 _ _ _ _ _ _ _ hy
        rw [← h4, b, a]
        simp only [List.any_append, List.any_cons, List.any_nil, Bool.or_false, Bool.or_assoc]
  unfold rsDecodeUnit at h
  by_cases hfull : dst.length = MiB / 128 * 136
  · rw [if_pos hfull] at h
    have h2 := two _ _ _ _ h
    have h3 : MiB / 128 = MiB / 128 - 1 + 1 := rfl
    unfold unitSubChunks
    rw [if_pos hfull, h3, subChunks_succ_right]
    exact h2
  · rw [if_neg hfull] at h
    by_cases hshort : dst.length < 136
    · rw [if_pos hshort] at h
      cases h
    · rw [if_neg hshort] at h
      have h2 := two _ _ _ _ h
      unfold unitSubChunks
      rw [if_neg hfull]
      exact h2

theorem processUnit_errs (env : Env) (p : Params) (st st1 : Stream) (src : List Nat)
    (henc : p.encrypt = false)
    (h : processUnit env p st src = Except.ok (Flow.go st1)) :
    st1.kept = (st.kept ||
      (p.reedsolo && (unitSubChunks src).any (decodeFails env.cs.rs128 p.fastDecode))) := by
  unfold processUnit at h
  have henc2 : ¬ p.encrypt = true := by rw [henc]; simp
  rw [if_neg henc2] at h
  simp only [] at h
  by_cases hrs : p.reedsolo = true
  · rw [if_pos hrs] at h
    obtain ⟨r, hr, h⟩ := bind_eq_ok h
    cases r with
    | stop m =>
      have := ok_pure_inj h
      cases this
    | go x =>
      obtain ⟨src1, kept1⟩ := x
      have h1 := ok_pure_inj h
      injection h1 with h2
      have a := rsDecodeUnit_errs env.cs.rs128 p _ _ _ _ _ hr
      rw [← h2, hrs, Bool.true_and]
      exact a
  · rw [if_neg hrs] at h
    obtain ⟨r, hr, h⟩ := bind_eq_ok h
    have h3 := ok_pure_inj hr
    subst h3
    have h1 := ok_pure_inj h
    injection h1 with h2
    have hrs2 : p.reedsolo = false := by
      cases hp : p.reedsolo with
      | false => rfl
      | true => exact absurd hp hrs
    rw [← h2, hrs2, Bool.false_and, Bool.or_false]

theorem rekey_kept_eq (p : Params) (st : Stream) : (rekey p st).kept = st.kept := by
  unfold rekey
  by_cases h : 60 * GiB ≤ st.counter
  · simp only [h, if_true]
  · simp only [h, if_false]

/-- The body loop of a decrypt pass sets `kept` exactly when, with body Reed-Solomon, one
of the calls of `rsDecode` on the sub-chunks of its units returned an error. -/
theorem bodyLoop_errs (env : Env) (p : Params) (henc : p.encrypt = false) :
    ∀ (fuel : Nat) (st : Stream) (rest : List Nat) (st1 : Stream),
      bodyLoop env p fuel st rest = Except.ok (Flow.go st1) →
      st1.kept = (st.kept || (p.reedsolo &&
        (((bodyUnits (unitSize p) fuel rest).map unitSubChunks).flatten).any
          (decodeFails env.cs.rs128 p.fastDecode))) := by
  intro fuel
  induction fuel with
  | zero => intro st rest st1 h; cases h
  | succ fuel ih =>
    intro st rest st1 h
    cases rest with
    | nil =>
      have h1 := ok_pure_inj h
      injection h1 with h2
      rw [← h2]
      simp [bodyUnits]
    | cons a t =>
      unfold bodyLoop at h
      simp only [] at h
      obtain ⟨r, hr, h⟩ := bind_eq_ok h
      cases r with
      | stop m =>
        have := ok_pure_inj h
        cases this
      | go stA =>
        simp only [] at h
        have a1 := processUnit_errs env p _ _ _ henc hr
        have a2 := ih _ _ _ h
        rw [rekey_kept_eq] at a2
        have a3 : ({ stA with done := stA.done + unitSize p,
                              counter := stA.counter + MiB } : Stream).kept = stA.kept := rfl
        rw [a3, a1] at a2
        rw [a2]
        simp only [bodyUnits, List.map_cons, List.flatten_cons, List.any_append]
        cases st.kept <;> cases p.reedsolo <;> simp

/-- The flag with which the body loop of a decrypt pass ends is the flag it starts with, or
the report of an error by `rsDecode` on a body sub-chunk; nothing is reported in fast-decode
mode, and nothing was reported in a loop that ran to its end without `keep`. -/
theorem bodyLoop_decodeError (env : Env) (p : Params) (hd : Header) (rest : List Nat)
    (k : Bool) (st : Stream) (henc : p.encrypt = false)
    (h : bodyLoop env p (rest.length + 1) (initStream hd.nonce hd.serpentSalt [] k) rest
      = Except.ok (Flow.go st)) :
    st.kept = (k || bodyDecodeError env p rest) ∧
    (p.fastDecode = true → bodyDecodeError env p rest = false) ∧
    (p.keep = false → bodyDecodeError env p rest = false) := by
  have hU : p.reedsolo = true → unitSize p = MiB / 128 * 136 := by
    intro hrs
    unfold unitSize
    rw [if_pos ⟨henc, hrs⟩]
  have heq : ∀ (k0 : Bool) (s : Stream),
      bodyLoop env p (rest.length + 1) (initStream hd.nonce hd.serpentSalt [] k0) rest
        = Except.ok (Flow.go s) → s.kept = (k0 || bodyDecodeError env p rest) := by
    intro k0 s hs
    have a := bodyLoop_errs env p henc _ _ _ _ hs
    unfold bodyDecodeError
    cases hrs : p.reedsolo with
    | false =>
      rw [hrs] at a
      simpa using a
    | true =>
      rw [hrs, hU hrs] at a
      exact a
  refine ⟨heq k st h, ?_, ?_⟩
  · intro hf
    unfold bodyDecodeError
    rw [hf]
    have : ∀ l : List (List Nat), l.any (decodeFails env.cs.rs128 true) = false := by
      intro l
      induction l with
      | nil => rfl
      | cons x xs ih => rw [List.any_cons, decodeFails_fast, ih]; rfl
    rw [this, Bool.and_false]
  · intro hk
    obtain ⟨e, _, he2, he⟩ := bodyLoop_kept env p _ _ _ _ h
    have h0 := he false
    have hinit : ({ initStream hd.nonce hd.serpentSalt [] k with kept := false } : Stream)
        = initStream hd.nonce hd.serpentSalt [] false := rfl
    rw [hinit] at h0
    have := heq false _ h0
    simp only [Bool.false_or] at this
    rw [← this, he2 hk]

theorem work_passes (env : Env) (w w3 : World) (hmode : w.g.mode = "decrypt")
    (h : work env w = Except.ok w3) :
    workPass env w = Except.ok (Pass.returns w3) ∨
    ∃ w2 : World, workPass env w = Except.ok (Pass.again w2) ∧
      workPass env w2 = Except.ok (Pass.returns w3) := by
  unfold work at h
  rw [workN_succ env 1 w] at h
  cases hp : workPass env w with
  | error e => rw [hp, bind_error] at h; cases h
  | ok r =>
    rw [hp, bind_ok] at h
    cases r with
    | returns w1 =>
      rw [afterPass_returns] at h
      cases h
      exact Or.inl rfl
    | again w2 =>
      obtain ⟨_, hfd, _, hm2, _⟩ := workPass_again env w w2 hmode hp
      rw [afterPass_again, workN_succ env 0 w2] at h
      cases hp2 : workPass env w2 with
      | error e => rw [hp2, bind_error] at h; cases h
      | ok r2 =>
        rw [hp2, bind_ok] at h
        cases r2 with
        | returns w4 =>
          rw [afterPass_returns] at h
          cases h
          exact Or.inr ⟨w2, rfl, hp2⟩
        | again w4 => exact absurd hp2 (workPass_slow env w2 hm2 hfd w4)

theorem work_of_passes (env : Env) (w w3 : World) :
    (workPass env w = Except.ok (Pass.returns w3) → work env w = Except.ok w3) ∧
    (∀ w2 : World, workPass env w = Except.ok (Pass.again w2) →
      workPass env w2 = Except.ok (Pass.returns w3) → work env w = Except.ok w3) := by
  constructor
  · intro h
    unfold work
    rw [workN_succ env 1 w, h, bind_ok, afterPass_returns]
  · intro w2 h h2
    unfold work
    rw [workN_succ env 1 w, h, bind_ok, afterPass_again, workN_succ env 0 w2, h2, bind_ok,
      afterPass_returns]

/-- The `kept` flag after the verifier check of a pass. -/
theorem afterVerifier_kept (c : Crypto) (g : Globals) (hd : Header) (f0 f3 : Nat)
    (kfh : List Nat) :
    (afterVerifier c g hd f0 f3 kfh).kept
      = (g.kept || hd.errs.any id || verifierMismatch c (afterHeader g hd f0 f3) hd kfh) :=
  rfl

/-- A pass that ends with one of the two completion statuses: its values, the `kept` flag
it ends with, and the status that goes with the flag. -/
theorem workPass_completed (env : Env) (w w3 : World) (hmode : w.g.mode = "decrypt")
    (hrun : workPass env w = Except.ok (Pass.returns w3))
    (hc : w3.g.mainStatus = "Completed." ∨
      w3.g.mainStatus = "The input file was modified. Please be careful.") :
    ∃ (w1 : World) (content rest : List Nat) (hd : Header) (f0 f3 f4 : Nat)
      (kfk : Option (List Nat)) (kfh key : List Nat) (st : Stream),
      PassRead env w w1 content rest hd f0 f3 f4 ∧
      PassBody env w1 content rest hd f0 f3 f4 kfk kfh key (Flow.go st) ∧
      w3.g.kept = (w.g.kept || hd.errs.any id
        || verifierMismatch env.c (afterHeader w1.g hd f0 f3) hd kfh
        || bodyDecodeError env (passParams env.c w1.g hd f0 f3 f4 (passTotal content hd) key) rest
        || !decide (macSum env.c (decide (f0 = 1))
            (hkdfRead (env.c.hkdf key hd.hkdfSalt) 0 32) st.macData = hd.authTag)) ∧
      (w3.g.kept = false →
        w3.g.mainStatus = "Completed." ∧ w3.g.mainStatusColor = Color.GREEN) ∧
      (w3.g.kept = true →
        w3.g.mainStatus = "The input file was modified. Please be careful." ∧
        w3.g.mainStatusColor = Color.YELLOW) ∧
      (w.g.kept = false → w3.g.kept = true → w.g.keep = true) ∧
      (w1.g.fastDecode = true → bodyDecodeError env
        (passParams env.c w1.g hd f0 f3 f4 (passTotal content hd) key) rest = false) := by
  have ho := workPass_inv env w _ hmode hrun
  cases ho with
  | headerDamaged w1 content rest hd f0 f3 f4 hr herr hkeep =>
    simp only [] at hc
    rcases hc with hc | hc <;> exact absurd hc (by decide)
  | wrongKey w1 content rest hd f0 f3 f4 kfk kfh hr hacc hkf hinc hkeep =>
    simp only [afterHeader] at hc
    rcases hc with hc | hc <;> (split at hc; · exact absurd hc (by decide)
                                · split at hc <;> exact absurd hc (by decide))
  | bodyDamaged w1 content rest hd f0 f3 f4 kfk kfh key m hr hb =>
    have hm := (bodyLoop_stop env _ _ _ _ _ hb.body).1
    rw [(broken_output _ _).1, hm] at hc
    rcases hc with hc | hc <;> exact absurd hc (by decide)
  | modified w1 content rest hd f0 f3 f4 kfk kfh key st hr hb hmac hslow hkeep =>
    rw [(broken_output _ _).1] at hc
    rcases hc with hc | hc <;> exact absurd hc (by decide)
  | forced w1 content rest hd f0 f3 f4 kfk kfh key st w4 hr hb hmac hslow hkeep hfin =>
    obtain ⟨hk, hy, _⟩ := finishPhase_status _ _ hfin
    have hkw := (recombinePhase_kept _ _ hr.recombined).1
    have hkp := (recombinePhase_frame _ _ hr.recombined).2.1
    obtain ⟨_, hbf, _⟩ := bodyLoop_decodeError env _ hd rest _ st rfl hb.body
    refine ⟨w1, content, rest, hd, f0, f3, f4, kfk, kfh, key, st, hr, hb, ?_, ?_, ?_, ?_, hbf⟩
    · rw [hk]
      have : decide (macSum env.c (decide (f0 = 1))
          (hkdfRead (env.c.hkdf key hd.hkdfSalt) 0 32) st.macData = hd.authTag) = false :=
        decide_eq_false hmac
      rw [this]
      simp only [Bool.not_false, Bool.or_true]
    · intro h; rw [hk] at h; cases h
    · intro _; exact hy rfl
    · intro _ _; rw [← hkp]; exact hkeep
  | verified w1 content rest hd f0 f3 f4 kfk kfh key st w4 hr hb hmac hfin =>
    obtain ⟨hk, hy, hg⟩ := finishPhase_status _ _ hfin
    have hkw := (recombinePhase_kept _ _ hr.recombined).1
    have hkp := (recombinePhase_frame _ _ hr.recombined).2.1
    obtain ⟨hst, hbf, hbk⟩ := bodyLoop_decodeError env _ hd rest _ st rfl hb.body
    have hk3 : w3.g.kept = st.kept := hk
    have hw1 : w1.g.kept = w.g.kept := hkw
    refine ⟨w1, content, rest, hd, f0, f3, f4, kfk, kfh, key, st, hr, hb, ?_, ?_, ?_, ?_, hbf⟩
    · rw [hk3, hst, afterVerifier_kept, hw1]
      have : decide (macSum env.c (decide (f0 = 1))
          (hkdfRead (env.c.hkdf key hd.hkdfSalt) 0 32) st.macData = hd.authTag) = true :=
        decide_eq_true hmac
      rw [this]
      simp only [Bool.not_true, Bool.or_false]
    · intro h; rw [hk3] at h; exact hg h
    · intro h; rw [hk3] at h; exact hy h
    · intro hw0 h3
      rw [hk3, hst, afterVerifier_kept, hw1, hw0] at h3
      rw [← hkp]
      cases hkeep : w1.g.keep with
      | true => rfl
      | false =>
        exfalso
        have h1 : hd.errs.any id = false := by
          cases he : hd.errs.any id with
          | false => rfl
          | true => exact absurd ⟨he, hkeep⟩ hb.headerAccepted
        have h2 : verifierMismatch env.c (afterHeader w1.g hd f0 f3) hd kfh = false := by
          cases he : verifierMismatch env.c (afterHeader w1.g hd f0 f3) hd kfh with
          | false => rfl
          | true => exact absurd ⟨he, hkeep⟩ hb.verifierAccepted
        rw [h1, h2, hbk hkeep] at h3
        cases h3
/-- The values that a pass reads are determined by the world it starts from. -/
theorem PassRead_unique (env : Env) (w w1 w1b : World) (content rest contentb restb : List Nat)
    (hd hdb : Header) (f0 f3 f4 f0b f3b f4b : Nat)
    (h1 : PassRead env w w1 content rest hd f0 f3 f4)
    (h2 : PassRead env w w1b contentb restb hdb f0b f3b f4b) :
    w1b = w1 ∧ contentb = content ∧ restb = rest ∧ hdb = hd ∧ f0b = f0 ∧ f3b = f3 ∧
      f4b = f4 := by
  have e1 : w1b = w1 := by
    have := h2.recombined
    rw [h1.recombined] at this
    injection this with this
    exact this.symm
  subst e1
  have e2 : contentb = content := by
    have := h2.input
    rw [h1.input] at this
    injection this with this
    exact this.symm
  subst e2
  have e3 := h2.header
  rw [h1.header] at e3
  injection e3 with e3
  injection e3 with e3 e4
  subst e3
  subst e4
  have e5 := h2.flag0
  rw [h1.flag0] at e5
  injection e5 with e5
  have e6 := h2.flag3
  rw [h1.flag3] at e6
  injection e6 with e6
  have e7 := h2.flag4
  rw [h1.flag4] at e7
  injection e7 with e7
  exact ⟨rfl, rfl, rfl, rfl, e5.symm, e6.symm, e7.symm⟩

/-- The `kept` flag with which the retry starts records the header and verifier failures of
the fast pass. -/
theorem workPass_again_kept (env : Env) (w w2 : World) (hmode : w.g.mode = "decrypt")
    (h : workPass env w = Except.ok (Pass.again w2)) :
    ∃ (w1 : World) (content rest : List Nat) (hd : Header) (f0 f3 f4 : Nat)
      (kfk : Option (List Nat)) (kfh key : List Nat) (st : Stream),
      PassRead env w w1 content rest hd f0 f3 f4 ∧
      PassBody env w1 content rest hd f0 f3 f4 kfk kfh key (Flow.go st) ∧
      w2 = { g := { afterBody env.c w1.g hd f0 f3 kfh st with fastDecode := false },
             fs := w1.fs.write w1.g.outputFile st.out } ∧
      w2.g.kept = (w.g.kept || hd.errs.any id
        || verifierMismatch env.c (afterHeader w1.g hd f0 f3) hd kfh) ∧
      (w.g.kept = false → w2.g.kept = true → w.g.keep = true) := by
  obtain ⟨hfd, _, _, _, _, w1, content, rest, hd, f0, f3, f4, kfk, kfh, key, st, hr, hb, _, _,
    hw2⟩ := workPass_again env w w2 hmode h
  have hkw : w1.g.kept = w.g.kept := (recombinePhase_kept _ _ hr.recombined).1
  have hkp : w1.g.keep = w.g.keep := (recombinePhase_frame _ _ hr.recombined).2.1
  have hf1 : w1.g.fastDecode = true := by
    rw [(recombinePhase_frame _ _ hr.recombined).2.2.2.2.2.1]; exact hfd
  obtain ⟨hst, hbf, _⟩ := bodyLoop_decodeError env _ hd rest _ st rfl hb.body
  have hk2 : w2.g.kept = st.kept := by rw [hw2]; rfl
  have hk3 : w2.g.kept = (w.g.kept || hd.errs.any id
      || verifierMismatch env.c (afterHeader w1.g hd f0 f3) hd kfh) := by
    rw [hk2, hst, hbf hf1, afterVerifier_kept, hkw, Bool.or_false]
  refine ⟨w1, content, rest, hd, f0, f3, f4, kfk, kfh, key, st, hr, hb, hw2, hk3, ?_⟩
  intro hw0 h3
  rw [hk3, hw0] at h3
  rw [← hkp]
  cases hkeep : w1.g.keep with
  | true => rfl
  | false =>
    exfalso
    have h1 : hd.errs.any id = false := by
      cases he : hd.errs.any id with
      | false => rfl
      | true => exact absurd ⟨he, hkeep⟩ hb.headerAccepted
    have h2 : verifierMismatch env.c (afterHeader w1.g hd f0 f3) hd kfh = false := by
      cases he : verifierMismatch env.c (afterHeader w1.g hd f0 f3) hd kfh with
      | false => rfl
      | true => exact absurd ⟨he, hkeep⟩ hb.verifierAccepted
    rw [h1, h2] at h3
    cases h3

/-- Without recombine and with the output path not among the keyfiles, the retry reads the
header and the keyfiles that the fast pass read, and compares the verifiers with the same
result. -/
theorem retry_reads_same (env : Env) (w w2 : World) (hmode : w.g.mode = "decrypt")
    (hrec : w.g.recombine = false) (hout : w.g.outputFile ∉ w.g.keyfiles)
    (h : workPass env w = Except.ok (Pass.again w2))
    (w1 : World) (content rest : List Nat) (hd : Header) (f0 f3 f4 : Nat)
    (kfk : Option (List Nat)) (kfh key : List Nat) (fl : Flow Stream)
    (hr1 : PassRead env w w1 content rest hd f0 f3 f4)
    (hb1 : PassBody env w1 content rest hd f0 f3 f4 kfk kfh key fl)
    (w1b : World) (contentb restb : List Nat) (hdb : Header) (f0b f3b f4b : Nat)
    (kfkb : Option (List Nat)) (kfhb keyb : List Nat) (flb : Flow Stream)
    (hr2 : PassRead env w2 w1b contentb restb hdb f0b f3b f4b)
    (hb2 : PassBody env w1b contentb restb hdb f0b f3b f4b kfkb kfhb keyb flb) :
    contentb = content ∧ hdb = hd ∧ restb = rest ∧ kfhb = kfh ∧
    verifierMismatch env.c (afterHeader w1b.g hdb f0b f3b) hdb kfhb
      = verifierMismatch env.c (afterHeader w1.g hd f0 f3) hd kfh := by
  obtain ⟨w1a, ca, ra, hda, f0a, f3a, f4a, kfka, kfha, keya, sta, hra, hba, hw2, _, _⟩ :=
    workPass_again_kept env w w2 hmode h
  have hfd : w.g.fastDecode = true := (workPass_again env w w2 hmode h).1
  obtain ⟨e1, e2, e3, e4, e5, e6, e7⟩ := PassRead_unique env w w1a w1 _ _ _ _ _ _ _ _ _ _ _ _
    hra hr1
  subst e1 e2 e3 e4 e5 e6 e7
  have ekf : (kfka, kfha) = (kfk, kfh) := by
    have := hb1.keyfiles
    rw [hba.keyfiles] at this
    injection this with this
  injection ekf with ek1 ek2
  have ek1b : kfk = kfka := ek1.symm
  have ek2b : kfh = kfha := ek2.symm
  clear ek1 ek2
  subst ek1b ek2b
  have hw1 : w1 = { w with g := { w.g with mainStatus := "Working...",
                                           mainStatusColor := Color.WHITE } } := by
    have := hr1.recombined
    have hoff : recombinePhase
        { g := { w.g with mainStatus := "Working...", mainStatusColor := Color.WHITE },
          fs := w.fs } = Except.ok _ := recombinePhase_off _ hrec
    rw [hoff] at this
    injection this with this
    exact this.symm
  have hrec2 : w2.g.recombine = false := by rw [hw2, hw1]; exact hrec
  have hw1b : w1b = { w2 with g := { w2.g with mainStatus := "Working...",
                                               mainStatusColor := Color.WHITE } } := by
    have := hr2.recombined
    have hoff : recombinePhase
        { g := { w2.g with mainStatus := "Working...", mainStatusColor := Color.WHITE },
          fs := w2.fs } = Except.ok _ := recombinePhase_off _ hrec2
    rw [hoff] at this
    injection this with this
    exact this.symm
  have hin : w1b.g.inputFile = w1.g.inputFile := by rw [hw1b, hw2]; rfl
  have hfs : w1b.fs = w1.fs.write w1.g.outputFile sta.out := by rw [hw1b, hw2]
  have hc : contentb = content := by
    have := hr2.input
    rw [hfs, hin, read_write_other _ _ _ _ hr1.distinct, hr1.input] at this
    injection this with this
    exact this.symm
  subst hc
  have hf1 : w1.g.fastDecode = true := by rw [hw1]; exact hfd
  have hf2 : w1b.g.fastDecode = false := by rw [hw1b, hw2]
  have hh := hr2.header
  rw [hf2, ← readHeader_fast, ← hf1, hr1.header] at hh
  injection hh with hh
  injection hh with hh1 hh2
  subst hh1 hh2
  have e5 := hr2.flag0
  rw [hr1.flag0] at e5
  injection e5 with e5
  have e6 := hr2.flag3
  rw [hr1.flag3] at e6
  injection e6 with e6
  subst e5 e6
  have hkf := hb2.keyfiles
  have hout2 : w1.g.outputFile ∉ (afterHeader w1b.g hd f0 f3).keyfiles := by
    rw [hw1b, hw2, hw1]; exact hout
  rw [hfs, keyfilePhase_write _ _ _ _ _ hout2,
    keyfilePhase_congr env.c w1.fs (afterHeader w1.g hd f0 f3) (afterHeader w1b.g hd f0 f3)
      (by rw [hw1b, hw2]; rfl) (by rw [hw1b, hw2]; rfl) (by rw [hw1b, hw2]; rfl),
    hb1.keyfiles] at hkf
  injection hkf with hkf
  injection hkf with hk1 hk2
  subst hk1 hk2
  refine ⟨rfl, rfl, rfl, rfl, ?_⟩
  rw [hw1b, hw2]
  rfl
theorem headerClean_iff (c : Crypto) (g : Globals) (hd : Header) (f0 f3 : Nat)
    (kfh : List Nat) :
    HeaderClean c g hd f0 kfh ↔
      (hd.errs.any id = false ∧ verifierMismatch c (afterHeader g hd f0 f3) hd kfh = false) := by
  unfold HeaderClean verifierMismatch afterHeader
  simp only []
  cases hk : g.keyfile with
  | false => simp
  | true => simp

theorem completion_status (w3 : World)
    (hg : w3.g.kept = false →
      w3.g.mainStatus = "Completed." ∧ w3.g.mainStatusColor = Color.GREEN)
    (hy : w3.g.kept = true →
      w3.g.mainStatus = "The input file was modified. Please be careful." ∧
      w3.g.mainStatusColor = Color.YELLOW) :
    (w3.g.mainStatus = "Completed." ↔ w3.g.kept = false) ∧
    (w3.g.mainStatus = "Completed." → w3.g.mainStatusColor = Color.GREEN ∧ w3.g.kept = false) ∧
    (w3.g.mainStatus ≠ "Completed." → w3.g.kept = true ∧
      w3.g.mainStatus = "The input file was modified. Please be careful." ∧
      w3.g.mainStatusColor = Color.YELLOW) := by
  cases hk : w3.g.kept with
  | false =>
    obtain ⟨h1, h2⟩ := hg hk
    exact ⟨⟨fun _ => rfl, fun _ => h1⟩, fun _ => ⟨h2, rfl⟩, fun h => absurd h1 h⟩
  | true =>
    obtain ⟨h1, h2⟩ := hy hk
    have hne : w3.g.mainStatus ≠ "Completed." := by rw [h1]; decide
    exact ⟨⟨fun h => absurd h hne, fun h => by cases h⟩, fun h => absurd h hne,
      fun _ => ⟨rfl, h1, h2⟩⟩

/-! ## The flag kept across runs of work -/

/-- The outcome of a decrypt that `work` runs to completion, that is, that returns with one
of the two statuses of the final step, whatever the value of `kept` at the start: the status
`Completed.` comes in green with `kept` clear, and any other completed run has `kept` set
and the yellow status, and then `kept` was set at the start or `keep` is on.  The run is one
pass, or a fast pass that asked for the retry followed by the retry.  In a run of one pass
the status is `Completed.` if and only if `kept` was clear at the start, no header field
failed to decode, the key verifier matched, the keyfile verifier matched when the global
`keyfile` is set, no body sub-chunk decode reported an error and the MAC matched the tag
(`HeaderClean` and `BodyClean`).  In a run of two passes the status is `Completed.` if and
only if `kept` was clear at the start, that holds of the retry and the header part held of
the fast pass as well; without recombine and with the output path not among the keyfiles
the retry reads the same header and keyfile hash as the fast pass, and the conditions on
the retry suffice. -/
theorem completed_outcome (env : Env) (w w3 : World) (hmode : w.g.mode = "decrypt")
    (hrun : work env w = Except.ok w3)
    (hdone : w3.g.mainStatus = "Completed." ∨
      w3.g.mainStatus = "The input file was modified. Please be careful.") :
    (w3.g.mainStatus = "Completed." →
      w3.g.mainStatusColor = Color.GREEN ∧ w3.g.kept = false) ∧
    (w3.g.mainStatus ≠ "Completed." →
      w3.g.kept = true ∧
      w3.g.mainStatus = "The input file was modified. Please be careful." ∧
      w3.g.mainStatusColor = Color.YELLOW ∧ (w.g.kept = true ∨ w.g.keep = true)) ∧
    ((∃ (w1 : World) (content rest : List Nat) (hd : Header) (f0 f3 f4 : Nat)
        (kfk : Option (List Nat)) (kfh key : List Nat) (st : Stream),
        workPass env w = Except.ok (Pass.returns w3) ∧
        PassRead env w w1 content rest hd f0 f3 f4 ∧
        PassBody env w1 content rest hd f0 f3 f4 kfk kfh key (Flow.go st) ∧
        (w3.g.mainStatus = "Completed." ↔
          w.g.kept = false ∧
          HeaderClean env.c w1.g hd f0 kfh ∧
          BodyClean env (passParams env.c w1.g hd f0 f3 f4 (passTotal content hd) key) hd rest
            st.macData)) ∨
     (∃ (w2 w1 : World) (content rest : List Nat) (hd : Header) (f0 f3 f4 : Nat)
        (kfk : Option (List Nat)) (kfh key : List Nat) (st : Stream)
        (w1b : World) (contentb restb : List Nat) (hdb : Header) (f0b f3b f4b : Nat)
        (kfkb : Option (List Nat)) (kfhb keyb : List Nat) (stb : Stream),
        workPass env w = Except.ok (Pass.again w2) ∧
        workPass env w2 = Except.ok (Pass.returns w3) ∧
        PassRead env w w1 content rest hd f0 f3 f4 ∧
        PassBody env w1 content rest hd f0 f3 f4 kfk kfh key (Flow.go st) ∧
        PassRead env w2 w1b contentb restb hdb f0b f3b f4b ∧
        PassBody env w1b contentb restb hdb f0b f3b f4b kfkb kfhb keyb (Flow.go stb) ∧
        (w3.g.mainStatus = "Completed." ↔
          w.g.kept = false ∧
          HeaderClean env.c w1.g hd f0 kfh ∧
          HeaderClean env.c w1b.g hdb f0b kfhb ∧
          BodyClean env (passParams env.c w1b.g hdb f0b f3b f4b (passTotal contentb hdb) keyb)
            hdb restb stb.macData) ∧
        (w.g.recombine = false → w.g.outputFile ∉ w.g.keyfiles →
          hdb = hd ∧ kfhb = kfh ∧
          (w3.g.mainStatus = "Completed." ↔
            w.g.kept = false ∧
            HeaderClean env.c w1b.g hdb f0b kfhb ∧
            BodyClean env
              (passParams env.c w1b.g hdb f0b f3b f4b (passTotal contentb hdb) keyb)
              hdb restb stb.macData)))) := by
  rcases work_passes env w w3 hmode hrun with h1 | ⟨w2, h1, h2⟩
  · obtain ⟨w1, content, rest, hd, f0, f3, f4, kfk, kfh, key, st, hr, hb, hk, hg, hy, hkeep,
      _⟩ := workPass_completed env w w3 hmode h1 hdone
    obtain ⟨hiff, hgreen, hyellow⟩ := completion_status w3 hg hy
    refine ⟨hgreen, fun hne => ⟨(hyellow hne).1, (hyellow hne).2.1, (hyellow hne).2.2, ?_⟩,
      Or.inl ⟨w1, content, rest, hd, f0, f3, f4, kfk, kfh, key, st, h1, hr, hb, ?_⟩⟩
    · cases hk0 : w.g.kept with
      | true => exact Or.inl rfl
      | false => exact Or.inr (hkeep hk0 (hyellow hne).1)
    · rw [hiff, hk, headerClean_iff env.c w1.g hd f0 f3 kfh]
      unfold BodyClean
      simp only [passParams, Bool.or_eq_false_iff, Bool.not_eq_false_eq_eq_true,
        decide_eq_true_eq, and_assoc]
  · obtain ⟨w1, content, rest, hd, f0, f3, f4, kfk, kfh, key, st, hr, hb, hw2, hk2, hkeep2⟩ :=
      workPass_again_kept env w w2 hmode h1
    obtain ⟨_, _, _, hm2, hkp2, _⟩ := workPass_again env w w2 hmode h1
    obtain ⟨w1b, contentb, restb, hdb, f0b, f3b, f4b, kfkb, kfhb, keyb, stb, hrb, hbb, hk, hg,
      hy, hkeep, _⟩ := workPass_completed env w2 w3 hm2 h2 hdone
    obtain ⟨hiff, hgreen, hyellow⟩ := completion_status w3 hg hy
    have hmain : w3.g.mainStatus = "Completed." ↔
        w.g.kept = false ∧
        HeaderClean env.c w1.g hd f0 kfh ∧ HeaderClean env.c w1b.g hdb f0b kfhb ∧
        BodyClean env (passParams env.c w1b.g hdb f0b f3b f4b (passTotal contentb hdb) keyb)
          hdb restb stb.macData := by
      rw [hiff, hk, hk2, headerClean_iff env.c w1.g hd f0 f3 kfh,
        headerClean_iff env.c w1b.g hdb f0b f3b kfhb]
      unfold BodyClean
      simp only [passParams, Bool.or_eq_false_iff, Bool.not_eq_false_eq_eq_true,
        decide_eq_true_eq, and_assoc]
    refine ⟨hgreen, fun hne => ⟨(hyellow hne).1, (hyellow hne).2.1, (hyellow hne).2.2, ?_⟩,
      Or.inr ⟨w2, w1, content, rest, hd, f0, f3, f4, kfk, kfh, key, st, w1b, contentb, restb,
        hdb, f0b, f3b, f4b, kfkb, kfhb, keyb, stb, h1, h2, hr, hb, hrb, hbb, hmain, ?_⟩⟩
    · cases hk0 : w.g.kept with
      | true => exact Or.inl rfl
      | false =>
        refine Or.inr ?_
        cases hk2v : w2.g.kept with
        | true => exact hkeep2 hk0 hk2v
        | false => rw [← hkp2]; exact hkeep hk2v (hyellow hne).1
    · intro hrec hout
      obtain ⟨_, e2, _, e4, e5⟩ := retry_reads_same env w w2 hmode hrec hout h1
        w1 content rest hd f0 f3 f4 kfk kfh key _ hr hb
        w1b contentb restb hdb f0b f3b f4b kfkb kfhb keyb _ hrb hbb
      refine ⟨e2, e4, ?_⟩
      rw [hmain]
      have hh : HeaderClean env.c w1.g hd f0 kfh ↔ HeaderClean env.c w1b.g hdb f0b kfhb := by
        rw [headerClean_iff env.c w1.g hd f0 f3 kfh,
          headerClean_iff env.c w1b.g hdb f0b f3b kfhb, e5, e2]
      rw [hh]
      exact ⟨fun h => ⟨h.1, h.2.2⟩, fun h => ⟨h.1, h.2.1, h.2⟩⟩

theorem workCreateDenied_accepted (env : Env) (w w1 : World) (content rest : List Nat)
    (hd : Header) (f0 f3 f4 : Nat) (kfk : Option (List Nat)) (kfh : List Nat)
    (hr : PassRead env w w1 content rest hd f0 f3 f4)
    (hacc : ¬ (hd.errs.any id = true ∧ w1.g.keep = false))
    (hkf : keyfilePhase env.c w1.fs (afterHeader w1.g hd f0 f3) = Except.ok (kfk, kfh))
    (hver : ¬ (verifierMismatch env.c (afterHeader w1.g hd f0 f3) hd kfh = true
      ∧ w1.g.keep = false)) :
    workCreateDenied env w = Except.ok
      { g := accessDenied (afterVerifier env.c w1.g hd f0 f3 kfh) "Write", fs := w1.fs } := by
  obtain ⟨hrp, hin, hio, hm, hrh, hf0, hf3, hf4⟩ := hr
  have c1 : ¬ w1.g.mode = "encrypt" := by rw [hm]; exact decrypt_string_ne
  have c2 : ¬ w1.g.mode ≠ "decrypt" := fun h => h hm
  have start : workCreateDenied env w =
      (if hd.errs.any id = true ∧ w1.g.keep = false then
        pure { g := { w1.g with paranoid := decide (f0 = 1), reedsolo := decide (f3 = 1),
                                mainStatus := "The volume header is damaged.",
                                mainStatusColor := Color.RED },
               fs := if w1.g.recombine then w1.fs.remove w1.g.inputFile else w1.fs }
      else do
        let kf ← keyfilePhase env.c w1.fs (afterHeader w1.g hd f0 f3)
        if verifierMismatch env.c (afterHeader w1.g hd f0 f3) hd kf.2 = true
            ∧ w1.g.keep = false then
          pure { g := { afterHeader w1.g hd f0 f3 with
                        mainStatus :=
                          if !decide (env.c.sha3_512
                               (env.c.argon2 w1.g.password hd.salt (decide (f0 = 1)))
                                 = hd.keyHashRef)
                          then "The provided password is incorrect."
                          else if w1.g.keyfileOrdered then "Incorrect keyfiles or order."
                          else "Incorrect keyfiles.",
                        mainStatusColor := Color.RED },
                 fs := if w1.g.recombine then w1.fs.remove w1.g.inputFile else w1.fs }
        else
          pure { g := accessDenied (afterVerifier env.c w1.g hd f0 f3 kf.2) "Write",
                 fs := w1.fs } : Run World) := by
    unfold workCreateDenied
    simp only [hrp, bind_ok, readFile_some _ _ _ hin, hio, if_false, c1, pure_bind, hrh,
      hf0, hf3, hf4, c2]
    rfl
  rw [start, if_neg hacc, hkf, bind_ok]
  simp only []
  rw [if_neg hver]
  rfl

theorem finishPhase_plain_kept (w : World) (hsplit : w.g.split = false)
    (hrec : w.g.recombine = false) (hdel : w.g.delete = false) (hkept : w.g.kept = true) :
    finishPhase w = Except.ok
      { g := { resetUI w.g with kept := true,
                                mainStatus := "The input file was modified. Please be careful.",
                                mainStatusColor := Color.YELLOW },
        fs := w.fs } := by
  simp only [finishPhase, splitPhase, hsplit, hrec, hdel, hkept, Bool.false_eq_true, if_false,
    if_true, pure_eq_ok, bind_ok]

/-- The decryption of a volume that encrypt wrote (no keyfiles), with the right password and
whatever the value of `kept` at the start: the pass reads the header without error, both
verifiers match, no body sub-chunk decode reports an error and the MAC matches the tag; `work`
returns with the plain text as output and with `kept` as it was at the start, so with
`Completed.` in green when it was clear and with the yellow status when it was set. -/
theorem decrypt_volume_pass (env : Env) (hcs : env.cs.Lawful) (hc : env.c.Lawful)
    (ge : Globals) (total : Nat) (mac body P : List Nat)
    (hC : ge.comments.length ≤ 99999) (hbl : body.length = bodyLen ge.reedsolo total)
    (w : World) (hs : DecryptSetup { w.g with kept := false })
    (hpw : w.g.password = ge.password)
    (hvol : w.fs.read w.g.inputFile = some (volumeHeader env ge total mac ++ body))
    (hdec : ∀ (k0 : Bool) (fuelD : Nat), body.length < fuelD →
      ∃ stD1 : Stream,
        bodyLoop env (decParams env ge total w.g.keep w.g.fastDecode) fuelD
          (initStream (genNonces env.rnd).nonce (genNonces env.rnd).serpentSalt [] k0) body
            = Except.ok (Flow.go stD1) ∧
        stD1.out = P ∧ stD1.macData = mac ∧ stD1.kept = k0) :
    ∃ (w1 : World) (content rest : List Nat) (hd : Header) (f0 f3 f4 : Nat)
      (kfk : Option (List Nat)) (kfh key : List Nat) (st : Stream) (w3 : World),
      PassRead env w w1 content rest hd f0 f3 f4 ∧
      PassBody env w1 content rest hd f0 f3 f4 kfk kfh key (Flow.go st) ∧
      HeaderClean env.c w1.g hd f0 kfh ∧
      BodyClean env (passParams env.c w1.g hd f0 f3 f4 (passTotal content hd) key) hd rest
        st.macData ∧
      work env w = Except.ok w3 ∧
      w3.fs.read w.g.outputFile = some P ∧ w3.g.kept = w.g.kept ∧
      (w.g.kept = true →
        w3.g.mainStatus = "The input file was modified. Please be careful." ∧
        w3.g.mainStatusColor = Color.YELLOW) ∧
      (w.g.kept = false →
        w3.g.mainStatus = "Completed." ∧ w3.g.mainStatusColor = Color.GREEN) := by
  obtain ⟨hmode, hrec, hkfd, hkfile, hsplit, hdel, _, hio, hfd⟩ := hs
  simp only [] at hmode hrec hkfd hkfile hsplit hdel hio hfd
  have hrh := readHeader_volume env hcs ge total hC (env.c.sha3_512 (encKey env ge)) (zeros 32)
    (macSum env.c ge.paranoid (hkdfRead (encHkdf env ge) 0 32) mac)
    (hc.sha3_512 _) (length_zeros 32) (length_macSum env.c hc _ _ _) body w.g.fastDecode
  have hrh2 : readHeader env w.g.fastDecode (volumeHeader env ge total mac ++ body) = _ := hrh
  have hvlen := length_volumeHeader env hcs hc ge total mac hC
  have htotal : passTotal (volumeHeader env ge total mac ++ body)
      { commentsLength := (ge.comments.length : Int), flags := headerFlags ge total,
        salt := (genNonces env.rnd).salt, hkdfSalt := (genNonces env.rnd).hkdfSalt,
        serpentSalt := (genNonces env.rnd).serpentSalt, nonce := (genNonces env.rnd).nonce,
        keyHashRef := env.c.sha3_512 (encKey env ge), keyfileHashRef := zeros 32,
        authTag := macSum env.c ge.paranoid (hkdfRead (encHkdf env ge) 0 32) mac,
        errs := [false, false, false, false, false, false, false, false, false, false] }
      = ((bodyLen ge.reedsolo total : Nat) : Int) := by
    unfold passTotal
    simp only []
    rw [List.length_append, hvlen, hbl]
    push_cast
    omega
  have hr : PassRead env w
      { g := { w.g with mainStatus := "Working...", mainStatusColor := Color.WHITE },
        fs := w.fs }
      (volumeHeader env ge total mac ++ body) body
      { commentsLength := (ge.comments.length : Int), flags := headerFlags ge total,
        salt := (genNonces env.rnd).salt, hkdfSalt := (genNonces env.rnd).hkdfSalt,
        serpentSalt := (genNonces env.rnd).serpentSalt, nonce := (genNonces env.rnd).nonce,
        keyHashRef := env.c.sha3_512 (encKey env ge), keyfileHashRef := zeros 32,
        authTag := macSum env.c ge.paranoid (hkdfRead (encHkdf env ge) 0 32) mac,
        errs := [false, false, false, false, false, false, false, false, false, false] }
      (flagByte ge.paranoid) (flagByte ge.reedsolo)
      (flagByte (decide (MiB - 128 ≤ total % MiB))) :=
    { recombined := recombinePhase_off _ hrec
      input := hvol
      distinct := hio
      mode := hmode
      header := hrh2
      flag0 := rfl
      flag3 := rfl
      flag4 := rfl }
  have hpar : passParams env.c
      ({ w.g with mainStatus := "Working...", mainStatusColor := Color.WHITE } : Globals)
      { commentsLength := (ge.comments.length : Int), flags := headerFlags ge total,
        salt := (genNonces env.rnd).salt, hkdfSalt := (genNonces env.rnd).hkdfSalt,
        serpentSalt := (genNonces env.rnd).serpentSalt, nonce := (genNonces env.rnd).nonce,
        keyHashRef := env.c.sha3_512 (encKey env ge), keyfileHashRef := zeros 32,
        authTag := macSum env.c ge.paranoid (hkdfRead (encHkdf env ge) 0 32) mac,
        errs := [false, false, false, false, false, false, false, false, false, false] }
      (flagByte ge.paranoid) (flagByte ge.reedsolo)
      (flagByte (decide (MiB - 128 ≤ total % MiB)))
      (passTotal (volumeHeader env ge total mac ++ body)
        { commentsLength := (ge.comments.length : Int), flags := headerFlags ge total,
          salt := (genNonces env.rnd).salt, hkdfSalt := (genNonces env.rnd).hkdfSalt,
          serpentSalt := (genNonces env.rnd).serpentSalt, nonce := (genNonces env.rnd).nonce,
          keyHashRef := env.c.sha3_512 (encKey env ge), keyfileHashRef := zeros 32,
          authTag := macSum env.c ge.paranoid (hkdfRead (encHkdf env ge) 0 32) mac,
          errs := [false, false, false, false, false, false, false, false, false, false] })
      (env.c.argon2 w.g.password (genNonces env.rnd).salt
        (decide (flagByte ge.paranoid = 1)))
      = decParams env ge total w.g.keep w.g.fastDecode := by
    rw [htotal]
    simp only [passParams, decParams, encKey, encHkdf, decide_flagByte, hpw]
  have hmm : verifierMismatch env.c
      (afterHeader ({ w.g with mainStatus := "Working...",
                               mainStatusColor := Color.WHITE } : Globals)
        { commentsLength := (ge.comments.length : Int), flags := headerFlags ge total,
          salt := (genNonces env.rnd).salt, hkdfSalt := (genNonces env.rnd).hkdfSalt,
          serpentSalt := (genNonces env.rnd).serpentSalt, nonce := (genNonces env.rnd).nonce,
          keyHashRef := env.c.sha3_512 (encKey env ge), keyfileHashRef := zeros 32,
          authTag := macSum env.c ge.paranoid (hkdfRead (encHkdf env ge) 0 32) mac,
          errs := [false, false, false, false, false, false, false, false, false, false] }
        (flagByte ge.paranoid) (flagByte ge.reedsolo))
      { commentsLength := (ge.comments.length : Int), flags := headerFlags ge total,
        salt := (genNonces env.rnd).salt, hkdfSalt := (genNonces env.rnd).hkdfSalt,
        serpentSalt := (genNonces env.rnd).serpentSalt, nonce := (genNonces env.rnd).nonce,
        keyHashRef := env.c.sha3_512 (encKey env ge), keyfileHashRef := zeros 32,
        authTag := macSum env.c ge.paranoid (hkdfRead (encHkdf env ge) 0 32) mac,
        errs := [false, false, false, false, false, false, false, false, false, false] }
      (zeros 32) = false := by
    simp only [verifierMismatch, afterHeader, hkfile, Bool.false_eq_true, if_false,
      decide_flagByte, hpw, encKey, decide_True, Bool.not_true]
  obtain ⟨st, hloop, hout, hmac, hkept⟩ := hdec w.g.kept (body.length + 1) (by omega)
  have hk0 : (afterVerifier env.c
      ({ w.g with mainStatus := "Working...", mainStatusColor := Color.WHITE } : Globals)
      { commentsLength := (ge.comments.length : Int), flags := headerFlags ge total,
        salt := (genNonces env.rnd).salt, hkdfSalt := (genNonces env.rnd).hkdfSalt,
        serpentSalt := (genNonces env.rnd).serpentSalt, nonce := (genNonces env.rnd).nonce,
        keyHashRef := env.c.sha3_512 (encKey env ge), keyfileHashRef := zeros 32,
        authTag := macSum env.c ge.paranoid (hkdfRead (encHkdf env ge) 0 32) mac,
        errs := [false, false, false, false, false, false, false, false, false, false] }
      (flagByte ge.paranoid) (flagByte ge.reedsolo) (zeros 32)).kept = w.g.kept := by
    rw [afterVerifier_kept, hmm]
    simp
  have hb : PassBody env
      { g := { w.g with mainStatus := "Working...", mainStatusColor := Color.WHITE },
        fs := w.fs }
      (volumeHeader env ge total mac ++ body) body
      { commentsLength := (ge.comments.length : Int), flags := headerFlags ge total,
        salt := (genNonces env.rnd).salt, hkdfSalt := (genNonces env.rnd).hkdfSalt,
        serpentSalt := (genNonces env.rnd).serpentSalt, nonce := (genNonces env.rnd).nonce,
        keyHashRef := env.c.sha3_512 (encKey env ge), keyfileHashRef := zeros 32,
        authTag := macSum env.c ge.paranoid (hkdfRead (encHkdf env ge) 0 32) mac,
        errs := [false, false, false, false, false, false, false, false, false, false] }
      (flagByte ge.paranoid) (flagByte ge.reedsolo)
      (flagByte (decide (MiB - 128 ≤ total % MiB))) none (zeros 32)
      (env.c.argon2 w.g.password (genNonces env.rnd).salt
        (decide (flagByte ge.paranoid = 1))) (Flow.go st) :=
    { headerAccepted := fun h => by cases h.1
      keyfiles := keyfilePhase_none _ _ _ hkfd hkfile
      verifierAccepted := fun h => by rw [hmm] at h; cases h.1
      cipher := cipherKey_none _ _ _ hkfd hkfile
      body := by
        rw [hpar, hk0]
        exact hloop }
  have hclean : bodyDecodeError env (decParams env ge total w.g.keep w.g.fastDecode) body
      = false := by
    obtain ⟨st0, hloop0, _, _, hkept0⟩ := hdec false (body.length + 1) (by omega)
    have h1 := (bodyLoop_decodeError env _
      { commentsLength := (ge.comments.length : Int), flags := headerFlags ge total,
        salt := (genNonces env.rnd).salt, hkdfSalt := (genNonces env.rnd).hkdfSalt,
        serpentSalt := (genNonces env.rnd).serpentSalt, nonce := (genNonces env.rnd).nonce,
        keyHashRef := env.c.sha3_512 (encKey env ge), keyfileHashRef := zeros 32,
        authTag := macSum env.c ge.paranoid (hkdfRead (encHkdf env ge) 0 32) mac,
        errs := [false, false, false, false, false, false, false, false, false, false] }
      body false st0 rfl hloop0).1
    rw [hkept0] at h1
    simpa using h1.symm
  have hsk : st.kept = w.g.kept := hkept
  have hfinal : ∃ w3 : World,
      finishPhase
        { g := afterBody env.c
            ({ w.g with mainStatus := "Working...", mainStatusColor := Color.WHITE } : Globals)
            { commentsLength := (ge.comments.length : Int), flags := headerFlags ge total,
              salt := (genNonces env.rnd).salt, hkdfSalt := (genNonces env.rnd).hkdfSalt,
              serpentSalt := (genNonces env.rnd).serpentSalt,
              nonce := (genNonces env.rnd).nonce,
              keyHashRef := env.c.sha3_512 (encKey env ge), keyfileHashRef := zeros 32,
              authTag := macSum env.c ge.paranoid (hkdfRead (encHkdf env ge) 0 32) mac,
              errs := [false, false, false, false, false, false, false, false, false, false] }
            (flagByte ge.paranoid) (flagByte ge.reedsolo) (zeros 32) st,
          fs := w.fs.write w.g.outputFile st.out } = Except.ok w3 ∧
      w3.fs.read w.g.outputFile = some P ∧ w3.g.kept = w.g.kept ∧
      (w.g.kept = true →
        w3.g.mainStatus = "The input file was modified. Please be careful." ∧
        w3.g.mainStatusColor = Color.YELLOW) ∧
      (w.g.kept = false →
        w3.g.mainStatus = "Completed." ∧ w3.g.mainStatusColor = Color.GREEN) := by
    cases hk : w.g.kept with
    | false =>
      refine ⟨_, finishPhase_plain _ hsplit hrec hdel (by rw [← hk]; exact hsk), ?_, ?_, ?_, ?_⟩
      · rw [hout]
        exact read_write_same _ _ _
      · rfl
      · intro h
        cases h
      · intro _
        exact ⟨rfl, rfl⟩
    | true =>
      refine ⟨_, finishPhase_plain_kept _ hsplit hrec hdel (by rw [← hk]; exact hsk),
        ?_, ?_, ?_, ?_⟩
      · rw [hout]
        exact read_write_same _ _ _
      · rfl
      · intro _
        exact ⟨rfl, rfl⟩
      · intro h
        cases h
  obtain ⟨w3, hfin, hread, hk3, hy, hg⟩ := hfinal
  have hmacEq : macSum env.c (decide (flagByte ge.paranoid = 1))
      (hkdfRead (env.c.hkdf
        (env.c.argon2 w.g.password (genNonces env.rnd).salt
          (decide (flagByte ge.paranoid = 1))) (genNonces env.rnd).hkdfSalt) 0 32) st.macData
      = macSum env.c ge.paranoid (hkdfRead (encHkdf env ge) 0 32) mac := by
    rw [hmac]
    simp only [decide_flagByte, hpw, encHkdf, encKey]
  have hpass := workPass_of_outcome env w _
    (PassOutcome.verified _ _ _ _ _ _ _ _ _ _ st w3 hr hb hmacEq hfin)
  refine ⟨_, _, _, _, _, _, _, _, _, _, st, w3, hr, hb, ?_, ?_,
    (work_of_passes env w w3).1 hpass, hread, hk3, hy, hg⟩
  · refine ⟨rfl, ?_, fun _ => rfl⟩
    simp only [decide_flagByte, hpw, encKey]
  · refine ⟨?_, ?_⟩
    · rw [hpar]
      exact hclean
    · rw [hpar]
      simp only [decParams]
      rw [hmac]

/-- A decrypt of a volume that encrypt wrote, with force-decrypt on and a password whose key
hash differs from the one in the header, on a system that refuses to create the output file:
the header is read without error, the verifier mismatch is tolerated and sets `kept`, and the
run returns with the write-denied status and `kept` still set. -/
theorem workCreateDenied_volume (env : Env) (hcs : env.cs.Lawful) (hc : env.c.Lawful)
    (ge : Globals) (total : Nat) (mac body : List Nat)
    (hC : ge.comments.length ≤ 99999)
    (w : World) (hs : DecryptSetup w.g) (hkeep : w.g.keep = true)
    (hvol : w.fs.read w.g.inputFile = some (volumeHeader env ge total mac ++ body))
    (hbad : env.c.sha3_512 (env.c.argon2 w.g.password (genNonces env.rnd).salt ge.paranoid)
      ≠ env.c.sha3_512 (encKey env ge)) :
    workCreateDenied env w = Except.ok
      { g := { w.g with paranoid := ge.paranoid, reedsolo := ge.reedsolo, kept := true,
                        mainStatus := "Write access denied by operating system.",
                        mainStatusColor := Color.RED },
        fs := w.fs } := by
  obtain ⟨hmode, hrec, hkfd, hkfile, hsplit, hdel, hkept, hio, hfd⟩ := hs
  have hrh := readHeader_volume env hcs ge total hC (env.c.sha3_512 (encKey env ge)) (zeros 32)
    (macSum env.c ge.paranoid (hkdfRead (encHkdf env ge) 0 32) mac)
    (hc.sha3_512 _) (length_zeros 32) (length_macSum env.c hc _ _ _) body w.g.fastDecode
  have hrh2 : readHeader env w.g.fastDecode (volumeHeader env ge total mac ++ body) = _ := hrh
  have hr : PassRead env w
      { g := { w.g with mainStatus := "Working...", mainStatusColor := Color.WHITE },
        fs := w.fs }
      (volumeHeader env ge total mac ++ body) body
      { commentsLength := (ge.comments.length : Int), flags := headerFlags ge total,
        salt := (genNonces env.rnd).salt, hkdfSalt := (genNonces env.rnd).hkdfSalt,
        serpentSalt := (genNonces env.rnd).serpentSalt, nonce := (genNonces env.rnd).nonce,
        keyHashRef := env.c.sha3_512 (encKey env ge), keyfileHashRef := zeros 32,
        authTag := macSum env.c ge.paranoid (hkdfRead (encHkdf env ge) 0 32) mac,
        errs := [false, false, false, false, false, false, false, false, false, false] }
      (flagByte ge.paranoid) (flagByte ge.reedsolo)
      (flagByte (decide (MiB - 128 ≤ total % MiB))) :=
    { recombined := recombinePhase_off _ hrec
      input := hvol
      distinct := hio
      mode := hmode
      header := hrh2
      flag0 := rfl
      flag3 := rfl
      flag4 := rfl }
  rw [workCreateDenied_accepted env w _ _ _ _ _ _ _ none (zeros 32) hr
    (fun h => by cases h.1) (keyfilePhase_none _ _ _ hkfd hkfile)
    (fun h => by rw [show w.g.keep = true from hkeep] at h; cases h.2)]
  have hmm : decide (env.c.sha3_512
      (env.c.argon2 w.g.password (genNonces env.rnd).salt ge.paranoid)
        = env.c.sha3_512 (encKey env ge)) = false := decide_eq_false hbad
  simp only [accessDenied, afterVerifier, afterHeader, verifierMismatch, hkfile,
    Bool.false_eq_true, if_false, decide_flagByte, hmm, Bool.not_false, Bool.or_true, hkept]
  rfl

/-- C22, a defect of the code.  `work` never clears the flag `kept` when it starts, and the
Start button does not either; only `resetUI` at the end of a completed run (or a new drop)
does.  So a run that tolerated a failure and then returned early leaves `kept` set for the
next run.  For every plain text `P` and every volume that encrypt wrote from it (no keyfiles,
comment of at most 99999 bytes, lawful codecs and primitives): a first decrypt from clean
globals with force-decrypt on and a password `bad` whose key hash differs, on a system that
refuses to create the output file, returns with `Write access denied by operating system.`
in red and with `kept` set.  A second decrypt from the globals it left, with the right
password and any setting `keep2` of force-decrypt, reads the header with no field failing to
decode, both verifiers match, no body sub-chunk decode reports an error and the MAC matches
the tag (`HeaderClean` and `BodyClean`); it runs to completion and writes exactly `P`, and yet
it ends with `kept` set and the yellow status `The input file was modified. Please be
careful.` instead of the green `Completed.`, also when force-decrypt is off.  The same second
run started with `kept` cleared ends with `Completed.` in green. -/
theorem stale_kept_taints_outcome (env : Env) (hcs : env.cs.Lawful) (hc : env.c.Lawful)
    (ge gd : Globals) (fs : FS) (P bad : List Nat) (keep2 : Bool)
    (hse : EncryptSetup ge) (hC : ge.comments.length ≤ 99999)
    (hP : fs.read ge.inputFile = some P)
    (hsd : DecryptSetup gd) (hin : gd.inputFile = ge.outputFile)
    (hpw : gd.password = ge.password)
    (hbad : env.c.sha3_512 (env.c.argon2 bad (genNonces env.rnd).salt ge.paranoid)
      ≠ env.c.sha3_512 (encKey env ge)) :
    ∃ w1 : World, work env { g := ge, fs := fs } = Except.ok w1 ∧
    ∃ wd : World,
      workCreateDenied env { g := { gd with keep := true, password := bad }, fs := w1.fs }
        = Except.ok wd ∧
      wd.g.kept = true ∧
      wd.g.mainStatus = "Write access denied by operating system." ∧
      wd.g.mainStatusColor = Color.RED ∧
      wd.fs = w1.fs ∧
      wd.g.mode = "decrypt" ∧ wd.g.inputFile = gd.inputFile ∧
      wd.g.outputFile = gd.outputFile ∧
    ∃ (w1b : World) (content rest : List Nat) (hd : Header) (f0 f3 f4 : Nat)
      (kfk : Option (List Nat)) (kfh key : List Nat) (st : Stream) (w2 w2c : World),
      PassRead env { g := { wd.g with password := gd.password, keep := keep2 }, fs := wd.fs }
        w1b content rest hd f0 f3 f4 ∧
      PassBody env w1b content rest hd f0 f3 f4 kfk kfh key (Flow.go st) ∧
      HeaderClean env.c w1b.g hd f0 kfh ∧
      BodyClean env (passParams env.c w1b.g hd f0 f3 f4 (passTotal content hd) key) hd rest
        st.macData ∧
      work env { g := { wd.g with password := gd.password, keep := keep2 }, fs := wd.fs }
        = Except.ok w2 ∧
      w2.fs.read gd.outputFile = some P ∧
      w2.g.kept = true ∧
      w2.g.mainStatus = "The input file was modified. Please be careful." ∧
      w2.g.mainStatusColor = Color.YELLOW ∧
      work env
        { g := { wd.g with password := gd.password, keep := keep2, kept := false },
          fs := wd.fs } = Except.ok w2c ∧
      w2c.fs.read gd.outputFile = some P ∧
      w2c.g.mainStatus = "Completed." ∧ w2c.g.mainStatusColor = Color.GREEN := by
  have hse2 : EncryptSetup
      ({ g := { ge with mainStatus := "Working...", mainStatusColor := Color.WHITE },
         fs := fs } : World).g := hse
  obtain ⟨mac, body, hbl, hdec, hwork⟩ := encryptWork_ok env hcs hc
    { g := { ge with mainStatus := "Working...", mainStatusColor := Color.WHITE }, fs := fs }
    P hse2 hC
  have hw1 := workN_encrypt env { g := ge, fs := fs } P 1 hse hP
  refine ⟨_, hw1.trans hwork, ?_⟩
  have hvol : (fs.write ge.outputFile (volumeHeader env ge P.length mac ++ body)).read
      gd.inputFile = some (volumeHeader env ge P.length mac ++ body) := by
    rw [hin]; exact read_write_same _ _ _
  obtain ⟨hmode, hrec, hkfd, hkfile, hsplit, hdel, hkept, hio, hfd⟩ := hsd
  have hden := workCreateDenied_volume env hcs hc ge P.length mac body hC
    { g := { gd with keep := true, password := bad },
      fs := fs.write ge.outputFile (volumeHeader env ge P.length mac ++ body) }
    ⟨hmode, hrec, hkfd, hkfile, hsplit, hdel, hkept, hio, hfd⟩ rfl hvol hbad
  refine ⟨_, hden, rfl, rfl, rfl, rfl, hmode, rfl, rfl, ?_⟩
  obtain ⟨w1b, content, rest, hd, f0, f3, f4, kfk, kfh, key, st, w2, hr, hb, hhc, hbc, hrun,
    hread, hk2, hy, _⟩ := decrypt_volume_pass env hcs hc ge P.length mac body P hC hbl
    { g := { gd with keep := keep2, password := gd.password, paranoid := ge.paranoid,
                     reedsolo := ge.reedsolo, kept := true,
                     mainStatus := "Write access denied by operating system.",
                     mainStatusColor := Color.RED },
      fs := fs.write ge.outputFile (volumeHeader env ge P.length mac ++ body) }
    ⟨hmode, hrec, hkfd, hkfile, hsplit, hdel, rfl, hio, hfd⟩ hpw hvol
    (fun k0 fuelD hf => hdec keep2 gd.fastDecode k0 fuelD hf)
  obtain ⟨_, _, _, _, _, _, _, _, _, _, _, w2c, _, _, _, _, hrunc, hreadc, _, _, hg⟩ :=
    decrypt_volume_pass env hcs hc ge P.length mac body P hC hbl
    { g := { gd with keep := keep2, password := gd.password, paranoid := ge.paranoid,
                     reedsolo := ge.reedsolo, kept := false,
                     mainStatus := "Write access denied by operating system.",
                     mainStatusColor := Color.RED },
      fs := fs.write ge.outputFile (volumeHeader env ge P.length mac ++ body) }
    ⟨hmode, hrec, hkfd, hkfile, hsplit, hdel, rfl, hio, hfd⟩ hpw hvol
    (fun k0 fuelD hf => hdec keep2 gd.fastDecode k0 fuelD hf)
  exact ⟨w1b, content, rest, hd, f0, f3, f4, kfk, kfh, key, st, w2, w2c, hr, hb, hhc, hbc,
    hrun, hread, hk2, (hy rfl).1, (hy rfl).2, hrunc, hreadc, (hg rfl).1, (hg rfl).2⟩

/-- C22 at the sample environment: the 14 bytes `Hello, world!\n` encrypted with the password
`pw`; a first decrypt with force-decrypt on and the password `x` where the output file cannot
be created; then a decrypt with the password `pw` and force-decrypt off. -/
theorem stale_kept_taints_outcome_witness :
    ∃ w1 : World,
      work sampleEnv { g := sampleEncrypt, fs := [("a.txt", samplePlain)] } = Except.ok w1 ∧
    ∃ wd : World,
      workCreateDenied sampleEnv
        { g := { sampleDecrypt with keep := true, password := [120] }, fs := w1.fs }
        = Except.ok wd ∧
      wd.g.kept = true ∧
      wd.g.mainStatus = "Write access denied by operating system." ∧
      wd.g.mainStatusColor = Color.RED ∧
      wd.fs = w1.fs ∧
      wd.g.mode = "decrypt" ∧ wd.g.inputFile = sampleDecrypt.inputFile ∧
      wd.g.outputFile = sampleDecrypt.outputFile ∧
    ∃ (w1b : World) (content rest : List Nat) (hd : Header) (f0 f3 f4 : Nat)
      (kfk : Option (List Nat)) (kfh key : List Nat) (st : Stream) (w2 w2c : World),
      PassRead sampleEnv
        { g := { wd.g with password := sampleDecrypt.password, keep := false }, fs := wd.fs }
        w1b content rest hd f0 f3 f4 ∧
      PassBody sampleEnv w1b content rest hd f0 f3 f4 kfk kfh key (Flow.go st) ∧
      HeaderClean sampleEnv.c w1b.g hd f0 kfh ∧
      BodyClean sampleEnv
        (passParams sampleEnv.c w1b.g hd f0 f3 f4 (passTotal content hd) key) hd rest
        st.macData ∧
      work sampleEnv
        { g := { wd.g with password := sampleDecrypt.password, keep := false }, fs := wd.fs }
        = Except.ok w2 ∧
      w2.fs.read sampleDecrypt.outputFile = some samplePlain ∧
      w2.g.kept = true ∧
      w2.g.mainStatus = "The input file was modified. Please be careful." ∧
      w2.g.mainStatusColor = Color.YELLOW ∧
      work sampleEnv
        { g := { wd.g with password := sampleDecrypt.password, keep := false, kept := false },
          fs := wd.fs } = Except.ok w2c ∧
      w2c.fs.read sampleDecrypt.outputFile = some samplePlain ∧
      w2c.g.mainStatus = "Completed." ∧ w2c.g.mainStatusColor = Color.GREEN :=
  stale_kept_taints_outcome sampleEnv sampleCodecs_lawful sampleCrypto_lawful
    sampleEncrypt sampleDecrypt [("a.txt", samplePlain)] samplePlain [120] false
    ⟨rfl, rfl, rfl, rfl, rfl, rfl, rfl, by decide⟩ (by decide) (by decide)
    ⟨rfl, rfl, rfl, rfl, rfl, rfl, rfl, by decide, rfl⟩ rfl rfl (by decide)

/-! ## Comment bytes and decryption -/

theorem readHeader_comment (env : Env) (fd : Bool) (b0 b1 cmA cmB tail d1 : List Nat)
    (e1 : Bool) (l0 : b0.length = 15) (l1 : b1.length = 15)
    (h1 : rsDecode env.cs.rs5 fd b1 = Except.ok (d1, e1))
    (hA : cmA.length = (atoi d1).1.toNat * 3) (hB : cmB.length = (atoi d1).1.toNat * 3) :
    readHeader env fd (b0 ++ b1 ++ cmA ++ tail) = readHeader env fd (b0 ++ b1 ++ cmB ++ tail) := by
  simp only [readHeader, List.append_assoc, readBuf_append 15 _ _ l0, readBuf_append 15 _ _ l1,
    h1]
  cases h0 : rsDecode env.cs.rs5 fd b0 with
  | error e => rfl
  | ok r =>
    simp only [bind_ok, readBuf_append _ cmA tail hA, readBuf_append _ cmB tail hB]

theorem readHeader_pre (env : Env) (fd : Bool) (pre cmA cmB post d1 : List Nat) (e1 : Bool)
    (hpre : pre.length = 30)
    (h1 : rsDecode env.cs.rs5 false (pre.drop 15) = Except.ok (d1, e1))
    (hA : cmA.length = (atoi d1).1.toNat * 3) (hB : cmB.length = (atoi d1).1.toNat * 3) :
    readHeader env fd (pre ++ cmA ++ post) = readHeader env fd (pre ++ cmB ++ post) := by
  have hp : pre = pre.take 15 ++ pre.drop 15 := (List.take_append_drop 15 pre).symm
  have l0 : (pre.take 15).length = 15 := by rw [List.length_take]; omega
  have l1 : (pre.drop 15).length = 15 := by rw [List.length_drop]; omega
  have h1b : rsDecode env.cs.rs5 fd (pre.drop 15) = Except.ok (d1, e1) := by
    cases fd with
    | false => exact h1
    | true => rw [rsDecode_header_code env.cs.rs5 (by decide)]; exact h1
  have := readHeader_comment env fd _ _ cmA cmB post d1 e1 l0 l1 h1b hA hB
  rw [← hp] at this
  exact this

theorem keyfiles_agree (c : Crypto) (fsA fsB : FS) :
    ∀ ks : List String, (∀ p, p ∈ ks → fsB.read p = fsA.read p) →
      readKeyfiles fsB ks = readKeyfiles fsA ks ∧
      ∀ acc : Option (List Nat),
        keyfileKeyUnordered c fsB ks acc = keyfileKeyUnordered c fsA ks acc := by
  intro ks
  induction ks with
  | nil => intro _; exact ⟨rfl, fun _ => rfl⟩
  | cons k ks ih =>
    intro h
    have hk : readFile fsB k = readFile fsA k := by
      simp only [readFile, h k (List.mem_cons_self _ _)]
    obtain ⟨i1, i2⟩ := ih (fun p hp => h p (List.mem_cons_of_mem _ hp))
    refine ⟨?_, ?_⟩
    · simp only [readKeyfiles, hk, i1]
    · intro acc
      cases acc with
      | none => simp only [keyfileKeyUnordered, hk, i2]
      | some a => simp only [keyfileKeyUnordered, hk, i2]

theorem keyfilePhase_agree (c : Crypto) (fsA fsB : FS) (g : Globals)
    (h : ∀ p, p ∈ g.keyfiles → fsB.read p = fsA.read p) :
    keyfilePhase c fsB g = keyfilePhase c fsA g := by
  obtain ⟨h1, h2⟩ := keyfiles_agree c fsA fsB g.keyfiles h
  simp only [keyfilePhase, h1, h2]

theorem read_write_agree (fsA fsB : FS) (inF q : String) (c : List Nat)
    (h : ∀ p, p ≠ inF → fsB.read p = fsA.read p) :
    ∀ p, p ≠ inF → (fsB.write q c).read p = (fsA.write q c).read p := by
  intro p hp
  by_cases hq : p = q
  · subst hq
    rw [read_write_same, read_write_same]
  · rw [read_write_other _ _ _ _ hq, read_write_other _ _ _ _ hq]
    exact h p hp

theorem read_remove_agree (fsA fsB : FS) (inF q : String)
    (h : ∀ p, p ≠ inF → fsB.read p = fsA.read p) :
    ∀ p, p ≠ inF → (fsB.remove q).read p = (fsA.remove q).read p := by
  intro p hp
  by_cases hq : p = q
  · subst hq
    rw [read_remove_same, read_remove_same]
  · rw [read_remove_other _ _ _ hq, read_remove_other _ _ _ hq]
    exact h p hp

theorem commentVariant_symm (env : Env) (wA wB : World) (pre cmA cmB post d1 : List Nat)
    (e1 : Bool) (h : CommentVariant env wA wB pre cmA cmB post d1 e1) :
    CommentVariant env wB wA pre cmB cmA post d1 e1 := by
  obtain ⟨k, hk⟩ := h.globals
  have hin : wB.g.inputFile = wA.g.inputFile := by rw [hk]
  exact
    { globals := ⟨wA.g.comments, by rw [hk]⟩
      mode := by rw [hk]; exact h.mode
      recombine := by rw [hk]; exact h.recombine
      split := by rw [hk]; exact h.split
      keyfiles := by rw [hk]; exact h.keyfiles
      readA := by rw [hin]; exact h.readB
      readB := by rw [hin]; exact h.readA
      other := fun p hp => by rw [hin] at hp; exact (h.other p hp).symm
      front := h.front
      field := h.field
      lenA := h.lenB
      lenB := h.lenA }

theorem passRead_comment (env : Env) (wA wB : World) (pre cmA cmB post d1 : List Nat)
    (e1 : Bool) (hv : CommentVariant env wA wB pre cmA cmB post d1 e1) (k : List Nat)
    (hk : wB.g = { wA.g with comments := k })
    (w1 : World) (content rest : List Nat) (hd : Header) (f0 f3 f4 : Nat)
    (hr : PassRead env wA w1 content rest hd f0 f3 f4) :
    w1 = { g := { wA.g with mainStatus := "Working...", mainStatusColor := Color.WHITE },
           fs := wA.fs } ∧
    content = pre ++ cmA ++ post ∧
    PassRead env wB { g := { w1.g with comments := k }, fs := wB.fs } (pre ++ cmB ++ post)
      rest hd f0 f3 f4 := by
  have hoff : recombinePhase
      { g := { wA.g with mainStatus := "Working...", mainStatusColor := Color.WHITE },
        fs := wA.fs } = Except.ok _ := recombinePhase_off _ hv.recombine
  have hw1 : w1 = { g := { wA.g with mainStatus := "Working...",
                                     mainStatusColor := Color.WHITE }, fs := wA.fs } := by
    have := hr.recombined
    rw [hoff] at this
    injection this with this
    exact this.symm
  subst hw1
  have hc : content = pre ++ cmA ++ post := by
    have := hr.input
    have hA : wA.fs.read wA.g.inputFile = some (pre ++ cmA ++ post) := hv.readA
    simp only [] at this
    rw [hA] at this
    injection this with this
    exact this.symm
  subst hc
  refine ⟨rfl, rfl, ?_⟩
  have hrecB : wB.g.recombine = false := by rw [hk]; exact hv.recombine
  have hoffB : recombinePhase
      { g := { wB.g with mainStatus := "Working...", mainStatusColor := Color.WHITE },
        fs := wB.fs } = Except.ok _ := recombinePhase_off _ hrecB
  have hh := hr.header
  simp only [] at hh
  exact
    { recombined := by rw [hoffB, hk]
      input := hv.readB
      distinct := hr.distinct
      mode := hr.mode
      header := by
        rw [← readHeader_pre env _ pre cmA cmB post d1 e1 hv.front hv.field hv.lenA hv.lenB]
        exact hh
      flag0 := hr.flag0
      flag3 := hr.flag3
      flag4 := hr.flag4 }

theorem passBody_comment (env : Env) (wA wB : World) (pre cmA cmB post d1 : List Nat)
    (e1 : Bool) (hv : CommentVariant env wA wB pre cmA cmB post d1 e1) (k : List Nat)
    (rest : List Nat) (hd : Header) (f0 f3 f4 : Nat)
    (kfk : Option (List Nat)) (kfh key : List Nat) (fl : Flow Stream)
    (hb : PassBody env
      { g := { wA.g with mainStatus := "Working...", mainStatusColor := Color.WHITE },
        fs := wA.fs } (pre ++ cmA ++ post) rest hd f0 f3 f4 kfk kfh key fl) :
    PassBody env
      { g := { wA.g with mainStatus := "Working...", mainStatusColor := Color.WHITE,
                         comments := k },
        fs := wB.fs } (pre ++ cmB ++ post) rest hd f0 f3 f4 kfk kfh key fl := by
  have hkf : ∀ p, p ∈ wA.g.keyfiles → wB.fs.read p = wA.fs.read p := by
    intro p hp
    apply hv.other
    intro e
    rw [e] at hp
    exact hv.keyfiles hp
  have htot : passTotal (pre ++ cmB ++ post) hd = passTotal (pre ++ cmA ++ post) hd := by
    unfold passTotal
    simp only [List.length_append, hv.lenA, hv.lenB]
  exact
    { headerAccepted := hb.headerAccepted
      keyfiles := by
        refine Eq.trans (keyfilePhase_agree env.c wA.fs wB.fs _ ?_) ?_
        · exact hkf
        · exact (keyfilePhase_congr env.c wA.fs _ _ rfl rfl rfl).trans hb.keyfiles
      verifierAccepted := hb.verifierAccepted
      cipher := hb.cipher
      body := by
        rw [htot]
        exact hb.body }

theorem finishPhase_comment (wa wb : World) (k : List Nat) (inF : String)
    (hg : wb.g = { wa.g with comments := k }) (hsplit : wa.g.split = false)
    (hrec : wa.g.recombine = false) (hmode : wa.g.mode = "decrypt")
    (hin : wa.g.inputFile = inF)
    (hfs : ∀ p, p ≠ inF → wb.fs.read p = wa.fs.read p)
    (a : World) (h : finishPhase wa = Except.ok a) :
    ∃ b : World, finishPhase wb = Except.ok b ∧ SameOutcome inF a b := by
  obtain ⟨ga, fsa⟩ := wa
  obtain ⟨gb, fsb⟩ := wb
  simp only [] at hg hsplit hrec hmode hin hfs
  subst hg
  cases hkept : ga.kept <;> by_cases hdel : ga.delete = true <;>
    simp only [finishPhase, splitPhase, hsplit, hrec, hmode, hdel, hkept, Bool.false_eq_true,
      if_false, if_true, pure_eq_ok, bind_ok] at h ⊢ <;>
    injection h with h <;> subst h <;> refine ⟨_, rfl, ⟨[], rfl⟩, ?_⟩
  · subst hin
    exact read_remove_agree fsa fsb _ _ hfs
  · exact hfs
  · subst hin
    exact read_remove_agree fsa fsb _ _ hfs
  · exact hfs

/-- One pass over two worlds that differ only in the comment bytes: a pass that returns on
one returns on the other with the same outcome, and a pass that asks for the retry on one
asks for it on the other, on worlds that again differ only in the comment bytes. -/
theorem workPass_comment (env : Env) (wA wB : World) (pre cmA cmB post d1 : List Nat)
    (e1 : Bool) (hv : CommentVariant env wA wB pre cmA cmB post d1 e1) :
    (∀ a : World, workPass env wA = Except.ok (Pass.returns a) →
      ∃ b : World, workPass env wB = Except.ok (Pass.returns b) ∧
        SameOutcome wA.g.inputFile a b) ∧
    (∀ a : World, workPass env wA = Except.ok (Pass.again a) →
      ∃ b : World, workPass env wB = Except.ok (Pass.again b) ∧
        a.g.inputFile = wA.g.inputFile ∧
        CommentVariant env a b pre cmA cmB post d1 e1) := by
  obtain ⟨k, hk⟩ := hv.globals
  have key : ∀ r : Pass, workPass env wA = Except.ok r →
      ∃ rB : Pass, workPass env wB = Except.ok rB ∧
        (∀ a : World, r = Pass.returns a →
          ∃ b : World, rB = Pass.returns b ∧ SameOutcome wA.g.inputFile a b) ∧
        (∀ a : World, r = Pass.again a →
          ∃ b : World, rB = Pass.again b ∧ a.g.inputFile = wA.g.inputFile ∧
            CommentVariant env a b pre cmA cmB post d1 e1) := by
    intro r hrun
    have ho := workPass_inv env wA r hv.mode hrun
    cases ho with
    | headerDamaged w1 content rest hd f0 f3 f4 hr herr hkeep =>
      obtain ⟨hw1, hc, hrB⟩ := passRead_comment env wA wB pre cmA cmB post d1 e1 hv k hk
        w1 content rest hd f0 f3 f4 hr
      subst hw1
      subst hc
      refine ⟨_, workPass_of_outcome env wB _
        (PassOutcome.headerDamaged _ _ rest hd f0 f3 f4 hrB herr hkeep), ?_, ?_⟩
      · intro a ha
        injection ha with ha
        subst ha
        refine ⟨_, rfl, ⟨k, rfl⟩, ?_⟩
        simp only [hv.recombine, Bool.false_eq_true, if_false]
        exact hv.other
      · intro a ha; cases ha
    | wrongKey w1 content rest hd f0 f3 f4 kfk kfh hr hacc hkf hinc hkeep =>
      obtain ⟨hw1, hc, hrB⟩ := passRead_comment env wA wB pre cmA cmB post d1 e1 hv k hk
        w1 content rest hd f0 f3 f4 hr
      subst hw1
      subst hc
      have hkfB : ∀ p, p ∈ wA.g.keyfiles → wB.fs.read p = wA.fs.read p := by
        intro p hp
        apply hv.other
        intro e
        rw [e] at hp
        exact hv.keyfiles hp
      have hkf2 : keyfilePhase env.c wB.fs
          (afterHeader { wA.g with mainStatus := "Working...", mainStatusColor := Color.WHITE,
                                   comments := k } hd f0 f3) = Except.ok (kfk, kfh) := by
        refine Eq.trans (keyfilePhase_agree env.c wA.fs wB.fs _ ?_) ?_
        · exact hkfB
        · exact (keyfilePhase_congr env.c wA.fs _ _ rfl rfl rfl).trans hkf
      refine ⟨_, workPass_of_outcome env wB _
        (PassOutcome.wrongKey _ _ rest hd f0 f3 f4 kfk kfh hrB hacc hkf2 hinc hkeep), ?_, ?_⟩
      · intro a ha
        injection ha with ha
        subst ha
        refine ⟨_, rfl, ⟨k, rfl⟩, ?_⟩
        simp only [hv.recombine, Bool.false_eq_true, if_false]
        exact hv.other
      · intro a ha; cases ha
    | bodyDamaged w1 content rest hd f0 f3 f4 kfk kfh key m hr hb =>
      obtain ⟨hw1, hc, hrB⟩ := passRead_comment env wA wB pre cmA cmB post d1 e1 hv k hk
        w1 content rest hd f0 f3 f4 hr
      subst hw1
      subst hc
      have hbB := passBody_comment env wA wB pre cmA cmB post d1 e1 hv k rest hd f0 f3 f4
        kfk kfh key _ hb
      refine ⟨_, workPass_of_outcome env wB _
        (PassOutcome.bodyDamaged _ _ rest hd f0 f3 f4 kfk kfh key m hrB hbB), ?_, ?_⟩
      · intro a ha
        injection ha with ha
        subst ha
        refine ⟨_, rfl, ⟨k, rfl⟩, ?_⟩
        simp only [broken, afterVerifier, afterHeader, hv.recombine, Bool.false_eq_true,
          if_false]
        exact read_remove_agree _ _ _ _ (read_write_agree _ _ _ _ _ hv.other)
      · intro a ha; cases ha
    | retry w1 content rest hd f0 f3 f4 kfk kfh key st hr hb hmac hfast =>
      obtain ⟨hw1, hc, hrB⟩ := passRead_comment env wA wB pre cmA cmB post d1 e1 hv k hk
        w1 content rest hd f0 f3 f4 hr
      subst hw1
      subst hc
      have hbB := passBody_comment env wA wB pre cmA cmB post d1 e1 hv k rest hd f0 f3 f4
        kfk kfh key _ hb
      refine ⟨_, workPass_of_outcome env wB _
        (PassOutcome.retry _ _ rest hd f0 f3 f4 kfk kfh key st hrB hbB hmac hfast), ?_, ?_⟩
      · intro a ha; cases ha
      · intro a ha
        injection ha with ha
        subst ha
        have hd2 : wA.g.inputFile ≠ wA.g.outputFile := hr.distinct
        refine ⟨_, rfl, rfl, ?_⟩
        exact
          { globals := ⟨k, rfl⟩
            mode := hv.mode
            recombine := hv.recombine
            split := hv.split
            keyfiles := hv.keyfiles
            readA := (read_write_other _ _ _ _ hd2).trans hv.readA
            readB := (read_write_other _ _ _ _ hd2).trans hv.readB
            other := read_write_agree _ _ _ _ _ hv.other
            front := hv.front
            field := hv.field
            lenA := hv.lenA
            lenB := hv.lenB }
    | forced w1 content rest hd f0 f3 f4 kfk kfh key st w4 hr hb hmac hslow hkeep hfin =>
      obtain ⟨hw1, hc, hrB⟩ := passRead_comment env wA wB pre cmA cmB post d1 e1 hv k hk
        w1 content rest hd f0 f3 f4 hr
      subst hw1
      subst hc
      have hbB := passBody_comment env wA wB pre cmA cmB post d1 e1 hv k rest hd f0 f3 f4
        kfk kfh key _ hb
      obtain ⟨b, hfb, hsame⟩ := finishPhase_comment
        { g := { afterBody env.c
                  { wA.g with mainStatus := "Working...", mainStatusColor := Color.WHITE }
                  hd f0 f3 kfh st with kept := true },
          fs := wA.fs.write wA.g.outputFile st.out }
        { g := { afterBody env.c
                  { wA.g with mainStatus := "Working...", mainStatusColor := Color.WHITE,
                              comments := k } hd f0 f3 kfh st with kept := true },
          fs := wB.fs.write wA.g.outputFile st.out }
        k wA.g.inputFile rfl hv.split hv.recombine hv.mode rfl
        (read_write_agree _ _ _ _ _ hv.other) _ hfin
      refine ⟨_, workPass_of_outcome env wB _
        (PassOutcome.forced _ _ rest hd f0 f3 f4 kfk kfh key st b hrB hbB hmac hslow hkeep
          hfb), ?_, ?_⟩
      · intro a ha
        injection ha with ha
        subst ha
        exact ⟨b, rfl, hsame⟩
      · intro a ha; cases ha
    | modified w1 content rest hd f0 f3 f4 kfk kfh key st hr hb hmac hslow hkeep =>
      obtain ⟨hw1, hc, hrB⟩ := passRead_comment env wA wB pre cmA cmB post d1 e1 hv k hk
        w1 content rest hd f0 f3 f4 hr
      subst hw1
      subst hc
      have hbB := passBody_comment env wA wB pre cmA cmB post d1 e1 hv k rest hd f0 f3 f4
        kfk kfh key _ hb
      refine ⟨_, workPass_of_outcome env wB _
        (PassOutcome.modified _ _ rest hd f0 f3 f4 kfk kfh key st hrB hbB hmac hslow hkeep),
        ?_, ?_⟩
      · intro a ha
        injection ha with ha
        subst ha
        refine ⟨_, rfl, ⟨k, rfl⟩, ?_⟩
        simp only [broken, afterBody, afterVerifier, afterHeader, hv.recombine,
          Bool.false_eq_true, if_false]
        exact read_remove_agree _ _ _ _ (read_write_agree _ _ _ _ _ hv.other)
      · intro a ha; cases ha
    | verified w1 content rest hd f0 f3 f4 kfk kfh key st w4 hr hb hmac hfin =>
      obtain ⟨hw1, hc, hrB⟩ := passRead_comment env wA wB pre cmA cmB post d1 e1 hv k hk
        w1 content rest hd f0 f3 f4 hr
      subst hw1
      subst hc
      have hbB := passBody_comment env wA wB pre cmA cmB post d1 e1 hv k rest hd f0 f3 f4
        kfk kfh key _ hb
      obtain ⟨b, hfb, hsame⟩ := finishPhase_comment
        { g := afterBody env.c
                  { wA.g with mainStatus := "Working...", mainStatusColor := Color.WHITE }
                  hd f0 f3 kfh st,
          fs := wA.fs.write wA.g.outputFile st.out }
        { g := afterBody env.c
                  { wA.g with mainStatus := "Working...", mainStatusColor := Color.WHITE,
                              comments := k } hd f0 f3 kfh st,
          fs := wB.fs.write wA.g.outputFile st.out }
        k wA.g.inputFile rfl hv.split hv.recombine hv.mode rfl
        (read_write_agree _ _ _ _ _ hv.other) _ hfin
      refine ⟨_, workPass_of_outcome env wB _
        (PassOutcome.verified _ _ rest hd f0 f3 f4 kfk kfh key st b hrB hbB hmac hfb), ?_, ?_⟩
      · intro a ha
        injection ha with ha
        subst ha
        exact ⟨b, rfl, hsame⟩
      · intro a ha; cases ha
  constructor
  · intro a ha
    obtain ⟨rB, hB, h1, _⟩ := key _ ha
    obtain ⟨b, hb, hs⟩ := h1 a rfl
    exact ⟨b, by rw [hB, hb], hs⟩
  · intro a ha
    obtain ⟨rB, hB, _, h2⟩ := key _ ha
    obtain ⟨b, hb, hs⟩ := h2 a rfl
    exact ⟨b, by rw [hB, hb], hs⟩

theorem passOutcome_distinct (env : Env) (w : World) (r : Pass) (hrec : w.g.recombine = false)
    (h : PassOutcome env w r) : w.g.inputFile ≠ w.g.outputFile := by
  have hk0 : ∀ (w1 : World) (content rest : List Nat) (hd : Header) (f0 f3 f4 : Nat),
      PassRead env w w1 content rest hd f0 f3 f4 → w.g.inputFile ≠ w.g.outputFile := by
    intro w1 content rest hd f0 f3 f4 hr
    have hoff : recombinePhase
        { g := { w.g with mainStatus := "Working...", mainStatusColor := Color.WHITE },
          fs := w.fs } = Except.ok _ := recombinePhase_off _ hrec
    have hw1 := hr.recombined
    rw [hoff] at hw1
    injection hw1 with hw1
    have hd2 := hr.distinct
    rw [← hw1] at hd2
    exact hd2
  cases h with
  | headerDamaged w1 content rest hd f0 f3 f4 hr herr hkeep => exact hk0 _ _ _ _ _ _ _ hr
  | wrongKey w1 content rest hd f0 f3 f4 kfk kfh hr hacc hkf hinc hkeep =>
    exact hk0 _ _ _ _ _ _ _ hr
  | bodyDamaged w1 content rest hd f0 f3 f4 kfk kfh key m hr hb => exact hk0 _ _ _ _ _ _ _ hr
  | retry w1 content rest hd f0 f3 f4 kfk kfh key st hr hb hmac hfast =>
    exact hk0 _ _ _ _ _ _ _ hr
  | forced w1 content rest hd f0 f3 f4 kfk kfh key st w4 hr hb hmac hslow hkeep hfin =>
    exact hk0 _ _ _ _ _ _ _ hr
  | modified w1 content rest hd f0 f3 f4 kfk kfh key st hr hb hmac hslow hkeep =>
    exact hk0 _ _ _ _ _ _ _ hr
  | verified w1 content rest hd f0 f3 f4 kfk kfh key st w4 hr hb hmac hfin =>
    exact hk0 _ _ _ _ _ _ _ hr

/-- The function `work` over two worlds that differ only in the comment bytes: when it
returns on the first it returns on the second, with the same outcome. -/
theorem work_comment (env : Env) (wA wB : World) (pre cmA cmB post d1 : List Nat)
    (e1 : Bool) (hv : CommentVariant env wA wB pre cmA cmB post d1 e1)
    (a : World) (h : work env wA = Except.ok a) :
    ∃ b : World, work env wB = Except.ok b ∧ SameOutcome wA.g.inputFile a b ∧
      wA.g.inputFile ≠ wA.g.outputFile := by
  rcases work_passes env wA a hv.mode h with h1 | ⟨w2, h1, h2⟩
  · obtain ⟨b, hb, hs⟩ := (workPass_comment env wA wB pre cmA cmB post d1 e1 hv).1 a h1
    exact ⟨b, (work_of_passes env wB b).1 hb, hs,
      passOutcome_distinct env wA _ hv.recombine (workPass_inv env wA _ hv.mode h1)⟩
  · obtain ⟨b2, hb2, hin, hv2⟩ :=
      (workPass_comment env wA wB pre cmA cmB post d1 e1 hv).2 w2 h1
    obtain ⟨b, hb, hs⟩ := (workPass_comment env w2 b2 pre cmA cmB post d1 e1 hv2).1 a h2
    rw [hin] at hs
    exact ⟨b, (work_of_passes env wB b).2 b2 hb2 hb, hs,
      passOutcome_distinct env wA _ hv.recombine (workPass_inv env wA _ hv.mode h1)⟩

theorem sameOutcome_fields (inF : String) (a b : World) (h : SameOutcome inF a b) :
    b.g.mainStatus = a.g.mainStatus ∧ b.g.mainStatusColor = a.g.mainStatusColor ∧
    b.g.kept = a.g.kept := by
  obtain ⟨⟨k, hk⟩, _⟩ := h
  rw [hk]
  exact ⟨rfl, rfl, rfl⟩

/-- C24 (comment bytes do not influence decryption).  For two worlds that differ only in
the comment bytes of the input volume (`CommentVariant`: same password, keyfiles, `keep` and
every other global but `comments`, same files but for the 3·C comment bytes of the input
file, where C is the number that the decoded comment-length field spells): the parser of
`work` reads the same header and leaves the same body from both contents; whenever `work`
returns on one world it returns on the other with the same status, colour and `kept`, the
same globals but for `comments`, the same content of the output file and of every file
other than the input file; and `work` fails on one exactly when it fails on the other. -/
theorem comment_bytes_ignored (env : Env) (wA wB : World) (pre cmA cmB post d1 : List Nat)
    (e1 : Bool) (hv : CommentVariant env wA wB pre cmA cmB post d1 e1) :
    (∀ fd : Bool, readHeader env fd (pre ++ cmA ++ post)
      = readHeader env fd (pre ++ cmB ++ post)) ∧
    (∀ a : World, work env wA = Except.ok a →
      ∃ b : World, work env wB = Except.ok b ∧
        b.g.mainStatus = a.g.mainStatus ∧ b.g.mainStatusColor = a.g.mainStatusColor ∧
        b.g.kept = a.g.kept ∧
        b.fs.read wA.g.outputFile = a.fs.read wA.g.outputFile ∧
        SameOutcome wA.g.inputFile a b) ∧
    (∀ b : World, work env wB = Except.ok b →
      ∃ a : World, work env wA = Except.ok a ∧
        a.g.mainStatus = b.g.mainStatus ∧ a.g.mainStatusColor = b.g.mainStatusColor ∧
        a.g.kept = b.g.kept ∧
        a.fs.read wA.g.outputFile = b.fs.read wA.g.outputFile ∧
        SameOutcome wA.g.inputFile b a) ∧
    ((∃ e : Fault, work env wA = Except.error e) ↔
      (∃ e : Fault, work env wB = Except.error e)) := by
  have hs := commentVariant_symm env wA wB pre cmA cmB post d1 e1 hv
  obtain ⟨k, hk⟩ := hv.globals
  have hin : wB.g.inputFile = wA.g.inputFile := by rw [hk]
  have hout : wB.g.outputFile = wA.g.outputFile := by rw [hk]
  have hAB : ∀ a : World, work env wA = Except.ok a →
      ∃ b : World, work env wB = Except.ok b ∧
        b.g.mainStatus = a.g.mainStatus ∧ b.g.mainStatusColor = a.g.mainStatusColor ∧
        b.g.kept = a.g.kept ∧
        b.fs.read wA.g.outputFile = a.fs.read wA.g.outputFile ∧
        SameOutcome wA.g.inputFile a b := by
    intro a ha
    obtain ⟨b, hb, hso, hd⟩ := work_comment env wA wB pre cmA cmB post d1 e1 hv a ha
    obtain ⟨f1, f2, f3⟩ := sameOutcome_fields _ a b hso
    exact ⟨b, hb, f1, f2, f3, hso.2 _ (Ne.symm hd), hso⟩
  have hBA : ∀ b : World, work env wB = Except.ok b →
      ∃ a : World, work env wA = Except.ok a ∧
        a.g.mainStatus = b.g.mainStatus ∧ a.g.mainStatusColor = b.g.mainStatusColor ∧
        a.g.kept = b.g.kept ∧
        a.fs.read wA.g.outputFile = b.fs.read wA.g.outputFile ∧
        SameOutcome wA.g.inputFile b a := by
    intro b hb
    obtain ⟨a, ha, hso, hd⟩ := work_comment env wB wA pre cmB cmA post d1 e1 hs b hb
    rw [hin] at hso
    rw [hin, hout] at hd
    obtain ⟨f1, f2, f3⟩ := sameOutcome_fields _ b a hso
    exact ⟨a, ha, f1, f2, f3, hso.2 _ (Ne.symm hd), hso⟩
  refine ⟨fun fd => readHeader_pre env fd pre cmA cmB post d1 e1 hv.front hv.field hv.lenA
    hv.lenB, hAB, hBA, ?_, ?_⟩
  · rintro ⟨e, he⟩
    cases hb : work env wB with
    | error e2 => exact ⟨e2, rfl⟩
    | ok b =>
      obtain ⟨a, ha, _⟩ := hBA b hb
      rw [he] at ha
      cases ha
  · rintro ⟨e, he⟩
    cases ha : work env wA with
    | error e2 => exact ⟨e2, rfl⟩
    | ok a =>
      obtain ⟨b, hb, _⟩ := hAB a ha
      rw [he] at hb
      cases hb

/-- Two volumes that encrypt wrote with comments of the same length, followed by the same
body, differ only in the comment bytes. -/
theorem volume_commentVariant (env : Env) (hcs : env.cs.Lawful) (ge : Globals)
    (cA cB : List Nat) (total : Nat) (mac body : List Nat) (wA wB : World)
    (hg : ∃ k : List Nat, wB.g = { wA.g with comments := k })
    (hmode : wA.g.mode = "decrypt") (hrec : wA.g.recombine = false)
    (hsplit : wA.g.split = false) (hkf : wA.g.inputFile ∉ wA.g.keyfiles)
    (hA : wA.fs.read wA.g.inputFile
      = some (volumeHeader env { ge with comments := cA } total mac ++ body))
    (hB : wB.fs.read wA.g.inputFile
      = some (volumeHeader env { ge with comments := cB } total mac ++ body))
    (hother : ∀ p : String, p ≠ wA.g.inputFile → wB.fs.read p = wA.fs.read p)
    (hlen : cB.length = cA.length) (hC : cA.length ≤ 99999) :
    ∃ post : List Nat,
      CommentVariant env wA wB
        (codeword env.cs.rs5 version ++ codeword env.cs.rs5 (fmt05d cA.length))
        (commentField env.cs.rs1 cA) (commentField env.cs.rs1 cB) post
        (fmt05d cA.length) false := by
  have hv := (rsEncode_lawful env.cs.rs5 hcs.rs5 version rfl).2.1
  have hcl := (rsEncode_lawful env.cs.rs5 hcs.rs5 (fmt05d cA.length) (fmt05d_length _ hC)).2.1
  have hcmA := (encodeComments_ok env.cs.rs1 hcs.rs1 cA).2
  have hcmB := (encodeComments_ok env.cs.rs1 hcs.rs1 cB).2
  have hat := atoi_fmt05d cA.length hC
  refine ⟨([codeword env.cs.rs5 (headerFlags ge total),
      codeword env.cs.rs16 (genNonces env.rnd).salt,
      codeword env.cs.rs32 (genNonces env.rnd).hkdfSalt,
      codeword env.cs.rs16 (genNonces env.rnd).serpentSalt,
      codeword env.cs.rs24 (genNonces env.rnd).nonce]
    ++ verifierFields env.cs (env.c.sha3_512 (encKey env ge)) (zeros 32)
        (macSum env.c ge.paranoid (hkdfRead (encHkdf env ge) 0 32) mac)).flatten ++ body, ?_⟩
  exact
    { globals := hg
      mode := hmode
      recombine := hrec
      split := hsplit
      keyfiles := hkf
      readA := by
        rw [hA]
        simp only [volumeHeader, headerFront, List.cons_append, List.nil_append,
          List.flatten_cons, List.append_assoc]
        rfl
      readB := by
        rw [hB]
        simp only [volumeHeader, headerFront, List.cons_append, List.nil_append,
          List.flatten_cons, List.append_assoc, hlen]
        rfl
      other := hother
      front := by rw [List.length_append, hv, hcl]
      field := by
        rw [drop_append_len _ _ _ hv]
        exact rsDecode_codeword env.cs.rs5 hcs.rs5 _ (fmt05d_length _ hC)
      lenA := by rw [hcmA, hat]; simp only [Int.toNat_ofNat]; omega
      lenB := by rw [hcmB, hat, hlen]; simp only [Int.toNat_ofNat]; omega }

theorem work_sampleCommentA :
    work sampleEnv sampleCommentA = Except.ok
      { g := { resetUI sampleCommentA.g with kept := false, mainStatus := "Completed.",
                                             mainStatusColor := Color.GREEN },
        fs := sampleCommentA.fs.write "a.txt" [] } :=
  workN_decrypt_volume sampleEnv sampleCodecs_lawful sampleCrypto_lawful sampleRand
    { sampleEncrypt with comments := [65] } 0 [] [] [] (by decide) rfl sampleCommentA
    ⟨rfl, rfl, rfl, rfl, rfl, rfl, rfl, by decide, rfl⟩ rfl (lookup_cons_same _ _ _)
    (fun fuelD h => by
      obtain ⟨n, rfl⟩ := Nat.exists_eq_succ_of_ne_zero (Nat.ne_of_gt h)
      exact ⟨_, bodyLoop_nil _ _ n _, rfl, rfl, rfl⟩) 1

/-- C24 at the sample environment: the volume of an empty file with the comment `A` and the
same volume with the comment `B` differ only in the three comment bytes, and the decryption
of both ends with `Completed.`, the same `kept` and the same output file. -/
theorem comment_bytes_ignored_witness :
    ∃ post : List Nat,
      CommentVariant sampleEnv sampleCommentA sampleCommentB
        (codeword sampleEnv.cs.rs5 version ++ codeword sampleEnv.cs.rs5 (fmt05d 1))
        (commentField sampleEnv.cs.rs1 [65]) (commentField sampleEnv.cs.rs1 [66]) post
        (fmt05d 1) false ∧
      ∃ a b : World, work sampleEnv sampleCommentA = Except.ok a ∧
        work sampleEnv sampleCommentB = Except.ok b ∧
        a.g.mainStatus = "Completed." ∧ b.g.mainStatus = a.g.mainStatus ∧
        b.g.mainStatusColor = a.g.mainStatusColor ∧ b.g.kept = a.g.kept ∧
        b.fs.read "a.txt" = a.fs.read "a.txt" := by
  obtain ⟨post, hv⟩ := volume_commentVariant sampleEnv sampleCodecs_lawful sampleEncrypt
    [65] [66] 0 [] [] sampleCommentA sampleCommentB ⟨[66], rfl⟩ rfl rfl rfl
    (List.not_mem_nil _) (lookup_cons_same _ _ _) (lookup_cons_same _ _ _)
    (fun p hp => (lookup_cons_ne p _ _ _ hp).trans (lookup_cons_ne p _ _ _ hp).symm)
    rfl (by decide)
  obtain ⟨b, hb, f1, f2, f3, f4, _⟩ :=
    (comment_bytes_ignored sampleEnv sampleCommentA sampleCommentB _ _ _ post _ _ hv).2.1 _
      work_sampleCommentA
  exact ⟨post, hv, _, b, work_sampleCommentA, hb, rfl, f1, f2, f3, f4⟩

end Picocrypt
